import Mathlib

/-!
# tpscube: solve history statistics and CFOP phase inference

A shallow embedding of `lib/history.cpp` (the `Solve`, `Session` and `History` member
functions) together with the properties of its specification that concern them.

Conventions of the embedding:

* C++ `int` is `Int`; where a value is converted to `int` or an `int` sum can leave the 32-bit
  range the conversion is written `wrapInt32`.  `size_t` and the unsigned millisecond fields are
  `Nat`.
* `float` is IEEE 754 binary32 with round-to-nearest-even, modelled on `ℚ` by `roundF32`.
* Declarations of `history.h` and `cube3x3.h` are not part of the sources at hand; the structures
  that stand for them say so in their doc comments.
* A `shared_ptr<Session>` is an address into a memory of sessions, and the member functions of
  `History` are functions from the state of the history to its next state.  The store behind
  `leveldb::DB*` is its contents together with the list of the calls made on it.
* The flatbuffers library is a parameter of the codec: a builder (`Flatbuffers`) that finishes
  the buffer of an envelope and a reader (`FlatbuffersReader`) that verifies a buffer and gives
  what the accessors of the generated tables return on it.
-/

namespace TpsCube

/-! ## Machine arithmetic -/

/-- Conversion to a 32-bit two's complement `int` (the value modulo `2 ^ 32` taken in
`[-2 ^ 31, 2 ^ 31)`). -/
def wrapInt32 (x : Int) : Int := (x + 2147483648) % 4294967296 - 2147483648

/-- Nearest integer to a rational, ties going to the even integer. -/
def roundHalfEven (z : ℚ) : ℤ :=
  if Int.fract z < 1 / 2 then ⌊z⌋
  else if 1 / 2 < Int.fract z then ⌊z⌋ + 1
  else if ⌊z⌋ % 2 = 0 then ⌊z⌋ else ⌊z⌋ + 1

/-- Rounding of an exact value to the nearest binary32 number (24-bit significand, ties to even).
The exponent range is not modelled: every value that `Session.avgOf` produces lies between
`2 ^ (-64)` and `2 ^ 32` in magnitude, far inside the normal range of binary32. -/
def roundF32 (x : ℚ) : ℚ :=
  if x = 0 then 0
  else
    let ulp : ℚ := 2 ^ (Int.log 2 |x| - 23)
    (roundHalfEven (x / ulp) : ℚ) * ulp

/-- The conversion `(int)f` of a `float`: truncation toward zero.  C++ leaves the conversion
undefined when the truncated value is not an `int`; the model then returns `INT_MIN`, which is
what the x86-64 conversion instruction delivers. -/
def f32ToInt32 (x : ℚ) : Int :=
  let t : Int := if 0 ≤ x then ⌊x⌋ else ⌈x⌉
  if -2147483648 ≤ t ∧ t ≤ 2147483647 then t else -2147483648

/-! ## Cube interface (`cube3x3.h`) -/

/-- Modelled from the spec: the sticker colours of `cube3x3.h` (white top, yellow bottom, green
front, blue back, red right, orange left). -/
inductive CubeColor
  | WHITE | GREEN | RED | BLUE | ORANGE | YELLOW
  deriving DecidableEq, Repr

/-- Modelled from the spec: the six faces of `cube3x3.h`. -/
inductive CubeFace
  | TOP | FRONT | RIGHT | BACK | LEFT | BOTTOM
  deriving DecidableEq, Repr

/-- Modelled from the spec: the move alphabet of `cube3x3.h`, a face letter with an optional
prime (`p`) or double turn (`2`). -/
inductive CubeMove
  | MOVE_U | MOVE_Up | MOVE_U2
  | MOVE_F | MOVE_Fp | MOVE_F2
  | MOVE_R | MOVE_Rp | MOVE_R2
  | MOVE_B | MOVE_Bp | MOVE_B2
  | MOVE_L | MOVE_Lp | MOVE_L2
  | MOVE_D | MOVE_Dp | MOVE_D2
  deriving DecidableEq, Repr

open CubeColor CubeFace CubeMove

/-- Modelled from the spec: the face whose outer block a move turns. -/
def CubeMove.face : CubeMove → CubeFace
  | MOVE_U | MOVE_Up | MOVE_U2 => TOP
  | MOVE_F | MOVE_Fp | MOVE_F2 => FRONT
  | MOVE_R | MOVE_Rp | MOVE_R2 => RIGHT
  | MOVE_B | MOVE_Bp | MOVE_B2 => BACK
  | MOVE_L | MOVE_Lp | MOVE_L2 => LEFT
  | MOVE_D | MOVE_Dp | MOVE_D2 => BOTTOM

/-- Modelled from the spec: `CubeMoveSequence::IsSameOuterBlock` of `cube3x3.cpp`; two moves are
in the same outer block iff their face letter agrees. -/
def CubeMoveSequence.IsSameOuterBlock (a b : CubeMove) : Bool :=
  decide (a.face = b.face)

/-- Modelled from the spec: a move of the solve with its time in milliseconds from the start of
the solve (an unsigned 32-bit field). -/
structure TimedCubeMove where
  move : CubeMove
  timestamp : Nat
  deriving DecidableEq, Repr

/-- Modelled from the spec: the projection `Cube3x3Faces` of a cube into six 3×3 colour grids,
read through `GetColor(face, row, col)`. -/
structure Cube3x3Faces where
  GetColor : CubeFace → Nat → Nat → CubeColor

/-- Modelled from the spec: the cube state engine `Cube3x3` of `cube3x3.h`, given by its
operations.  `solved` is the default-constructed cube, `Move` applies one move, `IsSolved` tests
for the identity state and `faces` is the constructor `Cube3x3Faces(cube)`.  The functions of
`history.cpp` are embedded over an arbitrary engine. -/
structure Cube3x3Engine where
  Cube3x3 : Type
  solved : Cube3x3
  Move : Cube3x3 → CubeMove → Cube3x3
  IsSolved : Cube3x3 → Bool
  faces : Cube3x3 → Cube3x3Faces

/-- Modelled from the spec: `Cube3x3::Apply`, which performs the moves of a sequence in order. -/
def Cube3x3Engine.Apply (E : Cube3x3Engine) (cube : E.Cube3x3) (seq : List CubeMove) :
    E.Cube3x3 :=
  seq.foldl E.Move cube

/-! ## Data model (`history.h`) -/

/-- Modelled from the spec: the totally ordered phases of a CFOP solve, in the order of the
enumeration of `history.h`. -/
inductive SolveState
  | SOLVESTATE_INITIAL
  | SOLVESTATE_CROSS
  | SOLVESTATE_F2L_FIRST_PAIR
  | SOLVESTATE_F2L_SECOND_PAIR
  | SOLVESTATE_F2L_THIRD_PAIR
  | SOLVESTATE_F2L_COMPLETE
  | SOLVESTATE_OLL_CROSS
  | SOLVESTATE_OLL_COMPLETE
  | SOLVESTATE_PLL_CORNERS
  | SOLVESTATE_SOLVED
  deriving DecidableEq, Repr

open SolveState

/-- The integer value of an enumerator, `(int)state`. -/
def SolveState.toNat : SolveState → Nat
  | SOLVESTATE_INITIAL => 0
  | SOLVESTATE_CROSS => 1
  | SOLVESTATE_F2L_FIRST_PAIR => 2
  | SOLVESTATE_F2L_SECOND_PAIR => 3
  | SOLVESTATE_F2L_THIRD_PAIR => 4
  | SOLVESTATE_F2L_COMPLETE => 5
  | SOLVESTATE_OLL_CROSS => 6
  | SOLVESTATE_OLL_COMPLETE => 7
  | SOLVESTATE_PLL_CORNERS => 8
  | SOLVESTATE_SOLVED => 9

instance : LE SolveState := ⟨fun a b => a.toNat ≤ b.toNat⟩

instance : LT SolveState := ⟨fun a b => a.toNat < b.toNat⟩

instance (a b : SolveState) : Decidable (a ≤ b) := inferInstanceAs (Decidable (a.toNat ≤ b.toNat))

instance (a b : SolveState) : Decidable (a < b) := inferInstanceAs (Decidable (a.toNat < b.toNat))

/-- Modelled from the spec: the synchronisation record of a solve or session. -/
structure Update where
  id : String
  date : Nat
  sync : String
  deriving DecidableEq, Repr

/-- Modelled from the spec: `struct Solve` of `history.h`.  `time`, `penalty` and the eight
splits are millisecond counts held in unsigned 32-bit fields (`bestSolve` converts `time` with
`(int)i.time` before it compares it with an `int`); `f2lPairTimes0` … `f2lPairTimes3` are the
four elements of the array `f2lPairTimes`. -/
structure Solve where
  id : String
  scramble : List CubeMove
  created : Nat
  update : Update
  ok : Bool
  time : Nat
  penalty : Nat
  solveDevice : String
  solveMoves : List TimedCubeMove
  crossTime : Nat
  f2lPairTimes0 : Nat
  f2lPairTimes1 : Nat
  f2lPairTimes2 : Nat
  f2lPairTimes3 : Nat
  ollCrossTime : Nat
  ollFinishTime : Nat
  pllCornerTime : Nat
  dirty : Bool
  deriving DecidableEq, Repr

/-- Modelled from the spec: the kinds of solve a session can hold (the keys of
`Session::solveTypeNames`). -/
inductive SolveType
  | SOLVE_3X3X3 | SOLVE_3X3X3_OH | SOLVE_3X3X3_BF | SOLVE_2X2X2
  | SOLVE_4X4X4 | SOLVE_4X4X4_BF | SOLVE_5X5X5 | SOLVE_5X5X5_BF
  deriving DecidableEq, Repr

/-- Modelled from the spec: `struct Session` of `history.h`. -/
structure Session where
  type : SolveType
  id : String
  name : String
  update : Update
  solves : List Solve
  dirty : Bool
  deriving DecidableEq, Repr

/-- Modelled from the spec: `struct DetailedSplit` of `history.h`, the metrics of one phase. -/
structure DetailedSplit where
  phaseStartTime : Nat
  firstMoveTime : Nat
  finishTime : Nat
  moveCount : Nat
  deriving DecidableEq, Repr

/-- Modelled from the spec: `struct DetailedSplitTimes` of `history.h`, with `f2lPair0` …
`f2lPair3` for the array `f2lPair`.  Of the aggregate members only `idleTime` is kept; the total
`moveCount` and the floating-point `tps` and `etps` are computed last and read none of the
phase members back. -/
structure DetailedSplitTimes where
  cross : DetailedSplit
  f2lPair0 : DetailedSplit
  f2lPair1 : DetailedSplit
  f2lPair2 : DetailedSplit
  f2lPair3 : DetailedSplit
  ollCross : DetailedSplit
  ollFinish : DetailedSplit
  pllCorner : DetailedSplit
  pllFinish : DetailedSplit
  idleTime : Int
  deriving DecidableEq, Repr

/-- The member of `DetailedSplitTimes` a `DetailedSplit*` points to. -/
inductive SplitRef
  | cross | f2lPair0 | f2lPair1 | f2lPair2 | f2lPair3 | ollCross | ollFinish | pllCorner
  | pllFinish
  deriving DecidableEq, Repr

/-- Read through a `DetailedSplit*`. -/
def DetailedSplitTimes.get (r : DetailedSplitTimes) : SplitRef → DetailedSplit
  | .cross => r.cross
  | .f2lPair0 => r.f2lPair0
  | .f2lPair1 => r.f2lPair1
  | .f2lPair2 => r.f2lPair2
  | .f2lPair3 => r.f2lPair3
  | .ollCross => r.ollCross
  | .ollFinish => r.ollFinish
  | .pllCorner => r.pllCorner
  | .pllFinish => r.pllFinish

/-- Write through a `DetailedSplit*`. -/
def DetailedSplitTimes.set (r : DetailedSplitTimes) (p : SplitRef) (d : DetailedSplit) :
    DetailedSplitTimes :=
  match p with
  | .cross => { r with cross := d }
  | .f2lPair0 => { r with f2lPair0 := d }
  | .f2lPair1 => { r with f2lPair1 := d }
  | .f2lPair2 => { r with f2lPair2 := d }
  | .f2lPair3 => { r with f2lPair3 := d }
  | .ollCross => { r with ollCross := d }
  | .ollFinish => { r with ollFinish := d }
  | .pllCorner => { r with pllCorner := d }
  | .pllFinish => { r with pllFinish := d }

/-! ## Phase predicates -/

/-- `Solve::WhiteCrossValid`. -/
def Solve.WhiteCrossValid (faces : Cube3x3Faces) : Bool :=
  (faces.GetColor TOP 0 1 == WHITE) &&
  (faces.GetColor TOP 1 0 == WHITE) &&
  (faces.GetColor TOP 1 2 == WHITE) &&
  (faces.GetColor TOP 2 1 == WHITE) &&
  (faces.GetColor FRONT 0 1 == GREEN) &&
  (faces.GetColor RIGHT 0 1 == RED) &&
  (faces.GetColor BACK 0 1 == BLUE) &&
  (faces.GetColor LEFT 0 1 == ORANGE)

/-- `Solve::GetF2LPairCount`. -/
def Solve.GetF2LPairCount (faces : Cube3x3Faces) : Int :=
  let result : Int := 0
  let result :=
    if (faces.GetColor TOP 0 0 == WHITE) &&
      (faces.GetColor BACK 0 2 == BLUE) &&
      (faces.GetColor BACK 1 2 == BLUE) &&
      (faces.GetColor LEFT 0 0 == ORANGE) &&
      (faces.GetColor LEFT 1 0 == ORANGE)
    then result + 1 else result
  let result :=
    if (faces.GetColor TOP 0 2 == WHITE) &&
      (faces.GetColor BACK 0 0 == BLUE) &&
      (faces.GetColor BACK 1 0 == BLUE) &&
      (faces.GetColor RIGHT 0 2 == RED) &&
      (faces.GetColor RIGHT 1 2 == RED)
    then result + 1 else result
  let result :=
    if (faces.GetColor TOP 2 0 == WHITE) &&
      (faces.GetColor FRONT 0 0 == GREEN) &&
      (faces.GetColor FRONT 1 0 == GREEN) &&
      (faces.GetColor LEFT 0 2 == ORANGE) &&
      (faces.GetColor LEFT 1 2 == ORANGE)
    then result + 1 else result
  let result :=
    if (faces.GetColor TOP 2 2 == WHITE) &&
      (faces.GetColor FRONT 0 2 == GREEN) &&
      (faces.GetColor FRONT 1 2 == GREEN) &&
      (faces.GetColor RIGHT 0 0 == RED) &&
      (faces.GetColor RIGHT 1 0 == RED)
    then result + 1 else result
  result

/-- `Solve::IsF2LSolved`. -/
def Solve.IsF2LSolved (faces : Cube3x3Faces) : Bool :=
  Solve.GetF2LPairCount faces == 4

/-- `Solve::YellowCrossValid`. -/
def Solve.YellowCrossValid (faces : Cube3x3Faces) : Bool :=
  (faces.GetColor BOTTOM 0 1 == YELLOW) &&
  (faces.GetColor BOTTOM 1 0 == YELLOW) &&
  (faces.GetColor BOTTOM 1 2 == YELLOW) &&
  (faces.GetColor BOTTOM 2 1 == YELLOW)

/-- `Solve::LastLayerOriented`. -/
def Solve.LastLayerOriented (faces : Cube3x3Faces) : Bool :=
  (faces.GetColor BOTTOM 0 0 == YELLOW) &&
  (faces.GetColor BOTTOM 0 1 == YELLOW) &&
  (faces.GetColor BOTTOM 0 2 == YELLOW) &&
  (faces.GetColor BOTTOM 1 0 == YELLOW) &&
  (faces.GetColor BOTTOM 1 2 == YELLOW) &&
  (faces.GetColor BOTTOM 2 0 == YELLOW) &&
  (faces.GetColor BOTTOM 2 1 == YELLOW) &&
  (faces.GetColor BOTTOM 2 2 == YELLOW)

/-- `Solve::LastLayerCornersValid`. -/
def Solve.LastLayerCornersValid (faces : Cube3x3Faces) : Bool :=
  (faces.GetColor FRONT 2 0 == faces.GetColor FRONT 2 2) &&
  (faces.GetColor RIGHT 2 0 == faces.GetColor RIGHT 2 2) &&
  (faces.GetColor BACK 2 0 == faces.GetColor BACK 2 2) &&
  (faces.GetColor LEFT 2 0 == faces.GetColor LEFT 2 2)

/-! ## Phase inference -/

/-- The `switch` in the body of the `do … while` loop of `Solve::TransitionSolveState`: the
value of `newState` after one pass that started with `lastState`. -/
def Solve.transitionSwitch (faces : Cube3x3Faces) (lastState : SolveState) : SolveState :=
  match lastState with
  | SOLVESTATE_INITIAL =>
    if Solve.WhiteCrossValid faces then SOLVESTATE_CROSS else lastState
  | SOLVESTATE_CROSS =>
    if Solve.WhiteCrossValid faces && decide (Solve.GetF2LPairCount faces ≥ 1) then
      SOLVESTATE_F2L_FIRST_PAIR else lastState
  | SOLVESTATE_F2L_FIRST_PAIR =>
    if Solve.WhiteCrossValid faces && decide (Solve.GetF2LPairCount faces ≥ 2) then
      SOLVESTATE_F2L_SECOND_PAIR else lastState
  | SOLVESTATE_F2L_SECOND_PAIR =>
    if Solve.WhiteCrossValid faces && decide (Solve.GetF2LPairCount faces ≥ 3) then
      SOLVESTATE_F2L_THIRD_PAIR else lastState
  | SOLVESTATE_F2L_THIRD_PAIR =>
    if Solve.IsF2LSolved faces then SOLVESTATE_F2L_COMPLETE else lastState
  | SOLVESTATE_F2L_COMPLETE =>
    if Solve.IsF2LSolved faces && Solve.YellowCrossValid faces then
      SOLVESTATE_OLL_CROSS else lastState
  | SOLVESTATE_OLL_CROSS =>
    if Solve.IsF2LSolved faces && Solve.LastLayerOriented faces then
      SOLVESTATE_OLL_COMPLETE else lastState
  | SOLVESTATE_OLL_COMPLETE =>
    if Solve.IsF2LSolved faces && Solve.LastLayerOriented faces &&
        Solve.LastLayerCornersValid faces then
      SOLVESTATE_PLL_CORNERS else lastState
  | _ => lastState

/-- The `do … while (newState != lastState)` loop of `Solve::TransitionSolveState`, one unit of
fuel for each pass through its body; `none` when the fuel is used up before the loop exits. -/
def Solve.transitionLoop : Nat → Cube3x3Faces → SolveState → Option SolveState
  | 0, _, _ => none
  | fuel + 1, faces, newState =>
    let lastState := newState
    let newState := Solve.transitionSwitch faces lastState
    if newState ≠ lastState then Solve.transitionLoop fuel faces newState else some newState

/-- `Solve::TransitionSolveState`.  The loop is run with fuel for nine passes, which
`transitionLoop_nine` shows to be enough from every state, so the fallback is never taken. -/
def Solve.TransitionSolveState (E : Cube3x3Engine) (cube : E.Cube3x3)
    (currentState : SolveState) : SolveState :=
  if E.IsSolved cube then SOLVESTATE_SOLVED
  else
    let faces := E.faces cube
    match Solve.transitionLoop 9 faces currentState with
    | some newState => newState
    | none => currentState

/-- The state after `state` in the enumeration (`SOLVESTATE_SOLVED` is the last). -/
def SolveState.next : SolveState → SolveState
  | SOLVESTATE_INITIAL => SOLVESTATE_CROSS
  | SOLVESTATE_CROSS => SOLVESTATE_F2L_FIRST_PAIR
  | SOLVESTATE_F2L_FIRST_PAIR => SOLVESTATE_F2L_SECOND_PAIR
  | SOLVESTATE_F2L_SECOND_PAIR => SOLVESTATE_F2L_THIRD_PAIR
  | SOLVESTATE_F2L_THIRD_PAIR => SOLVESTATE_F2L_COMPLETE
  | SOLVESTATE_F2L_COMPLETE => SOLVESTATE_OLL_CROSS
  | SOLVESTATE_OLL_CROSS => SOLVESTATE_OLL_COMPLETE
  | SOLVESTATE_OLL_COMPLETE => SOLVESTATE_PLL_CORNERS
  | SOLVESTATE_PLL_CORNERS => SOLVESTATE_SOLVED
  | SOLVESTATE_SOLVED => SOLVESTATE_SOLVED

/-- The next-state predicate of a state: the condition of its `case` in the `switch` of
`Solve::TransitionSolveState`, under which the state is left for the next one; `none` for the
states without a `case`, which have no successor predicate. -/
def Solve.nextStatePredicate (faces : Cube3x3Faces) : SolveState → Option Bool
  | SOLVESTATE_INITIAL => some (Solve.WhiteCrossValid faces)
  | SOLVESTATE_CROSS =>
    some (Solve.WhiteCrossValid faces && decide (Solve.GetF2LPairCount faces ≥ 1))
  | SOLVESTATE_F2L_FIRST_PAIR =>
    some (Solve.WhiteCrossValid faces && decide (Solve.GetF2LPairCount faces ≥ 2))
  | SOLVESTATE_F2L_SECOND_PAIR =>
    some (Solve.WhiteCrossValid faces && decide (Solve.GetF2LPairCount faces ≥ 3))
  | SOLVESTATE_F2L_THIRD_PAIR => some (Solve.IsF2LSolved faces)
  | SOLVESTATE_F2L_COMPLETE => some (Solve.IsF2LSolved faces && Solve.YellowCrossValid faces)
  | SOLVESTATE_OLL_CROSS => some (Solve.IsF2LSolved faces && Solve.LastLayerOriented faces)
  | SOLVESTATE_OLL_COMPLETE =>
    some (Solve.IsF2LSolved faces && Solve.LastLayerOriented faces &&
      Solve.LastLayerCornersValid faces)
  | SOLVESTATE_PLL_CORNERS => none
  | SOLVESTATE_SOLVED => none

/-- The states that `Solve::TransitionSolveState` produces along a sequence of cubes when each
output is fed back in as the next current state. -/
def Solve.feedStates (E : Cube3x3Engine) (currentState : SolveState) :
    List E.Cube3x3 → List SolveState
  | [] => []
  | cube :: rest =>
    Solve.TransitionSolveState E cube currentState ::
      Solve.feedStates E (Solve.TransitionSolveState E cube currentState) rest

/-- `Solve::RecordSplitTimeForSolveState`. -/
def Solve.RecordSplitTimeForSolveState (self : Solve) (state : SolveState) (timestamp : Nat) :
    Solve :=
  match state with
  | SOLVESTATE_CROSS => { self with crossTime := timestamp }
  | SOLVESTATE_F2L_FIRST_PAIR => { self with f2lPairTimes0 := timestamp }
  | SOLVESTATE_F2L_SECOND_PAIR => { self with f2lPairTimes1 := timestamp }
  | SOLVESTATE_F2L_THIRD_PAIR => { self with f2lPairTimes2 := timestamp }
  | SOLVESTATE_F2L_COMPLETE => { self with f2lPairTimes3 := timestamp }
  | SOLVESTATE_OLL_CROSS => { self with ollCrossTime := timestamp }
  | SOLVESTATE_OLL_COMPLETE => { self with ollFinishTime := timestamp }
  | SOLVESTATE_PLL_CORNERS => { self with pllCornerTime := timestamp }
  | _ => self

/-- `Solve::GetSplitForSolveState`.  `state` is the integer value of the argument: the callers
compute it as `(int)j + 1`, which is one past `SOLVESTATE_SOLVED` when `j` is
`SOLVESTATE_SOLVED`, and every value without a `case` takes the `default` branch. -/
def Solve.GetSplitForSolveState (state : Nat) : SplitRef :=
  match state with
  | 1 => .cross
  | 2 => .f2lPair0
  | 3 => .f2lPair1
  | 4 => .f2lPair2
  | 5 => .f2lPair3
  | 6 => .ollCross
  | 7 => .ollFinish
  | 8 => .pllCorner
  | _ => .pllFinish

/-- The enumerators in increasing order. -/
def SolveState.all : List SolveState :=
  [SOLVESTATE_INITIAL, SOLVESTATE_CROSS, SOLVESTATE_F2L_FIRST_PAIR, SOLVESTATE_F2L_SECOND_PAIR,
    SOLVESTATE_F2L_THIRD_PAIR, SOLVESTATE_F2L_COMPLETE, SOLVESTATE_OLL_CROSS,
    SOLVESTATE_OLL_COMPLETE, SOLVESTATE_PLL_CORNERS, SOLVESTATE_SOLVED]

/-- The values `j` taken by a loop `for (j = state + 1; j <= last; j = j + 1)`, in order. -/
def statesUpTo (state last : SolveState) : List SolveState :=
  SolveState.all.filter (fun j => decide (state < j) && decide (j ≤ last))

/-- The values `i` taken by a loop `for (i = state + 1; i < last; i = i + 1)`, in order. -/
def statesBelow (state last : SolveState) : List SolveState :=
  SolveState.all.filter (fun i => decide (state < i) && decide (i < last))

/-- The locals of `Solve::GenerateSplitTimesFromMoves` together with the solve it updates. -/
structure SplitTimesLoop (E : Cube3x3Engine) where
  cube : E.Cube3x3
  state : SolveState
  timestamp : Nat
  self : Solve

/-- The body of the loop over `solveMoves.moves` in `Solve::GenerateSplitTimesFromMoves`. -/
def Solve.splitTimesBody (E : Cube3x3Engine) (l : SplitTimesLoop E) (i : TimedCubeMove) :
    SplitTimesLoop E :=
  let newState := Solve.TransitionSolveState E l.cube l.state
  let self := (statesUpTo l.state newState).foldl
    (fun self j => self.RecordSplitTimeForSolveState j l.timestamp) l.self
  { cube := E.Move l.cube i.move, state := newState, timestamp := i.timestamp, self := self }

/-- `Solve::GenerateSplitTimesFromMoves`.  The `int` local `timestamp` only carries the
unsigned timestamp of a move into an unsigned split, so it is kept as that value. -/
def Solve.GenerateSplitTimesFromMoves (E : Cube3x3Engine) (self : Solve) : Solve :=
  let l := self.solveMoves.foldl (Solve.splitTimesBody E)
    { cube := E.Apply E.solved self.scramble, state := SOLVESTATE_INITIAL, timestamp := 0,
      self := self }
  (statesUpTo l.state SOLVESTATE_SOLVED).foldl
    (fun self i => self.RecordSplitTimeForSolveState i l.timestamp) l.self

/-! ### The replay as the specification words it -/

/-- Specification: the cube after the scramble and the first `k` moves of the stream. -/
def Solve.cubeAt (E : Cube3x3Engine) (self : Solve) (k : Nat) : E.Cube3x3 :=
  (self.solveMoves.take k).foldl (fun cube i => E.Move cube i.move)
    (E.Apply E.solved self.scramble)

/-- Specification: the timestamp that is current once `k` moves of the stream have been made:
the timestamp of move number `k`, and 0 before the first move. -/
def Solve.timeAt (self : Solve) : Nat → Nat
  | 0 => 0
  | k + 1 => match self.solveMoves.get? k with
    | some i => i.timestamp
    | none => 0

/-- Specification: the state of the state machine once it has looked at the cube before each of
the first `k` moves. -/
def Solve.stateAt (E : Cube3x3Engine) (self : Solve) : Nat → SolveState
  | 0 => SOLVESTATE_INITIAL
  | k + 1 => Solve.TransitionSolveState E (self.cubeAt E k) (self.stateAt E k)

/-- The split field of a solve that belongs to a state; the first and the last state have
none. -/
def Solve.splitOf (self : Solve) : SolveState → Option Nat
  | SOLVESTATE_INITIAL => none
  | SOLVESTATE_CROSS => some self.crossTime
  | SOLVESTATE_F2L_FIRST_PAIR => some self.f2lPairTimes0
  | SOLVESTATE_F2L_SECOND_PAIR => some self.f2lPairTimes1
  | SOLVESTATE_F2L_THIRD_PAIR => some self.f2lPairTimes2
  | SOLVESTATE_F2L_COMPLETE => some self.f2lPairTimes3
  | SOLVESTATE_OLL_CROSS => some self.ollCrossTime
  | SOLVESTATE_OLL_COMPLETE => some self.ollFinishTime
  | SOLVESTATE_PLL_CORNERS => some self.pllCornerTime
  | SOLVESTATE_SOLVED => none

/-- The locals of `Solve::GenerateSplitTimesFromMoves` after `k` passes of its loop over the
moves. -/
def Solve.splitTimesAfter (E : Cube3x3Engine) (self : Solve) (k : Nat) : SplitTimesLoop E :=
  (self.solveMoves.take k).foldl (Solve.splitTimesBody E)
    { cube := E.Apply E.solved self.scramble, state := SOLVESTATE_INITIAL, timestamp := 0,
      self := self }

/-- The locals of `Solve::GenerateDetailedSplitTimes`. -/
structure DetailedLoop (E : Cube3x3Engine) where
  cube : E.Cube3x3
  state : SolveState
  timestamp : Nat
  result : DetailedSplitTimes
  lastMove : CubeMove

/-- The body shared by the two `for` loops over solve states in
`Solve::GenerateDetailedSplitTimes`: phase `j` finishes and the next phase starts at
`timestamp`, and `state` becomes `j`. -/
def Solve.finishPhase (timestamp : Nat) (acc : DetailedSplitTimes × SolveState)
    (j : SolveState) : DetailedSplitTimes × SolveState :=
  let result := acc.1
  let split := Solve.GetSplitForSolveState j.toNat
  let result := result.set split { result.get split with finishTime := timestamp }
  let split := Solve.GetSplitForSolveState (j.toNat + 1)
  let result := result.set split { result.get split with phaseStartTime := timestamp }
  let result := result.set split { result.get split with firstMoveTime := timestamp }
  let result := result.set split { result.get split with moveCount := 0 }
  (result, j)

/-- The body of the loop over `solveMoves.moves` in `Solve::GenerateDetailedSplitTimes`. -/
def Solve.detailedBody (E : Cube3x3Engine) (l : DetailedLoop E) (i : TimedCubeMove) :
    DetailedLoop E :=
  let newState := Solve.TransitionSolveState E l.cube l.state
  let (result, state) :=
    (statesUpTo l.state newState).foldl (Solve.finishPhase l.timestamp) (l.result, l.state)
  let cube := E.Move l.cube i.move
  let timestamp := i.timestamp
  let split := Solve.GetSplitForSolveState (state.toNat + 1)
  let result :=
    if (result.get split).moveCount = 0 then
      let result := result.set split
        { result.get split with moveCount := (result.get split).moveCount + 1 }
      result.set split { result.get split with firstMoveTime := timestamp }
    else if !CubeMoveSequence.IsSameOuterBlock l.lastMove i.move then
      result.set split { result.get split with moveCount := (result.get split).moveCount + 1 }
    else result
  { cube := cube, state := state, timestamp := timestamp, result := result, lastMove := i.move }

/-- `Solve::GenerateDetailedSplitTimes`, up to the computation of `idleTime`.  The locals
`result` and `lastMove` are declared without an initial value; the values they happen to hold
are the arguments `result` and `lastMove`. -/
def Solve.GenerateDetailedSplitTimes (E : Cube3x3Engine) (self : Solve)
    (result : DetailedSplitTimes) (lastMove : CubeMove) : DetailedSplitTimes :=
  let result := { result with cross := { result.cross with moveCount := 0 } }
  let l := self.solveMoves.foldl (Solve.detailedBody E)
    { cube := E.Apply E.solved self.scramble, state := SOLVESTATE_INITIAL, timestamp := 0,
      result := result, lastMove := lastMove }
  let timestamp := l.timestamp
  let (result, _) :=
    (statesBelow l.state SOLVESTATE_SOLVED).foldl (Solve.finishPhase timestamp)
      (l.result, l.state)
  let result := { result with cross := { result.cross with phaseStartTime := 0 } }
  let result := { result with cross := { result.cross with firstMoveTime := 0 } }
  let result := { result with pllFinish := { result.pllFinish with finishTime := timestamp } }
  { result with
    idleTime :=
      ((result.cross.firstMoveTime : Int) - result.cross.phaseStartTime) +
      ((result.f2lPair0.firstMoveTime : Int) - result.f2lPair0.phaseStartTime) +
      ((result.f2lPair1.firstMoveTime : Int) - result.f2lPair1.phaseStartTime) +
      ((result.f2lPair2.firstMoveTime : Int) - result.f2lPair2.phaseStartTime) +
      ((result.f2lPair3.firstMoveTime : Int) - result.f2lPair3.phaseStartTime) +
      ((result.ollCross.firstMoveTime : Int) - result.ollCross.phaseStartTime) +
      ((result.ollFinish.firstMoveTime : Int) - result.ollFinish.phaseStartTime) +
      ((result.pllCorner.firstMoveTime : Int) - result.pllCorner.phaseStartTime) +
      ((result.pllFinish.firstMoveTime : Int) - result.pllFinish.phaseStartTime) }

/-- Specification: the phase after the one that state `j` finishes starts when that phase
finishes. -/
def DetailedSplitTimes.linked (r : DetailedSplitTimes) (j : SolveState) : Prop :=
  (r.get (Solve.GetSplitForSolveState (j.toNat + 1))).phaseStartTime
    = (r.get (Solve.GetSplitForSolveState j.toNat)).finishTime

/-- The locals of `Solve::GenerateDetailedSplitTimes` after `k` passes of its loop over the
moves. -/
def Solve.detailedAfter (E : Cube3x3Engine) (self : Solve) (result : DetailedSplitTimes)
    (lastMove : CubeMove) (k : Nat) : DetailedLoop E :=
  (self.solveMoves.take k).foldl (Solve.detailedBody E)
    { cube := E.Apply E.solved self.scramble, state := SOLVESTATE_INITIAL, timestamp := 0,
      result := { result with cross := { result.cross with moveCount := 0 } },
      lastMove := lastMove }

/-! ## Session statistics -/

/-- The comparison passed to `std::sort` in `Session::avgOf`: DNF (`-1`) is larger than every
time. -/
def Session.avgOfLess (a b : Int) : Bool :=
  if a = -1 ∧ b = -1 then false
  else if a = -1 then false
  else if b = -1 then true
  else decide (a < b)

/-- The result of `std::sort(sorted.begin(), sorted.end(), less)`: `a` may stand before `b`
when `b` is not less than `a`.  Two entries that the comparison does not separate are equal, so
the sorted vector does not depend on the sorting algorithm (`sortTimes_unique`). -/
def Session.sortTimes (times : List Int) : List Int :=
  times.insertionSort (fun a b => Session.avgOfLess b a = false)

/-- The summing loop of `Session::avgOf`; `none` when the loop meets a DNF and the function
returns `-1` from inside it.  `sum` is an `int`. -/
def Session.sumTimes : List Int → Int → Option Int
  | [], sum => some sum
  | i :: rest, sum => if i = -1 then none else Session.sumTimes rest (wrapInt32 (sum + i))

/-- `Session::avgOf`. -/
def Session.avgOf (times : List Int) : Int :=
  let sorted := Session.sortTimes times
  if sorted.length ≤ 2 then -1
  else
    let toRemove := (sorted.length + 39) / 40
    let sorted := sorted.drop toRemove
    let sorted := sorted.take (sorted.length - toRemove)
    match Session.sumTimes sorted 0 with
    | none => -1
    | some sum =>
      f32ToInt32 (roundF32 (roundF32 (roundF32 (sum : ℚ) / roundF32 (sorted.length : ℚ)) + 1 / 2))

/-- The vector `sorted` of `Session::avgOf` after the two calls of `erase`: the entries that
remain after trimming. -/
def Session.avgOfSorted (times : List Int) : List Int :=
  let sorted := Session.sortTimes times
  let toRemove := (sorted.length + 39) / 40
  let sorted := sorted.drop toRemove
  sorted.take (sorted.length - toRemove)

/-! ### The trimmed mean as the specification words it -/

/-- Specification: the arithmetic mean of a list rounded to an integer, halves rounding up. -/
def roundedMeanSpec (l : List Int) : Int := ⌊(l.sum : ℚ) / l.length + 1 / 2⌋

/-- The entry that the loops of `avgOfLast` and `bestAvgOf` push for a solve: its time
converted to `int`, or `-1` for a DNF. -/
def Session.timeOf (solve : Solve) : Int :=
  if solve.ok then wrapInt32 solve.time else -1

/-- `Session::avgOfLast`. -/
def Session.avgOfLast (self : Session) (count : Nat) (ignoreDNF : Bool) : Int :=
  if count > self.solves.length then -1
  else
    let start := self.solves.length - count
    let times := (self.solves.drop start).foldl
      (fun times solve =>
        if ignoreDNF && !solve.ok then times
        else if solve.ok then times ++ [wrapInt32 solve.time]
        else times ++ [-1])
      []
    Session.avgOf times

/-- The body of the loop of `Session::bestSolve` over the solves; the state is `best` and what
the output argument holds. -/
def Session.bestSolveBody (acc : Int × Option Solve) (i : Solve) : Int × Option Solve :=
  let (best, solve) := acc
  if !i.ok then (best, solve)
  else if best = -1 ∨ wrapInt32 i.time < best then
    (wrapInt32 i.time, solve.map (fun _ => i))
  else (best, solve)

/-- `Session::bestSolve`; `solve` is the optional output argument and the second component of
the result is what it holds afterwards. -/
def Session.bestSolve (self : Session) (solve : Option Solve) : Int × Option Solve :=
  let solve := solve.map (fun s => { s with ok := false })
  let best : Int := -1
  self.solves.foldl Session.bestSolveBody (best, solve)

/-- The vector `times` that `Session::bestAvgOf` builds for the window starting at `i`. -/
def Session.windowTimes (self : Session) (count i : Nat) : List Int :=
  ((self.solves.drop i).take count).map Session.timeOf

/-- The body of the loop of `Session::bestAvgOf` over the window starts `i`; the state is `best`
and what the output argument holds.  Window indices are far below `2 ^ 31`, so `(int)i` is kept
as `i`. -/
def Session.bestAvgOfBody (self : Session) (count : Nat) (acc : Int × Option Int) (i : Nat) :
    Int × Option Int :=
  let (best, start) := acc
  let avg := Session.avgOf (self.windowTimes count i)
  if avg = -1 then (best, start)
  else if best = -1 ∨ avg < best then (avg, start.map (fun _ => (i : Int)))
  else (best, start)

/-- `Session::bestAvgOf`; `start` is the optional output argument and the second component of
the result is what it holds afterwards. -/
def Session.bestAvgOf (self : Session) (count : Nat) (start : Option Int) : Int × Option Int :=
  if self.solves.length < count then (-1, start)
  else
    let best : Int := -1
    let start := start.map (fun _ => (-1 : Int))
    (List.range (self.solves.length - count + 1)).foldl (self.bestAvgOfBody count) (best, start)

/-- `Session::sessionAvg`. -/
def Session.sessionAvg (self : Session) : Int :=
  self.avgOfLast self.solves.length true

/-! ## A sticker model of the cube

The claims quantify over cubes; to evaluate the replay functions on an actual scramble an
engine is needed.  `stickerEngine` is the 3×3×3 cube given by the colours of its 54 stickers. -/

/-- Modelled from the spec: the place of sticker `(face, row, col)` in space, with `x` running
from left to right, `y` from bottom to top and `z` from back to front.  Row 0 of a side face is
next to the top face, row 0 of the top face is next to the back face, and the columns of the
side faces run front → right → back → left, as the stickers named by `GetF2LPairCount`
require. -/
def stickerPos : CubeFace → Int → Int → Int × Int × Int
  | TOP, r, c => (c - 1, 1, r - 1)
  | FRONT, r, c => (c - 1, 1 - r, 1)
  | RIGHT, r, c => (1, 1 - r, 1 - c)
  | BACK, r, c => (1 - c, 1 - r, -1)
  | LEFT, r, c => (-1, 1 - r, c - 1)
  | BOTTOM, r, c => (c - 1, -1, 1 - r)

/-- Row and column on `face` of the sticker at a place in space (inverse of `stickerPos`). -/
def stickerGrid : CubeFace → Int × Int × Int → Int × Int
  | TOP, (x, _, z) => (z + 1, x + 1)
  | FRONT, (x, y, _) => (1 - y, x + 1)
  | RIGHT, (_, y, z) => (1 - y, 1 - z)
  | BACK, (x, y, _) => (1 - y, 1 - x)
  | LEFT, (_, y, z) => (1 - y, z + 1)
  | BOTTOM, (x, _, z) => (1 - z, x + 1)

/-- Outward normal of a face. -/
def faceNormal : CubeFace → Int × Int × Int
  | TOP => (0, 1, 0)
  | BOTTOM => (0, -1, 0)
  | FRONT => (0, 0, 1)
  | BACK => (0, 0, -1)
  | RIGHT => (1, 0, 0)
  | LEFT => (-1, 0, 0)

/-- The face with a given outward normal. -/
def normalFace : Int × Int × Int → CubeFace
  | (0, 1, 0) => TOP
  | (0, -1, 0) => BOTTOM
  | (0, 0, 1) => FRONT
  | (0, 0, -1) => BACK
  | (1, 0, 0) => RIGHT
  | _ => LEFT

/-- Whether a place belongs to the outer layer of a face. -/
def inLayer : CubeFace → Int × Int × Int → Bool
  | TOP, (_, y, _) => y == 1
  | BOTTOM, (_, y, _) => y == -1
  | FRONT, (_, _, z) => z == 1
  | BACK, (_, _, z) => z == -1
  | RIGHT, (x, _, _) => x == 1
  | LEFT, (x, _, _) => x == -1

/-- The rotation that undoes a clockwise quarter turn of a face (clockwise as seen from outside
the cube): it sends a place to the place its sticker came from. -/
def turnSource : CubeFace → Int × Int × Int → Int × Int × Int
  | TOP, (x, y, z) => (z, y, -x)
  | BOTTOM, (x, y, z) => (-z, y, x)
  | RIGHT, (x, y, z) => (x, -z, y)
  | LEFT, (x, y, z) => (x, z, -y)
  | FRONT, (x, y, z) => (-y, x, z)
  | BACK, (x, y, z) => (y, -x, z)

/-- A clockwise quarter turn of the outer layer of `face`. -/
def quarterTurn (face : CubeFace) (cube : Cube3x3Faces) : Cube3x3Faces where
  GetColor g r c :=
    let p := stickerPos g r c
    if inLayer face p then
      let g' := normalFace (turnSource face (faceNormal g))
      let rc := stickerGrid g' (turnSource face p)
      cube.GetColor g' rc.1.toNat rc.2.toNat
    else cube.GetColor g r c

/-- Number of clockwise quarter turns a move makes. -/
def CubeMove.quarterTurns : CubeMove → Nat
  | MOVE_U | MOVE_F | MOVE_R | MOVE_B | MOVE_L | MOVE_D => 1
  | MOVE_U2 | MOVE_F2 | MOVE_R2 | MOVE_B2 | MOVE_L2 | MOVE_D2 => 2
  | MOVE_Up | MOVE_Fp | MOVE_Rp | MOVE_Bp | MOVE_Lp | MOVE_Dp => 3

/-- The colour scheme: the colour every sticker of a face has on the solved cube. -/
def schemeColor : CubeFace → CubeColor
  | TOP => WHITE
  | BOTTOM => YELLOW
  | FRONT => GREEN
  | BACK => BLUE
  | RIGHT => RED
  | LEFT => ORANGE

/-- Modelled from the spec: the cube state engine on sticker colours.  A cube is its face view,
a move turns the outer layer of its face, and a cube is solved when every sticker has the
colour of its face. -/
def stickerEngine : Cube3x3Engine where
  Cube3x3 := Cube3x3Faces
  solved := { GetColor := fun g _ _ => schemeColor g }
  Move cube m := (quarterTurn m.face)^[m.quarterTurns] cube
  IsSolved cube :=
    [TOP, FRONT, RIGHT, BACK, LEFT, BOTTOM].all fun g =>
      [0, 1, 2].all fun r => [0, 1, 2].all fun c => cube.GetColor g r c == schemeColor g
  faces cube := cube

/-! ## Sample data for worked examples -/

/-- A solve with the given result and no other data. -/
def sampleSolve (ok : Bool) (time : Nat) : Solve where
  id := ""
  scramble := []
  created := 0
  update := { id := "", date := 0, sync := "" }
  ok := ok
  time := time
  penalty := 0
  solveDevice := ""
  solveMoves := []
  crossTime := 0
  f2lPairTimes0 := 0
  f2lPairTimes1 := 0
  f2lPairTimes2 := 0
  f2lPairTimes3 := 0
  ollCrossTime := 0
  ollFinishTime := 0
  pllCornerTime := 0
  dirty := false

/-- A 3x3x3 session with the given solves. -/
def sampleSession (solves : List Solve) : Session where
  type := SolveType.SOLVE_3X3X3
  id := ""
  name := ""
  update := { id := "", date := 0, sync := "" }
  solves := solves
  dirty := false

/-- A solve with the given scramble and timed moves and no other data. -/
def sampleReplay (scramble : List CubeMove) (moves : List TimedCubeMove) : Solve :=
  { sampleSolve true 0 with scramble := scramble, solveMoves := moves }

/-- A `DetailedSplit` with every member zero. -/
def sampleSplit : DetailedSplit where
  phaseStartTime := 0
  firstMoveTime := 0
  finishTime := 0
  moveCount := 0

/-- A `DetailedSplitTimes` with every member zero. -/
def sampleSplitTimes : DetailedSplitTimes where
  cross := sampleSplit
  f2lPair0 := sampleSplit
  f2lPair1 := sampleSplit
  f2lPair2 := sampleSplit
  f2lPair3 := sampleSplit
  ollCross := sampleSplit
  ollFinish := sampleSplit
  pllCorner := sampleSplit
  pllFinish := sampleSplit
  idleTime := 0

/-! ## Persistence (`leveldb`, `database_generated.h`) -/

/-- Modelled from the spec: one mutation collected in a `leveldb::WriteBatch`. -/
inductive BatchOp
  | Put (key value : String)
  | Delete (key : String)
  deriving DecidableEq, Repr

/-- Modelled from the spec: a call on the store.  `Put` and `Delete` change one key, `Write`
commits a batch; each call is applied by the store as a whole or not at all. -/
inductive StoreCall
  | Put (key value : String)
  | Delete (key : String)
  | Write (batch : List BatchOp)
  deriving DecidableEq, Repr

/-- The mutations a call asks for, in order. -/
def StoreCall.mutations : StoreCall → List BatchOp
  | .Put key value => [.Put key value]
  | .Delete key => [.Delete key]
  | .Write batch => batch

/-- The contents of the store after one mutation. -/
def BatchOp.apply (contents : String → Option String) (op : BatchOp) : String → Option String :=
  match op with
  | .Put key value => fun k => if k = key then some value else contents k
  | .Delete key => fun k => if k = key then none else contents k

/-- Modelled from the spec: the key-value store behind `leveldb::DB*`.  `contents` maps a key to
its value, `calls` lists the calls made so far, oldest first, and `outcome n` tells whether call
number `n` succeeds; a call that fails leaves the contents as they are.  `history.cpp` does not
look at the status a call returns. -/
structure Database where
  contents : String → Option String
  calls : List StoreCall
  outcome : Nat → Bool

/-- One call on the store. -/
def Database.call (db : Database) (c : StoreCall) : Database :=
  { db with
    contents :=
      if db.outcome db.calls.length then c.mutations.foldl BatchOp.apply db.contents
      else db.contents,
    calls := db.calls ++ [c] }

/-- `leveldb::DB::Put`. -/
def Database.Put (db : Database) (key value : String) : Database := db.call (.Put key value)

/-- `leveldb::DB::Delete`. -/
def Database.Delete (db : Database) (key : String) : Database := db.call (.Delete key)

/-- `leveldb::DB::Write`. -/
def Database.Write (db : Database) (batch : List BatchOp) : Database := db.call (.Write batch)

/-- Modelled from the spec: the sync sub-record `database::Update`. -/
structure database.Update where
  id : String
  time : Nat
  sync : String
  deriving DecidableEq, Repr

/-- Modelled from the spec: the table `database::CubeSolveMove`. -/
structure database.CubeSolveMove where
  move : CubeMove
  milliseconds : Nat
  deriving DecidableEq, Repr

/-- Modelled from the spec: the table `database::CubeSolveSplits`. -/
structure database.CubeSolveSplits where
  cross_time : Nat
  f2l_first_pair_time : Nat
  f2l_second_pair_time : Nat
  f2l_third_pair_time : Nat
  f2l_finish_time : Nat
  oll_cross_time : Nat
  oll_finish_time : Nat
  pll_corner_time : Nat
  deriving DecidableEq, Repr

/-- Modelled from the spec: the table `database::CubeSolve`, with the members that
`History::SerializeSolve` adds to it. -/
structure database.CubeSolve where
  scramble : List CubeMove
  created : Nat
  update : database.Update
  ok : Bool
  time : Nat
  penalty : Nat
  solve_device : String
  solve_moves : List database.CubeSolveMove
  solve_splits : database.CubeSolveSplits
  deriving DecidableEq, Repr

/-- Modelled from the spec: the table `database::Session`. -/
structure database.Session where
  type : SolveType
  name : String
  update : database.Update
  deriving DecidableEq, Repr

/-- Modelled from the spec: the envelope `database::Data`, a union tagged with the kind of
record it holds. -/
inductive database.Data
  | cube_solve (solve : database.CubeSolve)
  | solve_list (solves : List String)
  | session (session : database.Session)
  | session_list (sessions : List String)
  deriving DecidableEq, Repr

/-- Modelled from the spec: the flatbuffers builder: `Finish` is the buffer that
`FinishDataBuffer` leaves for an envelope, as a string of bytes. -/
structure Flatbuffers where
  Finish : database.Data → String

/-- `History::SerializeSolve`. -/
def History.SerializeSolve (fb : Flatbuffers) (solve : Solve) : String :=
  let scramble := solve.scramble
  let update : database.Update :=
    { id := solve.update.id, time := solve.update.date, sync := solve.update.sync }
  let solveDevice := solve.solveDevice
  let solveSplits : database.CubeSolveSplits :=
    { cross_time := solve.crossTime, f2l_first_pair_time := solve.f2lPairTimes0,
      f2l_second_pair_time := solve.f2lPairTimes1, f2l_third_pair_time := solve.f2lPairTimes2,
      f2l_finish_time := solve.f2lPairTimes3, oll_cross_time := solve.ollCrossTime,
      oll_finish_time := solve.ollFinishTime, pll_corner_time := solve.pllCornerTime }
  let solveMoves := solve.solveMoves.map fun i =>
    ({ move := i.move, milliseconds := i.timestamp } : database.CubeSolveMove)
  fb.Finish (.cube_solve
    { scramble := scramble, created := solve.created, update := update, ok := solve.ok,
      time := solve.time, penalty := solve.penalty, solve_device := solveDevice,
      solve_moves := solveMoves, solve_splits := solveSplits })

/-- `History::SerializeSolveList`. -/
def History.SerializeSolveList (fb : Flatbuffers) (session : Session) : String :=
  fb.Finish (.solve_list (session.solves.map fun i => i.id))

/-- `History::SerializeSession`. -/
def History.SerializeSession (fb : Flatbuffers) (session : Session) : String :=
  let update : database.Update :=
    { id := session.update.id, time := session.update.date, sync := session.update.sync }
  fb.Finish (.session { type := session.type, name := session.name, update := update })

/-! ## History -/

/-- Modelled from the spec: the injected ID generator.  `ids n` is the string that call number
`n` of `GenerateId` returns and `calls` counts the calls made. -/
structure IdGenerator where
  ids : Nat → String
  calls : Nat

/-- Modelled from the spec: `IdGenerator::GenerateId`. -/
def IdGenerator.GenerateId (g : IdGenerator) : String × IdGenerator :=
  (g.ids g.calls, { g with calls := g.calls + 1 })

/-- Modelled from the spec: the wall clock read by `time(NULL)`: `seconds n` is what call number
`n` returns and `calls` counts the calls made. -/
structure Clock where
  seconds : Nat → Nat
  calls : Nat

/-- The call `time(NULL)`. -/
def Clock.time (c : Clock) : Nat × Clock :=
  (c.seconds c.calls, { c with calls := c.calls + 1 })

/-- Modelled from the spec: `class History` of `history.h` with the state its member functions
work on.  A `shared_ptr<Session>` is the address of a session; `memory` holds the session at each
address, so two pointers are equal when the addresses are and a session changed through one
pointer is changed for all.  `activeSession` is `none` for the null pointer and `database` is
`none` while no store is open.  The ID generator and the clock are kept with the state. -/
structure History where
  memory : Nat → Session
  sessions : List Nat
  activeSession : Option Nat
  sessionListDirty : Bool
  database : Option Database
  idGenerator : IdGenerator
  clock : Clock

/-- Modelled from the spec: the session that `make_shared<Session>()` constructs: its strings
and its vector of solves are empty.  Every other member is assigned by the caller before it is
read. -/
def Session.new : Session where
  type := SolveType.SOLVE_3X3X3
  id := ""
  name := ""
  update := { id := "", date := 0, sync := "" }
  solves := []
  dirty := false

/-- The address at which `make_shared<Session>()` places a session: one that none of the
sessions in use (`live`) has. -/
def freshSession (live : List Nat) : Nat := live.foldl max 0 + 1

/-- Assignment through a session pointer: the session at address `p` becomes `s`. -/
def History.assign (self : History) (p : Nat) (s : Session) : History :=
  { self with memory := fun q => if q = p then s else self.memory q }

/-- `History::SerializeSessionList`. -/
def History.SerializeSessionList (fb : Flatbuffers) (self : History) : String :=
  fb.Finish (.session_list (self.sessions.map fun i => (self.memory i).id))

/-- The body of the loop over the solves of a dirty session in
`History::UpdateDatabaseForSessions`; the state is the solves gone through so far, as the loop
leaves them, and the batch. -/
def History.updateSolve (fb : Flatbuffers) (acc : List Solve × List BatchOp) (i : Solve) :
    List Solve × List BatchOp :=
  if !i.dirty then (acc.1 ++ [i], acc.2)
  else
    (acc.1 ++ [{ i with dirty := false }],
      acc.2 ++ [BatchOp.Put ("solve:" ++ i.id) (History.SerializeSolve fb i)])

/-- The body of the loop over the sessions in `History::UpdateDatabaseForSessions`. -/
def History.updateSession (fb : Flatbuffers) (acc : History × List BatchOp) (session : Nat) :
    History × List BatchOp :=
  let (self, batch) := acc
  if (self.memory session).dirty then
    let (solves, batch) := (self.memory session).solves.foldl (History.updateSolve fb) ([], batch)
    let self := self.assign session { self.memory session with solves := solves }
    let batch := batch ++ [BatchOp.Put ("session_solves:" ++ (self.memory session).id)
      (History.SerializeSolveList fb (self.memory session))]
    let batch := batch ++ [BatchOp.Put ("session:" ++ (self.memory session).id)
      (History.SerializeSession fb (self.memory session))]
    let self := self.assign session { self.memory session with dirty := false }
    (self, batch)
  else (self, batch)

/-- `History::UpdateDatabaseForSessions`. -/
def History.UpdateDatabaseForSessions (fb : Flatbuffers) (self : History) (sessions : List Nat) :
    History :=
  match self.database with
  | none => self
  | some db =>
    let (self, batch) := sessions.foldl (History.updateSession fb) (self, [])
    let (self, batch) :=
      if self.sessionListDirty then
        let batch := batch ++ [BatchOp.Put "sessions" (self.SerializeSessionList fb)]
        ({ self with sessionListDirty := false }, batch)
      else (self, batch)
    { self with database := some (db.Write batch) }

/-- `History::UpdateDatabaseForSession`. -/
def History.UpdateDatabaseForSession (fb : Flatbuffers) (self : History) (session : Nat) :
    History :=
  self.UpdateDatabaseForSessions fb [session]

/-- `History::RecordSolve`. -/
def History.RecordSolve (fb : Flatbuffers) (self : History) (type : SolveType) (solve : Solve) :
    History :=
  let self :=
    if self.activeSession.all (fun p => decide ((self.memory p).type ≠ type)) then
      let p := freshSession (self.sessions ++ self.activeSession.toList)
      let self := { self.assign p Session.new with activeSession := some p }
      let self := { self with sessions := self.sessions ++ [p] }
      let (id, idGenerator) := self.idGenerator.GenerateId
      let self := { self.assign p { self.memory p with id := id } with idGenerator := idGenerator }
      let self := self.assign p { self.memory p with type := type }
      let self := { self with sessionListDirty := true }
      { self with
        database := self.database.map fun db => db.Put "active_session" (self.memory p).id }
    else self
  match self.activeSession with
  | none => self
  | some p =>
    let self := self.assign p { self.memory p with solves := (self.memory p).solves ++ [solve] }
    let (id, idGenerator) := self.idGenerator.GenerateId
    let self :=
      { self.assign p { self.memory p with update := { (self.memory p).update with id := id } }
        with idGenerator := idGenerator }
    let (now, clock) := self.clock.time
    let self :=
      { self.assign p { self.memory p with update := { (self.memory p).update with date := now } }
        with clock := clock }
    let self := self.assign p { self.memory p with dirty := true }
    self.UpdateDatabaseForSession fb p

/-- `History::ResetSession`. -/
def History.ResetSession (self : History) : History :=
  let self := { self with activeSession := none }
  { self with database := self.database.map fun db => db.Delete "active_session" }

/-- `std::set<std::string>::insert` on the elements of a set listed in increasing order;
strings are compared as their sequences of characters. -/
def StringSet.insert (s : List String) (x : String) : List String :=
  if x ∈ s then s else s.orderedInsert (fun a b => a.data ≤ b.data) x

/-- The set `solvesToDelete` that `History::DeleteSession` builds once `session` is out of the
session list: the IDs of the solves of `session` are inserted, and every ID that a solve of a
session in the list has is erased again.  The result lists the set in increasing order, the
order in which the last loop of `DeleteSession` goes through it. -/
def History.solvesToDelete (self : History) (session : Nat) : List String :=
  let solvesToDelete : List String := []
  let solvesToDelete :=
    (self.memory session).solves.foldl (fun s i => StringSet.insert s i.id) solvesToDelete
  self.sessions.foldl
    (fun s i => (self.memory i).solves.foldl
      (fun s j => if j.id ∈ s then s.erase j.id else s) s)
    solvesToDelete

/-- `History::DeleteSession`. -/
def History.DeleteSession (fb : Flatbuffers) (self : History) (session : Nat) : History :=
  let self :=
    if session ∈ self.sessions then
      { self with sessions := self.sessions.erase session, sessionListDirty := true }
    else self
  let self :=
    if self.activeSession = some session then
      let self := { self with activeSession := none }
      { self with database := self.database.map fun db => db.Delete "active_session" }
    else self
  match self.database with
  | none => self
  | some db =>
    let batch := [BatchOp.Delete ("session:" ++ (self.memory session).id)]
    let solvesToDelete := self.solvesToDelete session
    let batch := batch ++ solvesToDelete.map fun i => BatchOp.Delete ("solve:" ++ i)
    let (self, batch) :=
      if self.sessionListDirty then
        let batch := batch ++ [BatchOp.Put "sessions" (self.SerializeSessionList fb)]
        ({ self with sessionListDirty := false }, batch)
      else (self, batch)
    { self with database := some (db.Write batch) }

/-- The loop of `History::SplitSessionAtSolve` that looks for `session` in the session list:
the entries before the one found and those after it, or `none` when the loop ends without
finding it. -/
def History.findSession (session : Nat) : List Nat → Option (List Nat × List Nat)
  | [] => none
  | i :: rest =>
    if i = session then some ([], rest)
    else (History.findSession session rest).map fun (before, after) => (i :: before, after)

/-- `History::SplitSessionAtSolve`. -/
def History.SplitSessionAtSolve (fb : Flatbuffers) (self : History) (session : Nat)
    (solveIdx : Nat) : History :=
  if solveIdx = 0 ∨ solveIdx ≥ (self.memory session).solves.length then self
  else
    match History.findSession session self.sessions with
    | none => self
    | some (before, after) =>
      let splitSession := freshSession (session :: (self.sessions ++ self.activeSession.toList))
      let self := self.assign splitSession Session.new
      let self := self.assign splitSession
        { self.memory splitSession with type := (self.memory session).type }
      let (id, idGenerator) := self.idGenerator.GenerateId
      let self := { self.assign splitSession { self.memory splitSession with id := id }
        with idGenerator := idGenerator }
      let self := self.assign splitSession
        { self.memory splitSession with name := (self.memory session).name }
      let (id, idGenerator) := self.idGenerator.GenerateId
      let self :=
        { self.assign splitSession
            { self.memory splitSession with
              update := { (self.memory splitSession).update with id := id } }
          with idGenerator := idGenerator }
      let (now, clock) := self.clock.time
      let self :=
        { self.assign splitSession
            { self.memory splitSession with
              update := { (self.memory splitSession).update with date := now } }
          with clock := clock }
      let self := self.assign splitSession
        { self.memory splitSession with
          solves := (self.memory splitSession).solves ++
            (self.memory session).solves.drop solveIdx }
      let self := self.assign splitSession { self.memory splitSession with dirty := true }
      let self := self.assign session
        { self.memory session with solves := (self.memory session).solves.take solveIdx }
      let (id, idGenerator) := self.idGenerator.GenerateId
      let self :=
        { self.assign session
            { self.memory session with update := { (self.memory session).update with id := id } }
          with idGenerator := idGenerator }
      let (now, clock) := self.clock.time
      let self :=
        { self.assign session
            { self.memory session with
              update := { (self.memory session).update with date := now } }
          with clock := clock }
      let self := self.assign session { self.memory session with dirty := true }
      let self := { self with sessions := before ++ session :: splitSession :: after }
      let self := { self with sessionListDirty := true }
      let self := self.UpdateDatabaseForSessions fb [session, splitSession]
      if some session = self.activeSession then
        let self := { self with activeSession := some splitSession }
        { self with
          database :=
            self.database.map fun db => db.Put "active_session" (self.memory splitSession).id }
      else self

/-- `History::MergeSessions`.  When the two pointers are the same session the C++ `insert`
copies from the vector it is changing, which the language leaves undefined; the model then
copies the solves as they were before the call. -/
def History.MergeSessions (fb : Flatbuffers) (self : History) (firstSession secondSession : Nat)
    (name : String) : History :=
  if (self.memory firstSession).type ≠ (self.memory secondSession).type then self
  else
    let self := self.assign secondSession
      { self.memory secondSession with
        solves := (self.memory firstSession).solves ++ (self.memory secondSession).solves }
    let self := self.assign secondSession { self.memory secondSession with name := name }
    let (id, idGenerator) := self.idGenerator.GenerateId
    let self :=
      { self.assign secondSession
          { self.memory secondSession with
            update := { (self.memory secondSession).update with id := id } }
        with idGenerator := idGenerator }
    let (now, clock) := self.clock.time
    let self :=
      { self.assign secondSession
          { self.memory secondSession with
            update := { (self.memory secondSession).update with date := now } }
        with clock := clock }
    let self := self.assign secondSession { self.memory secondSession with dirty := true }
    let self := self.UpdateDatabaseForSession fb secondSession
    self.DeleteSession fb firstSession

/-! ## The phase predicates as the specification words them -/

/-- Specification: the white cross: the four centre-edge stickers of the top face are white and
on each of the four side faces the centre-edge sticker of the top row has the colour of the
centre sticker of that face. -/
def whiteCrossSpec (faces : Cube3x3Faces) : Prop :=
  (faces.GetColor TOP 0 1 = WHITE ∧ faces.GetColor TOP 1 0 = WHITE ∧
    faces.GetColor TOP 1 2 = WHITE ∧ faces.GetColor TOP 2 1 = WHITE) ∧
  ∀ face ∈ [FRONT, RIGHT, BACK, LEFT], faces.GetColor face 0 1 = faces.GetColor face 1 1

/-- The centre stickers of the four side faces have the colours of the colour scheme: green in
front, red on the right, blue at the back and orange on the left.  A face view is built from a
cube (`Cube3x3Faces faces(cube)`), and the moves of a cube are turns of outer layers, which
leave every centre where it is, so the face views that the phase predicates receive have this
property. -/
def sideCentresInScheme (faces : Cube3x3Faces) : Prop :=
  ∀ face ∈ [FRONT, RIGHT, BACK, LEFT], faces.GetColor face 1 1 = schemeColor face

/-- A colouring of the stickers that is not the face view of a cube: every face shows one colour,
the top white, the bottom yellow and the sides, from the front to the right, red, blue, orange
and green, so that the side centres do not have the colours of the colour scheme. -/
def redInFront : Cube3x3Faces where
  GetColor face _ _ :=
    match face with
    | TOP => WHITE
    | FRONT => RED
    | RIGHT => BLUE
    | BACK => ORANGE
    | LEFT => GREEN
    | BOTTOM => YELLOW

/-! ### The move counts as the specification words them -/

/-- Specification: the phase in progress while the state machine is in a state: the phase that
finishes when the next state is reached.  Once the cube is solved no phase is in progress. -/
def SolveState.phase : SolveState → Option SplitRef
  | SOLVESTATE_INITIAL => some .cross
  | SOLVESTATE_CROSS => some .f2lPair0
  | SOLVESTATE_F2L_FIRST_PAIR => some .f2lPair1
  | SOLVESTATE_F2L_SECOND_PAIR => some .f2lPair2
  | SOLVESTATE_F2L_THIRD_PAIR => some .f2lPair3
  | SOLVESTATE_F2L_COMPLETE => some .ollCross
  | SOLVESTATE_OLL_CROSS => some .ollFinish
  | SOLVESTATE_OLL_COMPLETE => some .pllCorner
  | SOLVESTATE_PLL_CORNERS => some .pllFinish
  | SOLVESTATE_SOLVED => none

/-- The other reading of the specification: moves made after the cube is solved belong to the
last phase as well. -/
def SolveState.phaseOrLast (state : SolveState) : Option SplitRef :=
  some (state.phase.getD .pllFinish)

/-- Specification: the phase during which move number `k` of the stream is made, for a given
assignment of phases to states: the phase of the state that the check before the move
reaches. -/
def Solve.phaseAt (phaseOf : SolveState → Option SplitRef) (E : Cube3x3Engine) (self : Solve)
    (k : Nat) : Option SplitRef :=
  phaseOf (self.stateAt E (k + 1))

/-- Specification: whether move number `k` counts towards the move count of its phase: it is
the first move made during that phase, or it is not in the same outer block as the move just
before it in the stream. -/
def Solve.moveCounts (phaseOf : SolveState → Option SplitRef) (E : Cube3x3Engine) (self : Solve)
    (k : Nat) : Bool :=
  ((List.range k).all fun j => decide (self.phaseAt phaseOf E j ≠ self.phaseAt phaseOf E k)) ||
    match self.solveMoves.get? (k - 1), self.solveMoves.get? k with
    | some last, some i => !CubeMoveSequence.IsSameOuterBlock last.move i.move
    | _, _ => false

/-- Specification: the number of moves of the stream that are made during phase `p` and
count. -/
def Solve.movesCounted (phaseOf : SolveState → Option SplitRef) (E : Cube3x3Engine)
    (self : Solve) (p : SplitRef) : Nat :=
  ((List.range self.solveMoves.length).filter fun k =>
    decide (self.phaseAt phaseOf E k = some p) && self.moveCounts phaseOf E k).length

/-- Specification: the number of moves among the first `k` of the stream that are made during
phase `p` and count. -/
def Solve.movesCountedUpTo (phaseOf : SolveState → Option SplitRef) (E : Cube3x3Engine)
    (self : Solve) (k : Nat) (p : SplitRef) : Nat :=
  ((List.range k).filter fun j =>
    decide (self.phaseAt phaseOf E j = some p) && self.moveCounts phaseOf E j).length

/-! ### What a commit leaves behind -/

/-- `Solve::operator==`: two solves are equal when their scrambles, creation times, `ok` flags,
times, penalties, devices, timed moves and eight splits are; the ID, the sync record and the
dirty flag are not compared. -/
def Solve.eq (self other : Solve) : Bool :=
  if self.scramble ≠ other.scramble then false
  else if self.created ≠ other.created then false
  else if self.ok ≠ other.ok then false
  else if self.time ≠ other.time then false
  else if self.penalty ≠ other.penalty then false
  else if self.solveDevice ≠ other.solveDevice then false
  else if self.solveMoves ≠ other.solveMoves then false
  else if self.crossTime ≠ other.crossTime then false
  else if self.f2lPairTimes0 ≠ other.f2lPairTimes0 then false
  else if self.f2lPairTimes1 ≠ other.f2lPairTimes1 then false
  else if self.f2lPairTimes2 ≠ other.f2lPairTimes2 then false
  else if self.f2lPairTimes3 ≠ other.f2lPairTimes3 then false
  else if self.ollCrossTime ≠ other.ollCrossTime then false
  else if self.ollFinishTime ≠ other.ollFinishTime then false
  else if self.pllCornerTime ≠ other.pllCornerTime then false
  else true

/-- A solve as `History::UpdateDatabaseForSessions` leaves it: marked clean. -/
def Solve.clean (i : Solve) : Solve := { i with dirty := false }

/-- A session as `History::UpdateDatabaseForSessions` leaves it when a store is open: a dirty
session and its solves are marked clean, a clean session is not touched. -/
def Session.persisted (s : Session) : Session :=
  if s.dirty then { s with solves := s.solves.map Solve.clean, dirty := false } else s

/-- The solves of a session after a member function that marks the session dirty and commits:
marked clean when a store is open, and as they are when none is. -/
def History.committed (self : History) (solves : List Solve) : List Solve :=
  if self.database.isSome then solves.map Solve.clean else solves

/-- The mutations that `History::UpdateDatabaseForSessions` collects for one session. -/
def History.sessionBatch (fb : Flatbuffers) (s : Session) : List BatchOp :=
  if s.dirty then
    ((s.solves.filter fun i => i.dirty).map fun i =>
        BatchOp.Put ("solve:" ++ i.id) (History.SerializeSolve fb i)) ++
      [BatchOp.Put ("session_solves:" ++ s.id) (History.SerializeSolveList fb s),
        BatchOp.Put ("session:" ++ s.id) (History.SerializeSession fb s)]
  else []

/-- The history after the loop of `History::UpdateDatabaseForSessions` over the sessions in
`l`. -/
def History.persistAll (self : History) : List Nat → History
  | [] => self
  | p :: l => (self.assign p (self.memory p).persisted).persistAll l

/-- The mutations that the loop of `History::UpdateDatabaseForSessions` collects for the
sessions in `l`. -/
def History.batchAll (fb : Flatbuffers) (self : History) : List Nat → List BatchOp
  | [] => []
  | p :: l =>
    History.sessionBatch fb (self.memory p) ++
      (self.assign p (self.memory p).persisted).batchAll fb l

/-- The batch that `History::UpdateDatabaseForSessions` writes for the sessions in `l`. -/
def History.updateBatch (fb : Flatbuffers) (self : History) (l : List Nat) : List BatchOp :=
  self.batchAll fb l ++
    if self.sessionListDirty then [BatchOp.Put "sessions" (self.SerializeSessionList fb)] else []

/-- The batch that `History::DeleteSession` writes for `session`. -/
def History.deleteBatch (fb : Flatbuffers) (self : History) (session : Nat) : List BatchOp :=
  let rest : History := { self with sessions := self.sessions.erase session }
  [BatchOp.Delete ("session:" ++ (self.memory session).id)] ++
    ((rest.solvesToDelete session).map fun i => BatchOp.Delete ("solve:" ++ i)) ++
    if session ∈ self.sessions ∨ self.sessionListDirty = true then
      [BatchOp.Put "sessions" (rest.SerializeSessionList fb)]
    else []

/-! ### The history as the specification words it -/

/-- Specification: the active session is null or is an element of the session list. -/
def History.activeInList (self : History) : Prop :=
  self.activeSession = none ∨ ∃ p ∈ self.sessions, self.activeSession = some p

/-- Specification: there is no active session or the type of the active session differs from
`type`. -/
def History.needsNewSession (self : History) (type : SolveType) : Prop :=
  self.activeSession = none ∨ ∃ p, self.activeSession = some p ∧ (self.memory p).type ≠ type

/-- The calls that a member function makes on the store: those that the store of the history
`after` has seen and the store of the history `self` before it has not. -/
def History.callsSince (self after : History) : List StoreCall :=
  match self.database, after.database with
  | some db, some db' => db'.calls.drop db.calls.length
  | _, _ => []

/-! ### Sample histories for worked examples -/

/-- A builder whose buffers show the kind of the record and the IDs of a list. -/
def sampleFlatbuffers : Flatbuffers where
  Finish data :=
    match data with
    | .cube_solve _ => "cube_solve"
    | .solve_list solves => " ".intercalate ("solve_list" :: solves)
    | .session _ => "session"
    | .session_list sessions => " ".intercalate ("session_list" :: sessions)

/-- An empty store on which every call succeeds. -/
def sampleDatabase : Database where
  contents _ := none
  calls := []
  outcome _ := true

/-- A history without sessions, with the given store, whose ID generator returns `"id0"`,
`"id1"`, `"id2"`, … and whose clock stands at 0. -/
def emptyHistory (database : Option Database) : History where
  memory _ := Session.new
  sessions := []
  activeSession := none
  sessionListDirty := false
  database := database
  idGenerator := { ids := fun n => "id" ++ toString n, calls := 0 }
  clock := { seconds := fun _ => 0, calls := 0 }

/-- A solve with the given ID and time that is not yet stored. -/
def sampleSolveWithId (id : String) (time : Nat) : Solve :=
  { sampleSolve true time with id := id, dirty := true }

/-- A history with an open store and one active 3x3x3 session, at address 1, of five solves
`"a"` … `"e"`. -/
def sampleHistory : History :=
  [sampleSolveWithId "a" 10000, sampleSolveWithId "b" 12000, sampleSolveWithId "c" 11000,
    sampleSolveWithId "d" 13000, sampleSolveWithId "e" 9000].foldl
    (fun self solve => self.RecordSolve sampleFlatbuffers SolveType.SOLVE_3X3X3 solve)
    (emptyHistory (some sampleDatabase))

/-- Specification: `id` is the ID of a solve of session `s` and of no solve of a session that
is left in the session list when `s` is removed from it. -/
def History.isOrphan (self : History) (s : Nat) (id : String) : Prop :=
  (∃ i ∈ (self.memory s).solves, i.id = id) ∧
    ∀ p ∈ self.sessions.erase s, ∀ j ∈ (self.memory p).solves, j.id ≠ id

/-- The sample history after its session is split at index 2: an open store and two 3x3x3
sessions, at address 1 with the solves `"a"` and `"b"` and at address 2, the active one, with
the solves `"c"`, `"d"` and `"e"`. -/
def sampleSplitHistory : History :=
  sampleHistory.SplitSessionAtSolve sampleFlatbuffers 1 2

/-- The key that a mutation of a batch changes. -/
def BatchOp.key : BatchOp → String
  | .Put key _ => key
  | .Delete key => key

/-! ### The order of the phase times as the specification words it -/

/-- Specification: the phase times are in order for every phase begun once the state machine is
in `state` and the current timestamp is `timestamp`: for a state `j` with a split that is reached,
the phase that `j` finishes ends no later than the next phase starts, the next phase starts no
later than its first move, its first move is no later than the current timestamp, and, when the
next phase is finished as well, its first move is no later than its finish. -/
def DetailedSplitTimes.orderedUpTo (r : DetailedSplitTimes) (state : SolveState)
    (timestamp : Nat) : Prop :=
  ∀ j, SOLVESTATE_INITIAL < j → j < SOLVESTATE_SOLVED → j ≤ state →
    (r.get (Solve.GetSplitForSolveState j.toNat)).finishTime
      ≤ (r.get (Solve.GetSplitForSolveState (j.toNat + 1))).phaseStartTime ∧
    (r.get (Solve.GetSplitForSolveState (j.toNat + 1))).phaseStartTime
      ≤ (r.get (Solve.GetSplitForSolveState (j.toNat + 1))).firstMoveTime ∧
    (r.get (Solve.GetSplitForSolveState (j.toNat + 1))).firstMoveTime ≤ timestamp ∧
    (j.next ≤ state → j.next < SOLVESTATE_SOLVED →
      (r.get (Solve.GetSplitForSolveState (j.toNat + 1))).firstMoveTime
        ≤ (r.get (Solve.GetSplitForSolveState (j.toNat + 1))).finishTime)

/-- Specification: the nine phases in order. -/
def SplitRef.all : List SplitRef :=
  [.cross, .f2lPair0, .f2lPair1, .f2lPair2, .f2lPair3, .ollCross, .ollFinish, .pllCorner,
    .pllFinish]

/-! ### Sample histories with unsaved records -/

/-- A store without records on which every call fails. -/
def failingDatabase : Database where
  contents _ := none
  calls := []
  outcome _ := false

/-- A history whose one session, at address 1, holds the solve `"a"`, recorded while no store
was open, so that the session, the solve and the session index are dirty; the store that is
open now fails every call. -/
def sampleUnsavedHistory : History :=
  { (emptyHistory none).RecordSolve sampleFlatbuffers SolveType.SOLVE_3X3X3
      (sampleSolveWithId "a" 10000) with
    database := some failingDatabase }

/-! ### Sequences of calls as the specification words them -/

/-- Specification: a call of one of the member functions of `History` that change the sessions,
with its arguments. -/
inductive HistoryCall
  | RecordSolve (type : SolveType) (solve : Solve)
  | ResetSession
  | DeleteSession (session : Nat)
  | SplitSessionAtSolve (session : Nat) (solveIdx : Nat)
  | MergeSessions (firstSession secondSession : Nat) (name : String)

/-- The history after a call. -/
def History.perform (fb : Flatbuffers) (self : History) : HistoryCall → History
  | .RecordSolve type solve => self.RecordSolve fb type solve
  | .ResetSession => self.ResetSession
  | .DeleteSession session => self.DeleteSession fb session
  | .SplitSessionAtSolve session solveIdx => self.SplitSessionAtSolve fb session solveIdx
  | .MergeSessions firstSession secondSession name =>
    self.MergeSessions fb firstSession secondSession name

/-- Specification: the call is made on sessions of the list: every session passed to it is an
element of the session list.  The two sessions of a merge are different sessions (merging a
session with itself is undefined in the source, see `History.MergeSessions`). -/
def HistoryCall.onList (self : History) : HistoryCall → Prop
  | .RecordSolve _ _ => True
  | .ResetSession => True
  | .DeleteSession session => session ∈ self.sessions
  | .SplitSessionAtSolve session _ => session ∈ self.sessions
  | .MergeSessions firstSession secondSession _ =>
    firstSession ∈ self.sessions ∧ secondSession ∈ self.sessions ∧ firstSession ≠ secondSession

/-- The history after a sequence of calls. -/
def History.performAll (fb : Flatbuffers) (self : History) : List HistoryCall → History
  | [] => self
  | c :: cs => (self.perform fb c).performAll fb cs

/-- Specification: every call of the sequence is made on sessions of the list as it is when the
call is made. -/
def History.allOnList (fb : Flatbuffers) (self : History) : List HistoryCall → Prop
  | [] => True
  | c :: cs => c.onList self ∧ (self.perform fb c).allOnList fb cs

/-- Specification: every session of the session list has at least one solve. -/
def History.noEmptySession (self : History) : Prop :=
  ∀ p ∈ self.sessions, (self.memory p).solves ≠ []

/-- Specification: the mutation `op` of a batch, if it puts a `"session:<id>"` or a
`"session_solves:<id>"` record, puts the record of a session of `after` (one of its list, or its
active session) that has the ID `id` and at least one solve. -/
def History.putsNoEmptySession (fb : Flatbuffers) (after : History) (op : BatchOp) : Prop :=
  ∀ id value,
    (op = BatchOp.Put ("session:" ++ id) value →
      ∃ p, (p ∈ after.sessions ∨ after.activeSession = some p) ∧ (after.memory p).id = id ∧
        (after.memory p).solves ≠ [] ∧ value = History.SerializeSession fb (after.memory p)) ∧
    (op = BatchOp.Put ("session_solves:" ++ id) value →
      ∃ p, (p ∈ after.sessions ∨ after.activeSession = some p) ∧ (after.memory p).id = id ∧
        (after.memory p).solves ≠ [] ∧ value = History.SerializeSolveList fb (after.memory p))

/-- Specification: no call made on the store between the history `self` and the history
`after` writes the record of an empty session. -/
def History.writesNoEmptySession (fb : Flatbuffers) (self after : History) : Prop :=
  ∀ c ∈ self.callsSince after, ∀ op ∈ c.mutations, after.putsNoEmptySession fb op

/-! ## Reading records back (`leveldb::Status`, `database_generated.h`) -/

/-- Modelled from the spec: `leveldb::Status`: success, or an error of one of the kinds of the
specification with its message. -/
inductive leveldb.Status
  | OK
  | NotFound (msg : String)
  | Corruption (msg : String)
  | InvalidArgument (msg : String)
  | IOError (msg : String)
  deriving DecidableEq, Repr

/-- Modelled from the spec: the discriminant `database::Contents` of the envelope. -/
inductive database.Contents
  | NONE | cube_solve | solve_list | session | session_list
  deriving DecidableEq, Repr

/-- Modelled from the spec: what the accessors of `database::Update` return on a buffer: a
string member is a pointer that is null when the member is absent. -/
structure database.UpdateView where
  id : Option String
  time : Nat
  sync : Option String
  deriving DecidableEq, Repr

/-- Modelled from the spec: what the accessors of `database::CubeSolve` return on a buffer:
vectors, strings and tables are pointers that are null when the member is absent, scalars have
their value (the default when absent).  The conversions between `CubeMove`, the bytes of the
scramble and `database::CubeMove` are the identity on the moves of the alphabet, and
`milliseconds` is an unsigned 32-bit member, so that `(uint32_t)` leaves it as it is. -/
structure database.CubeSolveView where
  scramble : Option (List CubeMove)
  created : Nat
  update : Option database.UpdateView
  ok : Bool
  time : Nat
  penalty : Nat
  solve_device : Option String
  solve_moves : Option (List database.CubeSolveMove)
  solve_splits : Option database.CubeSolveSplits
  deriving DecidableEq, Repr

/-- Modelled from the spec: what the accessor of `database::SolveList` returns: a vector of
string pointers, or null. -/
structure database.SolveListView where
  solves : Option (List (Option String))
  deriving DecidableEq, Repr

/-- Modelled from the spec: what the accessors of `database::Session` return on a buffer. -/
structure database.SessionView where
  type : SolveType
  name : Option String
  update : Option database.UpdateView
  deriving DecidableEq, Repr

/-- Modelled from the spec: what the accessor of `database::SessionList` returns: a vector of
string pointers, or null. -/
structure database.SessionListView where
  sessions : Option (List (Option String))
  deriving DecidableEq, Repr

/-- Modelled from the spec: what the accessors of the envelope `database::Data` return on a
buffer: the discriminant, and for each kind of record the pointer that `contents_as_…` returns,
null when the envelope holds no such record. -/
structure database.DataView where
  contents_type : database.Contents
  contents_as_cube_solve : Option database.CubeSolveView
  contents_as_solve_list : Option database.SolveListView
  contents_as_session : Option database.SessionView
  contents_as_session_list : Option database.SessionListView
  deriving DecidableEq, Repr

/-- Modelled from the spec: the reading side of flatbuffers: `VerifyDataBuffer` is the result of
`database::VerifyDataBuffer` on a verifier for the bytes, and `GetData` is what the accessors
return on the bytes, which `history.cpp` reads only after the verification has succeeded. -/
structure FlatbuffersReader where
  VerifyDataBuffer : String → Bool
  GetData : String → database.DataView

/-- `History::DeserializeSolve`; the result is the status, the solve that the reference `solve`
refers to afterwards, and the history, whose ID generator and clock the function may use. -/
def History.DeserializeSolve (rd : FlatbuffersReader) (self : History) (data : String)
    (solve : Solve) : leveldb.Status × Solve × History :=
  if !rd.VerifyDataBuffer data then (.Corruption "Solve has invalid format", solve, self)
  else
    let dataObj := rd.GetData data
    if dataObj.contents_type ≠ database.Contents.cube_solve then
      (.Corruption "Solve data does not contain a solve", solve, self)
    else
      match dataObj.contents_as_cube_solve with
      | none => (.Corruption "Solve data does not contain a solve", solve, self)
      | some solveData =>
        let solve :=
          match solveData.scramble with
          | some scramble =>
            let solve := { solve with scramble := [] }
            scramble.foldl
              (fun (solve : Solve) i => { solve with scramble := solve.scramble ++ [i] }) solve
          | none => solve
        let solve :=
          match solveData.solve_moves with
          | some solveMoves =>
            solveMoves.foldl
              (fun (solve : Solve) (i : database.CubeSolveMove) =>
                { solve with
                  solveMoves :=
                    solve.solveMoves ++
                      [({ move := i.move, timestamp := i.milliseconds } : TimedCubeMove)] })
              solve
          | none => solve
        let solve :=
          match solveData.solve_splits with
          | some splits =>
            { solve with
              crossTime := splits.cross_time,
              f2lPairTimes0 := splits.f2l_first_pair_time,
              f2lPairTimes1 := splits.f2l_second_pair_time,
              f2lPairTimes2 := splits.f2l_third_pair_time,
              f2lPairTimes3 := splits.f2l_finish_time,
              ollCrossTime := splits.oll_cross_time,
              ollFinishTime := splits.oll_finish_time,
              pllCornerTime := splits.pll_corner_time }
          | none => solve
        let solve :=
          match solveData.solve_device with
          | some solveDevice => { solve with solveDevice := solveDevice }
          | none => solve
        let solve := { solve with created := solveData.created }
        let solve := { solve with ok := solveData.ok }
        let solve := { solve with time := solveData.time }
        let solve := { solve with penalty := solveData.penalty }
        let solve := { solve with dirty := false }
        let update := solveData.update
        let (solve, self) :=
          match update.bind (fun u => u.id) with
          | some id => ({ solve with update := { solve.update with id := id } }, self)
          | none =>
            let (id, idGenerator) := self.idGenerator.GenerateId
            ({ solve with update := { solve.update with id := id } },
              { self with idGenerator := idGenerator })
        let (solve, self) :=
          match update with
          | some u => ({ solve with update := { solve.update with date := u.time } }, self)
          | none =>
            let (now, clock) := self.clock.time
            ({ solve with update := { solve.update with date := now } },
              { self with clock := clock })
        let solve :=
          match update.bind (fun u => u.sync) with
          | some sync => { solve with update := { solve.update with sync := sync } }
          | none => solve
        (.OK, solve, self)

/-- The loop of `DeserializeSolveList` and `DeserializeSessionList` over the vector of string
pointers, which skips the null ones. -/
def History.pushStrings (list : List String) (strings : List (Option String)) : List String :=
  strings.foldl
    (fun list i =>
      match i with
      | some s => list ++ [s]
      | none => list)
    list

/-- `History::DeserializeSolveList`; the result is the status and what the reference `list`
refers to afterwards. -/
def History.DeserializeSolveList (rd : FlatbuffersReader) (data : String) (list : List String) :
    leveldb.Status × List String :=
  if !rd.VerifyDataBuffer data then (.Corruption "Solve list has invalid format", list)
  else
    let dataObj := rd.GetData data
    if dataObj.contents_type ≠ database.Contents.solve_list then
      (.Corruption "Solve list data does not contain a solve list", list)
    else
      match dataObj.contents_as_solve_list with
      | none => (.Corruption "Solve list data does not contain a solve list", list)
      | some solveListData =>
        match solveListData.solves with
        | none => (.Corruption "Solve list data does not contain a solve list", list)
        | some solveList =>
          let list : List String := []
          (.OK, History.pushStrings list solveList)

/-- `History::DeserializeSession`; `session` is the address of the session that the pointer
refers to, and the result is the status and the history afterwards. -/
def History.DeserializeSession (rd : FlatbuffersReader) (self : History) (data : String)
    (session : Nat) : leveldb.Status × History :=
  if !rd.VerifyDataBuffer data then (.Corruption "Solve has invalid format", self)
  else
    let dataObj := rd.GetData data
    if dataObj.contents_type ≠ database.Contents.session then
      (.Corruption "Solve data does not contain a solve", self)
    else
      match dataObj.contents_as_session with
      | none => (.Corruption "Solve data does not contain a solve", self)
      | some sessionData =>
        let self := self.assign session { self.memory session with type := sessionData.type }
        let self :=
          match sessionData.name with
          | some name => self.assign session { self.memory session with name := name }
          | none => self
        let self := self.assign session { self.memory session with dirty := false }
        let update := sessionData.update
        let self :=
          match update.bind (fun u => u.id) with
          | some id =>
            self.assign session
              { self.memory session with update := { (self.memory session).update with id := id } }
          | none =>
            let (id, idGenerator) := self.idGenerator.GenerateId
            { self.assign session
                { self.memory session with
                  update := { (self.memory session).update with id := id } }
              with idGenerator := idGenerator }
        let self :=
          match update with
          | some u =>
            self.assign session
              { self.memory session with
                update := { (self.memory session).update with date := u.time } }
          | none =>
            let (now, clock) := self.clock.time
            { self.assign session
                { self.memory session with
                  update := { (self.memory session).update with date := now } }
              with clock := clock }
        let self :=
          match update.bind (fun u => u.sync) with
          | some sync =>
            self.assign session
              { self.memory session with
                update := { (self.memory session).update with sync := sync } }
          | none => self
        (.OK, self)

/-- `History::DeserializeSessionList`; the result is the status and what the reference `list`
refers to afterwards. -/
def History.DeserializeSessionList (rd : FlatbuffersReader) (data : String)
    (list : List String) : leveldb.Status × List String :=
  if !rd.VerifyDataBuffer data then (.Corruption "Session list has invalid format", list)
  else
    let dataObj := rd.GetData data
    if dataObj.contents_type ≠ database.Contents.session_list then
      (.Corruption "Session list data does not contain a solve list", list)
    else
      match dataObj.contents_as_session_list with
      | none => (.Corruption "Session list data does not contain a solve list", list)
      | some sessionListData =>
        match sessionListData.sessions with
        | none => (.Corruption "Session list data does not contain a solve list", list)
        | some sessionList =>
          let list : List String := []
          (.OK, History.pushStrings list sessionList)

/-! ### What a reader finds in a buffer that the builder finished -/

/-- Modelled from the spec: the sync sub-record as its accessors return it when the builder was
given `u`: both strings are present. -/
def database.Update.view (u : database.Update) : database.UpdateView :=
  { id := some u.id, time := u.time, sync := some u.sync }

/-- Modelled from the spec: the envelope as its accessors return it when the builder was given
`d`: the discriminant is the kind of `d`, the record of that kind is present with every vector,
string and table that `history.cpp` adds to it, and the records of the other kinds are null. -/
def database.Data.view : database.Data → database.DataView
  | .cube_solve solve =>
    { contents_type := .cube_solve,
      contents_as_cube_solve := some
        { scramble := some solve.scramble, created := solve.created,
          update := some solve.update.view, ok := solve.ok, time := solve.time,
          penalty := solve.penalty, solve_device := some solve.solve_device,
          solve_moves := some solve.solve_moves, solve_splits := some solve.solve_splits },
      contents_as_solve_list := none, contents_as_session := none,
      contents_as_session_list := none }
  | .solve_list solves =>
    { contents_type := .solve_list, contents_as_cube_solve := none,
      contents_as_solve_list := some { solves := some (solves.map some) },
      contents_as_session := none, contents_as_session_list := none }
  | .session s =>
    { contents_type := .session, contents_as_cube_solve := none,
      contents_as_solve_list := none,
      contents_as_session := some
        { type := s.type, name := some s.name, update := some s.update.view },
      contents_as_session_list := none }
  | .session_list sessions =>
    { contents_type := .session_list, contents_as_cube_solve := none,
      contents_as_solve_list := none, contents_as_session := none,
      contents_as_session_list := some { sessions := some (sessions.map some) } }

/-- Specification: the reader accepts the buffer that the builder finishes for the envelope `d`
and finds in it what the builder was given. -/
def FlatbuffersReader.readsBack (rd : FlatbuffersReader) (fb : Flatbuffers)
    (d : database.Data) : Prop :=
  rd.VerifyDataBuffer (fb.Finish d) = true ∧ rd.GetData (fb.Finish d) = d.view

/-- The envelope that `History::SerializeSolve` finishes for a solve. -/
def History.solveData (solve : Solve) : database.Data :=
  .cube_solve
    { scramble := solve.scramble, created := solve.created,
      update := { id := solve.update.id, time := solve.update.date, sync := solve.update.sync },
      ok := solve.ok, time := solve.time, penalty := solve.penalty,
      solve_device := solve.solveDevice,
      solve_moves := solve.solveMoves.map fun i =>
        ({ move := i.move, milliseconds := i.timestamp } : database.CubeSolveMove),
      solve_splits :=
        { cross_time := solve.crossTime, f2l_first_pair_time := solve.f2lPairTimes0,
          f2l_second_pair_time := solve.f2lPairTimes1,
          f2l_third_pair_time := solve.f2lPairTimes2,
          f2l_finish_time := solve.f2lPairTimes3, oll_cross_time := solve.ollCrossTime,
          oll_finish_time := solve.ollFinishTime, pll_corner_time := solve.pllCornerTime } }

/-- The envelope that `History::SerializeSolveList` finishes for a session. -/
def History.solveListData (session : Session) : database.Data :=
  .solve_list (session.solves.map fun i => i.id)

/-- The envelope that `History::SerializeSession` finishes for a session. -/
def History.sessionData (session : Session) : database.Data :=
  .session
    { type := session.type, name := session.name,
      update :=
        { id := session.update.id, time := session.update.date, sync := session.update.sync } }

/-- The envelope that `History::SerializeSessionList` finishes. -/
def History.sessionListData (self : History) : database.Data :=
  .session_list (self.sessions.map fun i => (self.memory i).id)

/-- Specification: the kind of record that the message of an error names: the kind whose name
the message begins with (`"Solve list"` and `"Session list"` before `"Solve"` and
`"Session"`). -/
def recordKindNamed (msg : String) : Option database.Contents :=
  if "Solve list".data.isPrefixOf msg.data then some .solve_list
  else if "Session list".data.isPrefixOf msg.data then some .session_list
  else if "Solve".data.isPrefixOf msg.data then some .cube_solve
  else if "Session".data.isPrefixOf msg.data then some .session
  else none

/-- A solve with a scramble, two timed moves, splits and a sync record. -/
def sampleStoredSolve : Solve where
  id := "a"
  scramble := [MOVE_R, MOVE_U]
  created := 1700000000
  update := { id := "u1", date := 1700000100, sync := "token" }
  ok := true
  time := 250
  penalty := 0
  solveDevice := "cube"
  solveMoves := [⟨MOVE_Up, 100⟩, ⟨MOVE_Rp, 250⟩]
  crossTime := 100
  f2lPairTimes0 := 100
  f2lPairTimes1 := 100
  f2lPairTimes2 := 100
  f2lPairTimes3 := 250
  ollCrossTime := 250
  ollFinishTime := 250
  pllCornerTime := 250
  dirty := true

/-- A 3x3x3 session with a name and a sync record that holds the solves `"a"` and `"b"`. -/
def sampleStoredSession : Session where
  type := SolveType.SOLVE_3X3X3
  id := "id0"
  name := "morning"
  update := { id := "u2", date := 1700000200, sync := "token" }
  solves := [sampleStoredSolve, sampleSolveWithId "b" 12000]
  dirty := true

/-- A reader for the worked examples: it rejects the empty buffer, and in the buffers that
`sampleFlatbuffers` finishes for a solve, for the list of the IDs `"a"` and `"b"`, for a session
and for the list of the session ID `"id0"` it finds the sample solve, that list, the sample
session and that list. -/
def sampleReader : FlatbuffersReader where
  VerifyDataBuffer data := data != ""
  GetData data :=
    if data = "cube_solve" then (History.solveData sampleStoredSolve).view
    else if data = "solve_list a b" then (database.Data.solve_list ["a", "b"]).view
    else if data = "session" then (History.sessionData sampleStoredSession).view
    else if data = "session_list id0" then (database.Data.session_list ["id0"]).view
    else
      { contents_type := .NONE, contents_as_cube_solve := none, contents_as_solve_list := none,
        contents_as_session := none, contents_as_session_list := none }

/-! ### Rounding to binary32 -/

theorem roundHalfEven_intCast (n : ℤ) : roundHalfEven (n : ℚ) = n := by
  simp [roundHalfEven]

theorem roundHalfEven_le (z : ℚ) : (roundHalfEven z : ℚ) ≤ z + 1 / 2 := by
  have h0 := Int.fract_nonneg z
  have h1 := Int.fract_lt_one z
  have hf : Int.fract z = z - ⌊z⌋ := rfl
  unfold roundHalfEven
  split_ifs with a b c
  · linarith
  · push_cast; linarith
  · linarith
  · push_cast; linarith

theorem le_roundHalfEven (z : ℚ) : z - 1 / 2 ≤ (roundHalfEven z : ℚ) := by
  have h0 := Int.fract_nonneg z
  have h1 := Int.fract_lt_one z
  have hf : Int.fract z = z - ⌊z⌋ := rfl
  unfold roundHalfEven
  split_ifs with a b c
  · linarith
  · push_cast; linarith
  · linarith
  · push_cast; linarith

theorem roundHalfEven_mono {z w : ℚ} (h : z ≤ w) : roundHalfEven z ≤ roundHalfEven w := by
  by_contra hlt
  push_neg at hlt
  have h1 : (roundHalfEven w : ℚ) + 1 ≤ (roundHalfEven z : ℚ) := by exact_mod_cast hlt
  have h2 := roundHalfEven_le z
  have h3 := le_roundHalfEven w
  have h4 : z = w := by linarith
  rw [h4] at hlt
  exact lt_irrefl _ hlt

theorem roundF32_zero : roundF32 0 = 0 := by simp [roundF32]

theorem ulp_pos (x : ℚ) : (0 : ℚ) < 2 ^ (Int.log 2 |x| - 23) := by positivity

/-- A positive number lies in the binade of its logarithm. -/
theorem binade_bounds {x : ℚ} (hx : 0 < x) :
    (2 : ℚ) ^ (Int.log 2 x) ≤ x ∧ x < (2 : ℚ) ^ (Int.log 2 x + 1) := by
  have h1 := Int.zpow_log_le_self (b := 2) (r := x) (by norm_num) hx
  have h2 := Int.lt_zpow_succ_log_self (b := 2) (by norm_num) x
  simp only [Nat.cast_ofNat] at h1 h2
  exact ⟨h1, h2⟩

theorem roundF32_binade {x : ℚ} (hx : 0 < x) :
    (2 : ℚ) ^ (Int.log 2 x) ≤ roundF32 x ∧ roundF32 x ≤ (2 : ℚ) ^ (Int.log 2 x + 1) := by
  obtain ⟨h1, h2⟩ := binade_bounds hx
  have hu : (0 : ℚ) < 2 ^ (Int.log 2 x - 23) := by positivity
  have e1 : (2 : ℚ) ^ (Int.log 2 x) = ((2 ^ 23 : ℤ) : ℚ) * 2 ^ (Int.log 2 x - 23) := by
    rw [zpow_sub₀ (by norm_num)]; push_cast; field_simp; norm_num; ring
  have e2 : (2 : ℚ) ^ (Int.log 2 x + 1) = ((2 ^ 24 : ℤ) : ℚ) * 2 ^ (Int.log 2 x - 23) := by
    rw [zpow_sub₀ (by norm_num), zpow_add₀ (by norm_num)]; push_cast; field_simp; ring
  have hz1 : (((2 ^ 23 : ℤ) : ℤ) : ℚ) ≤ x / 2 ^ (Int.log 2 x - 23) := by
    rw [le_div_iff₀ hu, ← e1]; exact h1
  have hz2 : x / 2 ^ (Int.log 2 x - 23) ≤ (((2 ^ 24 : ℤ) : ℤ) : ℚ) := by
    rw [div_le_iff₀ hu, ← e2]; exact h2.le
  have m1 := roundHalfEven_mono hz1
  have m2 := roundHalfEven_mono hz2
  rw [roundHalfEven_intCast] at m1 m2
  have hx0 : x ≠ 0 := ne_of_gt hx
  simp only [roundF32, hx0, if_false, abs_of_pos hx]
  rw [e1, e2]
  constructor
  · exact mul_le_mul_of_nonneg_right (by exact_mod_cast m1) hu.le
  · exact mul_le_mul_of_nonneg_right (by exact_mod_cast m2) hu.le

theorem roundF32_nonneg {x : ℚ} (hx : 0 ≤ x) : 0 ≤ roundF32 x := by
  rcases hx.eq_or_lt with h | h
  · rw [← h, roundF32_zero]
  · exact le_trans (by positivity) (roundF32_binade h).1

theorem roundF32_mono {x y : ℚ} (hx : 0 ≤ x) (hxy : x ≤ y) : roundF32 x ≤ roundF32 y := by
  rcases hx.eq_or_lt with h | h
  · rw [← h, roundF32_zero]; exact roundF32_nonneg (h ▸ hxy)
  · have hy : 0 < y := lt_of_lt_of_le h hxy
    have hlog := Int.log_mono_right (b := 2) h hxy
    rcases hlog.eq_or_lt with he | hl
    · have hu : (0 : ℚ) < 2 ^ (Int.log 2 y - 23) := by positivity
      simp only [roundF32, ne_of_gt h, ne_of_gt hy, if_false, abs_of_pos h, abs_of_pos hy, he]
      apply mul_le_mul_of_nonneg_right _ hu.le
      have := roundHalfEven_mono (div_le_div_of_nonneg_right hxy hu.le)
      exact_mod_cast this
    · have h1 := (roundF32_binade h).2
      have h2 := (roundF32_binade hy).1
      have h3 : (2 : ℚ) ^ (Int.log 2 x + 1) ≤ 2 ^ (Int.log 2 y) :=
        zpow_le_zpow_right₀ (by norm_num) (by omega)
      linarith

/-- Numbers with a 24-bit significand are fixed by the rounding. -/
theorem roundF32_repr (n : ℤ) (e : ℤ) (hn : |n| < 2 ^ 24) :
    roundF32 ((n : ℚ) * 2 ^ e) = (n : ℚ) * 2 ^ e := by
  by_cases hn0 : n = 0
  · subst hn0; simp [roundF32]
  have hx0 : (n : ℚ) * 2 ^ e ≠ 0 := by
    apply mul_ne_zero
    · exact_mod_cast hn0
    · positivity
  have hxpos : 0 < |(n : ℚ) * 2 ^ e| := abs_pos.mpr hx0
  obtain ⟨h1, -⟩ := binade_bounds hxpos
  set L := Int.log 2 |(n : ℚ) * 2 ^ e| with hL
  have habs : |(n : ℚ) * 2 ^ e| < 2 ^ (24 + e) := by
    rw [abs_mul, abs_of_pos (by positivity : (0 : ℚ) < 2 ^ e), zpow_add₀ (by norm_num)]
    apply mul_lt_mul_of_pos_right _ (by positivity)
    have : ((|n| : ℤ) : ℚ) < ((2 ^ 24 : ℤ) : ℚ) := by exact_mod_cast hn
    push_cast at this
    norm_num at this ⊢
    exact this
  have hlt : (2 : ℚ) ^ L < 2 ^ (24 + e) := lt_of_le_of_lt h1 habs
  have hLe : L < 24 + e := (zpow_lt_zpow_iff_right₀ (by norm_num)).mp hlt
  obtain ⟨k, hk⟩ : ∃ k : ℕ, e - (L - 23) = k := ⟨(e - (L - 23)).toNat, by omega⟩
  have hdiv : (n : ℚ) * 2 ^ e / 2 ^ (L - 23) = ((n * 2 ^ k : ℤ) : ℚ) := by
    rw [mul_div_assoc, ← zpow_sub₀ (by norm_num), hk]
    push_cast
    simp
  simp only [roundF32, hx0, if_false]
  rw [← hL, hdiv, roundHalfEven_intCast, ← hdiv]
  field_simp

theorem roundF32_natCast (n : ℕ) (hn : n < 2 ^ 24) : roundF32 (n : ℚ) = n := by
  have h := roundF32_repr (n : ℤ) 0 (by rw [abs_of_nonneg (by positivity)]; exact_mod_cast hn)
  simpa using h

/-- A dyadic number `a / 2 ^ j` with `a < 2 ^ 24` is fixed by the rounding. -/
theorem roundF32_dyadic (a j : ℕ) (ha : a < 2 ^ 24) :
    roundF32 ((a : ℚ) / 2 ^ j) = (a : ℚ) / 2 ^ j := by
  have h := roundF32_repr (a : ℤ) (-(j : ℤ)) (by rw [abs_of_nonneg (by positivity)]; exact_mod_cast ha)
  simpa [div_eq_mul_inv] using h

theorem f32ToInt32_of_floor {y : ℚ} {t : ℕ} (h1 : (t : ℚ) ≤ y) (h2 : y < t + 1)
    (ht : t ≤ 2147483647) : f32ToInt32 y = t := by
  have hy : 0 ≤ y := le_trans (by positivity) h1
  have hfl : ⌊y⌋ = (t : ℤ) := by
    rw [Int.floor_eq_iff]; push_cast; exact ⟨h1, h2⟩
  simp only [f32ToInt32, hy, if_true, hfl]
  rw [if_pos]
  constructor <;> omega

theorem floatMean_exact (s m : ℕ) (hm : 0 < m) (hb : s + 2 * m ≤ 4194304) :
    f32ToInt32 (roundF32 (roundF32 (roundF32 ((s : ℤ) : ℚ) / roundF32 (m : ℚ)) + 1 / 2))
      = ((2 * s + m) / (2 * m) : ℕ) := by
  have hs : roundF32 ((s : ℤ) : ℚ) = s := by
    rw [Int.cast_natCast]; exact roundF32_natCast s (by norm_num; omega)
  have hmm : roundF32 (m : ℚ) = m := roundF32_natCast m (by norm_num; omega)
  rw [hs, hmm]
  set t := (2 * s + m) / (2 * m) with ht
  have hmq : (0 : ℚ) < m := by exact_mod_cast hm
  have hdm := Nat.div_add_mod (2 * s + m) (2 * m)
  have hml := Nat.mod_lt (2 * s + m) (by omega : 0 < 2 * m)
  rw [← ht] at hdm
  clear_value t
  clear ht
  -- 2 m t ≤ 2 s + m < 2 m (t + 1)
  have hlo : 2 * m * t ≤ 2 * s + m := by omega
  have hhi : 2 * s + m + 1 ≤ 2 * m * (t + 1) := by
    have : 2 * m * (t + 1) = 2 * m * t + 2 * m := by ring
    omega
  have htm : (t + 1) * m ≤ 4194304 := by
    have : 2 * ((t + 1) * m) ≤ 2 * 4194304 := by
      have e : 2 * ((t + 1) * m) = 2 * m * t + 2 * m := by ring
      omega
    omega
  have hx0 : (0 : ℚ) ≤ (s : ℚ) / m := by positivity
  have hq0 : 0 ≤ roundF32 ((s : ℚ) / m) := roundF32_nonneg hx0
  apply f32ToInt32_of_floor
  · -- lower bound
    rcases Nat.eq_zero_or_pos t with h0 | hpos
    · rw [h0]; exact_mod_cast roundF32_nonneg (by linarith)
    · have hr0 : roundF32 (((2 * t - 1 : ℕ) : ℚ) / 2 ^ 1) = ((2 * t - 1 : ℕ) : ℚ) / 2 ^ 1 := by
        apply roundF32_dyadic
        have : t ≤ (t + 1) * m := by nlinarith
        norm_num; omega
      have hcast : ((2 * t - 1 : ℕ) : ℚ) = 2 * t - 1 := by
        rw [Nat.cast_sub (by omega)]; push_cast; ring
      rw [hcast] at hr0
      have hxr : (2 * (t : ℚ) - 1) / 2 ^ 1 ≤ (s : ℚ) / m := by
        rw [le_div_iff₀ hmq]
        have : ((2 * m * t : ℕ) : ℚ) ≤ ((2 * s + m : ℕ) : ℚ) := by exact_mod_cast hlo
        push_cast at this
        linarith
      have hr0nn : (0 : ℚ) ≤ (2 * (t : ℚ) - 1) / 2 ^ 1 := by
        have : (1 : ℚ) ≤ t := by exact_mod_cast hpos
        apply div_nonneg <;> linarith
      have hq := roundF32_mono hr0nn hxr
      rw [hr0] at hq
      have ht1 : roundF32 (t : ℚ) = t := by
        apply roundF32_natCast
        have : t ≤ (t + 1) * m := by nlinarith
        norm_num; omega
      have hy := roundF32_mono (by positivity : (0 : ℚ) ≤ t)
        (show (t : ℚ) ≤ roundF32 ((s : ℚ) / m) + 1 / 2 by linarith)
      rw [ht1] at hy
      exact hy
  · -- upper bound
    set i := Nat.log 2 m + 1 with hi
    have hi1 : m < 2 ^ i := Nat.lt_pow_succ_log_self (by norm_num : 1 < 2) m
    have hi2 : 2 ^ i ≤ 2 * m := by
      have := Nat.pow_log_le_self 2 (by omega : m ≠ 0)
      rw [hi, pow_succ]
      omega
    set j := i + 1 with hj
    have hji : 2 ^ j = 2 * 2 ^ i := by rw [hj, pow_succ]; ring
    have hj1 : 2 * m < 2 ^ j := by omega
    have hj2 : 2 ^ j ≤ 4 * m := by omega
    clear_value j i
    clear hi hj
    have hjpos : 0 < 2 ^ j := by positivity
    have hA : (t + 1) * 2 ^ j ≤ 16777216 := by
      calc (t + 1) * 2 ^ j ≤ (t + 1) * (4 * m) := Nat.mul_le_mul_left _ hj2
        _ = 4 * ((t + 1) * m) := by ring
        _ ≤ 4 * 4194304 := Nat.mul_le_mul_left _ htm
    have hjq : (0 : ℚ) < 2 ^ j := by positivity
    have hipos : 1 ≤ 2 ^ i := Nat.one_le_two_pow
    have hr : roundF32 ((((2 * t + 1) * 2 ^ i - 1 : ℕ) : ℚ) / 2 ^ j)
        = (((2 * t + 1) * 2 ^ i - 1 : ℕ) : ℚ) / 2 ^ j := by
      apply roundF32_dyadic
      have : (2 * t + 1) * 2 ^ i ≤ (t + 1) * 2 ^ j := by rw [hji]; nlinarith
      norm_num; omega
    have hrc : (((2 * t + 1) * 2 ^ i - 1 : ℕ) : ℚ) / 2 ^ j = (t : ℚ) + 1 / 2 - 1 / 2 ^ j := by
      rw [Nat.cast_sub (by nlinarith)]
      have : ((2 : ℚ)) ^ j = 2 * 2 ^ i := by exact_mod_cast hji
      push_cast
      rw [this]
      field_simp
      ring
    rw [hrc] at hr
    have hr2 : roundF32 ((((t + 1) * 2 ^ j - 1 : ℕ) : ℚ) / 2 ^ j)
        = (((t + 1) * 2 ^ j - 1 : ℕ) : ℚ) / 2 ^ j := by
      apply roundF32_dyadic
      norm_num; omega
    have hrc2 : (((t + 1) * 2 ^ j - 1 : ℕ) : ℚ) / 2 ^ j = (t : ℚ) + 1 - 1 / 2 ^ j := by
      rw [Nat.cast_sub (by nlinarith)]
      push_cast
      field_simp
    rw [hrc2] at hr2
    have hinv : (1 : ℚ) / 2 ^ j ≤ 1 / (2 * m) := by
      apply one_div_le_one_div_of_le (by positivity)
      have : ((2 * m : ℕ) : ℚ) ≤ ((2 ^ j : ℕ) : ℚ) := by exact_mod_cast hj1.le
      push_cast at this
      exact this
    have hxr : (s : ℚ) / m ≤ (t : ℚ) + 1 / 2 - 1 / 2 ^ j := by
      have h1 : (s : ℚ) / m ≤ (t : ℚ) + 1 / 2 - 1 / (2 * m) := by
        rw [div_le_iff₀ hmq]
        have : ((2 * s + m + 1 : ℕ) : ℚ) ≤ ((2 * m * (t + 1) : ℕ) : ℚ) := by exact_mod_cast hhi
        push_cast at this
        have e : ((t : ℚ) + 1 / 2 - 1 / (2 * m)) * m = t * m + m / 2 - 1 / 2 := by
          field_simp
          ring
        rw [e]
        linarith
      linarith only [h1, hinv]
    have hq := roundF32_mono hx0 hxr
    rw [hr] at hq
    have hy := roundF32_mono (by linarith only [hq0] : (0 : ℚ) ≤ roundF32 ((s : ℚ) / m) + 1 / 2)
      (show roundF32 ((s : ℚ) / m) + 1 / 2 ≤ (t : ℚ) + 1 - 1 / 2 ^ j by linarith only [hq])
    rw [hr2] at hy
    have hpos : (0 : ℚ) < 1 / 2 ^ j := by positivity
    linarith only [hy, hpos]
  · have h1 : t ≤ (t + 1) * m :=
      le_trans (Nat.le_succ t) (Nat.le_mul_of_pos_right _ hm)
    exact le_trans h1 (le_trans htm (by norm_num))

/-! ### Sorting -/

theorem avgOfLess_eq_false_iff (a b : Int) :
    Session.avgOfLess b a = false ↔ b = -1 ∨ (a ≠ -1 ∧ a ≤ b) := by
  unfold Session.avgOfLess
  by_cases hb : b = -1 <;> by_cases ha : a = -1 <;> simp [ha, hb]

theorem avgOfLe_total : IsTotal Int (fun a b => Session.avgOfLess b a = false) :=
  ⟨fun a b => by
    simp only [avgOfLess_eq_false_iff]
    by_cases ha : a = -1 <;> by_cases hb : b = -1 <;> simp [ha, hb]
    omega⟩

theorem avgOfLe_trans : IsTrans Int (fun a b => Session.avgOfLess b a = false) :=
  ⟨fun a b c => by
    simp only [avgOfLess_eq_false_iff]
    rintro (h1 | ⟨h1, h1'⟩) (h2 | ⟨h2, h2'⟩)
    · exact Or.inl h2
    · exact absurd h1 h2
    · exact Or.inl h2
    · exact Or.inr ⟨h1, le_trans h1' h2'⟩⟩

theorem sortTimes_sorted (times : List Int) :
    (Session.sortTimes times).Sorted (fun a b => Session.avgOfLess b a = false) := by
  haveI := avgOfLe_total
  haveI := avgOfLe_trans
  exact List.sorted_insertionSort _ times

theorem sortTimes_perm (times : List Int) : (Session.sortTimes times).Perm times :=
  List.perm_insertionSort _ times

theorem sortTimes_length (times : List Int) : (Session.sortTimes times).length = times.length :=
  (sortTimes_perm times).length_eq

/-- A vector sorted by the comparison of `avgOf` is its times in ascending order followed by its
DNF entries. -/
theorem sorted_eq_times_append_dnf (l : List Int)
    (h : l.Sorted (fun a b => Session.avgOfLess b a = false)) :
    l = l.filter (fun t => decide (t ≠ -1)) ++ List.replicate (l.count (-1)) (-1) := by
  induction l with
  | nil => simp
  | cons a l ih =>
    have hs := List.sorted_cons.mp h
    by_cases ha : a = -1
    · subst ha
      have hall : ∀ b ∈ l, b = -1 := by
        intro b hb
        have := (avgOfLess_eq_false_iff (-1) b).mp (hs.1 b hb)
        rcases this with h1 | ⟨h1, -⟩
        · exact h1
        · exact absurd rfl h1
      have hl : l = List.replicate l.length (-1) := List.eq_replicate_of_mem hall
      have hc : l.count (-1) = l.length := by
        rw [List.count_eq_length]; intro b hb; exact (hall b hb).symm
      have hf : l.filter (fun t => decide (t ≠ -1)) = [] := by
        rw [List.filter_eq_nil_iff]; intro b hb; simp [hall b hb]
      simp only [List.filter_cons, List.count_cons_self, hc, hf]
      simp only [ne_eq, not_true_eq_false, decide_False, Bool.false_eq_true, ↓reduceIte,
        List.nil_append]
      rw [List.replicate_succ, ← hl]
    · have hne : (a == (-1 : Int)) = false := by simpa using ha
      simp only [List.filter_cons, ha, ne_eq, not_false_eq_true, decide_True, ↓reduceIte,
        List.cons_append, List.count_cons, hne, Bool.false_eq_true, add_zero]
      congr 1
      exact ih hs.2

/-- Two vectors with the same entries that are both sorted by the comparison of `avgOf` are
equal: the result of `std::sort` does not depend on the algorithm. -/
theorem sortTimes_unique (times l : List Int) (hp : l.Perm times)
    (hs : l.Sorted (fun a b => Session.avgOfLess b a = false)) : l = Session.sortTimes times := by
  have hanti : IsAntisymm Int (fun a b => Session.avgOfLess b a = false) :=
    ⟨fun a b => by
      simp only [avgOfLess_eq_false_iff]
      rintro (h1 | ⟨h1, h1'⟩) (h2 | ⟨h2, h2'⟩)
      · rw [h1, h2]
      · exact absurd h1 h2
      · exact absurd h2 h1
      · exact le_antisymm h1' h2'⟩
  exact List.eq_of_perm_of_sorted (hp.trans (sortTimes_perm times).symm) hs (sortTimes_sorted times)

theorem ceil_div_forty (n : ℕ) : ⌈(n : ℚ) / 40⌉₊ = (n + 39) / 40 := by
  apply le_antisymm
  · rw [Nat.ceil_le, div_le_iff₀ (by norm_num)]
    have h : n ≤ (n + 39) / 40 * 40 := by omega
    exact_mod_cast h
  · rw [Nat.div_le_iff_le_mul_add_pred (by norm_num)]
    have h := Nat.le_ceil ((n : ℚ) / 40)
    rw [div_le_iff₀ (by norm_num)] at h
    have h' : n ≤ ⌈(n : ℚ) / 40⌉₊ * 40 := by exact_mod_cast h
    omega

theorem avgOf_eq (times : List Int) :
    Session.avgOf times =
      if times.length ≤ 2 then -1
      else match Session.sumTimes (Session.avgOfSorted times) 0 with
        | none => -1
        | some sum =>
          f32ToInt32 (roundF32 (roundF32 (roundF32 (sum : ℚ) /
            roundF32 ((Session.avgOfSorted times).length : ℚ)) + 1 / 2)) := by
  unfold Session.avgOf Session.avgOfSorted
  simp only [sortTimes_length]

/-! ### The summing loop -/

theorem sumTimes_eq_none_iff (l : List Int) (acc : Int) :
    Session.sumTimes l acc = none ↔ (-1 : Int) ∈ l := by
  induction l generalizing acc with
  | nil => simp [Session.sumTimes]
  | cons a l ih =>
    unfold Session.sumTimes
    by_cases ha : a = -1
    · simp [ha]
    · simp only [ha, if_false, ih, List.mem_cons]
      constructor
      · exact Or.inr
      · rintro (h | h)
        · exact absurd h.symm ha
        · exact h

theorem wrapInt32_of_range {x : Int} (h1 : -2147483648 ≤ x) (h2 : x ≤ 2147483647) :
    wrapInt32 x = x := by
  unfold wrapInt32
  omega

theorem sumTimes_of_nonneg (l : List Int) (acc : Int) (hl : ∀ t ∈ l, 0 ≤ t) (hacc : 0 ≤ acc)
    (hfit : acc + l.sum ≤ 2147483647) : Session.sumTimes l acc = some (acc + l.sum) := by
  induction l generalizing acc with
  | nil => simp [Session.sumTimes]
  | cons a l ih =>
    have ha : 0 ≤ a := hl a (List.mem_cons_self _ _)
    have hl' : ∀ t ∈ l, 0 ≤ t := fun t ht => hl t (List.mem_cons_of_mem _ ht)
    have hs : 0 ≤ l.sum := List.sum_nonneg hl'
    rw [List.sum_cons] at hfit
    unfold Session.sumTimes
    rw [if_neg (by omega), wrapInt32_of_range (by omega) (by omega),
      ih (acc + a) hl' (by omega) (by omega), List.sum_cons, add_assoc]

/-! ### Which entries remain after trimming -/

theorem avgOfSorted_sublist (times : List Int) :
    (Session.avgOfSorted times).Sublist (Session.sortTimes times) :=
  (List.take_sublist _ _).trans (List.drop_sublist _ _)

theorem sum_le_of_sublist {l m : List Int} (h : l.Sublist m) (hm : ∀ t ∈ m, 0 ≤ t) :
    l.sum ≤ m.sum := by
  induction h with
  | slnil => exact le_refl _
  | cons a _ ih =>
    rw [List.sum_cons]
    have := ih (fun t ht => hm t (List.mem_cons_of_mem _ ht))
    have := hm a (List.mem_cons_self _ _)
    omega
  | cons₂ a _ ih =>
    rw [List.sum_cons, List.sum_cons]
    have := ih (fun t ht => hm t (List.mem_cons_of_mem _ ht))
    omega

/-- With `n ≥ 3` entries of which `d` are DNF, a DNF remains after trimming iff `d` exceeds the
number of entries trimmed from each end. -/
theorem dnf_mem_avgOfSorted_iff (times : List Int) (h3 : 3 ≤ times.length) :
    (-1 : Int) ∈ Session.avgOfSorted times ↔ (times.length + 39) / 40 < times.count (-1) := by
  have hlen := sortTimes_length times
  have hcount : (Session.sortTimes times).count (-1) = times.count (-1) :=
    (sortTimes_perm times).count_eq _
  have hdec := sorted_eq_times_append_dnf _ (sortTimes_sorted times)
  rw [hcount] at hdec
  unfold Session.avgOfSorted
  simp only [hlen]
  generalize hk : (times.length + 39) / 40 = k
  generalize hA : (Session.sortTimes times).filter (fun t => decide (t ≠ -1)) = A at hdec
  generalize hd : times.count (-1) = d at hdec
  generalize Session.sortTimes times = l at hdec hlen
  have hAne : ∀ t ∈ A, t ≠ -1 := by
    intro t ht
    rw [← hA] at ht
    simpa using (List.mem_filter.mp ht).2
  have hn : A.length + d = times.length := by
    rw [← hlen, hdec]; simp
  have h2k : 2 * k < times.length := by omega
  subst hdec
  constructor
  · intro hmem
    by_contra hle
    push_neg at hle
    have hsub : (List.take ((List.drop k (A ++ List.replicate d (-1))).length - k)
        (List.drop k (A ++ List.replicate d (-1)))).Sublist A := by
      rw [List.length_drop, ← List.drop_take]
      apply (List.drop_sublist _ _).trans
      rw [List.take_append_of_le_length (by simp at hlen ⊢; omega)]
      exact List.take_sublist _ _
    exact hAne _ (hsub.subset hmem) rfl
  · intro hlt
    rw [List.mem_iff_getElem]
    refine ⟨times.length - 2 * k - 1, ?_, ?_⟩
    · simp; omega
    · rw [List.getElem_take, List.getElem_drop, List.getElem_append_right (by omega)]
      simp

/-! ### The value of `avgOf` -/

theorem f32ToInt32_ne_dnf {y : ℚ} (hy : 0 ≤ y) : f32ToInt32 y ≠ -1 := by
  unfold f32ToInt32
  simp only [hy, if_true]
  have : 0 ≤ ⌊y⌋ := Int.floor_nonneg.mpr hy
  split_ifs <;> omega

theorem floatMean_nonneg {sum : Int} (m : ℕ) (hs : 0 ≤ sum) :
    0 ≤ roundF32 (roundF32 (roundF32 (sum : ℚ) / roundF32 (m : ℚ)) + 1 / 2) := by
  have h1 : 0 ≤ roundF32 (sum : ℚ) := roundF32_nonneg (by exact_mod_cast hs)
  have h2 : 0 ≤ roundF32 (m : ℚ) := roundF32_nonneg (by positivity)
  have h3 := roundF32_nonneg (div_nonneg h1 h2)
  exact roundF32_nonneg (by linarith)

/-- The entries that remain after trimming, when none of them is DNF, are times of the input and
their sum is at most the sum of all times of the input. -/
theorem avgOfSorted_times (times : List Int) (hentries : ∀ t ∈ times, t = -1 ∨ 0 ≤ t)
    (hno : (-1 : Int) ∉ Session.avgOfSorted times) :
    (∀ t ∈ Session.avgOfSorted times, 0 ≤ t) ∧
      0 ≤ (Session.avgOfSorted times).sum ∧
      (Session.avgOfSorted times).sum ≤ (times.filter (fun t => decide (t ≠ -1))).sum := by
  have hsub := avgOfSorted_sublist times
  have hperm := sortTimes_perm times
  have hnn : ∀ t ∈ Session.avgOfSorted times, 0 ≤ t := by
    intro t ht
    rcases hentries t (hperm.subset (hsub.subset ht)) with h | h
    · exact absurd (h ▸ ht) hno
    · exact h
  refine ⟨hnn, List.sum_nonneg hnn, ?_⟩
  have hfil : (Session.avgOfSorted times).filter (fun t => decide (t ≠ -1))
      = Session.avgOfSorted times := by
    rw [List.filter_eq_self]
    intro t ht
    have : t ≠ -1 := fun h => hno (h ▸ ht)
    simpa using this
  have hsub' := hsub.filter (fun t => decide (t ≠ -1))
  rw [hfil] at hsub'
  have hle := sum_le_of_sublist hsub' (by
    intro t ht
    have hm := List.mem_filter.mp ht
    rcases hentries t (hperm.subset hm.1) with h | h
    · simp [h] at hm
    · exact h)
  rw [(hperm.filter _).sum_eq] at hle
  exact hle

/-! ### The single-precision mean -/

theorem roundedMeanSpec_eq (l : List Int) (h0 : 0 ≤ l.sum) :
    roundedMeanSpec l = ((2 * l.sum.toNat + l.length) / (2 * l.length) : ℕ) := by
  unfold roundedMeanSpec
  rcases Nat.eq_zero_or_pos l.length with hz | hpos
  · have : l = [] := List.length_eq_zero.mp hz
    subst this
    norm_num
  · generalize l.sum = s at h0 ⊢
    generalize l.length = m at hpos ⊢
    obtain ⟨k, rfl⟩ := Int.eq_ofNat_of_zero_le h0
    have hq : ((k : ℤ) : ℚ) / m + 1 / 2
        = ((2 * k + m : ℕ) : ℚ) / ((2 * m : ℕ) : ℚ) := by
      have hl : (m : ℚ) ≠ 0 := by positivity
      push_cast
      field_simp
      ring
    rw [hq, Rat.floor_natCast_div_natCast]
    simp

theorem avgOfSorted_length (times : List Int) (h3 : 3 ≤ times.length) :
    (Session.avgOfSorted times).length = times.length - 2 * ((times.length + 39) / 40) ∧
      0 < (Session.avgOfSorted times).length := by
  unfold Session.avgOfSorted
  simp only [sortTimes_length, List.length_take, List.length_drop]
  omega

/-- When no remaining entry is DNF and the remaining entries are small enough for the
single-precision arithmetic to be exact, `avgOf` is the rounded mean of the remaining entries. -/
theorem avgOf_eq_mean (times : List Int) (h3 : 3 ≤ times.length)
    (hentries : ∀ t ∈ times, t = -1 ∨ 0 ≤ t) (hno : (-1 : Int) ∉ Session.avgOfSorted times)
    (hsmall : (Session.avgOfSorted times).sum + 2 * (Session.avgOfSorted times).length
      ≤ 4194304) :
    Session.avgOf times = roundedMeanSpec (Session.avgOfSorted times) := by
  obtain ⟨hnn, h0, -⟩ := avgOfSorted_times times hentries hno
  obtain ⟨-, hpos⟩ := avgOfSorted_length times h3
  rw [avgOf_eq, if_neg (by omega), sumTimes_of_nonneg _ 0 hnn (le_refl 0) (by omega)]
  simp only [zero_add]
  rw [roundedMeanSpec_eq _ h0]
  have hs : ((Session.avgOfSorted times).sum : ℚ)
      = (((Session.avgOfSorted times).sum.toNat : ℤ) : ℚ) := by
    rw [Int.toNat_of_nonneg h0]
  rw [hs]
  apply floatMean_exact _ _ hpos
  have := Int.toNat_of_nonneg h0
  omega

/-- C1: for every list of times in which each entry is either the DNF sentinel `-1` or a
non-negative time, with the sum of the non-DNF entries fitting in a 32-bit `int`,
`Session::avgOf` returns `-1` if and only if the list has at most 2 entries or it contains more
than `⌈n / 40⌉` DNF entries, where `n` is the list length.  In particular `avgOf([a])` and
`avgOf([a, b])` are DNF, and a list of `n ≥ 3` entries with exactly one DNF does not yield
DNF. -/
theorem avgOf_dnf_iff (times : List Int)
    (hentries : ∀ t ∈ times, t = -1 ∨ 0 ≤ t)
    (hsum : (times.filter (fun t => decide (t ≠ -1))).sum ≤ 2147483647) :
    (Session.avgOf times = -1 ↔
      times.length ≤ 2 ∨ ⌈(times.length : ℚ) / 40⌉₊ < times.count (-1)) ∧
    (∀ a : Int, Session.avgOf [a] = -1) ∧
    (∀ a b : Int, Session.avgOf [a, b] = -1) ∧
    (3 ≤ times.length → times.count (-1) = 1 → Session.avgOf times ≠ -1) := by
  have key : Session.avgOf times = -1 ↔
      times.length ≤ 2 ∨ ⌈(times.length : ℚ) / 40⌉₊ < times.count (-1) := by
    rw [avgOf_eq, ceil_div_forty]
    by_cases h2 : times.length ≤ 2
    · simp [h2]
    · rw [if_neg h2]
      have h3 : 3 ≤ times.length := by omega
      rw [← dnf_mem_avgOfSorted_iff times h3]
      by_cases hmem : (-1 : Int) ∈ Session.avgOfSorted times
      · rw [(sumTimes_eq_none_iff _ 0).mpr hmem]
        simp [hmem]
      · obtain ⟨hnn, h0, hle⟩ := avgOfSorted_times times hentries hmem
        rw [sumTimes_of_nonneg _ 0 hnn (le_refl 0) (by omega)]
        simp only [zero_add, h2, hmem, false_or, iff_false]
        exact f32ToInt32_ne_dnf (floatMean_nonneg _ h0)
  refine ⟨key, fun a => ?_, fun a b => ?_, fun h3 h1 => ?_⟩
  · rw [avgOf_eq]; simp
  · rw [avgOf_eq]; simp
  · rw [Ne, key, ceil_div_forty, h1]
    omega

theorem avgOf_dnf_iff_witness :
    (∀ t ∈ ([10000, -1, 12000, 11000] : List Int), t = -1 ∨ 0 ≤ t) ∧
    (([10000, -1, 12000, 11000] : List Int).filter (fun t => decide (t ≠ -1))).sum
      ≤ 2147483647 ∧
    ((Session.avgOf [10000, -1, 12000, 11000] = -1 ↔
        ([10000, -1, 12000, 11000] : List Int).length ≤ 2 ∨
          ⌈(([10000, -1, 12000, 11000] : List Int).length : ℚ) / 40⌉₊
            < ([10000, -1, 12000, 11000] : List Int).count (-1)) ∧
      (∀ a : Int, Session.avgOf [a] = -1) ∧
      (∀ a b : Int, Session.avgOf [a, b] = -1) ∧
      (3 ≤ ([10000, -1, 12000, 11000] : List Int).length →
        ([10000, -1, 12000, 11000] : List Int).count (-1) = 1 →
        Session.avgOf [10000, -1, 12000, 11000] ≠ -1)) :=
  ⟨by decide, by decide, avgOf_dnf_iff [10000, -1, 12000, 11000] (by decide) (by decide)⟩

/-- The loop of `avgOfLast` appends to `times` the entry of every solve it does not skip. -/
theorem avgOfLast_loop (ignoreDNF : Bool) (l : List Solve) (acc : List Int) :
    l.foldl
      (fun times solve =>
        if ignoreDNF && !solve.ok then times
        else if solve.ok then times ++ [wrapInt32 solve.time]
        else times ++ [-1]) acc
      = acc ++ (l.filter (fun s => !(ignoreDNF && !s.ok))).map Session.timeOf := by
  induction l generalizing acc with
  | nil => simp
  | cons s l ih =>
    rw [List.foldl_cons, ih]
    cases ignoreDNF <;> cases hok : s.ok <;> simp [Session.timeOf, hok]

theorem avgOfLast_eq (self : Session) (count : Nat) (ignoreDNF : Bool) :
    self.avgOfLast count ignoreDNF =
      if count > self.solves.length then -1
      else Session.avgOf
        (((self.solves.drop (self.solves.length - count)).filter
          (fun s => !(ignoreDNF && !s.ok))).map Session.timeOf) := by
  unfold Session.avgOfLast
  simp only [avgOfLast_loop, List.nil_append]

theorem map_timeOf_filter_ok (l : List Solve) :
    (l.filter (fun s => s.ok)).map Session.timeOf
      = (l.filter (fun s => s.ok)).map (fun s => wrapInt32 s.time) := by
  apply List.map_congr_left
  intro s hs
  have := (List.mem_filter.mp hs).2
  simp [Session.timeOf, this]

/-- The average of the three times 10000, 12000 and 11000. -/
theorem avgOf_example : Session.avgOf [10000, 12000, 11000] = 11000 := by
  have ht : Session.avgOfSorted [10000, 12000, 11000] = [11000] := by decide
  rw [avgOf_eq_mean _ (by decide) (by decide) (by rw [ht]; decide) (by rw [ht]; decide), ht,
    roundedMeanSpec_eq _ (by decide)]
  decide

/-- C3: `Session::avgOfLast(n, ignoreDNF)` returns DNF (`-1`) when the session has fewer than
`n` solves; otherwise it equals `avgOf` applied to the times (converted to `int`) of the last
`n` solves in order, where with `ignoreDNF = false` every not-ok solve contributes `-1` and with
`ignoreDNF = true` not-ok solves are left out entirely.  `Session::sessionAvg` equals
`avgOfLast(|solves|, true)`, that is `avgOf` of the times of all ok solves, and is 11000 for
three ok solves of 10000, 12000 and 11000. -/
theorem avgOfLast_spec (self : Session) (n : Nat) :
    (self.solves.length < n → ∀ ignoreDNF, self.avgOfLast n ignoreDNF = -1) ∧
    (∀ earlier last : List Solve, self.solves = earlier ++ last → last.length = n →
      self.avgOfLast n false
          = Session.avgOf (last.map (fun s => if s.ok then wrapInt32 s.time else -1)) ∧
        self.avgOfLast n true
          = Session.avgOf ((last.filter (fun s => s.ok)).map (fun s => wrapInt32 s.time))) ∧
    self.sessionAvg = self.avgOfLast self.solves.length true ∧
    self.sessionAvg
      = Session.avgOf ((self.solves.filter (fun s => s.ok)).map (fun s => wrapInt32 s.time)) ∧
    (∀ a b c : Solve, self.solves = [a, b, c] → a.ok = true → b.ok = true → c.ok = true →
      a.time = 10000 → b.time = 12000 → c.time = 11000 → self.sessionAvg = 11000) := by
  have hall : self.sessionAvg
      = Session.avgOf
        ((self.solves.filter (fun s => s.ok)).map (fun s => wrapInt32 s.time)) := by
    unfold Session.sessionAvg
    rw [avgOfLast_eq, if_neg (by omega), Nat.sub_self, List.drop_zero, ← map_timeOf_filter_ok]
    simp
  refine ⟨?_, ?_, rfl, hall, ?_⟩
  · intro h ign
    rw [avgOfLast_eq, if_pos h]
  · intro earlier last hsplit hlen
    have hdrop : self.solves.drop (self.solves.length - n) = last := by
      rw [hsplit, List.length_append, hlen, Nat.add_sub_cancel, List.drop_left]
    have hle : ¬ n > self.solves.length := by
      rw [hsplit, List.length_append]; omega
    constructor
    · rw [avgOfLast_eq, if_neg hle, hdrop]
      simp only [Bool.false_and, Bool.not_false, List.filter_true]
      rfl
    · rw [avgOfLast_eq, if_neg hle, hdrop, ← map_timeOf_filter_ok]
      simp
  · intro a b c hs ha hb hc hta htb htc
    rw [hall, hs]
    simp only [List.filter, ha, hb, hc, List.map, hta, htb, htc]
    exact avgOf_example

/-! ### `bestSolve` -/

theorem wrapInt32_natCast {n : Nat} (h : n ≤ 2147483647) : wrapInt32 (n : Int) = n := by
  unfold wrapInt32
  omega

/-- The state of the loop of `bestSolve` after a prefix of the solves whose successful times all
fit in an `int`: no successful solve seen yet, or the earliest of the fastest ones. -/
theorem bestSolve_loop (l : List Solve) (out : Option Solve)
    (hfit : ∀ s ∈ l, s.ok = true → s.time ≤ 2147483647) :
    ((∀ s ∈ l, s.ok = false) ∧ l.foldl Session.bestSolveBody (-1, out) = (-1, out)) ∨
    (∃ earlier w later, l = earlier ++ w :: later ∧ w.ok = true ∧
      (∀ s ∈ earlier, s.ok = true → w.time < s.time) ∧
      (∀ s ∈ later, s.ok = true → w.time ≤ s.time) ∧
      l.foldl Session.bestSolveBody (-1, out) = ((w.time : Int), out.map (fun _ => w))) := by
  induction l using List.reverseRecOn with
  | nil => left; simp
  | append_singleton l x ih =>
    have hfit' : ∀ s ∈ l, s.ok = true → s.time ≤ 2147483647 :=
      fun s hs => hfit s (List.mem_append_left _ hs)
    rw [List.foldl_append, List.foldl_cons, List.foldl_nil]
    cases hx : x.ok with
    | false =>
      rcases ih hfit' with ⟨hno, hf⟩ | ⟨earlier, w, later, hl, hw, h1, h2, hf⟩
      · left
        refine ⟨?_, ?_⟩
        · intro s hs
          rcases List.mem_append.mp hs with h | h
          · exact hno s h
          · rw [List.mem_singleton.mp h]; exact hx
        · rw [hf]; simp [Session.bestSolveBody, hx]
      · right
        refine ⟨earlier, w, later ++ [x], ?_, hw, h1, ?_, ?_⟩
        · rw [hl]; simp
        · intro s hs hok
          rcases List.mem_append.mp hs with h | h
          · exact h2 s h hok
          · rw [List.mem_singleton.mp h, hx] at hok; exact absurd hok (by decide)
        · rw [hf]; simp [Session.bestSolveBody, hx]
    | true =>
      have hxt : wrapInt32 (x.time : Int) = x.time :=
        wrapInt32_natCast (hfit x (List.mem_append_right _ (List.mem_singleton_self x)) hx)
      right
      rcases ih hfit' with ⟨hno, hf⟩ | ⟨earlier, w, later, hl, hw, h1, h2, hf⟩
      · refine ⟨l, x, [], rfl, hx, ?_, ?_, ?_⟩
        · intro s hs hok
          rw [hno s hs] at hok; exact absurd hok (by decide)
        · intro s hs; exact absurd hs (List.not_mem_nil s)
        · rw [hf]; simp [Session.bestSolveBody, hx, hxt]
      · by_cases hlt : x.time < w.time
        · refine ⟨l, x, [], rfl, hx, ?_, ?_, ?_⟩
          · intro s hs hok
            rw [hl] at hs
            rcases List.mem_append.mp hs with h | h
            · exact lt_trans hlt (h1 s h hok)
            · rcases List.mem_cons.mp h with h | h
              · rw [h]; exact hlt
              · exact lt_of_lt_of_le hlt (h2 s h hok)
          · intro s hs; exact absurd hs (List.not_mem_nil s)
          · rw [hf]
            have : (x.time : Int) < w.time := by exact_mod_cast hlt
            simp only [Session.bestSolveBody, hx, hxt, this, Bool.not_true, Bool.false_eq_true,
              if_false, or_true, if_true, Option.map_map]
            rfl
        · refine ⟨earlier, w, later ++ [x], ?_, hw, h1, ?_, ?_⟩
          · rw [hl]; simp
          · intro s hs hok
            rcases List.mem_append.mp hs with h | h
            · exact h2 s h hok
            · rw [List.mem_singleton.mp h]; omega
          · rw [hf]
            have h1 : ¬ (x.time : Int) < w.time := by
              intro h; exact hlt (by exact_mod_cast h)
            have h2 : ¬ (w.time : Int) = -1 := by omega
            simp [Session.bestSolveBody, hx, hxt, h1, h2]

/-- C4, as stated, fails: in a session of two successful solves with times 5 and 4294967295
the lowest time is 5, but `bestSolve` returns `-1`, the value it returns when no solve is
successful: the second time converts to the `int` `-1`, which is less than 5. -/
theorem bestSolve_counterexample :
    (∀ s ∈ (sampleSession [sampleSolve true 5, sampleSolve true 4294967295]).solves,
      s.ok = true ∧ 5 ≤ s.time) ∧
    ((sampleSession [sampleSolve true 5, sampleSolve true 4294967295]).bestSolve none).1
      = -1 ∧
    ¬ ∃ w ∈ (sampleSession [sampleSolve true 5, sampleSolve true 4294967295]).solves,
      w.ok = true ∧
      ((sampleSession [sampleSolve true 5, sampleSolve true 4294967295]).bestSolve none).1
        = (w.time : Int) := by
  decide

/-- C4 (amended): for every session in which the time of every solve with `ok = true` is below
`2 ^ 31` milliseconds (so that its conversion to `int` keeps it), `Session::bestSolve` returns
the lowest time among the solves with `ok = true`, and `-1` when no solve is ok.  When an output
solve is supplied it receives the earliest solve in the list that attains that lowest time, and
when no solve is ok its `ok` flag is set to false. -/
theorem bestSolve_spec (self : Session) (solve : Option Solve)
    (hfit : ∀ s ∈ self.solves, s.ok = true → s.time ≤ 2147483647) :
    ((∀ s ∈ self.solves, s.ok = false) →
      self.bestSolve solve = (-1, solve.map (fun o => { o with ok := false }))) ∧
    ((∃ s ∈ self.solves, s.ok = true) →
      ∃ earlier w later, self.solves = earlier ++ w :: later ∧ w.ok = true ∧
        (∀ s ∈ self.solves, s.ok = true → w.time ≤ s.time) ∧
        (∀ s ∈ earlier, s.ok = true → w.time < s.time) ∧
        self.bestSolve solve = ((w.time : Int), solve.map (fun _ => w))) := by
  have h := bestSolve_loop self.solves (solve.map (fun o => { o with ok := false })) hfit
  constructor
  · intro hno
    rcases h with ⟨-, hf⟩ | ⟨earlier, w, later, hl, hw, -⟩
    · exact hf
    · have := hno w (by rw [hl]; simp)
      rw [hw] at this; exact absurd this (by decide)
  · rintro ⟨s, hs, hok⟩
    rcases h with ⟨hno, -⟩ | ⟨earlier, w, later, hl, hw, h1, h2, hf⟩
    · rw [hno s hs] at hok; exact absurd hok (by decide)
    · refine ⟨earlier, w, later, hl, hw, ?_, h1, ?_⟩
      · intro t ht htok
        rw [hl] at ht
        rcases List.mem_append.mp ht with h | h
        · exact (h1 t h htok).le
        · rcases List.mem_cons.mp h with h | h
          · rw [h]
          · exact h2 t h htok
      · show self.solves.foldl Session.bestSolveBody _ = _
        rw [hf, Option.map_map]
        rfl

theorem bestSolve_spec_witness :
    (∀ s ∈ (sampleSession [sampleSolve true 12000, sampleSolve false 0, sampleSolve true 10000,
        sampleSolve true 10000]).solves, s.ok = true → s.time ≤ 2147483647) ∧
    (((∀ s ∈ (sampleSession [sampleSolve true 12000, sampleSolve false 0,
          sampleSolve true 10000, sampleSolve true 10000]).solves, s.ok = false) →
        (sampleSession [sampleSolve true 12000, sampleSolve false 0, sampleSolve true 10000,
            sampleSolve true 10000]).bestSolve (some (sampleSolve true 1))
          = (-1, (some (sampleSolve true 1)).map (fun o => { o with ok := false }))) ∧
      ((∃ s ∈ (sampleSession [sampleSolve true 12000, sampleSolve false 0,
          sampleSolve true 10000, sampleSolve true 10000]).solves, s.ok = true) →
        ∃ earlier w later,
          (sampleSession [sampleSolve true 12000, sampleSolve false 0, sampleSolve true 10000,
            sampleSolve true 10000]).solves = earlier ++ w :: later ∧ w.ok = true ∧
          (∀ s ∈ (sampleSession [sampleSolve true 12000, sampleSolve false 0,
            sampleSolve true 10000, sampleSolve true 10000]).solves,
            s.ok = true → w.time ≤ s.time) ∧
          (∀ s ∈ earlier, s.ok = true → w.time < s.time) ∧
          (sampleSession [sampleSolve true 12000, sampleSolve false 0, sampleSolve true 10000,
              sampleSolve true 10000]).bestSolve (some (sampleSolve true 1))
            = ((w.time : Int), (some (sampleSolve true 1)).map (fun _ => w)))) :=
  ⟨by decide, bestSolve_spec _ _ (by decide)⟩

/-! ### `bestAvgOf` -/

/-- The state of the loop of `bestAvgOf` after the windows starting at `0 … k - 1`: no window
with an average seen yet, or the first of the windows with the lowest average. -/
theorem bestAvgOf_loop (self : Session) (count : Nat) (start : Option Int) (k : Nat) :
    ((∀ i < k, Session.avgOf (self.windowTimes count i) = -1) ∧
      (List.range k).foldl (self.bestAvgOfBody count) (-1, start) = (-1, start)) ∨
    (∃ i₀ < k, Session.avgOf (self.windowTimes count i₀) ≠ -1 ∧
      (∀ i < i₀, Session.avgOf (self.windowTimes count i) ≠ -1 →
        Session.avgOf (self.windowTimes count i₀) < Session.avgOf (self.windowTimes count i)) ∧
      (∀ i < k, Session.avgOf (self.windowTimes count i) ≠ -1 →
        Session.avgOf (self.windowTimes count i₀) ≤ Session.avgOf (self.windowTimes count i)) ∧
      (List.range k).foldl (self.bestAvgOfBody count) (-1, start)
        = (Session.avgOf (self.windowTimes count i₀), start.map (fun _ => (i₀ : Int)))) := by
  induction k with
  | zero => left; simp
  | succ k ih =>
    rw [List.range_succ, List.foldl_append, List.foldl_cons, List.foldl_nil]
    by_cases hk : Session.avgOf (self.windowTimes count k) = -1
    · rcases ih with ⟨hno, hf⟩ | ⟨i₀, hi₀, hne, h1, h2, hf⟩
      · left
        refine ⟨?_, ?_⟩
        · intro i hi
          rcases Nat.lt_succ_iff_lt_or_eq.mp hi with h | h
          · exact hno i h
          · rw [h]; exact hk
        · rw [hf]; simp [Session.bestAvgOfBody, hk]
      · right
        refine ⟨i₀, Nat.lt_succ_of_lt hi₀, hne, h1, ?_, ?_⟩
        · intro i hi hine
          rcases Nat.lt_succ_iff_lt_or_eq.mp hi with h | h
          · exact h2 i h hine
          · rw [h] at hine; exact absurd hk hine
        · rw [hf]; simp [Session.bestAvgOfBody, hk]
    · right
      rcases ih with ⟨hno, hf⟩ | ⟨i₀, hi₀, hne, h1, h2, hf⟩
      · refine ⟨k, Nat.lt_succ_self k, hk, ?_, ?_, ?_⟩
        · intro i hi hine; exact absurd (hno i hi) hine
        · intro i hi hine
          rcases Nat.lt_succ_iff_lt_or_eq.mp hi with h | h
          · exact absurd (hno i h) hine
          · rw [h]
        · rw [hf]; simp [Session.bestAvgOfBody, hk]
      · by_cases hlt : Session.avgOf (self.windowTimes count k)
            < Session.avgOf (self.windowTimes count i₀)
        · refine ⟨k, Nat.lt_succ_self k, hk, ?_, ?_, ?_⟩
          · intro i hi hine
            exact lt_of_lt_of_le hlt (h2 i hi hine)
          · intro i hi hine
            rcases Nat.lt_succ_iff_lt_or_eq.mp hi with h | h
            · exact le_trans hlt.le (h2 i h hine)
            · rw [h]
          · rw [hf]
            simp only [Session.bestAvgOfBody, hk, if_false, hlt, or_true, if_true,
              Option.map_map]
            rfl
        · refine ⟨i₀, Nat.lt_succ_of_lt hi₀, hne, h1, ?_, ?_⟩
          · intro i hi hine
            rcases Nat.lt_succ_iff_lt_or_eq.mp hi with h | h
            · exact h2 i h hine
            · rw [h]; exact not_lt.mp hlt
          · rw [hf]; simp [Session.bestAvgOfBody, hk, hlt, hne]

theorem windowTimes_eq (self : Session) (count i : Nat) (before window after : List Solve)
    (hs : self.solves = before ++ window ++ after) (hb : before.length = i)
    (hw : window.length = count) :
    self.windowTimes count i = window.map (fun s => if s.ok then wrapInt32 s.time else -1) := by
  unfold Session.windowTimes
  rw [hs, List.append_assoc, ← hb, List.drop_left, ← hw, List.take_left]
  rfl

/-- C5: for every session with at least `n` solves, `Session::bestAvgOf(n, &start)` returns the
minimum of `avgOf` over all windows of exactly `n` consecutive solves (not-ok solves
contributing `-1`) whose `avgOf` is not DNF, and sets `start` to the index of the first window
attaining that minimum; when no window has a non-DNF average it returns `-1` and sets `start` to
`-1`.  When the session has fewer than `n` solves it returns `-1`. -/
theorem bestAvgOf_spec (self : Session) (n : Nat) (start : Option Int) :
    (self.solves.length < n → (self.bestAvgOf n start).1 = -1) ∧
    (∀ i before window after, self.solves = before ++ window ++ after → before.length = i →
      window.length = n →
      self.windowTimes n i = window.map (fun s => if s.ok then wrapInt32 s.time else -1)) ∧
    (n ≤ self.solves.length →
      ((∀ i ≤ self.solves.length - n, Session.avgOf (self.windowTimes n i) = -1) →
        self.bestAvgOf n start = (-1, start.map (fun _ => (-1 : Int)))) ∧
      ((∃ i ≤ self.solves.length - n, Session.avgOf (self.windowTimes n i) ≠ -1) →
        ∃ i₀ ≤ self.solves.length - n,
          Session.avgOf (self.windowTimes n i₀) ≠ -1 ∧
          (∀ i ≤ self.solves.length - n, Session.avgOf (self.windowTimes n i) ≠ -1 →
            Session.avgOf (self.windowTimes n i₀) ≤ Session.avgOf (self.windowTimes n i)) ∧
          (∀ i < i₀, Session.avgOf (self.windowTimes n i)
            ≠ Session.avgOf (self.windowTimes n i₀)) ∧
          self.bestAvgOf n start
            = (Session.avgOf (self.windowTimes n i₀), start.map (fun _ => (i₀ : Int))))) := by
  refine ⟨?_, ?_, ?_⟩
  · intro h
    simp [Session.bestAvgOf, h]
  · intro i before window after hs hb hw
    exact windowTimes_eq self n i before window after hs hb hw
  · intro hle
    have hbest : self.bestAvgOf n start
        = (List.range (self.solves.length - n + 1)).foldl (self.bestAvgOfBody n)
          (-1, start.map (fun _ => (-1 : Int))) := by
      simp [Session.bestAvgOf, not_lt.mpr hle]
    have h := bestAvgOf_loop self n (start.map (fun _ => (-1 : Int)))
      (self.solves.length - n + 1)
    constructor
    · intro hno
      rcases h with ⟨-, hf⟩ | ⟨i₀, hi₀, hne, -⟩
      · rw [hbest, hf]
      · exact absurd (hno i₀ (Nat.lt_succ_iff.mp hi₀)) hne
    · rintro ⟨i, hi, hine⟩
      rcases h with ⟨hno, -⟩ | ⟨i₀, hi₀, hne, h1, h2, hf⟩
      · exact absurd (hno i (Nat.lt_succ_iff.mpr hi)) hine
      · refine ⟨i₀, Nat.lt_succ_iff.mp hi₀, hne, ?_, ?_, ?_⟩
        · intro j hj hjne
          exact h2 j (Nat.lt_succ_iff.mpr hj) hjne
        · intro j hj heq
          have hjne : Session.avgOf (self.windowTimes n j) ≠ -1 := by rw [heq]; exact hne
          have := h1 j hj hjne
          rw [heq] at this
          exact lt_irrefl _ this
        · rw [hbest, hf, Option.map_map]
          rfl

/-! ### The solve state machine -/

theorem SolveState.le_def (a b : SolveState) : a ≤ b ↔ a.toNat ≤ b.toNat := Iff.rfl

theorem SolveState.lt_def (a b : SolveState) : a < b ↔ a.toNat < b.toNat := Iff.rfl

theorem SolveState.toNat_le_nine (a : SolveState) : a.toNat ≤ 9 := by
  cases a <;> decide

theorem SolveState.toNat_injective {a b : SolveState} (h : a.toNat = b.toNat) : a = b := by
  cases a <;> cases b <;> first | rfl | (exact absurd h (by decide))

theorem SolveState.le_solved (a : SolveState) : a ≤ SOLVESTATE_SOLVED :=
  SolveState.toNat_le_nine a

/-- One pass of the `switch` moves to the next state exactly when the next-state predicate of
the state holds. -/
theorem transitionSwitch_eq (faces : Cube3x3Faces) (s : SolveState) :
    Solve.transitionSwitch faces s
      = if Solve.nextStatePredicate faces s = some true then s.next else s := by
  cases s <;> simp only [Solve.transitionSwitch, Solve.nextStatePredicate, Option.some.injEq,
    SolveState.next] <;> rfl

theorem nextStatePredicate_toNat {faces : Cube3x3Faces} {s : SolveState}
    (h : Solve.nextStatePredicate faces s = some true) :
    s.toNat ≤ 7 ∧ s.next.toNat = s.toNat + 1 ∧ s.next ≠ s := by
  cases s <;> simp [Solve.nextStatePredicate] at h <;>
    simp [SolveState.toNat, SolveState.next]

/-- What the loop returns: the first state at or above the start whose next-state predicate does
not hold. -/
theorem transitionLoop_some (faces : Cube3x3Faces) (fuel : Nat) (s r : SolveState)
    (h : Solve.transitionLoop fuel faces s = some r) :
    s ≤ r ∧ Solve.nextStatePredicate faces r ≠ some true ∧
      ∀ t, s ≤ t → t < r → Solve.nextStatePredicate faces t = some true := by
  induction fuel generalizing s with
  | zero => simp [Solve.transitionLoop] at h
  | succ fuel ih =>
    unfold Solve.transitionLoop at h
    simp only [transitionSwitch_eq] at h
    by_cases hp : Solve.nextStatePredicate faces s = some true
    · obtain ⟨-, hn, hne⟩ := nextStatePredicate_toNat hp
      simp only [hp, if_true, ne_eq, hne, not_false_eq_true] at h
      obtain ⟨h1, h2, h3⟩ := ih _ h
      rw [SolveState.le_def] at h1 ⊢
      refine ⟨by omega, h2, ?_⟩
      intro t hst htr
      rw [SolveState.le_def] at hst
      by_cases hts : t.toNat = s.toNat
      · rw [SolveState.toNat_injective hts]; exact hp
      · exact h3 t (by rw [SolveState.le_def]; omega) htr
    · simp only [hp, if_false, ne_eq, not_true_eq_false, Option.some.injEq] at h
      subst h
      refine ⟨le_refl s.toNat, hp, ?_⟩
      intro t hst htr
      rw [SolveState.le_def] at hst
      rw [SolveState.lt_def] at htr
      omega

/-- The loop exits within the fuel when the fuel covers the states that are left. -/
theorem transitionLoop_terminates (faces : Cube3x3Faces) (fuel : Nat) (s : SolveState)
    (h1 : 1 ≤ fuel) (h9 : 9 ≤ fuel + s.toNat) :
    ∃ r, Solve.transitionLoop fuel faces s = some r := by
  induction fuel generalizing s with
  | zero => omega
  | succ fuel ih =>
    unfold Solve.transitionLoop
    simp only [transitionSwitch_eq]
    by_cases hp : Solve.nextStatePredicate faces s = some true
    · obtain ⟨h7, hn, hne⟩ := nextStatePredicate_toNat hp
      simp only [hp, if_true, ne_eq, hne, not_false_eq_true]
      exact ih _ (by omega) (by omega)
    · simp [hp]

/-- Nine passes are enough from every state. -/
theorem transitionLoop_nine (faces : Cube3x3Faces) (s : SolveState) :
    ∃ r, Solve.transitionLoop 9 faces s = some r :=
  transitionLoop_terminates faces 9 s (by decide) (by omega)

/-- More fuel does not change the result. -/
theorem transitionLoop_fuel (faces : Cube3x3Faces) (fuel extra : Nat) (s r : SolveState)
    (h : Solve.transitionLoop fuel faces s = some r) :
    Solve.transitionLoop (fuel + extra) faces s = some r := by
  induction fuel generalizing s with
  | zero => simp [Solve.transitionLoop] at h
  | succ fuel ih =>
    rw [Nat.add_right_comm]
    unfold Solve.transitionLoop at h ⊢
    by_cases hc : Solve.transitionSwitch faces s ≠ s
    · simp only [hc, if_true, ne_eq, not_false_eq_true] at h ⊢
      exact ih _ h
    · simp only [hc, if_false] at h ⊢
      exact h

/-- `TransitionSolveState` on an unsolved cube is the result of its loop. -/
theorem TransitionSolveState_unsolved (E : Cube3x3Engine) (cube : E.Cube3x3) (s : SolveState)
    (hns : E.IsSolved cube = false) :
    Solve.transitionLoop 9 (E.faces cube) s = some (Solve.TransitionSolveState E cube s) := by
  obtain ⟨r, hr⟩ := transitionLoop_nine (E.faces cube) s
  simp [Solve.TransitionSolveState, hns, hr]

theorem TransitionSolveState_solved (E : Cube3x3Engine) (cube : E.Cube3x3) (s : SolveState)
    (hs : E.IsSolved cube = true) : Solve.TransitionSolveState E cube s = SOLVESTATE_SOLVED := by
  simp [Solve.TransitionSolveState, hs]

theorem le_TransitionSolveState (E : Cube3x3Engine) (cube : E.Cube3x3) (s : SolveState) :
    s ≤ Solve.TransitionSolveState E cube s := by
  cases hs : E.IsSolved cube with
  | true => rw [TransitionSolveState_solved E cube s hs]; exact SolveState.le_solved s
  | false =>
    exact (transitionLoop_some _ _ _ _ (TransitionSolveState_unsolved E cube s hs)).1

theorem le_of_mem_feedStates (E : Cube3x3Engine) (cubes : List E.Cube3x3)
    (current s : SolveState) (hs : s ∈ Solve.feedStates E current cubes) : current ≤ s := by
  induction cubes generalizing current with
  | nil => simp [Solve.feedStates] at hs
  | cons cube rest ih =>
    have h1 := le_TransitionSolveState E cube current
    simp only [Solve.feedStates, List.mem_cons] at hs
    rcases hs with h | h
    · rw [h]; exact h1
    · exact Nat.le_trans h1 (ih _ h)

/-- C6: for every cube and every current state, `Solve::TransitionSolveState(cube, current)`
returns a state that is greater than or equal to `current` in the order
INITIAL < CROSS < F2L_FIRST_PAIR < F2L_SECOND_PAIR < F2L_THIRD_PAIR < F2L_COMPLETE < OLL_CROSS <
OLL_COMPLETE < PLL_CORNERS < SOLVED; hence for any sequence of cubes, the states produced by
feeding each output back in as the next current state are non-decreasing. -/
theorem TransitionSolveState_nondecreasing (E : Cube3x3Engine) :
    (∀ (cube : E.Cube3x3) (current : SolveState),
      current ≤ Solve.TransitionSolveState E cube current) ∧
    (∀ (cubes : List E.Cube3x3) (current : SolveState),
      (current :: Solve.feedStates E current cubes).Pairwise (fun a b => a ≤ b)) := by
  refine ⟨fun cube current => le_TransitionSolveState E cube current, fun cubes => ?_⟩
  induction cubes with
  | nil => intro current; simp [Solve.feedStates]
  | cons cube rest ih =>
    intro current
    rw [List.pairwise_cons]
    refine ⟨fun s hs => le_of_mem_feedStates E (cube :: rest) current s hs, ?_⟩
    exact ih (Solve.TransitionSolveState E cube current)

/-- C7: `Solve::TransitionSolveState` is monotone in its second argument: for every cube and all
states `s₁ ≤ s₂`, `TransitionSolveState(cube, s₁) ≤ TransitionSolveState(cube, s₂)`. -/
theorem TransitionSolveState_monotone (E : Cube3x3Engine) (cube : E.Cube3x3)
    (s₁ s₂ : SolveState) (h : s₁ ≤ s₂) :
    Solve.TransitionSolveState E cube s₁ ≤ Solve.TransitionSolveState E cube s₂ := by
  cases hs : E.IsSolved cube with
  | true =>
    rw [TransitionSolveState_solved E cube s₁ hs, TransitionSolveState_solved E cube s₂ hs]
    exact Nat.le_refl _
  | false =>
    obtain ⟨-, -, h1⟩ := transitionLoop_some _ _ _ _ (TransitionSolveState_unsolved E cube s₁ hs)
    obtain ⟨h2, h3, -⟩ := transitionLoop_some _ _ _ _ (TransitionSolveState_unsolved E cube s₂ hs)
    by_contra hlt
    exact h3 (h1 _ (Nat.le_trans h h2) (Nat.lt_of_not_le hlt))

theorem TransitionSolveState_monotone_witness :
    SOLVESTATE_CROSS ≤ SOLVESTATE_F2L_THIRD_PAIR ∧
    Solve.TransitionSolveState stickerEngine
        (stickerEngine.Apply stickerEngine.solved [MOVE_R, MOVE_D, MOVE_Rp]) SOLVESTATE_CROSS
      ≤ Solve.TransitionSolveState stickerEngine
        (stickerEngine.Apply stickerEngine.solved [MOVE_R, MOVE_D, MOVE_Rp])
        SOLVESTATE_F2L_THIRD_PAIR :=
  ⟨by decide, TransitionSolveState_monotone stickerEngine _ _ _ (by decide)⟩

/-- C8: for every cube and current state, `Solve::TransitionSolveState` returns SOLVED when
`cube.IsSolved()` holds; otherwise it returns the highest state `r ≥ current` such that the
next-state predicate of every state from `current` up to (but not including) `r` holds on the
cube's face view, and the next-state predicate of `r` does not hold (or `r` has no successor
predicate).  The loop computing it terminates after at most nine iterations: nine passes of
fuel give a result from every state, and more fuel gives the same result. -/
theorem TransitionSolveState_spec (E : Cube3x3Engine) (cube : E.Cube3x3)
    (current : SolveState) :
    (E.IsSolved cube = true → Solve.TransitionSolveState E cube current = SOLVESTATE_SOLVED) ∧
    (E.IsSolved cube = false →
      current ≤ Solve.TransitionSolveState E cube current ∧
      (∀ s, current ≤ s → s < Solve.TransitionSolveState E cube current →
        Solve.nextStatePredicate (E.faces cube) s = some true) ∧
      Solve.nextStatePredicate (E.faces cube) (Solve.TransitionSolveState E cube current)
        ≠ some true ∧
      (∀ r, current ≤ r →
        (∀ s, current ≤ s → s < r → Solve.nextStatePredicate (E.faces cube) s = some true) →
        r ≤ Solve.TransitionSolveState E cube current) ∧
      Solve.transitionLoop 9 (E.faces cube) current
        = some (Solve.TransitionSolveState E cube current)) ∧
    (∀ faces : Cube3x3Faces, ∃ r, Solve.transitionLoop 9 faces current = some r ∧
      ∀ extra, Solve.transitionLoop (9 + extra) faces current = some r) := by
  refine ⟨TransitionSolveState_solved E cube current, fun hs => ?_, fun faces => ?_⟩
  · have hloop := TransitionSolveState_unsolved E cube current hs
    obtain ⟨h1, h2, h3⟩ := transitionLoop_some _ _ _ _ hloop
    refine ⟨h1, h3, h2, ?_, hloop⟩
    intro r hr hall
    by_contra hlt
    exact h2 (hall _ h1 (Nat.lt_of_not_le hlt))
  · obtain ⟨r, hr⟩ := transitionLoop_nine faces current
    exact ⟨r, hr, fun extra => transitionLoop_fuel faces 9 extra current r hr⟩

/-! ### The replay that records the split times -/

theorem mem_statesUpTo (a b j : SolveState) : j ∈ statesUpTo a b ↔ a < j ∧ j ≤ b := by
  have hall : j ∈ SolveState.all := by cases j <;> decide
  simp [statesUpTo, List.mem_filter, hall]

theorem splitOf_record (self : Solve) (state j : SolveState) (timestamp : Nat)
    (h1 : SOLVESTATE_INITIAL < j) (h2 : j < SOLVESTATE_SOLVED) :
    (self.RecordSplitTimeForSolveState state timestamp).splitOf j
      = if state = j then some timestamp else self.splitOf j := by
  cases j <;> first | exact absurd h1 (by decide) | exact absurd h2 (by decide) | skip
  all_goals cases state <;> rfl

/-- Recording one timestamp for a list of states sets the splits of these states and leaves the
other splits as they were. -/
theorem splitOf_recordAll (l : List SolveState) (self : Solve) (j : SolveState)
    (timestamp : Nat) (h1 : SOLVESTATE_INITIAL < j) (h2 : j < SOLVESTATE_SOLVED) :
    (l.foldl (fun self i => self.RecordSplitTimeForSolveState i timestamp) self).splitOf j
      = if j ∈ l then some timestamp else self.splitOf j := by
  induction l generalizing self with
  | nil => simp
  | cons a l ih =>
    rw [List.foldl_cons, ih, splitOf_record _ _ _ _ h1 h2]
    by_cases hj : j ∈ l
    · simp [hj]
    · by_cases ha : a = j
      · simp [ha]
      · have : ¬ j = a := fun h => ha h.symm
        simp [hj, ha, this]

theorem take_succ_of_lt {α : Type} (l : List α) (k : Nat) (hk : k < l.length) :
    l.take (k + 1) = l.take k ++ [l.get ⟨k, hk⟩] := by
  rw [List.take_succ, List.getElem?_eq_getElem hk]
  rfl

theorem splitTimesAfter_succ (E : Cube3x3Engine) (self : Solve) (k : Nat)
    (hk : k < self.solveMoves.length) :
    Solve.splitTimesAfter E self (k + 1)
      = Solve.splitTimesBody E (Solve.splitTimesAfter E self k)
        (self.solveMoves.get ⟨k, hk⟩) := by
  unfold Solve.splitTimesAfter
  rw [take_succ_of_lt _ _ hk, List.foldl_append, List.foldl_cons, List.foldl_nil]

theorem cubeAt_succ (E : Cube3x3Engine) (self : Solve) (k : Nat)
    (hk : k < self.solveMoves.length) :
    self.cubeAt E (k + 1) = E.Move (self.cubeAt E k) (self.solveMoves.get ⟨k, hk⟩).move := by
  unfold Solve.cubeAt
  rw [take_succ_of_lt _ _ hk, List.foldl_append, List.foldl_cons, List.foldl_nil]

theorem timeAt_succ (self : Solve) (k : Nat) (hk : k < self.solveMoves.length) :
    self.timeAt (k + 1) = (self.solveMoves.get ⟨k, hk⟩).timestamp := by
  simp only [Solve.timeAt, List.get?_eq_getElem?, List.getElem?_eq_getElem hk, List.get_eq_getElem]

theorem stateAt_mono (E : Cube3x3Engine) (self : Solve) {a b : Nat} (h : a ≤ b) :
    self.stateAt E a ≤ self.stateAt E b := by
  induction b with
  | zero =>
    have : a = 0 := by omega
    subst this
    exact Nat.le_refl _
  | succ b ih =>
    rcases Nat.lt_or_ge a (b + 1) with hlt | hge
    · exact Nat.le_trans (ih (by omega)) (le_TransitionSolveState E _ _)
    · have : a = b + 1 := by omega
      subst this
      exact Nat.le_refl _

/-- The locals of `GenerateSplitTimesFromMoves` after `k` passes: the cube, the state and the
timestamp are those of the specification, and every state traversed by one of the checks so far
holds the timestamp that was current at that check. -/
theorem splitTimesAfter_spec (E : Cube3x3Engine) (self : Solve) (k : Nat)
    (hk : k ≤ self.solveMoves.length) :
    (Solve.splitTimesAfter E self k).cube = self.cubeAt E k ∧
    (Solve.splitTimesAfter E self k).state = self.stateAt E k ∧
    (Solve.splitTimesAfter E self k).timestamp = self.timeAt k ∧
    ∀ j, SOLVESTATE_INITIAL < j → j < SOLVESTATE_SOLVED → ∀ i < k,
      self.stateAt E i < j → j ≤ self.stateAt E (i + 1) →
      (Solve.splitTimesAfter E self k).self.splitOf j = some (self.timeAt i) := by
  induction k with
  | zero =>
    refine ⟨rfl, rfl, rfl, ?_⟩
    intro j _ _ i hi
    omega
  | succ k ih =>
    have hlt : k < self.solveMoves.length := by omega
    obtain ⟨hc, hs, ht, hsp⟩ := ih (by omega)
    rw [splitTimesAfter_succ E self k hlt]
    refine ⟨?_, ?_, ?_, ?_⟩
    · simp only [Solve.splitTimesBody, hc, cubeAt_succ E self k hlt]
    · simp only [Solve.splitTimesBody, hc, hs, Solve.stateAt]
    · simp only [Solve.splitTimesBody, timeAt_succ self k hlt]
    · intro j h1 h2 i hi hlo hhi
      simp only [Solve.splitTimesBody, hc, hs, ht]
      rw [splitOf_recordAll _ _ _ _ h1 h2]
      rcases Nat.lt_succ_iff_lt_or_eq.mp hi with hik | hik
      · have hmono : self.stateAt E (i + 1) ≤ self.stateAt E k := stateAt_mono E self (by omega)
        have hnot : ¬ (self.stateAt E k < j ∧
            j ≤ Solve.TransitionSolveState E (self.cubeAt E k) (self.stateAt E k)) := by
          intro h
          exact absurd (Nat.le_trans hhi hmono) (Nat.not_le_of_lt h.1)
        rw [if_neg (by rw [mem_statesUpTo]; exact hnot)]
        exact hsp j h1 h2 i hik hlo hhi
      · subst hik
        rw [if_pos (by rw [mem_statesUpTo]; exact ⟨hlo, hhi⟩)]

theorem GenerateSplitTimesFromMoves_eq (E : Cube3x3Engine) (self : Solve) :
    self.GenerateSplitTimesFromMoves E
      = (statesUpTo (Solve.splitTimesAfter E self self.solveMoves.length).state
          SOLVESTATE_SOLVED).foldl
        (fun s i => s.RecordSplitTimeForSolveState i
          (Solve.splitTimesAfter E self self.solveMoves.length).timestamp)
        (Solve.splitTimesAfter E self self.solveMoves.length).self := by
  unfold Solve.GenerateSplitTimesFromMoves Solve.splitTimesAfter
  rw [List.take_length]

/-- A state that the machine has reached was traversed by exactly one of the checks. -/
theorem stateAt_traversed (E : Cube3x3Engine) (self : Solve) (j : SolveState)
    (h1 : SOLVESTATE_INITIAL < j) (m : Nat) (hm : j ≤ self.stateAt E m) :
    ∃ k < m, self.stateAt E k < j ∧ j ≤ self.stateAt E (k + 1) := by
  induction m with
  | zero => exact absurd hm (Nat.not_le_of_lt h1)
  | succ m ih =>
    by_cases hj : j ≤ self.stateAt E m
    · obtain ⟨k, hk, h⟩ := ih hj
      exact ⟨k, Nat.lt_succ_of_lt hk, h⟩
    · exact ⟨m, Nat.lt_succ_self m, Nat.lt_of_not_le hj, hm⟩

/-- C9: for every scramble and every timed move stream, after
`Solve::GenerateSplitTimesFromMoves` each of the eight split fields (`crossTime`,
`f2lPairTimes[0..3]`, `ollCrossTime`, `ollFinishTime`, `pllCornerTime`) is assigned: a state that
the state machine reaches during the replay gets the timestamp current when it was traversed
(0 if it already holds on the scrambled cube), and every state not reached before the stream
ends gets the timestamp of the last move (0 for an empty stream).  Here `j` is the state of the
split, the check before move `k + 1` traverses `j` when the machine goes from below `j` to `j`
or beyond, and `timeAt k` is the timestamp of move `k` (0 for `k = 0`). -/
theorem GenerateSplitTimesFromMoves_spec (E : Cube3x3Engine) (self : Solve) (j : SolveState)
    (h1 : SOLVESTATE_INITIAL < j) (h2 : j < SOLVESTATE_SOLVED) :
    (∀ k < self.solveMoves.length, self.stateAt E k < j → j ≤ self.stateAt E (k + 1) →
      (self.GenerateSplitTimesFromMoves E).splitOf j = some (self.timeAt k)) ∧
    (self.stateAt E self.solveMoves.length < j →
      (self.GenerateSplitTimesFromMoves E).splitOf j
        = some (self.timeAt self.solveMoves.length)) ∧
    ((∃ k < self.solveMoves.length, self.stateAt E k < j ∧ j ≤ self.stateAt E (k + 1)) ∨
      self.stateAt E self.solveMoves.length < j) ∧
    self.timeAt 0 = 0 ∧
    (∀ k (hk : k < self.solveMoves.length),
      self.timeAt (k + 1) = (self.solveMoves.get ⟨k, hk⟩).timestamp) := by
  obtain ⟨-, hs, ht, hsp⟩ := splitTimesAfter_spec E self self.solveMoves.length (Nat.le_refl _)
  refine ⟨?_, ?_, ?_, rfl, fun k hk => timeAt_succ self k hk⟩
  · intro k hk hlo hhi
    rw [GenerateSplitTimesFromMoves_eq, splitOf_recordAll _ _ _ _ h1 h2, hs, ht]
    have hmono : self.stateAt E (k + 1) ≤ self.stateAt E self.solveMoves.length :=
      stateAt_mono E self (by omega)
    rw [if_neg (by
      rw [mem_statesUpTo]
      intro h
      exact absurd (Nat.le_trans hhi hmono) (Nat.not_le_of_lt h.1))]
    exact hsp j h1 h2 k hk hlo hhi
  · intro hlo
    rw [GenerateSplitTimesFromMoves_eq, splitOf_recordAll _ _ _ _ h1 h2, hs, ht]
    rw [if_pos (by rw [mem_statesUpTo]; exact ⟨hlo, Nat.le_of_lt h2⟩)]
  · by_cases hj : j ≤ self.stateAt E self.solveMoves.length
    · exact Or.inl (stateAt_traversed E self j h1 _ hj)
    · exact Or.inr (Nat.lt_of_not_le hj)

set_option maxRecDepth 100000 in
theorem GenerateSplitTimesFromMoves_spec_witness :
    SOLVESTATE_INITIAL < SOLVESTATE_F2L_COMPLETE ∧
    SOLVESTATE_F2L_COMPLETE < SOLVESTATE_SOLVED ∧
    (sampleReplay [MOVE_R, MOVE_D, MOVE_Rp]
        [⟨MOVE_R, 100⟩, ⟨MOVE_Dp, 200⟩, ⟨MOVE_Rp, 300⟩]).stateAt stickerEngine 3
      = SOLVESTATE_F2L_THIRD_PAIR ∧
    ((sampleReplay [MOVE_R, MOVE_D, MOVE_Rp]
        [⟨MOVE_R, 100⟩, ⟨MOVE_Dp, 200⟩, ⟨MOVE_Rp, 300⟩]).GenerateSplitTimesFromMoves
          stickerEngine).splitOf SOLVESTATE_F2L_COMPLETE
      = some ((sampleReplay [MOVE_R, MOVE_D, MOVE_Rp]
        [⟨MOVE_R, 100⟩, ⟨MOVE_Dp, 200⟩, ⟨MOVE_Rp, 300⟩]).timeAt 3) :=
  ⟨by decide, by decide, by decide,
    (GenerateSplitTimesFromMoves_spec stickerEngine
      (sampleReplay [MOVE_R, MOVE_D, MOVE_Rp] [⟨MOVE_R, 100⟩, ⟨MOVE_Dp, 200⟩, ⟨MOVE_Rp, 300⟩])
      SOLVESTATE_F2L_COMPLETE (by decide) (by decide)).2.1 (by decide)⟩

/-! ### The replay that records the detailed splits -/

theorem DetailedSplitTimes.get_set (r : DetailedSplitTimes) (p q : SplitRef)
    (d : DetailedSplit) : (r.set p d).get q = if q = p then d else r.get q := by
  cases p <;> cases q <;> rfl

theorem set_finishTime (r : DetailedSplitTimes) (a p : SplitRef) (t : Nat) :
    ((r.set a { r.get a with finishTime := t }).get p).finishTime
        = (if p = a then t else (r.get p).finishTime) ∧
      ((r.set a { r.get a with finishTime := t }).get p).phaseStartTime
        = (r.get p).phaseStartTime := by
  rw [DetailedSplitTimes.get_set]
  by_cases h : p = a
  · subst h; simp
  · simp [h]

theorem set_phaseStartTime (r : DetailedSplitTimes) (b p : SplitRef) (t : Nat) :
    ((r.set b { r.get b with phaseStartTime := t }).get p).finishTime
        = (r.get p).finishTime ∧
      ((r.set b { r.get b with phaseStartTime := t }).get p).phaseStartTime
        = (if p = b then t else (r.get p).phaseStartTime) := by
  rw [DetailedSplitTimes.get_set]
  by_cases h : p = b
  · subst h; simp
  · simp [h]

theorem set_firstMoveTime (r : DetailedSplitTimes) (b p : SplitRef) (t : Nat) :
    ((r.set b { r.get b with firstMoveTime := t }).get p).finishTime
        = (r.get p).finishTime ∧
      ((r.set b { r.get b with firstMoveTime := t }).get p).phaseStartTime
        = (r.get p).phaseStartTime := by
  rw [DetailedSplitTimes.get_set]
  by_cases h : p = b
  · subst h; simp
  · simp [h]

theorem set_moveCount (r : DetailedSplitTimes) (b p : SplitRef) (c : Nat) :
    ((r.set b { r.get b with moveCount := c }).get p).finishTime
        = (r.get p).finishTime ∧
      ((r.set b { r.get b with moveCount := c }).get p).phaseStartTime
        = (r.get p).phaseStartTime := by
  rw [DetailedSplitTimes.get_set]
  by_cases h : p = b
  · subst h; simp
  · simp [h]

/-- One pass of the phase-finishing loops: the finish time of the phase of `j` and the start time
of the phase after it become `timestamp`; no other finish or start time changes. -/
theorem finishPhase_times (timestamp : Nat) (acc : DetailedSplitTimes × SolveState)
    (j : SolveState) (p : SplitRef) :
    ((Solve.finishPhase timestamp acc j).1.get p).finishTime
      = (if p = Solve.GetSplitForSolveState j.toNat then timestamp
        else (acc.1.get p).finishTime) ∧
    ((Solve.finishPhase timestamp acc j).1.get p).phaseStartTime
      = (if p = Solve.GetSplitForSolveState (j.toNat + 1) then timestamp
        else (acc.1.get p).phaseStartTime) ∧
    (Solve.finishPhase timestamp acc j).2 = j := by
  unfold Solve.finishPhase
  simp only
  refine ⟨?_, ?_, trivial⟩
  · rw [(set_moveCount _ _ _ _).1, (set_firstMoveTime _ _ _ _).1, (set_phaseStartTime _ _ _ _).1,
      (set_finishTime _ _ _ _).1]
  · rw [(set_moveCount _ _ _ _).2, (set_firstMoveTime _ _ _ _).2, (set_phaseStartTime _ _ _ _).2,
      (set_finishTime _ _ _ _).2]

/-- A run of the phase-finishing loop over the states `l`: the phases of these states finish and
the phases after them start at `timestamp`; other finish and start times stay. -/
theorem finishPhases_times (timestamp : Nat) (l : List SolveState)
    (acc : DetailedSplitTimes × SolveState) (p : SplitRef) :
    (((l.foldl (Solve.finishPhase timestamp) acc).1.get p).finishTime
      = if ∃ j ∈ l, p = Solve.GetSplitForSolveState j.toNat then timestamp
        else (acc.1.get p).finishTime) ∧
    (((l.foldl (Solve.finishPhase timestamp) acc).1.get p).phaseStartTime
      = if ∃ j ∈ l, p = Solve.GetSplitForSolveState (j.toNat + 1) then timestamp
        else (acc.1.get p).phaseStartTime) ∧
    (l.foldl (Solve.finishPhase timestamp) acc).2 = (l.getLast?).getD acc.2 := by
  induction l using List.reverseRecOn with
  | nil => simp
  | append_singleton l x ih =>
    obtain ⟨ih1, ih2, -⟩ := ih
    rw [List.foldl_append, List.foldl_cons, List.foldl_nil]
    obtain ⟨h1, h2, h3⟩ := finishPhase_times timestamp (l.foldl (Solve.finishPhase timestamp) acc) x p
    refine ⟨?_, ?_, ?_⟩
    · rw [h1, ih1]
      by_cases hx : p = Solve.GetSplitForSolveState x.toNat
      · have : ∃ j ∈ l ++ [x], p = Solve.GetSplitForSolveState j.toNat :=
          ⟨x, by simp, hx⟩
        rw [if_pos hx, if_pos this]
      · rw [if_neg hx]
        by_cases hl : ∃ j ∈ l, p = Solve.GetSplitForSolveState j.toNat
        · obtain ⟨j, hj, hpj⟩ := hl
          rw [if_pos ⟨j, hj, hpj⟩, if_pos ⟨j, List.mem_append_left _ hj, hpj⟩]
        · have : ¬ ∃ j ∈ l ++ [x], p = Solve.GetSplitForSolveState j.toNat := by
            rintro ⟨j, hj, hpj⟩
            rcases List.mem_append.mp hj with h | h
            · exact hl ⟨j, h, hpj⟩
            · rw [List.mem_singleton.mp h] at hpj; exact hx hpj
          rw [if_neg hl, if_neg this]
    · rw [h2, ih2]
      by_cases hx : p = Solve.GetSplitForSolveState (x.toNat + 1)
      · have : ∃ j ∈ l ++ [x], p = Solve.GetSplitForSolveState (j.toNat + 1) :=
          ⟨x, by simp, hx⟩
        rw [if_pos hx, if_pos this]
      · rw [if_neg hx]
        by_cases hl : ∃ j ∈ l, p = Solve.GetSplitForSolveState (j.toNat + 1)
        · obtain ⟨j, hj, hpj⟩ := hl
          rw [if_pos ⟨j, hj, hpj⟩, if_pos ⟨j, List.mem_append_left _ hj, hpj⟩]
        · have : ¬ ∃ j ∈ l ++ [x], p = Solve.GetSplitForSolveState (j.toNat + 1) := by
            rintro ⟨j, hj, hpj⟩
            rcases List.mem_append.mp hj with h | h
            · exact hl ⟨j, h, hpj⟩
            · rw [List.mem_singleton.mp h] at hpj; exact hx hpj
          rw [if_neg hl, if_neg this]
    · rw [h3]; simp

theorem mem_statesBelow (a b j : SolveState) : j ∈ statesBelow a b ↔ a < j ∧ j < b := by
  have hall : j ∈ SolveState.all := by cases j <;> decide
  simp [statesBelow, List.mem_filter, hall]

theorem statesUpTo_getLast (a b : SolveState) (h : a ≤ b) :
    ((statesUpTo a b).getLast?).getD a = b := by
  cases a <;> cases b <;> first | rfl | exact absurd h (by decide)

theorem GetSplitForSolveState_injective {i j : SolveState}
    (h1 : SOLVESTATE_INITIAL < j) (h2 : j < SOLVESTATE_SOLVED)
    (h : Solve.GetSplitForSolveState j.toNat = Solve.GetSplitForSolveState i.toNat) :
    i = j := by
  cases j <;> first | exact absurd h1 (by decide) | exact absurd h2 (by decide) | skip
  all_goals cases i <;> first | rfl | exact absurd h (by decide)

theorem GetSplitForSolveState_succ_injective {i j : SolveState}
    (h1 : SOLVESTATE_INITIAL < j) (h2 : j < SOLVESTATE_SOLVED)
    (h : Solve.GetSplitForSolveState (j.toNat + 1) = Solve.GetSplitForSolveState (i.toNat + 1)) :
    i = j ∨ (j = SOLVESTATE_PLL_CORNERS ∧ i = SOLVESTATE_SOLVED) := by
  cases j <;> first | exact absurd h1 (by decide) | exact absurd h2 (by decide) | skip
  all_goals cases i <;> first | exact Or.inl rfl | exact Or.inr ⟨rfl, rfl⟩ | exact absurd h (by decide)

/-- A run of the phase-finishing loop links every phase it finishes and keeps the links of the
other phases, as long as it does not finish `SOLVESTATE_SOLVED` after `SOLVESTATE_PLL_CORNERS`
was finished earlier. -/
theorem finishPhases_linked (timestamp : Nat) (l : List SolveState)
    (acc : DetailedSplitTimes × SolveState) (j : SolveState)
    (h1 : SOLVESTATE_INITIAL < j) (h2 : j < SOLVESTATE_SOLVED)
    (hj : j ∈ l ∨ (DetailedSplitTimes.linked acc.1 j ∧ (j = SOLVESTATE_PLL_CORNERS → SOLVESTATE_SOLVED ∉ l))) :
    DetailedSplitTimes.linked (l.foldl (Solve.finishPhase timestamp) acc).1 j := by
  unfold DetailedSplitTimes.linked
  rw [(finishPhases_times timestamp l acc _).1, (finishPhases_times timestamp l acc _).2.1]
  by_cases hm : j ∈ l
  · rw [if_pos ⟨j, hm, rfl⟩, if_pos ⟨j, hm, rfl⟩]
  · rcases hj with hj | ⟨hlink, hs⟩
    · exact absurd hj hm
    · rw [if_neg, if_neg]
      · exact hlink
      · rintro ⟨i, hi, hij⟩
        rw [GetSplitForSolveState_injective h1 h2 hij] at hi
        exact hm hi
      · rintro ⟨i, hi, hij⟩
        rcases GetSplitForSolveState_succ_injective h1 h2 hij with h | ⟨h8, h9⟩
        · rw [h] at hi; exact hm hi
        · rw [h9] at hi; exact hs h8 hi

/-- The move-count update of a pass writes only `moveCount` and `firstMoveTime`. -/
theorem countMove_times (r : DetailedSplitTimes) (split p : SplitRef) (timestamp : Nat)
    (same : Bool) :
    let r' :=
      if (r.get split).moveCount = 0 then
        let r₁ := r.set split { r.get split with moveCount := (r.get split).moveCount + 1 }
        r₁.set split { r₁.get split with firstMoveTime := timestamp }
      else if !same then
        r.set split { r.get split with moveCount := (r.get split).moveCount + 1 }
      else r
    (r'.get p).finishTime = (r.get p).finishTime ∧
      (r'.get p).phaseStartTime = (r.get p).phaseStartTime := by
  intro r'
  simp only [r']
  split_ifs
  · exact ⟨by rw [(set_firstMoveTime _ _ _ _).1, (set_moveCount _ _ _ _).1],
      by rw [(set_firstMoveTime _ _ _ _).2, (set_moveCount _ _ _ _).2]⟩
  · exact ⟨(set_moveCount _ _ _ _).1, (set_moveCount _ _ _ _).2⟩
  · exact ⟨rfl, rfl⟩

/-- One pass of the loop of `GenerateDetailedSplitTimes` over the moves. -/
theorem detailedBody_spec (E : Cube3x3Engine) (l : DetailedLoop E) (i : TimedCubeMove) :
    (Solve.detailedBody E l i).cube = E.Move l.cube i.move ∧
    (Solve.detailedBody E l i).state = Solve.TransitionSolveState E l.cube l.state ∧
    (Solve.detailedBody E l i).timestamp = i.timestamp ∧
    ∀ p,
      (((Solve.detailedBody E l i).result.get p).finishTime
        = (((statesUpTo l.state (Solve.TransitionSolveState E l.cube l.state)).foldl
            (Solve.finishPhase l.timestamp) (l.result, l.state)).1.get p).finishTime) ∧
      (((Solve.detailedBody E l i).result.get p).phaseStartTime
        = (((statesUpTo l.state (Solve.TransitionSolveState E l.cube l.state)).foldl
            (Solve.finishPhase l.timestamp) (l.result, l.state)).1.get p).phaseStartTime) := by
  have hstate := (finishPhases_times l.timestamp
    (statesUpTo l.state (Solve.TransitionSolveState E l.cube l.state)) (l.result, l.state)
    SplitRef.cross).2.2
  rw [statesUpTo_getLast _ _ (le_TransitionSolveState E l.cube l.state)] at hstate
  rcases hf : (statesUpTo l.state (Solve.TransitionSolveState E l.cube l.state)).foldl
    (Solve.finishPhase l.timestamp) (l.result, l.state) with ⟨r, s⟩
  rw [hf] at hstate
  simp only at hstate
  simp only [Solve.detailedBody, hf]
  refine ⟨trivial, hstate, trivial, fun p => ?_⟩
  exact countMove_times r _ p i.timestamp _

theorem detailedAfter_succ (E : Cube3x3Engine) (self : Solve) (result : DetailedSplitTimes)
    (lastMove : CubeMove) (k : Nat) (hk : k < self.solveMoves.length) :
    Solve.detailedAfter E self result lastMove (k + 1)
      = Solve.detailedBody E (Solve.detailedAfter E self result lastMove k)
        (self.solveMoves.get ⟨k, hk⟩) := by
  unfold Solve.detailedAfter
  rw [take_succ_of_lt _ _ hk, List.foldl_append, List.foldl_cons, List.foldl_nil]

/-- The locals of `GenerateDetailedSplitTimes` after `k` passes: the cube, the state and the
timestamp are those of the specification, and every phase finished so far is linked to the phase
after it, the last link as long as `SOLVESTATE_SOLVED` has not been reached. -/
theorem detailedAfter_spec (E : Cube3x3Engine) (self : Solve) (result : DetailedSplitTimes)
    (lastMove : CubeMove) (k : Nat) (hk : k ≤ self.solveMoves.length) :
    (Solve.detailedAfter E self result lastMove k).cube = self.cubeAt E k ∧
    (Solve.detailedAfter E self result lastMove k).state = self.stateAt E k ∧
    (Solve.detailedAfter E self result lastMove k).timestamp = self.timeAt k ∧
    ∀ j, SOLVESTATE_INITIAL < j → j < SOLVESTATE_SOLVED → j ≤ self.stateAt E k →
      (j = SOLVESTATE_PLL_CORNERS → self.stateAt E k ≠ SOLVESTATE_SOLVED) →
      (Solve.detailedAfter E self result lastMove k).result.linked j := by
  induction k with
  | zero =>
    refine ⟨rfl, rfl, rfl, ?_⟩
    intro j h1 _ h3
    exact absurd h3 (Nat.not_le_of_lt h1)
  | succ k ih =>
    have hlt : k < self.solveMoves.length := by omega
    obtain ⟨hc, hs, ht, hlink⟩ := ih (by omega)
    obtain ⟨b1, b2, b3, b4⟩ := detailedBody_spec E (Solve.detailedAfter E self result lastMove k)
      (self.solveMoves.get ⟨k, hlt⟩)
    rw [detailedAfter_succ E self result lastMove k hlt]
    rw [hc, hs] at b2
    refine ⟨?_, b2, ?_, ?_⟩
    · rw [b1, hc, cubeAt_succ E self k hlt]
    · rw [b3, timeAt_succ self k hlt]
    · intro j h1 h2 h3 h4
      unfold DetailedSplitTimes.linked
      rw [(b4 _).1, (b4 _).2, hc, hs, ht]
      apply finishPhases_linked _ _ _ j h1 h2
      by_cases hm : j ∈ statesUpTo (self.stateAt E k)
          (Solve.TransitionSolveState E (self.cubeAt E k) (self.stateAt E k))
      · exact Or.inl hm
      · right
        have hjk : j ≤ self.stateAt E k := by
          by_contra hlt'
          exact hm ((mem_statesUpTo _ _ _).mpr ⟨Nat.lt_of_not_le hlt', h3⟩)
        refine ⟨hlink j h1 h2 hjk ?_, ?_⟩
        · intro h8 h9
          apply h4 h8
          have hmono : self.stateAt E k ≤ self.stateAt E (k + 1) :=
            stateAt_mono E self (Nat.le_succ k)
          rw [h9] at hmono
          exact SolveState.toNat_injective
            (Nat.le_antisymm (SolveState.toNat_le_nine _) hmono)
        · intro h8 h9
          exact h4 h8 (SolveState.toNat_injective
            (Nat.le_antisymm (SolveState.toNat_le_nine _) ((mem_statesUpTo _ _ _).mp h9).2))

/-- The last assignments of `GenerateDetailedSplitTimes`. -/
theorem GenerateDetailedSplitTimes_eq (E : Cube3x3Engine) (self : Solve)
    (result : DetailedSplitTimes) (lastMove : CubeMove) (p : SplitRef) :
    (((self.GenerateDetailedSplitTimes E result lastMove).get p).phaseStartTime
      = if p = SplitRef.cross then 0
        else (((statesBelow (Solve.detailedAfter E self result lastMove
              self.solveMoves.length).state SOLVESTATE_SOLVED).foldl
            (Solve.finishPhase (Solve.detailedAfter E self result lastMove
              self.solveMoves.length).timestamp)
            ((Solve.detailedAfter E self result lastMove self.solveMoves.length).result,
              (Solve.detailedAfter E self result lastMove self.solveMoves.length).state)).1.get
              p).phaseStartTime) ∧
    (((self.GenerateDetailedSplitTimes E result lastMove).get p).finishTime
      = if p = SplitRef.pllFinish then
          (Solve.detailedAfter E self result lastMove self.solveMoves.length).timestamp
        else (((statesBelow (Solve.detailedAfter E self result lastMove
              self.solveMoves.length).state SOLVESTATE_SOLVED).foldl
            (Solve.finishPhase (Solve.detailedAfter E self result lastMove
              self.solveMoves.length).timestamp)
            ((Solve.detailedAfter E self result lastMove self.solveMoves.length).result,
              (Solve.detailedAfter E self result lastMove self.solveMoves.length).state)).1.get
              p).finishTime) := by
  unfold Solve.GenerateDetailedSplitTimes Solve.detailedAfter
  rw [List.take_length]
  simp only
  generalize List.foldl (Solve.detailedBody E) _ self.solveMoves = l
  rcases List.foldl (Solve.finishPhase l.timestamp) (l.result, l.state)
    (statesBelow l.state SOLVESTATE_SOLVED) with ⟨r, s⟩
  cases p <;> exact ⟨rfl, rfl⟩

/-- In the result of `GenerateDetailedSplitTimes` the phase after the one that state `j`
finishes starts when that phase finishes, for every state `j` with a split; for
`SOLVESTATE_PLL_CORNERS` this needs that the loop over the moves does not reach
`SOLVESTATE_SOLVED`, that is, that the cube is not solved before the last move is made. -/
theorem GenerateDetailedSplitTimes_linked (E : Cube3x3Engine) (self : Solve)
    (result : DetailedSplitTimes) (lastMove : CubeMove) (j : SolveState)
    (h1 : SOLVESTATE_INITIAL < j) (h2 : j < SOLVESTATE_SOLVED)
    (h8 : j = SOLVESTATE_PLL_CORNERS →
      self.stateAt E self.solveMoves.length ≠ SOLVESTATE_SOLVED) :
    (self.GenerateDetailedSplitTimes E result lastMove).linked j := by
  obtain ⟨-, hs, -, hlink⟩ :=
    detailedAfter_spec E self result lastMove self.solveMoves.length (Nat.le_refl _)
  have hstart : Solve.GetSplitForSolveState (j.toNat + 1) ≠ SplitRef.cross := by
    cases j <;> first | exact absurd h1 (by decide) | decide
  have hfinish : Solve.GetSplitForSolveState j.toNat ≠ SplitRef.pllFinish := by
    cases j <;> first | exact absurd h1 (by decide) | exact absurd h2 (by decide) | decide
  unfold DetailedSplitTimes.linked
  rw [(GenerateDetailedSplitTimes_eq E self result lastMove _).1,
    (GenerateDetailedSplitTimes_eq E self result lastMove _).2, if_neg hstart, if_neg hfinish]
  apply finishPhases_linked _ _ _ j h1 h2
  rw [hs]
  by_cases hj : j ≤ self.stateAt E self.solveMoves.length
  · exact Or.inr ⟨hlink j h1 h2 hj h8, fun _ h9 =>
      absurd ((mem_statesBelow _ _ _).mp h9).2 (Nat.lt_irrefl _)⟩
  · exact Or.inl ((mem_statesBelow _ _ _).mpr ⟨Nat.lt_of_not_le hj, h2⟩)

/-- The cross phase of the result of `GenerateDetailedSplitTimes` starts at zero. -/
theorem GenerateDetailedSplitTimes_cross (E : Cube3x3Engine) (self : Solve)
    (result : DetailedSplitTimes) (lastMove : CubeMove) :
    (self.GenerateDetailedSplitTimes E result lastMove).cross.phaseStartTime = 0 ∧
    (self.GenerateDetailedSplitTimes E result lastMove).cross.firstMoveTime = 0 := by
  unfold Solve.GenerateDetailedSplitTimes
  simp only
  exact ⟨trivial, trivial⟩

/-- The links of the phases written out member by member: all of them hold on every scramble
and move stream, the last one when the cube is not solved before the last move is made. -/
theorem GenerateDetailedSplitTimes_members (E : Cube3x3Engine) (self : Solve)
    (result : DetailedSplitTimes) (lastMove : CubeMove) :
    (self.GenerateDetailedSplitTimes E result lastMove).f2lPair0.phaseStartTime
      = (self.GenerateDetailedSplitTimes E result lastMove).cross.finishTime ∧
    (self.GenerateDetailedSplitTimes E result lastMove).f2lPair1.phaseStartTime
      = (self.GenerateDetailedSplitTimes E result lastMove).f2lPair0.finishTime ∧
    (self.GenerateDetailedSplitTimes E result lastMove).f2lPair2.phaseStartTime
      = (self.GenerateDetailedSplitTimes E result lastMove).f2lPair1.finishTime ∧
    (self.GenerateDetailedSplitTimes E result lastMove).f2lPair3.phaseStartTime
      = (self.GenerateDetailedSplitTimes E result lastMove).f2lPair2.finishTime ∧
    (self.GenerateDetailedSplitTimes E result lastMove).ollCross.phaseStartTime
      = (self.GenerateDetailedSplitTimes E result lastMove).f2lPair3.finishTime ∧
    (self.GenerateDetailedSplitTimes E result lastMove).ollFinish.phaseStartTime
      = (self.GenerateDetailedSplitTimes E result lastMove).ollCross.finishTime ∧
    (self.GenerateDetailedSplitTimes E result lastMove).pllCorner.phaseStartTime
      = (self.GenerateDetailedSplitTimes E result lastMove).ollFinish.finishTime ∧
    (self.stateAt E self.solveMoves.length ≠ SOLVESTATE_SOLVED →
      (self.GenerateDetailedSplitTimes E result lastMove).pllFinish.phaseStartTime
        = (self.GenerateDetailedSplitTimes E result lastMove).pllCorner.finishTime) :=
  ⟨GenerateDetailedSplitTimes_linked E self result lastMove SOLVESTATE_CROSS
      (by decide) (by decide) (fun h => absurd h (by decide)),
    GenerateDetailedSplitTimes_linked E self result lastMove SOLVESTATE_F2L_FIRST_PAIR
      (by decide) (by decide) (fun h => absurd h (by decide)),
    GenerateDetailedSplitTimes_linked E self result lastMove SOLVESTATE_F2L_SECOND_PAIR
      (by decide) (by decide) (fun h => absurd h (by decide)),
    GenerateDetailedSplitTimes_linked E self result lastMove SOLVESTATE_F2L_THIRD_PAIR
      (by decide) (by decide) (fun h => absurd h (by decide)),
    GenerateDetailedSplitTimes_linked E self result lastMove SOLVESTATE_F2L_COMPLETE
      (by decide) (by decide) (fun h => absurd h (by decide)),
    GenerateDetailedSplitTimes_linked E self result lastMove SOLVESTATE_OLL_CROSS
      (by decide) (by decide) (fun h => absurd h (by decide)),
    GenerateDetailedSplitTimes_linked E self result lastMove SOLVESTATE_OLL_COMPLETE
      (by decide) (by decide) (fun h => absurd h (by decide)),
    fun h => GenerateDetailedSplitTimes_linked E self result lastMove SOLVESTATE_PLL_CORNERS
      (by decide) (by decide) (fun _ => h)⟩

set_option maxRecDepth 100000 in
/-- C10 claims that in the result of `Solve::GenerateDetailedSplitTimes` the `phaseStartTime` of
each phase after the cross equals the `finishTime` of the phase before it, in particular
`pllFinish.phaseStartTime = pllCorner.finishTime`.  The code breaks this on the scramble `D`
with the moves `D'` at 100 ms and `D` at 200 ms: the scrambled cube is already in
`SOLVESTATE_PLL_CORNERS`, so `pllCorner.finishTime` is 0; the cube is solved by the first move,
and the check before the second move runs the loop body for `SOLVESTATE_SOLVED`, whose
`GetSplitForSolveState(j + 1)` is again `pllFinish`, so `pllFinish.phaseStartTime` becomes
100. -/
theorem GenerateDetailedSplitTimes_solved_before_last_move :
    Solve.TransitionSolveState stickerEngine
      (stickerEngine.Apply stickerEngine.solved [MOVE_D]) SOLVESTATE_INITIAL
      = SOLVESTATE_PLL_CORNERS ∧
    stickerEngine.IsSolved (stickerEngine.Apply stickerEngine.solved [MOVE_D, MOVE_Dp])
      = true ∧
    (Solve.GenerateDetailedSplitTimes stickerEngine
      (sampleReplay [MOVE_D] [⟨MOVE_Dp, 100⟩, ⟨MOVE_D, 200⟩]) sampleSplitTimes
      MOVE_U).pllCorner.finishTime = 0 ∧
    (Solve.GenerateDetailedSplitTimes stickerEngine
      (sampleReplay [MOVE_D] [⟨MOVE_Dp, 100⟩, ⟨MOVE_D, 200⟩]) sampleSplitTimes
      MOVE_U).pllFinish.phaseStartTime = 100 := by
  decide

/-! ### The move counts of the detailed replay -/

theorem phase_of_ne_solved {s : SolveState} (h : s ≠ SOLVESTATE_SOLVED) :
    s.phase = some (Solve.GetSplitForSolveState (s.toNat + 1)) := by
  cases s <;> first | rfl | exact absurd rfl h

theorem split_succ_eq_of_lt {u j : SolveState} (huj : u < j)
    (h : Solve.GetSplitForSolveState (u.toNat + 1) = Solve.GetSplitForSolveState (j.toNat + 1)) :
    u = SOLVESTATE_PLL_CORNERS ∧ j = SOLVESTATE_SOLVED := by
  cases u <;> cases j <;>
    first
      | exact ⟨rfl, rfl⟩
      | exact absurd huj (by decide)
      | exact absurd h (by decide)

theorem cross_ne_split_succ {j : SolveState} (hj : SOLVESTATE_INITIAL < j) :
    SplitRef.cross ≠ Solve.GetSplitForSolveState (j.toNat + 1) := by
  cases j <;> first | exact absurd hj (by decide) | decide

theorem finishPhase_counts (timestamp : Nat) (acc : DetailedSplitTimes × SolveState)
    (j : SolveState) (p : SplitRef) :
    ((Solve.finishPhase timestamp acc j).1.get p).moveCount
      = (if p = Solve.GetSplitForSolveState (j.toNat + 1) then 0
        else (acc.1.get p).moveCount) ∧
    ((Solve.finishPhase timestamp acc j).1.get p).firstMoveTime
      = (if p = Solve.GetSplitForSolveState (j.toNat + 1) then timestamp
        else (acc.1.get p).firstMoveTime) := by
  simp only [Solve.finishPhase, DetailedSplitTimes.get_set]
  generalize Solve.GetSplitForSolveState (j.toNat + 1) = b
  generalize Solve.GetSplitForSolveState j.toNat = a
  by_cases h1 : p = b
  · simp [h1]
  · by_cases h2 : p = a
    · subst h2
      simp [h1, Ne.symm h1]
    · simp [h1, h2]

theorem exists_mem_append_singleton {α : Type} (l : List α) (x : α) (P : α → Prop) :
    (∃ j ∈ l ++ [x], P j) ↔ (∃ j ∈ l, P j) ∨ P x := by
  constructor
  · rintro ⟨j, hj, hp⟩
    rcases List.mem_append.mp hj with h | h
    · exact Or.inl ⟨j, h, hp⟩
    · rw [List.mem_singleton.mp h] at hp
      exact Or.inr hp
  · rintro (⟨j, hj, hp⟩ | hp)
    · exact ⟨j, List.mem_append_left _ hj, hp⟩
    · exact ⟨x, by simp, hp⟩

/-- A run of the phase-finishing loop over the states `l`: the phases that start get the move
count 0 and `timestamp` as the time of their first move; the other phases keep both. -/
theorem finishPhases_counts (timestamp : Nat) (l : List SolveState)
    (acc : DetailedSplitTimes × SolveState) (p : SplitRef) :
    (((l.foldl (Solve.finishPhase timestamp) acc).1.get p).moveCount
      = if ∃ j ∈ l, p = Solve.GetSplitForSolveState (j.toNat + 1) then 0
        else (acc.1.get p).moveCount) ∧
    (((l.foldl (Solve.finishPhase timestamp) acc).1.get p).firstMoveTime
      = if ∃ j ∈ l, p = Solve.GetSplitForSolveState (j.toNat + 1) then timestamp
        else (acc.1.get p).firstMoveTime) := by
  induction l using List.reverseRecOn with
  | nil => simp
  | append_singleton l x ih =>
    rw [List.foldl_append, List.foldl_cons, List.foldl_nil]
    obtain ⟨h1, h2⟩ := finishPhase_counts timestamp (l.foldl (Solve.finishPhase timestamp) acc) x p
    rw [h1, h2, ih.1, ih.2]
    simp only [exists_mem_append_singleton]
    by_cases hx : p = Solve.GetSplitForSolveState (x.toNat + 1)
    · simp [hx]
    · simp [hx]

/-- The move-count update of a pass. -/
theorem countMove_counts (r : DetailedSplitTimes) (split p : SplitRef) (timestamp : Nat)
    (same : Bool) :
    let r' :=
      if (r.get split).moveCount = 0 then
        let r₁ := r.set split { r.get split with moveCount := (r.get split).moveCount + 1 }
        r₁.set split { r₁.get split with firstMoveTime := timestamp }
      else if !same then
        r.set split { r.get split with moveCount := (r.get split).moveCount + 1 }
      else r
    (r'.get p).moveCount
        = (if p = split then
            (if (r.get split).moveCount = 0 then 1
              else if !same then (r.get split).moveCount + 1 else (r.get split).moveCount)
          else (r.get p).moveCount) ∧
      (r'.get p).firstMoveTime
        = (if p = split ∧ (r.get split).moveCount = 0 then timestamp
          else (r.get p).firstMoveTime) := by
  intro r'
  simp only [r']
  by_cases hp : p = split
  · subst hp
    by_cases h0 : (r.get p).moveCount = 0
    · simp [h0, DetailedSplitTimes.get_set]
    · by_cases hs : same = true
      · simp [h0, hs]
      · simp [h0, hs, DetailedSplitTimes.get_set]
  · by_cases h0 : (r.get split).moveCount = 0
    · simp [h0, hp, DetailedSplitTimes.get_set]
    · by_cases hs : same = true
      · simp [h0, hs, hp]
      · simp [h0, hs, hp, DetailedSplitTimes.get_set]

/-- One pass of the loop of `GenerateDetailedSplitTimes` over the moves: the move counts and
the times of the first moves. -/
theorem detailedBody_counts (E : Cube3x3Engine) (l : DetailedLoop E) (i : TimedCubeMove) :
    (Solve.detailedBody E l i).lastMove = i.move ∧
    ∃ r : DetailedSplitTimes,
      r = ((statesUpTo l.state (Solve.TransitionSolveState E l.cube l.state)).foldl
        (Solve.finishPhase l.timestamp) (l.result, l.state)).1 ∧
      ∀ p,
        ((Solve.detailedBody E l i).result.get p).moveCount
          = (if p = Solve.GetSplitForSolveState
                ((Solve.TransitionSolveState E l.cube l.state).toNat + 1) then
              (if (r.get p).moveCount = 0 then 1
                else if !CubeMoveSequence.IsSameOuterBlock l.lastMove i.move then
                  (r.get p).moveCount + 1
                else (r.get p).moveCount)
            else (r.get p).moveCount) ∧
        ((Solve.detailedBody E l i).result.get p).firstMoveTime
          = (if p = Solve.GetSplitForSolveState
                ((Solve.TransitionSolveState E l.cube l.state).toNat + 1) ∧
                (r.get p).moveCount = 0 then i.timestamp
            else (r.get p).firstMoveTime) ∧
        ((Solve.detailedBody E l i).result.get p).phaseStartTime = (r.get p).phaseStartTime := by
  have hstate := (finishPhases_times l.timestamp
    (statesUpTo l.state (Solve.TransitionSolveState E l.cube l.state)) (l.result, l.state)
    SplitRef.cross).2.2
  rw [statesUpTo_getLast _ _ (le_TransitionSolveState E l.cube l.state)] at hstate
  rcases hf : (statesUpTo l.state (Solve.TransitionSolveState E l.cube l.state)).foldl
    (Solve.finishPhase l.timestamp) (l.result, l.state) with ⟨r, s⟩
  rw [hf] at hstate
  simp only at hstate
  simp only [Solve.detailedBody, hf]
  refine ⟨trivial, r, rfl, fun p => ?_⟩
  rw [← hstate]
  have h2 := countMove_times r (Solve.GetSplitForSolveState (s.toNat + 1)) p i.timestamp
    (CubeMoveSequence.IsSameOuterBlock l.lastMove i.move)
  have h1 := countMove_counts r (Solve.GetSplitForSolveState (s.toNat + 1)) p i.timestamp
    (CubeMoveSequence.IsSameOuterBlock l.lastMove i.move)
  simp only at h1 h2
  refine ⟨?_, ?_, h2.2⟩
  · rw [h1.1]
    by_cases hp : p = Solve.GetSplitForSolveState (s.toNat + 1)
    · rw [if_pos hp, if_pos hp, ← hp]
    · rw [if_neg hp, if_neg hp]
  · rw [h1.2]
    by_cases hp : p = Solve.GetSplitForSolveState (s.toNat + 1)
    · rw [← hp]
    · simp [hp]

theorem movesCountedUpTo_succ (E : Cube3x3Engine) (self : Solve) (k : Nat) (p : SplitRef) :
    self.movesCountedUpTo SolveState.phase E (k + 1) p
      = self.movesCountedUpTo SolveState.phase E k p +
        (if self.phaseAt SolveState.phase E k = some p ∧
            self.moveCounts SolveState.phase E k = true then 1 else 0) := by
  unfold Solve.movesCountedUpTo
  rw [List.range_succ, List.filter_append, List.length_append]
  congr 1
  by_cases h : self.phaseAt SolveState.phase E k = some p ∧
      self.moveCounts SolveState.phase E k = true
  · simp [List.filter, h.1, h.2]
  · rw [if_neg h]
    have : (decide (self.phaseAt SolveState.phase E k = some p) &&
        self.moveCounts SolveState.phase E k) = false := by
      simpa using h
    simp [List.filter, this]

theorem movesCountedUpTo_eq_zero (E : Cube3x3Engine) (self : Solve) (k : Nat) (p : SplitRef)
    (h : ∀ m, m < k → self.phaseAt SolveState.phase E m ≠ some p) :
    self.movesCountedUpTo SolveState.phase E k p = 0 := by
  unfold Solve.movesCountedUpTo
  rw [List.length_eq_zero, List.filter_eq_nil_iff]
  intro m hm
  simp [h m (List.mem_range.mp hm)]

theorem moveCounts_of_first (E : Cube3x3Engine) (self : Solve) (k : Nat)
    (h : ∀ m, m < k → self.phaseAt SolveState.phase E m ≠ self.phaseAt SolveState.phase E k) :
    self.moveCounts SolveState.phase E k = true := by
  unfold Solve.moveCounts
  rw [Bool.or_eq_true]
  left
  rw [List.all_eq_true]
  intro m hm
  simpa using h m (List.mem_range.mp hm)

theorem moveCounts_of_not_first (E : Cube3x3Engine) (self : Solve) (k : Nat)
    (last i : TimedCubeMove)
    (hlast : self.solveMoves.get? (k - 1) = some last) (hi : self.solveMoves.get? k = some i)
    (h : ∃ m, m < k ∧ self.phaseAt SolveState.phase E m = self.phaseAt SolveState.phase E k) :
    self.moveCounts SolveState.phase E k
      = !CubeMoveSequence.IsSameOuterBlock last.move i.move := by
  unfold Solve.moveCounts
  have : ((List.range k).all fun j =>
      decide (self.phaseAt SolveState.phase E j ≠ self.phaseAt SolveState.phase E k)) = false := by
    rw [← Bool.not_eq_true, List.all_eq_true]
    intro hall
    obtain ⟨m, hm, he⟩ := h
    have := hall m (List.mem_range.mpr hm)
    simp [he] at this
  rw [this, hlast, hi]
  rfl

/-- A phase in which a move is made has at least one counted move: its first. -/
theorem movesCountedUpTo_pos (E : Cube3x3Engine) (self : Solve) (k : Nat) (p : SplitRef)
    (h : ∃ m, m < k ∧ self.phaseAt SolveState.phase E m = some p) :
    0 < self.movesCountedUpTo SolveState.phase E k p := by
  classical
  have hfind := Nat.find_spec h
  have hmin := fun m (hm : m < Nat.find h) => Nat.find_min h hm
  unfold Solve.movesCountedUpTo
  rw [List.length_pos]
  intro hnil
  rw [List.filter_eq_nil_iff] at hnil
  apply hnil (Nat.find h) (List.mem_range.mpr hfind.1)
  rw [Bool.and_eq_true]
  refine ⟨by simpa using hfind.2, moveCounts_of_first E self _ ?_⟩
  intro m hm he
  exact hmin m hm ⟨Nat.lt_trans hm hfind.1, by rw [he, hfind.2]⟩

theorem phaseAt_ne_of_state_lt (E : Cube3x3Engine) (self : Solve) (k m : Nat) (hm : m < k)
    (j : SolveState) (hj : self.stateAt E k < j)
    (h : self.phaseAt SolveState.phase E m = some (Solve.GetSplitForSolveState (j.toNat + 1))) :
    j = SOLVESTATE_SOLVED := by
  have hle : self.stateAt E (m + 1) ≤ self.stateAt E k := stateAt_mono E self (by omega)
  have hlt : self.stateAt E (m + 1) < j := Nat.lt_of_le_of_lt hle hj
  have hns : self.stateAt E (m + 1) ≠ SOLVESTATE_SOLVED := by
    intro e
    rw [e] at hlt
    exact absurd hlt (Nat.not_lt_of_le (SolveState.toNat_le_nine j))
  unfold Solve.phaseAt at h
  rw [phase_of_ne_solved hns] at h
  exact (split_succ_eq_of_lt hlt (Option.some.inj h)).2

/-- The locals of `GenerateDetailedSplitTimes` after `k` passes: `lastMove` is the move made
last, and every phase begun so far has the move count of the specification; a phase other than
the cross that has no move yet has its first-move time at its start time.  For the last phase
this holds as long as `SOLVESTATE_SOLVED` has not been reached. -/
theorem detailedAfter_counts (E : Cube3x3Engine) (self : Solve) (result : DetailedSplitTimes)
    (lastMove : CubeMove) (k : Nat) (hk : k ≤ self.solveMoves.length) :
    (∀ x, 0 < k → self.solveMoves.get? (k - 1) = some x →
      (Solve.detailedAfter E self result lastMove k).lastMove = x.move) ∧
    ∀ p,
      (p = SplitRef.cross ∨ ∃ j, SOLVESTATE_INITIAL < j ∧ j ≤ self.stateAt E k ∧
        p = Solve.GetSplitForSolveState (j.toNat + 1)) →
      (p = SplitRef.pllFinish → self.stateAt E k ≠ SOLVESTATE_SOLVED) →
      ((Solve.detailedAfter E self result lastMove k).result.get p).moveCount
        = self.movesCountedUpTo SolveState.phase E k p ∧
      (p ≠ SplitRef.cross →
        ((Solve.detailedAfter E self result lastMove k).result.get p).moveCount = 0 →
        ((Solve.detailedAfter E self result lastMove k).result.get p).firstMoveTime
          = ((Solve.detailedAfter E self result lastMove k).result.get p).phaseStartTime) := by
  induction k with
  | zero =>
    refine ⟨fun x h => absurd h (by decide), fun p hp _ => ?_⟩
    rcases hp with rfl | ⟨j, h1, h2, -⟩
    · exact ⟨rfl, fun h => absurd rfl h⟩
    · exact absurd h2 (Nat.not_le_of_lt h1)
  | succ k ih =>
    have hlt : k < self.solveMoves.length := by omega
    obtain ⟨ihl, ihc⟩ := ih (by omega)
    obtain ⟨hc, hs, ht, -⟩ := detailedAfter_spec E self result lastMove k (by omega)
    obtain ⟨bl, r, hr, hb⟩ := detailedBody_counts E (Solve.detailedAfter E self result lastMove k)
      (self.solveMoves.get ⟨k, hlt⟩)
    have hget : self.solveMoves.get? k = some (self.solveMoves.get ⟨k, hlt⟩) :=
      List.get?_eq_get hlt
    rw [detailedAfter_succ E self result lastMove k hlt]
    generalize Solve.detailedAfter E self result lastMove k = D at *
    have hs' : Solve.TransitionSolveState E D.cube D.state = self.stateAt E (k + 1) := by
      rw [hc, hs]; rfl
    rw [hs'] at hb hr
    rw [hs] at hr
    have hmono : self.stateAt E k ≤ self.stateAt E (k + 1) := stateAt_mono E self (Nat.le_succ k)
    refine ⟨fun x _ hx => ?_, fun p hstart hpll => ?_⟩
    · rw [Nat.add_sub_cancel, hget] at hx
      rw [bl, ← Option.some.inj hx]
    obtain ⟨hb1, hb2, hb3⟩ := hb p
    have hr1 := (finishPhases_counts D.timestamp
      (statesUpTo (self.stateAt E k) (self.stateAt E (k + 1))) (D.result, self.stateAt E k) p)
    have hr2 := (finishPhases_times D.timestamp
      (statesUpTo (self.stateAt E k) (self.stateAt E (k + 1))) (D.result, self.stateAt E k) p).2.1
    rw [← hr] at hr1 hr2
    -- the phase of the move about to be made
    have hphase : self.phaseAt SolveState.phase E k = some p ↔
        p = Solve.GetSplitForSolveState ((self.stateAt E (k + 1)).toNat + 1) := by
      unfold Solve.phaseAt
      by_cases hsol : self.stateAt E (k + 1) = SOLVESTATE_SOLVED
      · rw [hsol]
        constructor
        · intro h; exact Option.noConfusion h
        · intro h
          exact absurd hsol (hpll h)
      · rw [phase_of_ne_solved hsol]
        constructor
        · intro h; exact (Option.some.inj h).symm
        · intro h; rw [h]
    by_cases hreset : ∃ j ∈ statesUpTo (self.stateAt E k) (self.stateAt E (k + 1)),
        p = Solve.GetSplitForSolveState (j.toNat + 1)
    · -- the phase starts in this pass
      rw [if_pos hreset] at hr2
      rw [if_pos hreset, if_pos hreset] at hr1
      have hnone : ∀ m, m < k → self.phaseAt SolveState.phase E m ≠ some p := by
        intro m hm hph
        obtain ⟨j, hj, hpj⟩ := hreset
        rw [mem_statesUpTo] at hj
        have hj9 := phaseAt_ne_of_state_lt E self k m hm j hj.1 (hpj ▸ hph)
        rw [hj9] at hj hpj
        exact hpll hpj (SolveState.toNat_injective
          (Nat.le_antisymm (SolveState.toNat_le_nine _) hj.2))
      have hzero := movesCountedUpTo_eq_zero E self k p hnone
      rw [movesCountedUpTo_succ, hzero, hb1, hb2, hb3, hr1.1, hr1.2, hr2]
      by_cases hpP : p = Solve.GetSplitForSolveState ((self.stateAt E (k + 1)).toNat + 1)
      · have hcounts := moveCounts_of_first E self k (fun m hm he =>
          hnone m hm (he.trans (hphase.mpr hpP)))
        rw [if_pos hpP, if_pos rfl, if_pos ⟨hphase.mpr hpP, hcounts⟩]
        exact ⟨rfl, fun _ h => absurd h (by decide)⟩
      · rw [if_neg hpP, if_neg (fun h => hpP (hphase.mp h.1)), if_neg (fun h => hpP h.1)]
        exact ⟨rfl, fun _ _ => rfl⟩
    · -- the phase was begun earlier
      rw [if_neg hreset] at hr2
      rw [if_neg hreset, if_neg hreset] at hr1
      have hstart0 : p = SplitRef.cross ∨ ∃ j, SOLVESTATE_INITIAL < j ∧ j ≤ self.stateAt E k ∧
          p = Solve.GetSplitForSolveState (j.toNat + 1) := by
        rcases hstart with h | ⟨j, h1, h2, h3⟩
        · exact Or.inl h
        · refine Or.inr ⟨j, h1, ?_, h3⟩
          by_contra hgt
          exact hreset ⟨j, (mem_statesUpTo _ _ _).mpr ⟨Nat.lt_of_not_le hgt, h2⟩, h3⟩
      have hpll0 : p = SplitRef.pllFinish → self.stateAt E k ≠ SOLVESTATE_SOLVED := by
        intro hp h9
        rw [h9] at hmono
        exact hpll hp (SolveState.toNat_injective
          (Nat.le_antisymm (SolveState.toNat_le_nine _) hmono))
      obtain ⟨ih1, ih2⟩ := ihc p hstart0 hpll0
      rw [movesCountedUpTo_succ, hb1, hb2, hb3, hr1.1, hr1.2, hr2]
      by_cases hpP : p = Solve.GetSplitForSolveState ((self.stateAt E (k + 1)).toNat + 1)
      · rw [if_pos hpP]
        by_cases hc0 : (D.result.get p).moveCount = 0
        · have hnone : ∀ m, m < k → self.phaseAt SolveState.phase E m ≠ some p := by
            intro m hm hph
            have := movesCountedUpTo_pos E self k p ⟨m, hm, hph⟩
            rw [← ih1, hc0] at this
            exact absurd this (by decide)
          have hcounts := moveCounts_of_first E self k (fun m hm he =>
            hnone m hm (he.trans (hphase.mpr hpP)))
          rw [if_pos hc0, if_pos ⟨hphase.mpr hpP, hcounts⟩, ← ih1, hc0]
          exact ⟨rfl, fun _ h => absurd h (by decide)⟩
        · have hex : ∃ m, m < k ∧ self.phaseAt SolveState.phase E m = some p := by
            by_contra hno
            apply hc0
            rw [ih1]
            apply movesCountedUpTo_eq_zero
            intro m hm hph
            exact hno ⟨m, hm, hph⟩
          have hk0 : 0 < k := by
            obtain ⟨m, hm, -⟩ := hex
            omega
          have hlast : self.solveMoves.get? (k - 1)
              = some (self.solveMoves.get ⟨k - 1, by omega⟩) := List.get?_eq_get (by omega)
          have hlm := ihl _ hk0 hlast
          have hcounts := moveCounts_of_not_first E self k _ _ hlast hget
            (by
              obtain ⟨m, hm, hph⟩ := hex
              exact ⟨m, hm, hph.trans (hphase.mpr hpP).symm⟩)
          rw [if_neg hc0, hlm]
          by_cases hsame : CubeMoveSequence.IsSameOuterBlock
              (self.solveMoves.get ⟨k - 1, by omega⟩).move (self.solveMoves.get ⟨k, hlt⟩).move
                = true
          · rw [hsame] at hcounts ⊢
            simp only [Bool.not_true, Bool.false_eq_true, if_false]
            rw [if_neg (by rw [hcounts]; simp), ih1]
            exact ⟨rfl, fun _ h => absurd (ih1.trans h) hc0⟩
          · have hsame' : CubeMoveSequence.IsSameOuterBlock
                (self.solveMoves.get ⟨k - 1, by omega⟩).move
                (self.solveMoves.get ⟨k, hlt⟩).move = false := by simpa using hsame
            rw [hsame'] at hcounts ⊢
            simp only [Bool.not_false, if_true]
            rw [if_pos ⟨hphase.mpr hpP, hcounts⟩, ih1]
            exact ⟨rfl, fun _ h => absurd h (by omega)⟩
      · rw [if_neg hpP, if_neg (fun h => hpP (hphase.mp h.1)), if_neg (fun h => hpP h.1)]
        exact ⟨ih1, ih2⟩

theorem exists_state_of_ne_cross (p : SplitRef) (hp : p ≠ SplitRef.cross) :
    ∃ j, SOLVESTATE_INITIAL < j ∧ j < SOLVESTATE_SOLVED ∧
      p = Solve.GetSplitForSolveState (j.toNat + 1) := by
  cases p
  · exact absurd rfl hp
  · exact ⟨SOLVESTATE_CROSS, by decide, by decide, rfl⟩
  · exact ⟨SOLVESTATE_F2L_FIRST_PAIR, by decide, by decide, rfl⟩
  · exact ⟨SOLVESTATE_F2L_SECOND_PAIR, by decide, by decide, rfl⟩
  · exact ⟨SOLVESTATE_F2L_THIRD_PAIR, by decide, by decide, rfl⟩
  · exact ⟨SOLVESTATE_F2L_COMPLETE, by decide, by decide, rfl⟩
  · exact ⟨SOLVESTATE_OLL_CROSS, by decide, by decide, rfl⟩
  · exact ⟨SOLVESTATE_OLL_COMPLETE, by decide, by decide, rfl⟩
  · exact ⟨SOLVESTATE_PLL_CORNERS, by decide, by decide, rfl⟩

/-- The last assignments of `GenerateDetailedSplitTimes` leave the move counts alone and set
the first-move time of the cross to 0. -/
theorem GenerateDetailedSplitTimes_counts_eq (E : Cube3x3Engine) (self : Solve)
    (result : DetailedSplitTimes) (lastMove : CubeMove) (p : SplitRef) :
    (((self.GenerateDetailedSplitTimes E result lastMove).get p).moveCount
      = (((statesBelow (Solve.detailedAfter E self result lastMove
            self.solveMoves.length).state SOLVESTATE_SOLVED).foldl
          (Solve.finishPhase (Solve.detailedAfter E self result lastMove
            self.solveMoves.length).timestamp)
          ((Solve.detailedAfter E self result lastMove self.solveMoves.length).result,
            (Solve.detailedAfter E self result lastMove self.solveMoves.length).state)).1.get
            p).moveCount) ∧
    (((self.GenerateDetailedSplitTimes E result lastMove).get p).firstMoveTime
      = if p = SplitRef.cross then 0
        else (((statesBelow (Solve.detailedAfter E self result lastMove
              self.solveMoves.length).state SOLVESTATE_SOLVED).foldl
            (Solve.finishPhase (Solve.detailedAfter E self result lastMove
              self.solveMoves.length).timestamp)
            ((Solve.detailedAfter E self result lastMove self.solveMoves.length).result,
              (Solve.detailedAfter E self result lastMove self.solveMoves.length).state)).1.get
              p).firstMoveTime) := by
  unfold Solve.GenerateDetailedSplitTimes Solve.detailedAfter
  rw [List.take_length]
  simp only
  generalize List.foldl (Solve.detailedBody E) _ self.solveMoves = l
  rcases List.foldl (Solve.finishPhase l.timestamp) (l.result, l.state)
    (statesBelow l.state SOLVESTATE_SOLVED) with ⟨r, s⟩
  cases p <;> exact ⟨rfl, rfl⟩

/-- The move counts of `GenerateDetailedSplitTimes` are those of the specification on every
scramble and every stream of moves for all phases but the last, and for the last phase too
when the cube is not found solved before the last move: the count of a phase is the number of
moves made during the phase that are the first of the phase or not in the outer block of the
move before them, and a phase without moves has the count 0 and its first-move time at its
start time. -/
theorem GenerateDetailedSplitTimes_moveCount (E : Cube3x3Engine) (self : Solve)
    (result : DetailedSplitTimes) (lastMove : CubeMove) (p : SplitRef)
    (h : p = SplitRef.pllFinish →
      self.stateAt E self.solveMoves.length ≠ SOLVESTATE_SOLVED) :
    ((self.GenerateDetailedSplitTimes E result lastMove).get p).moveCount
        = self.movesCounted SolveState.phase E p ∧
      ((∀ k, k < self.solveMoves.length → self.phaseAt SolveState.phase E k ≠ some p) →
        ((self.GenerateDetailedSplitTimes E result lastMove).get p).moveCount = 0 ∧
        ((self.GenerateDetailedSplitTimes E result lastMove).get p).firstMoveTime
          = ((self.GenerateDetailedSplitTimes E result lastMove).get p).phaseStartTime) := by
  have hcount : self.movesCounted SolveState.phase E p
      = self.movesCountedUpTo SolveState.phase E self.solveMoves.length p := rfl
  obtain ⟨e1, e2⟩ := GenerateDetailedSplitTimes_counts_eq E self result lastMove p
  have e3 := (GenerateDetailedSplitTimes_eq E self result lastMove p).1
  obtain ⟨-, hs, -, -⟩ :=
    detailedAfter_spec E self result lastMove self.solveMoves.length (Nat.le_refl _)
  obtain ⟨-, hinv⟩ :=
    detailedAfter_counts E self result lastMove self.solveMoves.length (Nat.le_refl _)
  generalize Solve.detailedAfter E self result lastMove self.solveMoves.length = D at *
  rw [hs] at e1 e2 e3
  have t1 := finishPhases_counts D.timestamp
    (statesBelow (self.stateAt E self.solveMoves.length) SOLVESTATE_SOLVED)
    (D.result, self.stateAt E self.solveMoves.length) p
  have t2 := (finishPhases_times D.timestamp
    (statesBelow (self.stateAt E self.solveMoves.length) SOLVESTATE_SOLVED)
    (D.result, self.stateAt E self.solveMoves.length) p).2.1
  rw [e1, e2, e3, t1.1, t1.2, t2, hcount]
  by_cases hp : p = SplitRef.cross
  · subst hp
    have hnot : ¬∃ j ∈ statesBelow (self.stateAt E self.solveMoves.length) SOLVESTATE_SOLVED,
        SplitRef.cross = Solve.GetSplitForSolveState (j.toNat + 1) := by
      rintro ⟨j, hj, hpj⟩
      exact cross_ne_split_succ (Nat.lt_of_le_of_lt (Nat.zero_le _) ((mem_statesBelow _ _ _).mp hj).1) hpj
    obtain ⟨i1, -⟩ := hinv SplitRef.cross (Or.inl rfl) h
    rw [if_neg hnot, i1]
    refine ⟨rfl, fun hno => ⟨movesCountedUpTo_eq_zero E self _ _ hno, ?_⟩⟩
    rw [if_pos rfl, if_pos rfl]
  · obtain ⟨j, hj1, hj2, hpj⟩ := exists_state_of_ne_cross p hp
    rw [if_neg hp, if_neg hp]
    by_cases hjs : j ≤ self.stateAt E self.solveMoves.length
    · have hnot : ¬∃ j' ∈ statesBelow (self.stateAt E self.solveMoves.length)
          SOLVESTATE_SOLVED, p = Solve.GetSplitForSolveState (j'.toNat + 1) := by
        rintro ⟨j', hj', hpj'⟩
        rw [mem_statesBelow] at hj'
        have := (split_succ_eq_of_lt (Nat.lt_of_le_of_lt hjs hj'.1) (hpj ▸ hpj')).2
        rw [this] at hj'
        exact absurd hj'.2 (by decide)
      obtain ⟨i1, i2⟩ := hinv p (Or.inr ⟨j, hj1, hjs, hpj⟩) h
      rw [if_neg hnot, if_neg hnot, if_neg hnot, i1]
      refine ⟨rfl, fun hno => ?_⟩
      have hz := movesCountedUpTo_eq_zero E self _ _ hno
      exact ⟨hz, i2 hp (i1.trans hz)⟩
    · have hyes : ∃ j' ∈ statesBelow (self.stateAt E self.solveMoves.length)
          SOLVESTATE_SOLVED, p = Solve.GetSplitForSolveState (j'.toNat + 1) :=
        ⟨j, (mem_statesBelow _ _ _).mpr ⟨Nat.lt_of_not_le hjs, hj2⟩, hpj⟩
      have hz : self.movesCountedUpTo SolveState.phase E self.solveMoves.length p = 0 := by
        apply movesCountedUpTo_eq_zero
        intro m hm hph
        have := phaseAt_ne_of_state_lt E self _ m hm j (Nat.lt_of_not_le hjs) (hpj ▸ hph)
        rw [this] at hj2
        exact absurd hj2 (by decide)
      rw [if_pos hyes, if_pos hyes, if_pos hyes, hz]
      exact ⟨rfl, fun _ => ⟨rfl, rfl⟩⟩

set_option maxRecDepth 100000 in
/-- C11 fails on the code when the cube is solved before the last move.  For the scramble
`D` and the moves `D'` at 100 ms, `U` at 200 ms and `R` at 300 ms the last phase has one counted
move, `D'`, and two more counted moves follow after the cube is solved; the count that
`Solve::GenerateDetailedSplitTimes` reports for the last phase is 2, which is neither the 1 of
the moves made during the phase nor the 3 of all the moves.  (When the cube is not found solved
before the last move the counts are those of the claim: `GenerateDetailedSplitTimes_moveCount`.) -/
theorem GenerateDetailedSplitTimes_moveCount_after_solved :
    ((sampleReplay [MOVE_D] [⟨MOVE_Dp, 100⟩, ⟨MOVE_U, 200⟩, ⟨MOVE_R, 300⟩]).GenerateDetailedSplitTimes
        stickerEngine sampleSplitTimes MOVE_U).pllFinish.moveCount = 2 ∧
      (sampleReplay [MOVE_D] [⟨MOVE_Dp, 100⟩, ⟨MOVE_U, 200⟩, ⟨MOVE_R, 300⟩]).movesCounted
        SolveState.phase stickerEngine .pllFinish = 1 ∧
      (sampleReplay [MOVE_D] [⟨MOVE_Dp, 100⟩, ⟨MOVE_U, 200⟩, ⟨MOVE_R, 300⟩]).movesCounted
        SolveState.phaseOrLast stickerEngine .pllFinish = 3 := by
  decide

/-- C12: for every face view `Solve::GetF2LPairCount` returns one of 0, 1, 2, 3, 4, and
`Solve::IsF2LSolved` returns true if and only if `GetF2LPairCount` returns 4. -/
theorem GetF2LPairCount_range (faces : Cube3x3Faces) :
    Solve.GetF2LPairCount faces ∈ [0, 1, 2, 3, 4] ∧
      (Solve.IsF2LSolved faces = true ↔ Solve.GetF2LPairCount faces = 4) := by
  refine ⟨?_, ?_⟩
  · unfold Solve.GetF2LPairCount
    split_ifs <;> simp
  · unfold Solve.IsF2LSolved
    exact beq_iff_eq

theorem centre_quarterTurn (turned face : CubeFace) (cube : Cube3x3Faces) :
    (quarterTurn turned cube).GetColor face 1 1 = cube.GetColor face 1 1 := by
  cases turned <;> cases face <;> rfl

theorem centre_Move (cube : Cube3x3Faces) (m : CubeMove) (face : CubeFace) :
    (stickerEngine.Move cube m).GetColor face 1 1 = cube.GetColor face 1 1 := by
  have h : ∀ (n : Nat) (c : Cube3x3Faces),
      ((quarterTurn m.face)^[n] c).GetColor face 1 1 = c.GetColor face 1 1 := by
    intro n
    induction n with
    | zero => intro c; rfl
    | succ n ih =>
      intro c
      rw [Function.iterate_succ_apply, ih, centre_quarterTurn]
  exact h _ _

/-- On the sticker cube the centre of every face keeps its colour under every sequence of moves
made from the solved cube. -/
theorem centre_Apply (seq : List CubeMove) (face : CubeFace) :
    (stickerEngine.faces (stickerEngine.Apply stickerEngine.solved seq)).GetColor face 1 1
      = schemeColor face := by
  have h : ∀ (seq : List CubeMove) (c : Cube3x3Faces),
      (stickerEngine.Apply c seq).GetColor face 1 1 = c.GetColor face 1 1 := by
    intro seq
    induction seq with
    | nil => intro c; rfl
    | cons m rest ih =>
      intro c
      have : stickerEngine.Apply c (m :: rest)
          = stickerEngine.Apply (stickerEngine.Move c m) rest := rfl
      rw [this, ih, centre_Move]
  exact h seq _

/-- On the sticker cube the face view of every cube reached from the solved cube by moves has
side centres in the colours of the colour scheme. -/
theorem sideCentresInScheme_Apply (seq : List CubeMove) :
    sideCentresInScheme (stickerEngine.faces (stickerEngine.Apply stickerEngine.solved seq)) :=
  fun face _ => centre_Apply seq face

/-- The condition on the side centres is what ties `Solve::WhiteCrossValid` to the centre
stickers: the function compares the side stickers with green, red, blue and orange, so on a
colouring whose side centres have other colours, which no cube shows, it returns false although
every side sticker has the colour of its own centre. -/
theorem WhiteCrossValid_fixed_colours :
    ¬sideCentresInScheme redInFront ∧ whiteCrossSpec redInFront ∧
      Solve.WhiteCrossValid redInFront = false := by
  refine ⟨fun h => ?_, ⟨⟨rfl, rfl, rfl, rfl⟩, ?_⟩, rfl⟩
  · exact absurd (h FRONT (by simp)) (by decide)
  · intro face _
    rfl

/-- C13: for every face view of a cube, whose front, right, back and left centre stickers are
green, red, blue and orange as on every cube, `Solve::WhiteCrossValid` returns true if and only
if the four centre-edge stickers of the top face are white and on each of the front, right, back
and left faces the sticker at row 0, column 1 has the colour of the sticker at row 1, column 1
of that face. -/
theorem WhiteCrossValid_spec (faces : Cube3x3Faces) (h : sideCentresInScheme faces) :
    Solve.WhiteCrossValid faces = true ↔ whiteCrossSpec faces := by
  have hF := h FRONT (by simp)
  have hR := h RIGHT (by simp)
  have hB := h BACK (by simp)
  have hL := h LEFT (by simp)
  simp only [schemeColor] at hF hR hB hL
  simp only [Solve.WhiteCrossValid, whiteCrossSpec, Bool.and_eq_true, beq_iff_eq,
    List.forall_mem_cons, List.not_mem_nil, hF, hR, hB, hL]
  tauto

theorem WhiteCrossValid_spec_witness :
    sideCentresInScheme
        (stickerEngine.faces (stickerEngine.Apply stickerEngine.solved [MOVE_D])) ∧
      (Solve.WhiteCrossValid
          (stickerEngine.faces (stickerEngine.Apply stickerEngine.solved [MOVE_D])) = true ↔
        whiteCrossSpec
          (stickerEngine.faces (stickerEngine.Apply stickerEngine.solved [MOVE_D]))) :=
  ⟨sideCentresInScheme_Apply [MOVE_D],
    WhiteCrossValid_spec _ (sideCentresInScheme_Apply [MOVE_D])⟩

/-! ## History: the persistence step -/

theorem le_foldl_max (l : List Nat) (a : Nat) :
    a ≤ l.foldl max a ∧ ∀ x ∈ l, x ≤ l.foldl max a := by
  induction l generalizing a with
  | nil => simp
  | cons b l ih =>
    simp only [List.foldl_cons, List.mem_cons, forall_eq_or_imp]
    refine ⟨le_trans (le_max_left a b) (ih _).1, le_trans (le_max_right a b) (ih _).1, (ih _).2⟩

/-- The address of a new session is not the address of a session in use. -/
theorem freshSession_not_mem (live : List Nat) : freshSession live ∉ live := by
  intro h
  have := (le_foldl_max live 0).2 _ h
  unfold freshSession at this
  omega

@[simp] theorem History.assign_memory_same (self : History) (p : Nat) (s : Session) :
    (self.assign p s).memory p = s := by
  simp [History.assign]

theorem History.assign_memory_of_ne (self : History) {p q : Nat} (s : Session) (h : q ≠ p) :
    (self.assign p s).memory q = self.memory q := by
  simp [History.assign, h]

theorem History.assign_memory (self : History) (p q : Nat) (s : Session) :
    (self.assign p s).memory q = if q = p then s else self.memory q := rfl

theorem History.assign_self (self : History) (p : Nat) : self.assign p (self.memory p) = self := by
  cases self
  simp only [History.assign, History.mk.injEq, and_true]
  funext q
  split_ifs with h
  · rw [h]
  · rfl

theorem Solve.clean_of_not_dirty {i : Solve} (h : i.dirty = false) : i.clean = i := by
  cases i
  simp only [Solve.clean] at *
  simp [h]

theorem updateSolve_foldl (fb : Flatbuffers) (solves done : List Solve) (batch : List BatchOp) :
    solves.foldl (History.updateSolve fb) (done, batch)
      = (done ++ solves.map Solve.clean,
          batch ++ (solves.filter fun i => i.dirty).map fun i =>
            BatchOp.Put ("solve:" ++ i.id) (History.SerializeSolve fb i)) := by
  induction solves generalizing done batch with
  | nil => simp
  | cons i rest ih =>
    rw [List.foldl_cons]
    by_cases hd : i.dirty = true
    · simp [History.updateSolve, hd, ih, Solve.clean]
    · have hd' : i.dirty = false := by simpa using hd
      simp [History.updateSolve, hd', ih, Solve.clean_of_not_dirty hd']

theorem SerializeSolveList_clean (fb : Flatbuffers) (s : Session) :
    History.SerializeSolveList fb { s with solves := s.solves.map Solve.clean }
      = History.SerializeSolveList fb s := by
  simp [History.SerializeSolveList, Solve.clean, Function.comp_def]

theorem updateSession_eq (fb : Flatbuffers) (self : History) (batch : List BatchOp) (p : Nat) :
    History.updateSession fb (self, batch) p
      = (self.assign p (self.memory p).persisted,
          batch ++ History.sessionBatch fb (self.memory p)) := by
  by_cases hd : (self.memory p).dirty = true
  · simp only [History.updateSession, hd, if_true, updateSolve_foldl, List.nil_append,
      History.assign_memory_same, Session.persisted, History.sessionBatch]
    refine Prod.ext ?_ ?_
    · simp only [History.assign]
      congr 1
      funext q
      split_ifs <;> rfl
    · simp [History.SerializeSolveList, History.SerializeSession, Solve.clean,
        Function.comp_def]
  · simp [History.updateSession, hd, Session.persisted, History.sessionBatch,
      History.assign_self]

theorem foldl_updateSession (fb : Flatbuffers) (l : List Nat) (self : History)
    (batch : List BatchOp) :
    l.foldl (History.updateSession fb) (self, batch)
      = (self.persistAll l, batch ++ self.batchAll fb l) := by
  induction l generalizing self batch with
  | nil => simp [History.persistAll, History.batchAll]
  | cons p l ih =>
    rw [List.foldl_cons, updateSession_eq, ih]
    simp [History.persistAll, History.batchAll]

theorem Session.persisted_id (s : Session) : s.persisted.id = s.id := by
  unfold Session.persisted; split_ifs <;> rfl

theorem Session.persisted_type (s : Session) : s.persisted.type = s.type := by
  unfold Session.persisted; split_ifs <;> rfl

theorem Session.persisted_name (s : Session) : s.persisted.name = s.name := by
  unfold Session.persisted; split_ifs <;> rfl

theorem Session.persisted_update (s : Session) : s.persisted.update = s.update := by
  unfold Session.persisted; split_ifs <;> rfl

theorem Session.persisted_dirty (s : Session) : s.persisted.dirty = false := by
  unfold Session.persisted; split_ifs with h
  · rfl
  · simpa using h

theorem Session.persisted_solves_of_dirty {s : Session} (h : s.dirty = true) :
    s.persisted.solves = s.solves.map Solve.clean := by
  simp [Session.persisted, h]

theorem Session.persisted_solves_ids (s : Session) :
    s.persisted.solves.map (fun i => i.id) = s.solves.map fun i => i.id := by
  unfold Session.persisted; split_ifs
  · simp [Solve.clean, Function.comp_def]
  · rfl

theorem History.persistAll_fields (l : List Nat) (self : History) :
    (self.persistAll l).sessions = self.sessions ∧
      (self.persistAll l).activeSession = self.activeSession ∧
      (self.persistAll l).sessionListDirty = self.sessionListDirty ∧
      (self.persistAll l).database = self.database ∧
      (self.persistAll l).idGenerator = self.idGenerator ∧
      (self.persistAll l).clock = self.clock := by
  induction l generalizing self with
  | nil => simp [History.persistAll]
  | cons p l ih =>
    simp only [History.persistAll]
    rw [(ih _).1, (ih _).2.1, (ih _).2.2.1, (ih _).2.2.2.1, (ih _).2.2.2.2.1, (ih _).2.2.2.2.2]
    simp [History.assign]

theorem History.persistAll_memory_of_not_mem (l : List Nat) (self : History) {q : Nat}
    (h : q ∉ l) : (self.persistAll l).memory q = self.memory q := by
  induction l generalizing self with
  | nil => rfl
  | cons p l ih =>
    simp only [List.mem_cons, not_or] at h
    simp only [History.persistAll]
    rw [ih _ h.2, History.assign_memory_of_ne _ _ h.1]

theorem Session.persisted_of_clean {s : Session} (h : s.dirty = false) : s.persisted = s := by
  simp [Session.persisted, h]

theorem Session.persisted_persisted (s : Session) : s.persisted.persisted = s.persisted :=
  Session.persisted_of_clean (Session.persisted_dirty s)

theorem History.persistAll_memory_of_mem (l : List Nat) (self : History) {q : Nat}
    (h : q ∈ l) : (self.persistAll l).memory q = (self.memory q).persisted := by
  induction l generalizing self with
  | nil => simp at h
  | cons p l ih =>
    simp only [History.persistAll]
    by_cases hq : q ∈ l
    · rw [ih _ hq]
      by_cases hp : q = p
      · subst hp
        rw [History.assign_memory_same, Session.persisted_persisted]
      · rw [History.assign_memory_of_ne _ _ hp]
    · have hp : q = p := by
        rcases List.mem_cons.mp h with h | h
        · exact h
        · exact absurd h hq
      subst hp
      rw [History.persistAll_memory_of_not_mem _ _ hq, History.assign_memory_same]

/-- `History::UpdateDatabaseForSessions` without a store does nothing. -/
theorem UpdateDatabaseForSessions_closed (fb : Flatbuffers) (self : History) (l : List Nat)
    (h : self.database = none) : self.UpdateDatabaseForSessions fb l = self := by
  simp [History.UpdateDatabaseForSessions, h]

/-- `History::UpdateDatabaseForSessions` with a store open: the sessions are marked clean, the
index flag is cleared and one batch is written. -/
theorem UpdateDatabaseForSessions_open (fb : Flatbuffers) (self : History) (l : List Nat)
    (db : Database) (h : self.database = some db) :
    self.UpdateDatabaseForSessions fb l
      = { self.persistAll l with
          sessionListDirty := false,
          database := some (db.Write (self.updateBatch fb l)) } := by
  have hf := History.persistAll_fields l self
  simp only [History.UpdateDatabaseForSessions, h, foldl_updateSession, List.nil_append,
    History.updateBatch]
  by_cases hd : self.sessionListDirty = true
  · have hs : (self.persistAll l).SerializeSessionList fb = self.SerializeSessionList fb := by
      simp only [History.SerializeSessionList, hf.1]
      congr 2
      apply List.map_congr_left
      intro p _
      by_cases hp : p ∈ l
      · rw [History.persistAll_memory_of_mem _ _ hp, Session.persisted_id]
      · rw [History.persistAll_memory_of_not_mem _ _ hp]
    simp [hf.2.2.1, hd, hs]
  · have hd' : self.sessionListDirty = false := by simpa using hd
    simp only [hf.2.2.1, hd', Bool.false_eq_true, if_false, List.append_nil]

theorem Solve.eq_clean (i : Solve) : i.clean.eq i = true := by
  simp [Solve.eq, Solve.clean]

/-- The solves that a commit leaves are the solves it found, in the same order: each has the ID
it had and is equal to what it was under `Solve::operator==`; only dirty flags differ. -/
theorem History.committed_same_solves (self : History) (l : List Solve) :
    List.Forall₂ (fun after before => after.eq before = true ∧ after.id = before.id)
      (self.committed l) l := by
  unfold History.committed
  split_ifs
  · rw [List.forall₂_map_left_iff]
    exact List.forall₂_same.mpr (fun i _ => ⟨Solve.eq_clean i, rfl⟩)
  · exact List.forall₂_same.mpr (fun i _ => ⟨by simp [Solve.eq], rfl⟩)

theorem UpdateDatabaseForSessions_sessions (fb : Flatbuffers) (self : History) (l : List Nat) :
    (self.UpdateDatabaseForSessions fb l).sessions = self.sessions := by
  rcases hdb : self.database with _ | db
  · rw [UpdateDatabaseForSessions_closed _ _ _ hdb]
  · rw [UpdateDatabaseForSessions_open _ _ _ _ hdb]
    exact (History.persistAll_fields l self).1

theorem UpdateDatabaseForSessions_activeSession (fb : Flatbuffers) (self : History)
    (l : List Nat) :
    (self.UpdateDatabaseForSessions fb l).activeSession = self.activeSession := by
  rcases hdb : self.database with _ | db
  · rw [UpdateDatabaseForSessions_closed _ _ _ hdb]
  · rw [UpdateDatabaseForSessions_open _ _ _ _ hdb]
    exact (History.persistAll_fields l self).2.1

theorem UpdateDatabaseForSessions_idGenerator (fb : Flatbuffers) (self : History)
    (l : List Nat) :
    (self.UpdateDatabaseForSessions fb l).idGenerator = self.idGenerator := by
  rcases hdb : self.database with _ | db
  · rw [UpdateDatabaseForSessions_closed _ _ _ hdb]
  · rw [UpdateDatabaseForSessions_open _ _ _ _ hdb]
    exact (History.persistAll_fields l self).2.2.2.2.1

theorem UpdateDatabaseForSessions_clock (fb : Flatbuffers) (self : History) (l : List Nat) :
    (self.UpdateDatabaseForSessions fb l).clock = self.clock := by
  rcases hdb : self.database with _ | db
  · rw [UpdateDatabaseForSessions_closed _ _ _ hdb]
  · rw [UpdateDatabaseForSessions_open _ _ _ _ hdb]
    exact (History.persistAll_fields l self).2.2.2.2.2

theorem UpdateDatabaseForSessions_isSome (fb : Flatbuffers) (self : History) (l : List Nat) :
    (self.UpdateDatabaseForSessions fb l).database.isSome = self.database.isSome := by
  rcases hdb : self.database with _ | db
  · rw [UpdateDatabaseForSessions_closed _ _ _ hdb, hdb]
  · rw [UpdateDatabaseForSessions_open _ _ _ _ hdb]
    rfl

/-- The sessions after `History::UpdateDatabaseForSessions`: those it is called for are left
as a commit leaves them when a store is open, all others are not touched. -/
theorem UpdateDatabaseForSessions_memory (fb : Flatbuffers) (self : History) (l : List Nat)
    (q : Nat) :
    (self.UpdateDatabaseForSessions fb l).memory q
      = if self.database.isSome ∧ q ∈ l then (self.memory q).persisted else self.memory q := by
  rcases hdb : self.database with _ | db
  · rw [UpdateDatabaseForSessions_closed _ _ _ hdb]
    simp
  · rw [UpdateDatabaseForSessions_open _ _ _ _ hdb]
    by_cases hq : q ∈ l
    · simpa [hq] using History.persistAll_memory_of_mem l self hq
    · simpa [hq] using History.persistAll_memory_of_not_mem l self hq

/-- `History::RecordSolve` when a new session is made: the history just before the commit. -/
theorem RecordSolve_new (fb : Flatbuffers) (self : History) (type : SolveType) (solve : Solve)
    (h : self.activeSession.all (fun p => decide ((self.memory p).type ≠ type)) = true) :
    ∃ pre : History,
      self.RecordSolve fb type solve
        = pre.UpdateDatabaseForSessions fb
            [freshSession (self.sessions ++ self.activeSession.toList)] ∧
      pre.sessions
        = self.sessions ++ [freshSession (self.sessions ++ self.activeSession.toList)] ∧
      pre.activeSession = some (freshSession (self.sessions ++ self.activeSession.toList)) ∧
      pre.sessionListDirty = true ∧
      pre.database = self.database.map (fun db =>
        db.Put "active_session" (self.idGenerator.ids self.idGenerator.calls)) ∧
      pre.memory (freshSession (self.sessions ++ self.activeSession.toList))
        = { type := type, id := self.idGenerator.ids self.idGenerator.calls, name := "",
            update :=
              { id := self.idGenerator.ids (self.idGenerator.calls + 1),
                date := self.clock.seconds self.clock.calls, sync := "" },
            solves := [solve], dirty := true } ∧
      ∀ q, q ≠ freshSession (self.sessions ++ self.activeSession.toList) →
        pre.memory q = self.memory q := by
  unfold History.RecordSolve
  rw [if_pos h]
  refine ⟨_, rfl, rfl, rfl, rfl, ?_, ?_, ?_⟩
  · simp [History.assign, IdGenerator.GenerateId]
  · simp [History.assign, IdGenerator.GenerateId, Clock.time, Session.new]
  · intro q hq
    simp [History.assign, hq]

/-- `History::RecordSolve` when the active session takes the solve: the history just before
the commit. -/
theorem RecordSolve_old (fb : Flatbuffers) (self : History) (type : SolveType) (solve : Solve)
    (p : Nat) (ha : self.activeSession = some p) (h : (self.memory p).type = type) :
    ∃ pre : History,
      self.RecordSolve fb type solve = pre.UpdateDatabaseForSessions fb [p] ∧
      pre.sessions = self.sessions ∧
      pre.activeSession = some p ∧
      pre.sessionListDirty = self.sessionListDirty ∧
      pre.database = self.database ∧
      pre.memory p
        = { self.memory p with
            update :=
              { (self.memory p).update with
                id := self.idGenerator.ids self.idGenerator.calls,
                date := self.clock.seconds self.clock.calls },
            solves := (self.memory p).solves ++ [solve], dirty := true } ∧
      ∀ q, q ≠ p → pre.memory q = self.memory q := by
  unfold History.RecordSolve
  rw [if_neg (by simp [ha, h])]
  simp only [ha]
  refine ⟨_, rfl, rfl, ha, rfl, rfl, ?_, ?_⟩
  · simp [History.assign, IdGenerator.GenerateId, Clock.time]
  · intro q hq
    simp [History.assign, hq]

/-! ## History: the set of solves to delete -/

theorem StringSet.insert_spec (s : List String) (x : String) (hs : s.Nodup) :
    (StringSet.insert s x).Nodup ∧ ∀ y, y ∈ StringSet.insert s x ↔ y = x ∨ y ∈ s := by
  unfold StringSet.insert
  split_ifs with h
  · refine ⟨hs, fun y => ⟨fun hy => Or.inr hy, ?_⟩⟩
    rintro (rfl | hy)
    · exact h
    · exact hy
  · refine ⟨?_, fun y => List.mem_orderedInsert _⟩
    rw [(List.perm_orderedInsert (fun a b : String => a.data ≤ b.data) x s).nodup_iff]
    exact List.nodup_cons.mpr ⟨h, hs⟩

theorem insertIds_spec (solves : List Solve) (init : List String) (hs : init.Nodup) :
    (solves.foldl (fun s i => StringSet.insert s i.id) init).Nodup ∧
      ∀ y, y ∈ solves.foldl (fun s i => StringSet.insert s i.id) init ↔
        y ∈ init ∨ ∃ i ∈ solves, i.id = y := by
  induction solves generalizing init with
  | nil => simp [hs]
  | cons i rest ih =>
    rw [List.foldl_cons]
    have h1 := StringSet.insert_spec init i.id hs
    refine ⟨(ih _ h1.1).1, fun y => ?_⟩
    rw [(ih _ h1.1).2, h1.2]
    simp only [List.mem_cons, exists_eq_or_imp]
    constructor
    · rintro ((rfl | h) | h)
      · exact Or.inr (Or.inl rfl)
      · exact Or.inl h
      · exact Or.inr (Or.inr h)
    · rintro (h | h | h)
      · exact Or.inl (Or.inr h)
      · exact Or.inl (Or.inl h.symm)
      · exact Or.inr h

theorem eraseIds_spec (solves : List Solve) (set : List String) (hs : set.Nodup) :
    (solves.foldl (fun s j => if j.id ∈ s then s.erase j.id else s) set).Nodup ∧
      ∀ y, y ∈ solves.foldl (fun s j => if j.id ∈ s then s.erase j.id else s) set ↔
        y ∈ set ∧ ∀ j ∈ solves, j.id ≠ y := by
  induction solves generalizing set with
  | nil => simp [hs]
  | cons j rest ih =>
    rw [List.foldl_cons]
    have h1 : (if j.id ∈ set then set.erase j.id else set).Nodup ∧
        ∀ y, y ∈ (if j.id ∈ set then set.erase j.id else set) ↔ y ∈ set ∧ j.id ≠ y := by
      split_ifs with h
      · refine ⟨hs.erase _, fun y => ?_⟩
        rw [hs.mem_erase_iff]
        constructor
        · rintro ⟨a, b⟩; exact ⟨b, fun e => a e.symm⟩
        · rintro ⟨a, b⟩; exact ⟨fun e => b e.symm, a⟩
      · refine ⟨hs, fun y => ⟨fun hy => ⟨hy, ?_⟩, fun hy => hy.1⟩⟩
        rintro rfl
        exact h hy
    refine ⟨(ih _ h1.1).1, fun y => ?_⟩
    rw [(ih _ h1.1).2, h1.2]
    simp only [List.mem_cons, forall_eq_or_imp]
    tauto

theorem eraseSessions_spec (memory : Nat → Session) (l : List Nat) (set : List String)
    (hs : set.Nodup) :
    (l.foldl (fun s i => (memory i).solves.foldl
        (fun s j => if j.id ∈ s then s.erase j.id else s) s) set).Nodup ∧
      ∀ y, y ∈ l.foldl (fun s i => (memory i).solves.foldl
          (fun s j => if j.id ∈ s then s.erase j.id else s) s) set ↔
        y ∈ set ∧ ∀ p ∈ l, ∀ j ∈ (memory p).solves, j.id ≠ y := by
  induction l generalizing set with
  | nil => simp [hs]
  | cons p l ih =>
    rw [List.foldl_cons]
    have h1 := eraseIds_spec (memory p).solves set hs
    refine ⟨(ih _ h1.1).1, fun y => ?_⟩
    rw [(ih _ h1.1).2, h1.2]
    simp only [List.mem_cons, forall_eq_or_imp]
    tauto

/-- The set that `History::DeleteSession` deletes: the IDs of the solves of the session that no
solve of a session in the list has; it holds every ID once. -/
theorem mem_solvesToDelete (self : History) (s : Nat) (x : String) :
    x ∈ self.solvesToDelete s ↔
      (∃ i ∈ (self.memory s).solves, i.id = x) ∧
        ∀ p ∈ self.sessions, ∀ j ∈ (self.memory p).solves, j.id ≠ x := by
  unfold History.solvesToDelete
  have h1 := insertIds_spec (self.memory s).solves [] List.nodup_nil
  rw [(eraseSessions_spec self.memory self.sessions _ h1.1).2, h1.2]
  simp

/-! ## History: the effect of a batch on the store -/

theorem foldl_apply_of_no_key (batch : List BatchOp) (contents : String → Option String)
    (k : String)
    (h : ∀ op ∈ batch, (∀ v, op ≠ BatchOp.Put k v) ∧ op ≠ BatchOp.Delete k) :
    batch.foldl BatchOp.apply contents k = contents k := by
  induction batch generalizing contents with
  | nil => rfl
  | cons op rest ih =>
    rw [List.foldl_cons, ih _ (fun o ho => h o (List.mem_cons_of_mem _ ho))]
    have h0 := h op (List.mem_cons_self _ _)
    cases op with
    | Put key value =>
      have : k ≠ key := by rintro rfl; exact h0.1 value rfl
      simp [BatchOp.apply, this]
    | Delete key =>
      have : k ≠ key := by rintro rfl; exact h0.2 rfl
      simp [BatchOp.apply, this]

theorem foldl_apply_of_delete (batch : List BatchOp) (contents : String → Option String)
    (k : String) (hd : BatchOp.Delete k ∈ batch) (hp : ∀ v, BatchOp.Put k v ∉ batch) :
    batch.foldl BatchOp.apply contents k = none := by
  induction batch generalizing contents with
  | nil => simp at hd
  | cons op rest ih =>
    rw [List.foldl_cons]
    by_cases hr : BatchOp.Delete k ∈ rest
    · exact ih _ hr (fun v hv => hp v (List.mem_cons_of_mem _ hv))
    · have hop : op = BatchOp.Delete k := by
        rcases List.mem_cons.mp hd with h | h
        · exact h.symm
        · exact absurd h hr
      rw [foldl_apply_of_no_key]
      · simp [hop, BatchOp.apply]
      · intro o ho
        refine ⟨fun v e => hp v (List.mem_cons_of_mem _ (e ▸ ho)), fun e => hr (e ▸ ho)⟩

theorem findSession_eq_some {s : Nat} {l before after : List Nat}
    (h : History.findSession s l = some (before, after)) :
    l = before ++ s :: after ∧ s ∉ before := by
  induction l generalizing before after with
  | nil => simp [History.findSession] at h
  | cons i rest ih =>
    unfold History.findSession at h
    split_ifs at h with hi
    · simp only [Option.some.injEq, Prod.mk.injEq] at h
      rw [← h.1, ← h.2, hi]
      simp
    · rcases hf : History.findSession s rest with _ | ⟨b, a⟩
      · simp [hf] at h
      · simp only [hf, Option.map_some', Option.some.injEq, Prod.mk.injEq] at h
        have := ih hf
        rw [← h.1, ← h.2, this.1]
        refine ⟨by simp, ?_⟩
        simp only [List.mem_cons, not_or]
        exact ⟨fun e => hi e.symm, this.2⟩

theorem findSession_of_mem {s : Nat} {l : List Nat} (h : s ∈ l) :
    ∃ before after, History.findSession s l = some (before, after) := by
  induction l with
  | nil => simp at h
  | cons i rest ih =>
    unfold History.findSession
    split_ifs with hi
    · exact ⟨_, _, rfl⟩
    · have : s ∈ rest := by
        rcases List.mem_cons.mp h with h | h
        · exact absurd h.symm hi
        · exact h
      obtain ⟨b, a, hf⟩ := ih this
      exact ⟨_, _, by rw [hf]; rfl⟩

theorem findSession_of_not_mem {s : Nat} {l : List Nat} (h : s ∉ l) :
    History.findSession s l = none := by
  induction l with
  | nil => rfl
  | cons i rest ih =>
    simp only [List.mem_cons, not_or] at h
    unfold History.findSession
    rw [if_neg (fun e => h.1 e.symm), ih h.2]
    rfl

/-! ## History: the member functions field by field -/

theorem DeleteSession_sessions (fb : Flatbuffers) (self : History) (s : Nat) :
    (self.DeleteSession fb s).sessions = self.sessions.erase s := by
  unfold History.DeleteSession
  by_cases hs : s ∈ self.sessions <;> by_cases ha : self.activeSession = some s <;>
    rcases hdb : self.database with _ | db <;>
    by_cases hd : self.sessionListDirty = true <;>
    simp [hs, ha, hdb, hd, List.erase_of_not_mem]

theorem DeleteSession_activeSession (fb : Flatbuffers) (self : History) (s : Nat) :
    (self.DeleteSession fb s).activeSession
      = if self.activeSession = some s then none else self.activeSession := by
  unfold History.DeleteSession
  by_cases hs : s ∈ self.sessions <;> by_cases ha : self.activeSession = some s <;>
    rcases hdb : self.database with _ | db <;>
    by_cases hd : self.sessionListDirty = true <;>
    simp [hs, ha, hdb, hd]

theorem DeleteSession_memory (fb : Flatbuffers) (self : History) (s : Nat) :
    (self.DeleteSession fb s).memory = self.memory := by
  unfold History.DeleteSession
  by_cases hs : s ∈ self.sessions <;> by_cases ha : self.activeSession = some s <;>
    rcases hdb : self.database with _ | db <;>
    by_cases hd : self.sessionListDirty = true <;>
    simp [hs, ha, hdb, hd]

/-- `History::DeleteSession` without a store. -/
theorem DeleteSession_closed (fb : Flatbuffers) (self : History) (s : Nat)
    (h : self.database = none) :
    (self.DeleteSession fb s).database = none ∧
      (self.DeleteSession fb s).sessionListDirty
        = (decide (s ∈ self.sessions) || self.sessionListDirty) := by
  unfold History.DeleteSession
  by_cases hs : s ∈ self.sessions <;> by_cases ha : self.activeSession = some s <;>
    simp [hs, ha, h]

/-- `History::DeleteSession` with a store open: the key of the active session is deleted by a
call of its own when the session was active, then one batch is written. -/
theorem DeleteSession_open (fb : Flatbuffers) (self : History) (s : Nat) (db : Database)
    (h : self.database = some db) :
    (self.DeleteSession fb s).database
        = some ((if self.activeSession = some s then db.Delete "active_session" else db).Write
            (self.deleteBatch fb s)) ∧
      (self.DeleteSession fb s).sessionListDirty = false := by
  unfold History.DeleteSession History.deleteBatch
  by_cases hs : s ∈ self.sessions <;> by_cases ha : self.activeSession = some s <;>
    by_cases hd : self.sessionListDirty = true <;>
    simp [hs, ha, h, hd, History.solvesToDelete, History.SerializeSessionList,
      List.erase_of_not_mem]

/-- `History::SplitSessionAtSolve` when it finds the session and the index is inside its solves:
the history just before the commit, and what follows the commit. -/
theorem SplitSessionAtSolve_found (fb : Flatbuffers) (self : History) (s k : Nat)
    (before after : List Nat) (hk : ¬(k = 0 ∨ k ≥ (self.memory s).solves.length))
    (hf : History.findSession s self.sessions = some (before, after)) :
    ∃ pre : History,
      self.SplitSessionAtSolve fb s k
        = (if some s = (pre.UpdateDatabaseForSessions fb
              [s, freshSession (s :: (self.sessions ++ self.activeSession.toList))]).activeSession
          then
            { pre.UpdateDatabaseForSessions fb
                [s, freshSession (s :: (self.sessions ++ self.activeSession.toList))] with
              activeSession := some (freshSession (s :: (self.sessions ++ self.activeSession.toList))),
              database :=
                (pre.UpdateDatabaseForSessions fb
                  [s, freshSession (s :: (self.sessions ++ self.activeSession.toList))]).database.map
                  fun db => db.Put "active_session"
                    ((pre.UpdateDatabaseForSessions fb
                      [s, freshSession (s :: (self.sessions ++ self.activeSession.toList))]).memory
                      (freshSession (s :: (self.sessions ++ self.activeSession.toList)))).id }
          else
            pre.UpdateDatabaseForSessions fb
              [s, freshSession (s :: (self.sessions ++ self.activeSession.toList))]) ∧
      pre.sessions
        = before ++ s :: freshSession (s :: (self.sessions ++ self.activeSession.toList)) :: after ∧
      pre.activeSession = self.activeSession ∧
      pre.sessionListDirty = true ∧
      pre.database = self.database ∧
      pre.memory s
        = { self.memory s with
            update :=
              { (self.memory s).update with
                id := self.idGenerator.ids (self.idGenerator.calls + 2),
                date := self.clock.seconds (self.clock.calls + 1) },
            solves := (self.memory s).solves.take k, dirty := true } ∧
      pre.memory (freshSession (s :: (self.sessions ++ self.activeSession.toList)))
        = { type := (self.memory s).type, id := self.idGenerator.ids self.idGenerator.calls,
            name := (self.memory s).name,
            update :=
              { id := self.idGenerator.ids (self.idGenerator.calls + 1),
                date := self.clock.seconds self.clock.calls, sync := "" },
            solves := (self.memory s).solves.drop k, dirty := true } ∧
      ∀ q, q ≠ s → q ≠ freshSession (s :: (self.sessions ++ self.activeSession.toList)) →
        pre.memory q = self.memory q := by
  have hne : freshSession (s :: (self.sessions ++ self.activeSession.toList)) ≠ s := by
    intro e
    have := freshSession_not_mem (s :: (self.sessions ++ self.activeSession.toList))
    rw [e] at this
    simp at this
  unfold History.SplitSessionAtSolve
  rw [if_neg hk]
  simp only [hf]
  refine ⟨_, rfl, rfl, rfl, rfl, rfl, ?_, ?_, ?_⟩
  · simp [History.assign, IdGenerator.GenerateId, Clock.time, hne, hne.symm]
  · simp [History.assign, IdGenerator.GenerateId, Clock.time, hne, hne.symm, Session.new]
  · intro q h1 h2
    simp [History.assign, h1, h2]

/-- `History::MergeSessions` for two sessions of the same type: the history just before the
commit. -/
theorem MergeSessions_same_type (fb : Flatbuffers) (self : History) (a b : Nat) (name : String)
    (h : (self.memory a).type = (self.memory b).type) :
    ∃ pre : History,
      self.MergeSessions fb a b name
        = (pre.UpdateDatabaseForSessions fb [b]).DeleteSession fb a ∧
      pre.sessions = self.sessions ∧
      pre.activeSession = self.activeSession ∧
      pre.sessionListDirty = self.sessionListDirty ∧
      pre.database = self.database ∧
      pre.memory b
        = { self.memory b with
            name := name,
            update :=
              { (self.memory b).update with
                id := self.idGenerator.ids self.idGenerator.calls,
                date := self.clock.seconds self.clock.calls },
            solves := (self.memory a).solves ++ (self.memory b).solves, dirty := true } ∧
      ∀ q, q ≠ b → pre.memory q = self.memory q := by
  unfold History.MergeSessions
  rw [if_neg (by simp [h])]
  refine ⟨_, rfl, rfl, rfl, rfl, rfl, ?_, ?_⟩
  · simp [History.assign, IdGenerator.GenerateId, Clock.time]
  · intro q hq
    simp [History.assign, hq]

/-! ## History: keys of the store -/

theorem solveKey_injective {a b : String} (h : "solve:" ++ a = "solve:" ++ b) : a = b := by
  have := congrArg String.data h
  simp only [String.data_append, List.append_cancel_left_eq] at this
  exact String.ext this

theorem solveKey_ne_sessionKey (a b : String) : "solve:" ++ a ≠ "session:" ++ b := by
  intro h
  have := congrArg String.data h
  simp [String.data_append] at this

theorem solveKey_ne_solvesKey (a b : String) : "solve:" ++ a ≠ "session_solves:" ++ b := by
  intro h
  have := congrArg String.data h
  simp [String.data_append] at this

theorem solveKey_ne_sessions (a : String) : "solve:" ++ a ≠ "sessions" := by
  intro h
  have := congrArg String.data h
  simp [String.data_append] at this

theorem solveKey_ne_active (a : String) : "solve:" ++ a ≠ "active_session" := by
  intro h
  have := congrArg String.data h
  simp [String.data_append] at this

/-- The batch of `History::DeleteSession` deletes the record of the session, deletes the
records of the orphaned solves and of no other solve, and puts nothing but the session
index. -/
theorem deleteBatch_spec (fb : Flatbuffers) (self : History) (s : Nat) :
    (∀ op ∈ self.deleteBatch fb s,
      op = BatchOp.Delete ("session:" ++ (self.memory s).id) ∨
      (∃ x, self.isOrphan s x ∧ op = BatchOp.Delete ("solve:" ++ x)) ∨
      ∃ v, op = BatchOp.Put "sessions" v) ∧
    ∀ x, self.isOrphan s x → BatchOp.Delete ("solve:" ++ x) ∈ self.deleteBatch fb s := by
  have hmem : ∀ x, x ∈ ({ self with sessions := self.sessions.erase s } : History).solvesToDelete s
      ↔ self.isOrphan s x := fun x => mem_solvesToDelete _ s x
  refine ⟨fun op hop => ?_, fun x hx => ?_⟩
  · simp only [History.deleteBatch, List.mem_append, List.mem_singleton, List.mem_map] at hop
    rcases hop with (h | ⟨x, hx, h⟩) | h
    · exact Or.inl h
    · exact Or.inr (Or.inl ⟨x, (hmem x).mp hx, h.symm⟩)
    · split_ifs at h
      · exact Or.inr (Or.inr ⟨_, List.mem_singleton.mp h⟩)
      · simp at h
  · simp only [History.deleteBatch, List.mem_append, List.mem_singleton, List.mem_map]
    exact Or.inl (Or.inr ⟨x, (hmem x).mpr hx, rfl⟩)

theorem sessionBatch_puts (fb : Flatbuffers) (s : Session) :
    ∀ op ∈ History.sessionBatch fb s, ∃ k v, op = BatchOp.Put k v := by
  intro op hop
  unfold History.sessionBatch at hop
  split_ifs at hop
  · simp only [List.mem_append, List.mem_map, List.mem_cons, List.mem_singleton,
      List.not_mem_nil, or_false] at hop
    rcases hop with ⟨i, -, h⟩ | h | h
    · exact ⟨_, _, h.symm⟩
    · exact ⟨_, _, h⟩
    · exact ⟨_, _, h⟩
  · simp at hop

/-- The batch of `History::UpdateDatabaseForSessions` only puts records. -/
theorem updateBatch_puts (fb : Flatbuffers) (self : History) (l : List Nat) :
    ∀ op ∈ self.updateBatch fb l, ∃ k v, op = BatchOp.Put k v := by
  have h : ∀ (l : List Nat) (self : History), ∀ op ∈ self.batchAll fb l,
      ∃ k v, op = BatchOp.Put k v := by
    intro l
    induction l with
    | nil => intro self op hop; simp [History.batchAll] at hop
    | cons p l ih =>
      intro self op hop
      simp only [History.batchAll, List.mem_append] at hop
      rcases hop with hop | hop
      · exact sessionBatch_puts fb _ op hop
      · exact ih _ op hop
  intro op hop
  unfold History.updateBatch at hop
  rcases List.mem_append.mp hop with hop | hop
  · exact h l self op hop
  · split_ifs at hop
    · exact ⟨_, _, List.mem_singleton.mp hop⟩
    · simp at hop

/-- A record that is in the store is still there after a call that only puts records. -/
theorem isSome_foldl_apply_of_puts (batch : List BatchOp) (contents : String → Option String)
    (k : String) (hp : ∀ op ∈ batch, ∃ k v, op = BatchOp.Put k v)
    (h : (contents k).isSome = true) : (batch.foldl BatchOp.apply contents k).isSome = true := by
  induction batch generalizing contents with
  | nil => exact h
  | cons op rest ih =>
    rw [List.foldl_cons]
    apply ih _ (fun o ho => hp o (List.mem_cons_of_mem _ ho))
    obtain ⟨k', v, rfl⟩ := hp op (List.mem_cons_self _ _)
    simp only [BatchOp.apply]
    split_ifs
    · rfl
    · exact h

theorem sessionBatch_keys (fb : Flatbuffers) (s : Session) :
    ∀ op ∈ History.sessionBatch fb s, op.key ≠ "active_session" := by
  intro op hop
  unfold History.sessionBatch at hop
  split_ifs at hop
  · simp only [List.mem_append, List.mem_map, List.mem_cons, List.mem_singleton,
      List.not_mem_nil, or_false] at hop
    rcases hop with ⟨i, -, rfl⟩ | rfl | rfl
    · exact solveKey_ne_active _
    · intro h
      have := congrArg String.data h
      simp [BatchOp.key, String.data_append] at this
    · intro h
      have := congrArg String.data h
      simp [BatchOp.key, String.data_append] at this
  · simp at hop

/-- No batch of `History::UpdateDatabaseForSessions` holds the key of the active session. -/
theorem updateBatch_keys (fb : Flatbuffers) (self : History) (l : List Nat) :
    ∀ op ∈ self.updateBatch fb l, op.key ≠ "active_session" := by
  have h : ∀ (l : List Nat) (self : History), ∀ op ∈ self.batchAll fb l,
      op.key ≠ "active_session" := by
    intro l
    induction l with
    | nil => intro self op hop; simp [History.batchAll] at hop
    | cons p l ih =>
      intro self op hop
      simp only [History.batchAll, List.mem_append] at hop
      rcases hop with hop | hop
      · exact sessionBatch_keys fb _ op hop
      · exact ih _ op hop
  intro op hop
  unfold History.updateBatch at hop
  rcases List.mem_append.mp hop with hop | hop
  · exact h l self op hop
  · split_ifs at hop
    · rw [List.mem_singleton.mp hop]
      show "sessions" ≠ "active_session"
      decide
    · simp at hop

/-- No batch of `History::DeleteSession` holds the key of the active session. -/
theorem deleteBatch_keys (fb : Flatbuffers) (self : History) (s : Nat) :
    ∀ op ∈ self.deleteBatch fb s, op.key ≠ "active_session" := by
  intro op hop
  rcases (deleteBatch_spec fb self s).1 op hop with rfl | ⟨x, -, rfl⟩ | ⟨v, rfl⟩
  · intro h
    have := congrArg String.data h
    simp [BatchOp.key, String.data_append] at this
  · exact solveKey_ne_active _
  · show "sessions" ≠ "active_session"
    decide

theorem RecordSolve_cases (self : History) (type : SolveType) :
    (self.activeSession.all (fun p => decide ((self.memory p).type ≠ type)) = true ∧
      self.needsNewSession type) ∨
    (∃ p, self.activeSession = some p ∧ (self.memory p).type = type ∧
      ¬self.needsNewSession type) := by
  rcases ha : self.activeSession with _ | p
  · exact Or.inl ⟨rfl, Or.inl ha⟩
  · by_cases ht : (self.memory p).type = type
    · refine Or.inr ⟨p, rfl, ht, ?_⟩
      rintro (h | ⟨q, hq, hne⟩)
      · rw [ha] at h; exact Option.noConfusion h
      · rw [ha] at hq
        cases hq
        exact hne ht
    · exact Or.inl ⟨by simp [ht], Or.inr ⟨p, ha, ht⟩⟩

theorem DeleteSession_activeInList (fb : Flatbuffers) (self : History) (s : Nat)
    (h : self.activeInList) : (self.DeleteSession fb s).activeInList := by
  unfold History.activeInList at *
  rw [DeleteSession_activeSession, DeleteSession_sessions]
  by_cases ha : self.activeSession = some s
  · simp [ha]
  · rw [if_neg ha]
    rcases h with h | ⟨p, hp, hap⟩
    · exact Or.inl h
    · refine Or.inr ⟨p, ?_, hap⟩
      have : p ≠ s := by
        rintro rfl
        exact ha hap
      exact (List.mem_erase_of_ne this).mpr hp

/-- C14: if the active session is null or an element of the session list before
`RecordSolve`, `ResetSession`, `DeleteSession`, `SplitSessionAtSolve` or `MergeSessions`, for
any arguments, then it is so afterwards. -/
theorem activeInList_preserved (fb : Flatbuffers) (self : History) (h : self.activeInList) :
    (∀ type solve, (self.RecordSolve fb type solve).activeInList) ∧
      self.ResetSession.activeInList ∧
      (∀ session, (self.DeleteSession fb session).activeInList) ∧
      (∀ session solveIdx, (self.SplitSessionAtSolve fb session solveIdx).activeInList) ∧
      (∀ firstSession secondSession name,
        (self.MergeSessions fb firstSession secondSession name).activeInList) := by
  refine ⟨?_, Or.inl rfl, fun s => DeleteSession_activeInList fb self s h, ?_, ?_⟩
  · intro type solve
    rcases RecordSolve_cases self type with ⟨hc, _⟩ | ⟨p, ha, ht, _⟩
    · obtain ⟨pre, he, hs, hact, -⟩ := RecordSolve_new fb self type solve hc
      refine Or.inr ⟨freshSession (self.sessions ++ self.activeSession.toList), ?_, ?_⟩
      · rw [he, UpdateDatabaseForSessions_sessions, hs]
        exact List.mem_append_right _ (List.mem_singleton_self _)
      · rw [he, UpdateDatabaseForSessions_activeSession, hact]
    · obtain ⟨pre, he, hs, hact, -⟩ := RecordSolve_old fb self type solve p ha ht
      rcases h with h | ⟨q, hq, haq⟩
      · rw [ha] at h; exact Option.noConfusion h
      · refine Or.inr ⟨q, ?_, ?_⟩
        · rw [he, UpdateDatabaseForSessions_sessions, hs]; exact hq
        · rw [he, UpdateDatabaseForSessions_activeSession, hact, ← ha, haq]
  · intro s k
    by_cases hk : k = 0 ∨ k ≥ (self.memory s).solves.length
    · have : self.SplitSessionAtSolve fb s k = self := by
        unfold History.SplitSessionAtSolve
        rw [if_pos hk]
      rw [this]; exact h
    · by_cases hs : s ∈ self.sessions
      · obtain ⟨before, after, hf⟩ := findSession_of_mem hs
        obtain ⟨pre, he, hps, hpa, -⟩ := SplitSessionAtSolve_found fb self s k before after hk hf
        have hl := (findSession_eq_some hf).1
        rw [he, UpdateDatabaseForSessions_activeSession, hpa]
        split_ifs with hact
        · refine Or.inr
            ⟨freshSession (s :: (self.sessions ++ self.activeSession.toList)), ?_, rfl⟩
          show _ ∈ (pre.UpdateDatabaseForSessions fb _).sessions
          rw [UpdateDatabaseForSessions_sessions, hps]
          simp
        · rcases h with h | ⟨q, hq, haq⟩
          · exact Or.inl (by rw [UpdateDatabaseForSessions_activeSession, hpa, h])
          · refine Or.inr ⟨q, ?_, by rw [UpdateDatabaseForSessions_activeSession, hpa, haq]⟩
            rw [UpdateDatabaseForSessions_sessions, hps]
            rw [hl] at hq
            simp only [List.mem_append, List.mem_cons] at hq ⊢
            tauto
      · have : self.SplitSessionAtSolve fb s k = self := by
          unfold History.SplitSessionAtSolve
          rw [if_neg hk, findSession_of_not_mem hs]
        rw [this]; exact h
  · intro a b name
    by_cases ht : (self.memory a).type = (self.memory b).type
    · obtain ⟨pre, he, hps, hpa, -⟩ := MergeSessions_same_type fb self a b name ht
      rw [he]
      apply DeleteSession_activeInList
      unfold History.activeInList
      rw [UpdateDatabaseForSessions_activeSession, UpdateDatabaseForSessions_sessions, hps, hpa]
      exact h
    · have : self.MergeSessions fb a b name = self := by
        unfold History.MergeSessions
        rw [if_pos ht]
      rw [this]; exact h

set_option maxRecDepth 100000 in
theorem activeInList_preserved_witness :
    sampleHistory.activeInList ∧
      ((∀ type solve, (sampleHistory.RecordSolve sampleFlatbuffers type solve).activeInList) ∧
        sampleHistory.ResetSession.activeInList ∧
        (∀ session, (sampleHistory.DeleteSession sampleFlatbuffers session).activeInList) ∧
        (∀ session solveIdx,
          (sampleHistory.SplitSessionAtSolve sampleFlatbuffers session solveIdx).activeInList) ∧
        (∀ firstSession secondSession name,
          (sampleHistory.MergeSessions sampleFlatbuffers firstSession secondSession
            name).activeInList)) :=
  ⟨Or.inr ⟨1, by decide, by decide⟩,
    activeInList_preserved sampleFlatbuffers sampleHistory (Or.inr ⟨1, by decide, by decide⟩)⟩

theorem History.committed_eq (self : History) (s : Session) (hd : s.dirty = true) :
    (if self.database.isSome then s.persisted else s).solves = self.committed s.solves := by
  unfold History.committed
  split_ifs
  · exact Session.persisted_solves_of_dirty hd
  · rfl

/-- `History::RecordSolve` in full: the active session afterwards, its solves, the session
list, the dirty flag of the session index, the calls on the store, and the sessions that are
not touched. -/
theorem RecordSolve_result (fb : Flatbuffers) (self : History) (type : SolveType)
    (solve : Solve) :
    ∃ p, (self.RecordSolve fb type solve).activeSession = some p ∧
      ((self.RecordSolve fb type solve).memory p).type = type ∧
      (∀ q, q ≠ p → (self.RecordSolve fb type solve).memory q = self.memory q) ∧
      (self.RecordSolve fb type solve).database.isSome = self.database.isSome ∧
      (self.needsNewSession type →
        p ∉ self.sessions ∧ self.activeSession ≠ some p ∧
        (self.RecordSolve fb type solve).sessions = self.sessions ++ [p] ∧
        ((self.RecordSolve fb type solve).memory p).solves = self.committed [solve] ∧
        (self.RecordSolve fb type solve).sessionListDirty = self.database.isNone ∧
        ∃ batch, self.callsSince (self.RecordSolve fb type solve)
            = (if self.database.isSome then
                [StoreCall.Put "active_session" ((self.RecordSolve fb type solve).memory p).id,
                  StoreCall.Write batch]
              else []) ∧
          (self.database.isSome → ∃ value, BatchOp.Put "sessions" value ∈ batch)) ∧
      (¬self.needsNewSession type →
        self.activeSession = some p ∧
        (self.RecordSolve fb type solve).sessions = self.sessions ∧
        ((self.RecordSolve fb type solve).memory p).solves
          = self.committed ((self.memory p).solves ++ [solve]) ∧
        ∃ batch, self.callsSince (self.RecordSolve fb type solve)
            = if self.database.isSome then [StoreCall.Write batch] else []) := by
  rcases RecordSolve_cases self type with ⟨hc, hn⟩ | ⟨p, ha, ht, hn⟩
  · obtain ⟨pre, he, hs, hact, hdirty, hdb, hmem, hframe⟩ := RecordSolve_new fb self type solve hc
    have hfresh := freshSession_not_mem (self.sessions ++ self.activeSession.toList)
    generalize freshSession (self.sessions ++ self.activeSession.toList) = p at *
    have hisSome : pre.database.isSome = self.database.isSome := by
      rw [hdb]; cases self.database <;> rfl
    refine ⟨p, ?_, ?_, ?_, ?_, fun _ => ⟨?_, ?_, ?_, ?_, ?_, ?_⟩, fun h => absurd hn h⟩
    · rw [he, UpdateDatabaseForSessions_activeSession, hact]
    · rw [he, UpdateDatabaseForSessions_memory]
      split_ifs
      · rw [Session.persisted_type, hmem]
      · rw [hmem]
    · intro q hq
      rw [he, UpdateDatabaseForSessions_memory, if_neg (by simp [hq]), hframe q hq]
    · rw [he, UpdateDatabaseForSessions_isSome, hisSome]
    · exact fun h => hfresh (List.mem_append_left _ h)
    · intro h
      exact hfresh (List.mem_append_right _ (by simp [h]))
    · rw [he, UpdateDatabaseForSessions_sessions, hs]
    · rw [he, UpdateDatabaseForSessions_memory]
      simp only [List.mem_singleton, and_true, hisSome]
      have := History.committed_eq self (pre.memory p) (by rw [hmem])
      rw [hmem] at this ⊢
      exact this
    · rcases hdb0 : self.database with _ | db
      · rw [he, UpdateDatabaseForSessions_closed _ _ _ (by rw [hdb, hdb0]; rfl), hdirty]
        rfl
      · rw [he, UpdateDatabaseForSessions_open _ _ _ (db.Put "active_session" _)
          (by rw [hdb, hdb0]; rfl)]
        rfl
    · rcases hdb0 : self.database with _ | db
      · exact ⟨[], by simp [History.callsSince, hdb0], by simp⟩
      · have hpre : pre.database = some (db.Put "active_session"
            (self.idGenerator.ids self.idGenerator.calls)) := by rw [hdb, hdb0]; rfl
        refine ⟨pre.updateBatch fb [p], ?_, fun _ => ⟨pre.SerializeSessionList fb, ?_⟩⟩
        · have hid : ((self.RecordSolve fb type solve).memory p).id
              = self.idGenerator.ids self.idGenerator.calls := by
            rw [he, UpdateDatabaseForSessions_memory]
            split_ifs
            · rw [Session.persisted_id, hmem]
            · rw [hmem]
          rw [hid, he, UpdateDatabaseForSessions_open _ _ _ _ hpre]
          simp [History.callsSince, hdb0, Database.Write, Database.Put, Database.call]
        · unfold History.updateBatch
          rw [hdirty, if_pos rfl]
          exact List.mem_append_right _ (List.mem_singleton_self _)
  · obtain ⟨pre, he, hs, hact, hdirty, hdb, hmem, hframe⟩ :=
      RecordSolve_old fb self type solve p ha ht
    refine ⟨p, ?_, ?_, ?_, ?_, fun h => absurd h hn, fun _ => ⟨ha, ?_, ?_, ?_⟩⟩
    · rw [he, UpdateDatabaseForSessions_activeSession, hact]
    · rw [he, UpdateDatabaseForSessions_memory]
      split_ifs
      · rw [Session.persisted_type, hmem]; exact ht
      · rw [hmem]; exact ht
    · intro q hq
      rw [he, UpdateDatabaseForSessions_memory, if_neg (by simp [hq]), hframe q hq]
    · rw [he, UpdateDatabaseForSessions_isSome, hdb]
    · rw [he, UpdateDatabaseForSessions_sessions, hs]
    · rw [he, UpdateDatabaseForSessions_memory]
      simp only [List.mem_singleton, and_true, hdb]
      have := History.committed_eq self (pre.memory p) (by rw [hmem])
      rw [hmem] at this ⊢
      exact this
    · rcases hdb0 : self.database with _ | db
      · exact ⟨[], by simp [History.callsSince, hdb0]⟩
      · refine ⟨pre.updateBatch fb [p], ?_⟩
        rw [he, UpdateDatabaseForSessions_open _ _ _ db (by rw [hdb, hdb0])]
        simp [History.callsSince, hdb0, Database.Write, Database.call]

/-- C15: after `History::RecordSolve(type, solve)` the active session is non-null, has the
given type, and its solves are its previous solves with the solve appended at the end (solves
that a commit to an open store has written are marked clean).  When there was no active session
or the type of the active session differed, the active session is a new one, appended at the end
of the session list, with the solve as its only solve, and the session index is marked dirty:
without a store the flag is set after the call, with a store the batch of the call has put the
`sessions` key and the flag is cleared.  Otherwise the active session and the session list are
unchanged.  Recording a 3x3x3 solve and then a 4x4x4 solve on a history without sessions gives
two sessions, each with its solve, the second of them active. -/
theorem RecordSolve_spec (fb : Flatbuffers) (self : History) :
    (∀ type solve, ∃ p,
      (self.RecordSolve fb type solve).activeSession = some p ∧
      ((self.RecordSolve fb type solve).memory p).type = type ∧
      (self.needsNewSession type →
        p ∉ self.sessions ∧ self.activeSession ≠ some p ∧
        (self.RecordSolve fb type solve).sessions = self.sessions ++ [p] ∧
        ((self.RecordSolve fb type solve).memory p).solves = self.committed [solve] ∧
        (self.RecordSolve fb type solve).sessionListDirty = self.database.isNone ∧
        (self.database.isSome → ∃ batch value,
          StoreCall.Write batch ∈ self.callsSince (self.RecordSolve fb type solve) ∧
          BatchOp.Put "sessions" value ∈ batch)) ∧
      (¬self.needsNewSession type →
        self.activeSession = some p ∧
        (self.RecordSolve fb type solve).sessions = self.sessions ∧
        ((self.RecordSolve fb type solve).memory p).solves
          = self.committed ((self.memory p).solves ++ [solve]))) ∧
    (self.sessions = [] → self.activeSession = none → ∀ solve3 solve4, ∃ p1 p2,
      p1 ≠ p2 ∧
      ((self.RecordSolve fb SolveType.SOLVE_3X3X3 solve3).RecordSolve fb
        SolveType.SOLVE_4X4X4 solve4).sessions = [p1, p2] ∧
      ((self.RecordSolve fb SolveType.SOLVE_3X3X3 solve3).RecordSolve fb
        SolveType.SOLVE_4X4X4 solve4).activeSession = some p2 ∧
      (((self.RecordSolve fb SolveType.SOLVE_3X3X3 solve3).RecordSolve fb
        SolveType.SOLVE_4X4X4 solve4).memory p1).type = SolveType.SOLVE_3X3X3 ∧
      (((self.RecordSolve fb SolveType.SOLVE_3X3X3 solve3).RecordSolve fb
        SolveType.SOLVE_4X4X4 solve4).memory p2).type = SolveType.SOLVE_4X4X4 ∧
      (((self.RecordSolve fb SolveType.SOLVE_3X3X3 solve3).RecordSolve fb
        SolveType.SOLVE_4X4X4 solve4).memory p1).solves = self.committed [solve3] ∧
      (((self.RecordSolve fb SolveType.SOLVE_3X3X3 solve3).RecordSolve fb
        SolveType.SOLVE_4X4X4 solve4).memory p2).solves = self.committed [solve4]) := by
  refine ⟨fun type solve => ?_, fun hs ha solve3 solve4 => ?_⟩
  · obtain ⟨p, h1, h2, -, -, h5, h6⟩ := RecordSolve_result fb self type solve
    refine ⟨p, h1, h2, fun hn => ?_, fun hn => ?_⟩
    · obtain ⟨a, b, c, d, e, batch, hcalls, hput⟩ := h5 hn
      refine ⟨a, b, c, d, e, fun hopen => ?_⟩
      obtain ⟨value, hv⟩ := hput hopen
      refine ⟨batch, value, ?_, hv⟩
      rw [hcalls, if_pos hopen]
      simp
    · obtain ⟨a, b, c, -⟩ := h6 hn
      exact ⟨a, b, c⟩
  · obtain ⟨p1, a1, t1, -, i1, n1, -⟩ :=
      RecordSolve_result fb self SolveType.SOLVE_3X3X3 solve3
    obtain ⟨-, -, s1, m1, -⟩ := n1 (Or.inl ha)
    generalize self.RecordSolve fb SolveType.SOLVE_3X3X3 solve3 = h1 at *
    obtain ⟨p2, a2, t2, f2, -, n2, -⟩ := RecordSolve_result fb h1 SolveType.SOLVE_4X4X4 solve4
    obtain ⟨hp2, -, s2, m2, -⟩ := n2 (Or.inr ⟨p1, a1, by rw [t1]; decide⟩)
    have hne : p1 ≠ p2 := by
      rintro rfl
      rw [s1, hs] at hp2
      simp at hp2
    refine ⟨p1, p2, hne, ?_, a2, ?_, t2, ?_, ?_⟩
    · rw [s2, s1, hs]; rfl
    · rw [f2 p1 hne, t1]
    · rw [f2 p1 hne, m1]
    · rw [m2]
      unfold History.committed
      rw [i1]

/-- `History::SplitSessionAtSolve` in full, for a session of the list and an index inside its
solves. -/
theorem SplitSessionAtSolve_result (fb : Flatbuffers) (self : History) (s k : Nat)
    (hs : s ∈ self.sessions) (hk0 : 0 < k) (hk : k < (self.memory s).solves.length) :
    ∃ new before after,
      self.sessions = before ++ s :: after ∧ s ∉ before ∧
      new ∉ self.sessions ∧ new ≠ s ∧ self.activeSession ≠ some new ∧
      (self.SplitSessionAtSolve fb s k).sessions = before ++ s :: new :: after ∧
      ((self.SplitSessionAtSolve fb s k).memory s).solves
        = self.committed ((self.memory s).solves.take k) ∧
      ((self.SplitSessionAtSolve fb s k).memory s).type = (self.memory s).type ∧
      ((self.SplitSessionAtSolve fb s k).memory s).name = (self.memory s).name ∧
      ((self.SplitSessionAtSolve fb s k).memory s).id = (self.memory s).id ∧
      ((self.SplitSessionAtSolve fb s k).memory new).solves
        = self.committed ((self.memory s).solves.drop k) ∧
      ((self.SplitSessionAtSolve fb s k).memory new).type = (self.memory s).type ∧
      ((self.SplitSessionAtSolve fb s k).memory new).name = (self.memory s).name ∧
      (∀ q, q ≠ s → q ≠ new → (self.SplitSessionAtSolve fb s k).memory q = self.memory q) ∧
      (self.SplitSessionAtSolve fb s k).activeSession
        = (if self.activeSession = some s then some new else self.activeSession) ∧
      ∃ batch, self.callsSince (self.SplitSessionAtSolve fb s k)
        = if self.database.isSome then
            StoreCall.Write batch ::
              (if self.activeSession = some s then
                [StoreCall.Put "active_session" ((self.SplitSessionAtSolve fb s k).memory new).id]
              else [])
          else [] := by
  have hk' : ¬(k = 0 ∨ k ≥ (self.memory s).solves.length) := by omega
  obtain ⟨before, after, hf⟩ := findSession_of_mem hs
  obtain ⟨pre, he, hps, hpa, hpd, hpdb, hms, hmn, hframe⟩ :=
    SplitSessionAtSolve_found fb self s k before after hk' hf
  have hfresh := freshSession_not_mem (s :: (self.sessions ++ self.activeSession.toList))
  generalize freshSession (s :: (self.sessions ++ self.activeSession.toList)) = new at *
  have hne : new ≠ s := fun e => hfresh (by simp [e])
  have hmem : ∀ q, (self.SplitSessionAtSolve fb s k).memory q
      = if self.database.isSome ∧ q ∈ [s, new] then (pre.memory q).persisted
        else pre.memory q := by
    intro q
    rw [he, ← hpdb, ← UpdateDatabaseForSessions_memory]
    split_ifs <;> rfl
  have hsel : ∀ (q : Nat) (x : Session), q ∈ [s, new] → pre.memory q = x → x.dirty = true →
      ((self.SplitSessionAtSolve fb s k).memory q).solves = self.committed x.solves ∧
      ((self.SplitSessionAtSolve fb s k).memory q).type = x.type ∧
      ((self.SplitSessionAtSolve fb s k).memory q).name = x.name ∧
      ((self.SplitSessionAtSolve fb s k).memory q).id = x.id := by
    intro q x hq hx hd
    rw [hmem q, hx]
    simp only [hq, and_true]
    refine ⟨History.committed_eq self x hd, ?_, ?_, ?_⟩ <;> split_ifs <;>
      simp [Session.persisted_type, Session.persisted_name, Session.persisted_id]
  have h1 := hsel s _ (by simp) hms rfl
  have h2 := hsel new _ (by simp) hmn rfl
  refine ⟨new, before, after, (findSession_eq_some hf).1, (findSession_eq_some hf).2,
    fun h => hfresh (by simp [h]), hne, fun h => hfresh (by simp [h]), ?_, h1.1, h1.2.1, h1.2.2.1,
    h1.2.2.2, h2.1, h2.2.1, h2.2.2.1, ?_, ?_, ?_⟩
  · rw [he]
    split_ifs <;> simp [UpdateDatabaseForSessions_sessions, hps]
  · intro q hq1 hq2
    rw [hmem q, if_neg (by simp [hq1, hq2]), hframe q hq1 hq2]
  · rw [he, UpdateDatabaseForSessions_activeSession, hpa]
    by_cases ha : self.activeSession = some s
    · rw [if_pos ha.symm, if_pos ha]
    · rw [if_neg (fun e => ha e.symm), if_neg ha, UpdateDatabaseForSessions_activeSession, hpa]
  · rcases hdb0 : self.database with _ | db
    · exact ⟨[], by simp [History.callsSince, hdb0]⟩
    · refine ⟨pre.updateBatch fb [s, new], ?_⟩
      have hopen := UpdateDatabaseForSessions_open fb pre [s, new] db (by rw [hpdb, hdb0])
      have hid : ((self.SplitSessionAtSolve fb s k).memory new).id
          = ((pre.UpdateDatabaseForSessions fb [s, new]).memory new).id := by
        rw [he]; split_ifs <;> rfl
      rw [hid, he, UpdateDatabaseForSessions_activeSession, hpa]
      by_cases ha : self.activeSession = some s
      · rw [if_pos ha.symm]
        simp only [Option.isSome_some, if_true, ha]
        rw [hopen]
        simp [History.callsSince, hdb0, Database.Write, Database.Put, Database.call]
      · rw [if_neg (fun e => ha e.symm), hopen]
        simp [History.callsSince, hdb0, Database.Write, Database.call, ha]

/-- C16: for a session `s` of the session list and `0 < k < |s.solves|`, after
`History::SplitSessionAtSolve(s, k)` the solves of `s` are the first `k` solves it had, a new
session with the type and the name of `s` holds the remaining solves in order, so that the two
lists together are the solves that `s` had (solves that a commit to an open store has written
are marked clean); the new session stands right after `s` in the session list, in which all
other sessions keep their places relative to each other; and the new session is the active one
when `s` was.  Splitting an active session of five solves at `k = 2` gives sessions of sizes 2
and 3 with the session of three solves active. -/
theorem SplitSessionAtSolve_spec (fb : Flatbuffers) (self : History) (s k : Nat)
    (hs : s ∈ self.sessions) (hk0 : 0 < k) (hk : k < (self.memory s).solves.length) :
    ∃ new before after,
      self.sessions = before ++ s :: after ∧ s ∉ before ∧ new ∉ self.sessions ∧
      (self.SplitSessionAtSolve fb s k).sessions = before ++ s :: new :: after ∧
      ((self.SplitSessionAtSolve fb s k).memory s).solves
        = self.committed ((self.memory s).solves.take k) ∧
      ((self.SplitSessionAtSolve fb s k).memory new).solves
        = self.committed ((self.memory s).solves.drop k) ∧
      ((self.SplitSessionAtSolve fb s k).memory s).solves ++
          ((self.SplitSessionAtSolve fb s k).memory new).solves
        = self.committed (self.memory s).solves ∧
      ((self.SplitSessionAtSolve fb s k).memory new).type = (self.memory s).type ∧
      ((self.SplitSessionAtSolve fb s k).memory new).name = (self.memory s).name ∧
      (self.activeSession = some s →
        (self.SplitSessionAtSolve fb s k).activeSession = some new) ∧
      (self.activeSession ≠ some s →
        (self.SplitSessionAtSolve fb s k).activeSession = self.activeSession) ∧
      (self.activeSession = some s → (self.memory s).solves.length = 5 → k = 2 →
        ((self.SplitSessionAtSolve fb s k).memory s).solves.length = 2 ∧
        ((self.SplitSessionAtSolve fb s k).memory new).solves.length = 3 ∧
        (self.SplitSessionAtSolve fb s k).activeSession = some new) := by
  obtain ⟨new, before, after, h1, h2, h3, -, -, h6, h7, -, -, -, h11, h12, h13, -, h15, -⟩ :=
    SplitSessionAtSolve_result fb self s k hs hk0 hk
  have hlen : ∀ l : List Solve, (self.committed l).length = l.length := by
    intro l
    unfold History.committed
    split_ifs <;> simp
  refine ⟨new, before, after, h1, h2, h3, h6, h7, h11, ?_, h12, h13, ?_, ?_, ?_⟩
  · rw [h7, h11]
    unfold History.committed
    split_ifs
    · rw [← List.map_append, List.take_append_drop]
    · rw [List.take_append_drop]
  · intro ha
    rw [h15, if_pos ha]
  · intro ha
    rw [h15, if_neg ha]
  · intro ha h5 hk2
    refine ⟨?_, ?_, by rw [h15, if_pos ha]⟩
    · rw [h7, hlen, List.length_take, h5, hk2]
      rfl
    · rw [h11, hlen, List.length_drop, h5, hk2]

set_option maxRecDepth 100000 in
theorem SplitSessionAtSolve_spec_witness :
    1 ∈ sampleHistory.sessions ∧ 0 < 2 ∧ 2 < (sampleHistory.memory 1).solves.length ∧
      sampleHistory.activeSession = some 1 ∧ (sampleHistory.memory 1).solves.length = 5 ∧
      ∃ new,
        ((sampleHistory.SplitSessionAtSolve sampleFlatbuffers 1 2).memory 1).solves.length = 2 ∧
        ((sampleHistory.SplitSessionAtSolve sampleFlatbuffers 1 2).memory new).solves.length = 3 ∧
        (sampleHistory.SplitSessionAtSolve sampleFlatbuffers 1 2).activeSession = some new := by
  refine ⟨by decide, by decide, by decide, by decide, by decide, ?_⟩
  obtain ⟨new, -, -, -, -, -, -, -, -, -, -, -, -, -, h⟩ :=
    SplitSessionAtSolve_spec sampleFlatbuffers sampleHistory 1 2 (by decide) (by decide)
      (by decide)
  exact ⟨new, h (by decide) (by decide) rfl⟩

/-- C17: for `solveIdx = 0` and for `solveIdx` at or past the number of solves of the session,
`History::SplitSessionAtSolve` returns the history as it is: the session list, every session
with its solves, name, sync record and dirty flag, the active session, the dirty flag of the
session index and the store are all unchanged. -/
theorem SplitSessionAtSolve_out_of_range (fb : Flatbuffers) (self : History)
    (session solveIdx : Nat)
    (h : solveIdx = 0 ∨ solveIdx ≥ (self.memory session).solves.length) :
    self.SplitSessionAtSolve fb session solveIdx = self := by
  unfold History.SplitSessionAtSolve
  rw [if_pos h]

set_option maxRecDepth 100000 in
theorem SplitSessionAtSolve_out_of_range_witness :
    (5 = 0 ∨ 5 ≥ (sampleHistory.memory 1).solves.length) ∧
      sampleHistory.SplitSessionAtSolve sampleFlatbuffers 1 5 = sampleHistory :=
  ⟨Or.inr (by decide),
    SplitSessionAtSolve_out_of_range sampleFlatbuffers sampleHistory 1 5 (Or.inr (by decide))⟩

/-! ## History: what `DeleteSession` and `MergeSessions` do to the store -/

theorem Database.call_contents (db : Database) (c : StoreCall) (k : String) :
    (db.call c).contents k
      = if db.outcome db.calls.length then c.mutations.foldl BatchOp.apply db.contents k
        else db.contents k := by
  unfold Database.call
  split_ifs with h <;> simp [h]

theorem Database.Delete_contents_of_ne (db : Database) {key k : String} (h : k ≠ key) :
    (db.Delete key).contents k = db.contents k := by
  rw [Database.Delete, Database.call_contents]
  split_ifs
  · simp [StoreCall.mutations, BatchOp.apply, h]
  · rfl

theorem History.committed_ids (self : History) (l : List Solve) :
    (self.committed l).map (fun i => i.id) = l.map fun i => i.id := by
  unfold History.committed
  split_ifs
  · simp [Solve.clean, Function.comp_def]
  · rfl

/-- The record of a solve after `History::DeleteSession`, and the calls made. -/
theorem DeleteSession_store (fb : Flatbuffers) (self : History) (s : Nat) (db : Database)
    (hdb : self.database = some db) :
    ∃ db', (self.DeleteSession fb s).database = some db' ∧
      db'.calls = db.calls ++
        ((if self.activeSession = some s then [StoreCall.Delete "active_session"] else []) ++
          [StoreCall.Write (self.deleteBatch fb s)]) ∧
      ∀ id,
        (¬self.isOrphan s id → db'.contents ("solve:" ++ id) = db.contents ("solve:" ++ id)) ∧
        (self.isOrphan s id → (∀ n, db.outcome n = true) →
          db'.contents ("solve:" ++ id) = none) := by
  refine ⟨_, (DeleteSession_open fb self s db hdb).1, ?_, fun id => ?_⟩
  · split_ifs <;> simp [Database.Write, Database.Delete, Database.call]
  · have hspec := deleteBatch_spec fb self s
    have hput : ∀ v, BatchOp.Put ("solve:" ++ id) v ∉ self.deleteBatch fb s := by
      intro v hv
      rcases hspec.1 _ hv with h | ⟨x, -, h⟩ | ⟨w, h⟩
      · exact BatchOp.noConfusion h
      · exact BatchOp.noConfusion h
      · injection h with h1 _
        exact solveKey_ne_sessions id h1
    have hfirst : (if self.activeSession = some s then db.Delete "active_session"
        else db).contents ("solve:" ++ id) = db.contents ("solve:" ++ id) := by
      split_ifs
      · exact Database.Delete_contents_of_ne db (solveKey_ne_active id)
      · rfl
    have hout : (if self.activeSession = some s then db.Delete "active_session"
        else db).outcome = db.outcome := by
      split_ifs <;> rfl
    generalize (if self.activeSession = some s then db.Delete "active_session" else db) = db1
      at hfirst hout ⊢
    have hwrite : (db1.Write (self.deleteBatch fb s)).contents ("solve:" ++ id)
        = if db1.outcome db1.calls.length then
            (self.deleteBatch fb s).foldl BatchOp.apply db1.contents ("solve:" ++ id)
          else db1.contents ("solve:" ++ id) := Database.call_contents db1 _ _
    rw [hwrite]
    refine ⟨fun hno => ?_, fun ho hok => ?_⟩
    · have : (self.deleteBatch fb s).foldl BatchOp.apply db1.contents ("solve:" ++ id)
          = db1.contents ("solve:" ++ id) := by
        apply foldl_apply_of_no_key
        intro op hop
        refine ⟨fun v e => hput v (e ▸ hop), fun e => ?_⟩
        rcases hspec.1 _ hop with h | ⟨x, hx, h⟩ | ⟨w, h⟩
        · rw [e] at h
          injection h with h1
          exact solveKey_ne_sessionKey _ _ h1
        · rw [e] at h
          injection h with h1
          rw [solveKey_injective h1] at hno
          exact hno hx
        · rw [e] at h
          exact BatchOp.noConfusion h
      rw [this, ite_self, hfirst]
    · rw [hout, hok, if_pos rfl]
      exact foldl_apply_of_delete _ _ _ (hspec.2 id ho) hput

/-- `History::MergeSessions` in full, for two sessions of the same type. -/
theorem MergeSessions_result (fb : Flatbuffers) (self : History) (a b : Nat) (name : String)
    (ht : (self.memory a).type = (self.memory b).type) :
    (self.MergeSessions fb a b name).sessions = self.sessions.erase a ∧
      ((self.MergeSessions fb a b name).memory b).solves
        = self.committed ((self.memory a).solves ++ (self.memory b).solves) ∧
      ((self.MergeSessions fb a b name).memory b).name = name ∧
      (∀ q, q ≠ b → (self.MergeSessions fb a b name).memory q = self.memory q) ∧
      (self.MergeSessions fb a b name).activeSession
        = (if self.activeSession = some a then none else self.activeSession) ∧
      ∃ (post : History) (batch : List BatchOp), post.sessions = self.sessions ∧
        post.memory = (self.MergeSessions fb a b name).memory ∧
        (∀ op ∈ batch, ∃ k v, op = BatchOp.Put k v) ∧
        (∀ op ∈ batch, op.key ≠ "active_session") ∧
        ∀ db, self.database = some db →
          (self.MergeSessions fb a b name).database
            = some ((if self.activeSession = some a then
                  (db.Write batch).Delete "active_session"
                else db.Write batch).Write (post.deleteBatch fb a)) := by
  obtain ⟨pre, he, hps, hpa, hpd, hpdb, hmb, hframe⟩ :=
    MergeSessions_same_type fb self a b name ht
  have hmem : ∀ q, (self.MergeSessions fb a b name).memory q
      = if self.database.isSome ∧ q ∈ [b] then (pre.memory q).persisted else pre.memory q := by
    intro q
    rw [he, DeleteSession_memory, UpdateDatabaseForSessions_memory, hpdb]
  refine ⟨?_, ?_, ?_, ?_, ?_, pre.UpdateDatabaseForSessions fb [b], pre.updateBatch fb [b], ?_, ?_,
    updateBatch_puts fb pre [b], updateBatch_keys fb pre [b], ?_⟩
  · rw [he, DeleteSession_sessions, UpdateDatabaseForSessions_sessions, hps]
  · rw [hmem b]
    simp only [List.mem_singleton, and_true]
    have := History.committed_eq self (pre.memory b) (by rw [hmb])
    rw [hmb] at this ⊢
    exact this
  · rw [hmem b]
    split_ifs
    · rw [Session.persisted_name, hmb]
    · rw [hmb]
  · intro q hq
    rw [hmem q, if_neg (by simp [hq]), hframe q hq]
  · rw [he, DeleteSession_activeSession, UpdateDatabaseForSessions_activeSession, hpa]
  · rw [UpdateDatabaseForSessions_sessions, hps]
  · rw [he, DeleteSession_memory]
  · intro db hdb
    have hopen := UpdateDatabaseForSessions_open fb pre [b] db (by rw [hpdb, hdb])
    rw [he, (DeleteSession_open fb _ a (db.Write (pre.updateBatch fb [b]))
      (by rw [hopen])).1, UpdateDatabaseForSessions_activeSession, hpa]

/-- Every session list that holds each session once still does after any of the five member
functions that change the history. -/
theorem sessions_nodup_preserved (fb : Flatbuffers) (self : History) (h : self.sessions.Nodup) :
    (∀ type solve, (self.RecordSolve fb type solve).sessions.Nodup) ∧
      self.ResetSession.sessions.Nodup ∧
      (∀ session, (self.DeleteSession fb session).sessions.Nodup) ∧
      (∀ session solveIdx, (self.SplitSessionAtSolve fb session solveIdx).sessions.Nodup) ∧
      (∀ firstSession secondSession name,
        (self.MergeSessions fb firstSession secondSession name).sessions.Nodup) := by
  refine ⟨fun type solve => ?_, h, fun s => ?_, fun s k => ?_, fun a b name => ?_⟩
  · obtain ⟨p, -, -, -, -, h5, h6⟩ := RecordSolve_result fb self type solve
    by_cases hn : self.needsNewSession type
    · obtain ⟨hp, -, hs, -⟩ := h5 hn
      rw [hs]
      exact List.Nodup.append h (List.nodup_singleton p) (by simpa using hp)
    · rw [(h6 hn).2.1]; exact h
  · rw [DeleteSession_sessions]; exact h.erase s
  · by_cases hk : k = 0 ∨ k ≥ (self.memory s).solves.length
    · have : self.SplitSessionAtSolve fb s k = self := by
        unfold History.SplitSessionAtSolve
        rw [if_pos hk]
      rw [this]; exact h
    · by_cases hs : s ∈ self.sessions
      · obtain ⟨new, before, after, h1, -, h3, h4, -, h6, -⟩ :=
          SplitSessionAtSolve_result fb self s k hs (by omega) (by omega)
        rw [h6]
        rw [h1] at h h3
        simp only [List.nodup_append, List.nodup_cons, List.mem_append, List.mem_cons, not_or,
          List.disjoint_cons_right] at h h3 ⊢
        refine ⟨h.1, ⟨?_, ?_, h.2.1.2⟩, h.2.2.1, h3.1, h.2.2.2⟩
        · exact ⟨fun e => h4 e.symm, h.2.1.1⟩
        · exact h3.2.2
      · have : self.SplitSessionAtSolve fb s k = self := by
          unfold History.SplitSessionAtSolve
          rw [if_neg hk, findSession_of_not_mem hs]
        rw [this]; exact h
  · by_cases ht : (self.memory a).type = (self.memory b).type
    · obtain ⟨pre, he, hps, -⟩ := MergeSessions_same_type fb self a b name ht
      rw [he, DeleteSession_sessions, UpdateDatabaseForSessions_sessions, hps]
      exact h.erase a
    · have : self.MergeSessions fb a b name = self := by
        unfold History.MergeSessions
        rw [if_pos ht]
      rw [this]; exact h

/-- C18: for two different sessions `a` and `b` of a session list that holds each session
once, after `History::MergeSessions(a, b, name)` with `a.type = b.type` the solves of `b` are the
solves that `a` had followed by the solves that `b` had (solves that a commit to an open store
has written are marked clean), the name of `b` is `name`, `a` is not in the session list any
more and the other sessions are in the list in the order they had.  When the types differ the
call returns the history as it is.  (That `a` is in the list before the call is not needed.) -/
theorem MergeSessions_spec (fb : Flatbuffers) (self : History) (a b : Nat) (name : String)
    (hb : b ∈ self.sessions) (hab : a ≠ b) (hnodup : self.sessions.Nodup) :
    ((self.memory a).type = (self.memory b).type →
      ((self.MergeSessions fb a b name).memory b).solves
        = self.committed ((self.memory a).solves ++ (self.memory b).solves) ∧
      ((self.MergeSessions fb a b name).memory b).name = name ∧
      a ∉ (self.MergeSessions fb a b name).sessions ∧
      b ∈ (self.MergeSessions fb a b name).sessions ∧
      (self.MergeSessions fb a b name).sessions = self.sessions.filter (fun q => q ≠ a)) ∧
    ((self.memory a).type ≠ (self.memory b).type → self.MergeSessions fb a b name = self) := by
  refine ⟨fun ht => ?_, fun ht => ?_⟩
  · obtain ⟨h1, h2, h3, -⟩ := MergeSessions_result fb self a b name ht
    refine ⟨h2, h3, ?_, ?_, ?_⟩
    · rw [h1]
      exact hnodup.not_mem_erase
    · rw [h1]
      exact (List.mem_erase_of_ne (Ne.symm hab)).mpr hb
    · rw [h1, hnodup.erase_eq_filter]
      apply List.filter_congr
      intro q _
      by_cases hq : q = a <;> simp [hq]
  · unfold History.MergeSessions
    rw [if_pos ht]

set_option maxRecDepth 100000 in
theorem MergeSessions_spec_witness :
    2 ∈ sampleSplitHistory.sessions ∧ 1 ≠ 2 ∧ sampleSplitHistory.sessions.Nodup ∧
      (sampleSplitHistory.memory 1).type = (sampleSplitHistory.memory 2).type ∧
      ((sampleSplitHistory.MergeSessions sampleFlatbuffers 1 2 "merged").memory 2).solves
        = sampleSplitHistory.committed
            ((sampleSplitHistory.memory 1).solves ++ (sampleSplitHistory.memory 2).solves) ∧
      ((sampleSplitHistory.MergeSessions sampleFlatbuffers 1 2 "merged").memory 2).name
        = "merged" ∧
      1 ∉ (sampleSplitHistory.MergeSessions sampleFlatbuffers 1 2 "merged").sessions ∧
      2 ∈ (sampleSplitHistory.MergeSessions sampleFlatbuffers 1 2 "merged").sessions ∧
      (sampleSplitHistory.MergeSessions sampleFlatbuffers 1 2 "merged").sessions
        = sampleSplitHistory.sessions.filter (fun q => q ≠ 1) :=
  ⟨by decide, by decide, by decide, by decide,
    (MergeSessions_spec sampleFlatbuffers sampleSplitHistory 1 2 "merged" (by decide) (by decide)
      (by decide)).1 (by decide)⟩

theorem callsSince_eq (self after : History) (db db' : Database) (calls : List StoreCall)
    (h : self.database = some db) (h' : after.database = some db')
    (hc : db'.calls = db.calls ++ calls) : self.callsSince after = calls := by
  simp [History.callsSince, h, h', hc]

theorem callsSince_self (self : History) : self.callsSince self = [] := by
  unfold History.callsSince
  rcases self.database with _ | db <;> simp

/-- C19: with a store open, `History::DeleteSession(s)` writes one batch, which deletes the
record `"solve:<id>"` for exactly the IDs `id` of solves of `s` that no solve of a session left
in the list has; the record of every other solve is the same after the call as before it, and
when the calls on the store succeed the records of those IDs are gone.  `MergeSessions(a, b,
name)` with `b` in the session list and different from `a` makes no call that deletes the record
of a solve, and every solve record that is in the store before the call is in it after the
call. -/
theorem DeleteSession_orphans (fb : Flatbuffers) (self : History) (db : Database)
    (hdb : self.database = some db) (s : Nat) :
    (∃ db' batch, (self.DeleteSession fb s).database = some db' ∧
      self.callsSince (self.DeleteSession fb s)
        = (if self.activeSession = some s then [StoreCall.Delete "active_session"] else []) ++
            [StoreCall.Write batch] ∧
      ∀ id,
        (BatchOp.Delete ("solve:" ++ id) ∈ batch ↔ self.isOrphan s id) ∧
        (¬self.isOrphan s id → db'.contents ("solve:" ++ id) = db.contents ("solve:" ++ id)) ∧
        (self.isOrphan s id → (∀ n, db.outcome n = true) →
          db'.contents ("solve:" ++ id) = none)) ∧
    (∀ b name, b ∈ self.sessions → s ≠ b →
      ∃ db', (self.MergeSessions fb s b name).database = some db' ∧
        ∀ id,
          (∀ c ∈ self.callsSince (self.MergeSessions fb s b name),
            BatchOp.Delete ("solve:" ++ id) ∉ c.mutations) ∧
          ((db.contents ("solve:" ++ id)).isSome = true →
            (db'.contents ("solve:" ++ id)).isSome = true)) := by
  refine ⟨?_, fun b name hb hsb => ?_⟩
  · obtain ⟨db', h1, h2, h3⟩ := DeleteSession_store fb self s db hdb
    refine ⟨db', self.deleteBatch fb s, h1, callsSince_eq _ _ _ _ _ hdb h1 h2, fun id => ?_⟩
    refine ⟨⟨fun h => ?_, (deleteBatch_spec fb self s).2 id⟩, (h3 id).1, (h3 id).2⟩
    rcases (deleteBatch_spec fb self s).1 _ h with e | ⟨x, hx, e⟩ | ⟨v, e⟩
    · injection e with e1
      exact absurd e1 (solveKey_ne_sessionKey _ _)
    · injection e with e1
      rw [solveKey_injective e1]
      exact hx
    · exact BatchOp.noConfusion e
  · by_cases ht : (self.memory s).type = (self.memory b).type
    · obtain ⟨hs, hsol, -, hframe, -, post, batch, hps, hpm, hputs, -, hdb'⟩ :=
        MergeSessions_result fb self s b name ht
      have hno : ∀ id, ¬post.isOrphan s id := by
        rintro id ⟨⟨i, hi, hid⟩, hrest⟩
        have hb' : b ∈ post.sessions.erase s := by
          rw [hps]
          exact (List.mem_erase_of_ne (Ne.symm hsb)).mpr hb
        rw [hpm, hframe s hsb] at hi
        have hmem : id ∈ ((post.memory b).solves.map fun j => j.id) := by
          rw [hpm, hsol, History.committed_ids, List.map_append, List.mem_append]
          exact Or.inl (List.mem_map.mpr ⟨i, hi, hid⟩)
        obtain ⟨j, hj, hjid⟩ := List.mem_map.mp hmem
        exact hrest b hb' j hj hjid
      have hdel : ∀ id, BatchOp.Delete ("solve:" ++ id) ∉ post.deleteBatch fb s := by
        intro id h
        rcases (deleteBatch_spec fb post s).1 _ h with e | ⟨x, hx, e⟩ | ⟨v, e⟩
        · injection e with e1
          exact solveKey_ne_sessionKey _ _ e1
        · exact hno x hx
        · exact BatchOp.noConfusion e
      refine ⟨_, hdb' db hdb, fun id => ⟨?_, fun hsome => ?_⟩⟩
      · have hcalls : self.callsSince (self.MergeSessions fb s b name)
            = StoreCall.Write batch ::
              ((if self.activeSession = some s then [StoreCall.Delete "active_session"]
                else []) ++ [StoreCall.Write (post.deleteBatch fb s)]) := by
          apply callsSince_eq _ _ _ _ _ hdb (hdb' db hdb)
          split_ifs <;> simp [Database.Write, Database.Delete, Database.call]
        rw [hcalls]
        intro c hc
        simp only [List.mem_cons, List.mem_append, List.not_mem_nil, or_false] at hc
        rcases hc with rfl | hc | rfl
        · intro h
          obtain ⟨k, v, e⟩ := hputs _ h
          exact BatchOp.noConfusion e
        · split_ifs at hc
          · rw [List.mem_singleton] at hc
            rw [hc]
            intro h
            simp only [StoreCall.mutations, List.mem_singleton] at h
            injection h with h1
            exact solveKey_ne_active _ h1
          · simp at hc
        · exact hdel id
      · have h1 : ((db.Write batch).contents ("solve:" ++ id)).isSome = true := by
          rw [Database.Write, Database.call_contents]
          split_ifs
          · exact isSome_foldl_apply_of_puts _ _ _ hputs hsome
          · exact hsome
        have h2 : ((if self.activeSession = some s then (db.Write batch).Delete "active_session"
            else db.Write batch).contents ("solve:" ++ id)).isSome = true := by
          split_ifs
          · rw [Database.Delete_contents_of_ne _ (solveKey_ne_active id)]
            exact h1
          · exact h1
        generalize (if self.activeSession = some s then (db.Write batch).Delete "active_session"
          else db.Write batch) = db1 at h2 ⊢
        rw [Database.Write, Database.call_contents]
        split_ifs
        · rw [StoreCall.mutations.eq_def]
          simp only
          rw [foldl_apply_of_no_key]
          · exact h2
          · intro op hop
            refine ⟨fun v e => ?_, fun e => hdel id (e ▸ hop)⟩
            rcases (deleteBatch_spec fb post s).1 _ hop with e' | ⟨x, hx, e'⟩ | ⟨w, e'⟩
            · rw [e] at e'
              exact BatchOp.noConfusion e'
            · exact hno x hx
            · rw [e] at e'
              injection e' with e1
              exact solveKey_ne_sessions _ e1
        · exact h2
    · have : self.MergeSessions fb s b name = self := by
        unfold History.MergeSessions
        rw [if_pos ht]
      rw [this]
      refine ⟨db, hdb, fun id => ⟨?_, fun h => h⟩⟩
      simp [History.callsSince, hdb]

set_option maxRecDepth 100000 in
theorem DeleteSession_orphans_witness :
    sampleSplitHistory.database = some (sampleSplitHistory.database.getD sampleDatabase) ∧
      ∃ db', (sampleSplitHistory.DeleteSession sampleFlatbuffers 2).database = some db' ∧
        db'.contents "solve:c" = none ∧
        db'.contents "solve:a"
          = (sampleSplitHistory.database.getD sampleDatabase).contents "solve:a" := by
  obtain ⟨⟨db', batch, h1, -, h3⟩, -⟩ :=
    DeleteSession_orphans sampleFlatbuffers sampleSplitHistory
      (sampleSplitHistory.database.getD sampleDatabase) rfl 2
  refine ⟨rfl, db', h1, (h3 "c").2.2 ?_ (fun n => rfl), (h3 "a").2.1 ?_⟩
  · unfold History.isOrphan
    decide
  · unfold History.isOrphan
    decide

set_option maxRecDepth 100000 in
/-- C20 as stated fails: the first `RecordSolve` on a history without sessions makes two calls
on the store, a `Put` of the key `active_session` and then the batch with the records of the
solve and of the session and the session index.  After the first call the store names an active
session of which it holds no record.  And `MergeSessions` writes two batches, one for the record
of the session that is kept and one for the removal of the other session from the store. -/
theorem RecordSolve_two_store_calls :
    (emptyHistory (some sampleDatabase)).callsSince
        ((emptyHistory (some sampleDatabase)).RecordSolve sampleFlatbuffers
          SolveType.SOLVE_3X3X3 (sampleSolveWithId "a" 10000))
      = [StoreCall.Put "active_session" "id0",
          StoreCall.Write
            [BatchOp.Put "solve:a" "cube_solve", BatchOp.Put "session_solves:id0" "solve_list a",
              BatchOp.Put "session:id0" "session", BatchOp.Put "sessions" "session_list id0"]] ∧
      (sampleDatabase.Put "active_session" "id0").contents "active_session" = some "id0" ∧
      (sampleDatabase.Put "active_session" "id0").contents "session:id0" = none ∧
      (sampleDatabase.Put "active_session" "id0").contents "sessions" = none ∧
      sampleSplitHistory.callsSince
          (sampleSplitHistory.MergeSessions sampleFlatbuffers 1 2 "merged")
        = [StoreCall.Write
              [BatchOp.Put "session_solves:id6" "solve_list a b c d e",
                BatchOp.Put "session:id6" "session"],
            StoreCall.Write
              [BatchOp.Delete "session:id0", BatchOp.Put "sessions" "session_list id6"]] := by
  decide

/-- C20, amended: with a store open, `RecordSolve`, `DeleteSession` and an effective
`SplitSessionAtSolve` each write one batch, `MergeSessions` of two sessions of one type writes
two (the commit of the second session, then the batch of `DeleteSession` for the first), and no
batch holds the key `active_session`: when the call changes the active session that key is
written by a call of its own, before the batch in `RecordSolve` and `DeleteSession` and after it
in `SplitSessionAtSolve`.  These are all the calls made on the store; a `SplitSessionAtSolve`
or `MergeSessions` that returns early makes none. -/
theorem store_calls_spec (fb : Flatbuffers) (self : History) (db : Database)
    (hdb : self.database = some db) :
    (∀ type solve, ∃ batch p,
      (self.RecordSolve fb type solve).activeSession = some p ∧
      (∀ op ∈ batch, op.key ≠ "active_session") ∧
      (self.needsNewSession type →
        self.callsSince (self.RecordSolve fb type solve)
          = [StoreCall.Put "active_session" ((self.RecordSolve fb type solve).memory p).id,
              StoreCall.Write batch]) ∧
      (¬self.needsNewSession type →
        self.callsSince (self.RecordSolve fb type solve) = [StoreCall.Write batch])) ∧
    (∀ session, ∃ batch,
      (∀ op ∈ batch, op.key ≠ "active_session") ∧
      self.callsSince (self.DeleteSession fb session)
        = (if self.activeSession = some session then [StoreCall.Delete "active_session"]
          else []) ++ [StoreCall.Write batch]) ∧
    (∀ session solveIdx,
      (session ∈ self.sessions ∧ 0 < solveIdx ∧
          solveIdx < (self.memory session).solves.length →
        ∃ batch new,
          (∀ op ∈ batch, op.key ≠ "active_session") ∧
          (self.activeSession = some session →
            (self.SplitSessionAtSolve fb session solveIdx).activeSession = some new) ∧
          self.callsSince (self.SplitSessionAtSolve fb session solveIdx)
            = StoreCall.Write batch ::
              (if self.activeSession = some session then
                [StoreCall.Put "active_session"
                  ((self.SplitSessionAtSolve fb session solveIdx).memory new).id]
              else [])) ∧
      (¬(session ∈ self.sessions ∧ 0 < solveIdx ∧
          solveIdx < (self.memory session).solves.length) →
        self.callsSince (self.SplitSessionAtSolve fb session solveIdx) = [])) ∧
    (∀ firstSession secondSession name,
      ((self.memory firstSession).type = (self.memory secondSession).type →
        ∃ batch1 batch2,
          (∀ op ∈ batch1 ++ batch2, op.key ≠ "active_session") ∧
          self.callsSince (self.MergeSessions fb firstSession secondSession name)
            = StoreCall.Write batch1 ::
              ((if self.activeSession = some firstSession then
                  [StoreCall.Delete "active_session"]
                else []) ++ [StoreCall.Write batch2])) ∧
      ((self.memory firstSession).type ≠ (self.memory secondSession).type →
        self.callsSince (self.MergeSessions fb firstSession secondSession name) = [])) := by
  have hopen : self.database.isSome = true := by rw [hdb]; rfl
  refine ⟨fun type solve => ?_, fun s => ?_, fun s k => ⟨fun hin => ?_, fun hout => ?_⟩,
    fun a b name => ⟨fun ht => ?_, fun ht => ?_⟩⟩
  · rcases RecordSolve_cases self type with ⟨hc, hn⟩ | ⟨p, ha, ht, hn⟩
    · obtain ⟨pre, he, -, hact, -, hpdb, hmem, -⟩ := RecordSolve_new fb self type solve hc
      generalize freshSession (self.sessions ++ self.activeSession.toList) = p at *
      have hpre : pre.database = some (db.Put "active_session"
          (self.idGenerator.ids self.idGenerator.calls)) := by rw [hpdb, hdb]; rfl
      refine ⟨pre.updateBatch fb [p], p, ?_, updateBatch_keys fb pre [p], fun _ => ?_,
        fun h => absurd hn h⟩
      · rw [he, UpdateDatabaseForSessions_activeSession, hact]
      · have hid : ((self.RecordSolve fb type solve).memory p).id
            = self.idGenerator.ids self.idGenerator.calls := by
          rw [he, UpdateDatabaseForSessions_memory]
          split_ifs
          · rw [Session.persisted_id, hmem]
          · rw [hmem]
        rw [hid]
        apply callsSince_eq _ _ db _ _ hdb
          (by rw [he, UpdateDatabaseForSessions_open _ _ _ _ hpre])
        simp [Database.Write, Database.Put, Database.call]
    · obtain ⟨pre, he, -, hact, -, hpdb, -⟩ := RecordSolve_old fb self type solve p ha ht
      refine ⟨pre.updateBatch fb [p], p, ?_, updateBatch_keys fb pre [p], fun h => absurd h hn,
        fun _ => ?_⟩
      · rw [he, UpdateDatabaseForSessions_activeSession, hact]
      · apply callsSince_eq _ _ db _ _ hdb
          (by rw [he, UpdateDatabaseForSessions_open _ _ _ db (by rw [hpdb, hdb])])
        simp [Database.Write, Database.call]
  · obtain ⟨db', h1, h2, -⟩ := DeleteSession_store fb self s db hdb
    exact ⟨self.deleteBatch fb s, deleteBatch_keys fb self s, callsSince_eq _ _ _ _ _ hdb h1 h2⟩
  · have hk' : ¬(k = 0 ∨ k ≥ (self.memory s).solves.length) := by omega
    obtain ⟨before, after, hf⟩ := findSession_of_mem hin.1
    obtain ⟨pre, he, -, hpa, -, hpdb, -⟩ :=
      SplitSessionAtSolve_found fb self s k before after hk' hf
    generalize freshSession (s :: (self.sessions ++ self.activeSession.toList)) = new at *
    have hop := UpdateDatabaseForSessions_open fb pre [s, new] db (by rw [hpdb, hdb])
    refine ⟨pre.updateBatch fb [s, new], new, updateBatch_keys fb pre [s, new], ?_, ?_⟩
    · intro ha
      rw [he, UpdateDatabaseForSessions_activeSession, hpa, if_pos ha.symm]
    · rw [he, UpdateDatabaseForSessions_activeSession, hpa]
      by_cases ha : self.activeSession = some s
      · rw [if_pos ha.symm, if_pos ha]
        apply callsSince_eq _ _ db _ _ hdb (by rw [hop]; rfl)
        simp only [Database.Write, Database.Put, Database.call, List.append_assoc,
          List.singleton_append]
        rw [hop]
      · rw [if_neg (fun e => ha e.symm), if_neg ha]
        apply callsSince_eq _ _ db _ _ hdb (by rw [hop])
        simp [Database.Write, Database.call]
  · have : self.SplitSessionAtSolve fb s k = self := by
      unfold History.SplitSessionAtSolve
      by_cases hk : k = 0 ∨ k ≥ (self.memory s).solves.length
      · rw [if_pos hk]
      · rw [if_neg hk, findSession_of_not_mem (fun hs => hout ⟨hs, by omega, by omega⟩)]
    rw [this, callsSince_self]
  · obtain ⟨-, -, -, -, -, post, batch, -, -, -, hkeys, hdb'⟩ :=
      MergeSessions_result fb self a b name ht
    refine ⟨batch, post.deleteBatch fb a, ?_, ?_⟩
    · intro op hop
      rcases List.mem_append.mp hop with h | h
      · exact hkeys op h
      · exact deleteBatch_keys fb post a op h
    · apply callsSince_eq _ _ db _ _ hdb (hdb' db hdb)
      split_ifs <;> simp [Database.Write, Database.Delete, Database.call]
  · have : self.MergeSessions fb a b name = self := by
      unfold History.MergeSessions
      rw [if_pos ht]
    rw [this, callsSince_self]

set_option maxRecDepth 100000 in
theorem store_calls_spec_witness :
    sampleSplitHistory.database = some (sampleSplitHistory.database.getD sampleDatabase) ∧
      ∃ batch1 batch2,
        sampleSplitHistory.callsSince
            (sampleSplitHistory.MergeSessions sampleFlatbuffers 1 2 "merged")
          = [StoreCall.Write batch1, StoreCall.Write batch2] := by
  obtain ⟨batch1, batch2, -, h⟩ :=
    ((store_calls_spec sampleFlatbuffers sampleSplitHistory
      (sampleSplitHistory.database.getD sampleDatabase) rfl).2.2.2 1 2 "merged").1 (by decide)
  refine ⟨rfl, batch1, batch2, ?_⟩
  rw [h, if_neg (by decide)]
  rfl

/-! ## History: a write that fails -/

/-- For sessions that are clean the loop of `UpdateDatabaseForSessions` changes nothing and
collects nothing. -/
theorem persistAll_of_clean (fb : Flatbuffers) (l : List Nat) (self : History)
    (h : ∀ p ∈ l, (self.memory p).dirty = false) :
    self.persistAll l = self ∧ self.batchAll fb l = [] := by
  induction l with
  | nil => exact ⟨rfl, rfl⟩
  | cons p l ih =>
    have hp : (self.memory p).persisted = self.memory p :=
      Session.persisted_of_clean (h p (List.mem_cons_self _ _))
    obtain ⟨i1, i2⟩ := ih (fun q hq => h q (List.mem_cons_of_mem _ hq))
    simp only [History.persistAll, History.batchAll, hp, History.assign_self, i1, i2,
      List.append_nil]
    refine ⟨trivial, ?_⟩
    simp [History.sessionBatch, h p (List.mem_cons_self _ _)]

/-- A call that fails leaves the contents of the store as they are. -/
theorem Database.call_contents_of_fail (db : Database) (c : StoreCall)
    (h : db.outcome db.calls.length = false) : (db.call c).contents = db.contents := by
  funext k
  rw [Database.call_contents, h]
  rfl

/-- C21 fails on the code: `History::UpdateDatabaseForSessions` clears the dirty flags while it
builds the batch, before it calls `Write`, and neither it nor `History::DeleteSession` looks at
the status that `Write` returns.  On a history with a dirty session of one dirty solve and a
dirty session index, and a store that fails the write, the record of the solve is not in the
store after the call, yet the three flags are cleared and a second call writes an empty batch;
`DeleteSession` on the same history clears the index flag although its write fails too. -/
theorem UpdateDatabaseForSessions_write_fails :
    (sampleUnsavedHistory.memory 1).dirty = true ∧
    (sampleUnsavedHistory.memory 1).solves.map (fun i => (i.id, i.dirty)) = [("a", true)] ∧
    sampleUnsavedHistory.sessionListDirty = true ∧
    (sampleUnsavedHistory.database.map fun db => db.outcome db.calls.length) = some false ∧
    ((sampleUnsavedHistory.UpdateDatabaseForSessions sampleFlatbuffers [1]).database.map
      fun db => (db.contents "solve:a", db.contents "session:id0", db.contents "sessions"))
      = some (none, none, none) ∧
    ((sampleUnsavedHistory.UpdateDatabaseForSessions sampleFlatbuffers [1]).memory 1).dirty
      = false ∧
    ((sampleUnsavedHistory.UpdateDatabaseForSessions sampleFlatbuffers [1]).memory 1).solves.map
      (fun i => (i.id, i.dirty)) = [("a", false)] ∧
    (sampleUnsavedHistory.UpdateDatabaseForSessions sampleFlatbuffers [1]).sessionListDirty
      = false ∧
    (((sampleUnsavedHistory.UpdateDatabaseForSessions sampleFlatbuffers
        [1]).UpdateDatabaseForSessions sampleFlatbuffers [1]).database.map
      fun db => db.calls.drop 1) = some [StoreCall.Write []] ∧
    (sampleUnsavedHistory.DeleteSession sampleFlatbuffers 1).sessionListDirty = false ∧
    ((sampleUnsavedHistory.DeleteSession sampleFlatbuffers 1).database.map
      fun db => db.contents "sessions") = some none := by
  decide

/-- C21 as the code has it: when a store is open, `History::UpdateDatabaseForSessions` leaves
the session-index flag cleared, every session passed to it clean and the solves of every
session that was dirty clean, whether the batch write succeeds or fails; when the write fails
the store keeps the contents it had, and a retry with the same sessions writes an empty batch.
`History::DeleteSession` leaves the session-index flag cleared as well, and its write, when it
fails, leaves the contents of the store as they were before it. -/
theorem UpdateDatabaseForSessions_flags (fb : Flatbuffers) (self : History) (l : List Nat)
    (db : Database) (hdb : self.database = some db) :
    (self.UpdateDatabaseForSessions fb l).sessionListDirty = false ∧
    (∀ p ∈ l, ((self.UpdateDatabaseForSessions fb l).memory p).dirty = false ∧
      ((self.memory p).dirty = true →
        ∀ i ∈ ((self.UpdateDatabaseForSessions fb l).memory p).solves, i.dirty = false)) ∧
    (self.UpdateDatabaseForSessions fb l).database
      = some (db.Write (self.updateBatch fb l)) ∧
    (db.outcome db.calls.length = false →
      (db.Write (self.updateBatch fb l)).contents = db.contents) ∧
    ((self.UpdateDatabaseForSessions fb l).UpdateDatabaseForSessions fb l).database
      = some ((db.Write (self.updateBatch fb l)).Write []) ∧
    ∀ s, (self.DeleteSession fb s).sessionListDirty = false ∧
      ∃ db' : Database, (self.DeleteSession fb s).database = some (db'.Write (self.deleteBatch fb s)) ∧
        (db'.outcome db'.calls.length = false →
          (db'.Write (self.deleteBatch fb s)).contents = db'.contents) := by
  have hopen := UpdateDatabaseForSessions_open fb self l db hdb
  have hmem : ∀ p ∈ l, (self.UpdateDatabaseForSessions fb l).memory p
      = (self.memory p).persisted := by
    intro p hp
    rw [hopen]
    exact History.persistAll_memory_of_mem l self hp
  have hdb' : (self.UpdateDatabaseForSessions fb l).database
      = some (db.Write (self.updateBatch fb l)) := by rw [hopen]
  have hflag : (self.UpdateDatabaseForSessions fb l).sessionListDirty = false := by rw [hopen]
  refine ⟨hflag, ?_, hdb', fun h => Database.call_contents_of_fail db _ h, ?_, ?_⟩
  · intro p hp
    rw [hmem p hp]
    refine ⟨Session.persisted_dirty _, fun hd i hi => ?_⟩
    rw [Session.persisted_solves_of_dirty hd] at hi
    obtain ⟨i', -, rfl⟩ := List.mem_map.mp hi
    rfl
  · have hclean := persistAll_of_clean fb l (self.UpdateDatabaseForSessions fb l)
      (fun p hp => by rw [hmem p hp]; exact Session.persisted_dirty _)
    rw [UpdateDatabaseForSessions_open fb _ l _ hdb']
    simp only [History.updateBatch, hclean.2, hflag, Bool.false_eq_true, if_false,
      List.append_nil]
  · intro s
    obtain ⟨d1, d2⟩ := DeleteSession_open fb self s db hdb
    exact ⟨d2, _, d1, fun h => Database.call_contents_of_fail _ _ h⟩

theorem UpdateDatabaseForSessions_flags_witness :
    sampleUnsavedHistory.database = some failingDatabase ∧
    (sampleUnsavedHistory.UpdateDatabaseForSessions sampleFlatbuffers [1]).sessionListDirty
      = false ∧
    failingDatabase.outcome failingDatabase.calls.length = false ∧
    (failingDatabase.Write (sampleUnsavedHistory.updateBatch sampleFlatbuffers [1])).contents
      = failingDatabase.contents :=
  ⟨rfl, (UpdateDatabaseForSessions_flags sampleFlatbuffers sampleUnsavedHistory [1]
      failingDatabase rfl).1, rfl,
    (UpdateDatabaseForSessions_flags sampleFlatbuffers sampleUnsavedHistory [1]
      failingDatabase rfl).2.2.2.1 rfl⟩

/-! ## History: no record of an empty session -/

theorem sessionKey_injective {a b : String} (h : "session:" ++ a = "session:" ++ b) : a = b := by
  have := congrArg String.data h
  simp only [String.data_append, List.append_cancel_left_eq] at this
  exact String.ext this

theorem solvesKey_injective {a b : String}
    (h : "session_solves:" ++ a = "session_solves:" ++ b) : a = b := by
  have := congrArg String.data h
  simp only [String.data_append, List.append_cancel_left_eq] at this
  exact String.ext this

theorem sessionKey_ne_solvesKey (a b : String) : "session:" ++ a ≠ "session_solves:" ++ b := by
  intro h
  have := congrArg String.data h
  simp [String.data_append] at this

theorem sessions_ne_sessionKey (b : String) : "sessions" ≠ "session:" ++ b := by
  intro h
  have := congrArg String.data h
  simp [String.data_append] at this

theorem sessions_ne_solvesKey (b : String) : "sessions" ≠ "session_solves:" ++ b := by
  intro h
  have := congrArg String.data h
  simp [String.data_append] at this

theorem active_ne_sessionKey (b : String) : "active_session" ≠ "session:" ++ b := by
  intro h
  have := congrArg String.data h
  simp [String.data_append] at this

theorem active_ne_solvesKey (b : String) : "active_session" ≠ "session_solves:" ++ b := by
  intro h
  have := congrArg String.data h
  simp [String.data_append] at this

/-- The mutations that `UpdateDatabaseForSessions` collects for a session. -/
theorem mem_sessionBatch (fb : Flatbuffers) (s : Session) (op : BatchOp)
    (hop : op ∈ History.sessionBatch fb s) :
    (∃ i : Solve, op = BatchOp.Put ("solve:" ++ i.id) (History.SerializeSolve fb i)) ∨
      op = BatchOp.Put ("session_solves:" ++ s.id) (History.SerializeSolveList fb s) ∨
      op = BatchOp.Put ("session:" ++ s.id) (History.SerializeSession fb s) := by
  unfold History.sessionBatch at hop
  split_ifs at hop
  · simp only [List.mem_append, List.mem_map, List.mem_cons, List.mem_singleton,
      List.not_mem_nil, or_false] at hop
    rcases hop with ⟨i, -, h⟩ | h | h
    · exact Or.inl ⟨i, h.symm⟩
    · exact Or.inr (Or.inl h)
    · exact Or.inr (Or.inr h)
  · simp at hop

theorem sessionBatch_persisted (fb : Flatbuffers) (s : Session) :
    History.sessionBatch fb s.persisted = [] := by
  simp [History.sessionBatch, Session.persisted_dirty]

/-- Every mutation that the loop of `UpdateDatabaseForSessions` collects is collected for one
of the sessions passed, as that session is before the loop. -/
theorem mem_batchAll (fb : Flatbuffers) (l : List Nat) (self : History) (op : BatchOp)
    (hop : op ∈ self.batchAll fb l) : ∃ q ∈ l, op ∈ History.sessionBatch fb (self.memory q) := by
  induction l generalizing self with
  | nil => simp [History.batchAll] at hop
  | cons p l ih =>
    simp only [History.batchAll, List.mem_append] at hop
    rcases hop with hop | hop
    · exact ⟨p, List.mem_cons_self _ _, hop⟩
    · obtain ⟨q, hq, hop'⟩ := ih _ hop
      by_cases hqp : q = p
      · subst hqp
        rw [History.assign_memory_same, sessionBatch_persisted] at hop'
        exact absurd hop' (List.not_mem_nil _)
      · rw [History.assign_memory_of_ne _ _ hqp] at hop'
        exact ⟨q, List.mem_cons_of_mem _ hq, hop'⟩

/-- The session records in a batch of `UpdateDatabaseForSessions` are those of the sessions
passed. -/
theorem updateBatch_records (fb : Flatbuffers) (self : History) (l : List Nat) (op : BatchOp)
    (hop : op ∈ self.updateBatch fb l) (id value : String) :
    (op = BatchOp.Put ("session:" ++ id) value →
      ∃ q ∈ l, (self.memory q).id = id ∧
        value = History.SerializeSession fb (self.memory q)) ∧
    (op = BatchOp.Put ("session_solves:" ++ id) value →
      ∃ q ∈ l, (self.memory q).id = id ∧
        value = History.SerializeSolveList fb (self.memory q)) := by
  unfold History.updateBatch at hop
  rcases List.mem_append.mp hop with hop | hop
  · obtain ⟨q, hq, hop'⟩ := mem_batchAll fb l self op hop
    rcases mem_sessionBatch fb _ op hop' with ⟨i, h⟩ | h | h
    · subst h
      refine ⟨fun e => ?_, fun e => ?_⟩
      · exact absurd (BatchOp.Put.inj e).1 (solveKey_ne_sessionKey _ _)
      · exact absurd (BatchOp.Put.inj e).1 (solveKey_ne_solvesKey _ _)
    · subst h
      refine ⟨fun e => ?_, fun e => ?_⟩
      · exact absurd (BatchOp.Put.inj e).1.symm (sessionKey_ne_solvesKey _ _)
      · exact ⟨q, hq, solvesKey_injective (BatchOp.Put.inj e).1, (BatchOp.Put.inj e).2.symm⟩
    · subst h
      refine ⟨fun e => ?_, fun e => ?_⟩
      · exact ⟨q, hq, sessionKey_injective (BatchOp.Put.inj e).1, (BatchOp.Put.inj e).2.symm⟩
      · exact absurd (BatchOp.Put.inj e).1 (sessionKey_ne_solvesKey _ _)
  · split_ifs at hop
    · rw [List.mem_singleton.mp hop]
      refine ⟨fun e => ?_, fun e => ?_⟩
      · exact absurd (BatchOp.Put.inj e).1 (sessions_ne_sessionKey _)
      · exact absurd (BatchOp.Put.inj e).1 (sessions_ne_solvesKey _)
    · simp at hop

/-- A batch of `DeleteSession` puts no session record. -/
theorem deleteBatch_records (fb : Flatbuffers) (self : History) (s : Nat) (op : BatchOp)
    (hop : op ∈ self.deleteBatch fb s) (id value : String) :
    op ≠ BatchOp.Put ("session:" ++ id) value ∧
      op ≠ BatchOp.Put ("session_solves:" ++ id) value := by
  rcases (deleteBatch_spec fb self s).1 op hop with h | ⟨x, -, h⟩ | ⟨v, h⟩
  · subst h
    exact ⟨fun e => BatchOp.noConfusion e, fun e => BatchOp.noConfusion e⟩
  · subst h
    exact ⟨fun e => BatchOp.noConfusion e, fun e => BatchOp.noConfusion e⟩
  · subst h
    exact ⟨fun e => absurd (BatchOp.Put.inj e).1 (sessions_ne_sessionKey _),
      fun e => absurd (BatchOp.Put.inj e).1 (sessions_ne_solvesKey _)⟩

theorem SerializeSession_persisted (fb : Flatbuffers) (s : Session) :
    History.SerializeSession fb s.persisted = History.SerializeSession fb s := by
  simp only [History.SerializeSession, Session.persisted_type, Session.persisted_name,
    Session.persisted_update]

theorem SerializeSolveList_persisted (fb : Flatbuffers) (s : Session) :
    History.SerializeSolveList fb s.persisted = History.SerializeSolveList fb s := by
  simp only [History.SerializeSolveList]
  rw [Session.persisted_solves_ids]

theorem Session.persisted_solves_ne_nil {s : Session} (h : s.solves ≠ []) :
    s.persisted.solves ≠ [] := by
  intro e
  have := congrArg (List.map fun i : Solve => i.id) e
  rw [Session.persisted_solves_ids] at this
  simp at this
  exact h this

theorem History.committed_ne_nil (self : History) {l : List Solve} (h : l ≠ []) :
    self.committed l ≠ [] := by
  unfold History.committed
  split_ifs
  · simpa using h
  · exact h

theorem writesNoEmptySession_of_closed (fb : Flatbuffers) (self after : History)
    (h : self.database = none) : self.writesNoEmptySession fb after := by
  intro c hc
  simp [History.callsSince, h] at hc

theorem writesNoEmptySession_of_calls (fb : Flatbuffers) (self after : History)
    (db db' : Database) (new : List StoreCall) (hdb : self.database = some db)
    (hdb' : after.database = some db') (hcalls : db'.calls = db.calls ++ new)
    (hgood : ∀ c ∈ new, ∀ op ∈ c.mutations, after.putsNoEmptySession fb op) :
    self.writesNoEmptySession fb after := by
  intro c hc
  rw [callsSince_eq self after db db' new hdb hdb' hcalls] at hc
  exact hgood c hc

theorem putsNoEmptySession_delete (fb : Flatbuffers) (after : History) (key : String) :
    after.putsNoEmptySession fb (BatchOp.Delete key) :=
  fun _ _ => ⟨fun e => BatchOp.noConfusion e, fun e => BatchOp.noConfusion e⟩

theorem putsNoEmptySession_active (fb : Flatbuffers) (after : History) (v : String) :
    after.putsNoEmptySession fb (BatchOp.Put "active_session" v) :=
  fun _ _ => ⟨fun e => absurd (BatchOp.Put.inj e).1 (active_ne_sessionKey _),
    fun e => absurd (BatchOp.Put.inj e).1 (active_ne_solvesKey _)⟩

theorem putsNoEmptySession_deleteBatch (fb : Flatbuffers) (self after : History) (s : Nat)
    (op : BatchOp) (hop : op ∈ self.deleteBatch fb s) : after.putsNoEmptySession fb op :=
  fun id value => ⟨fun e => absurd e (deleteBatch_records fb self s op hop id value).1,
    fun e => absurd e (deleteBatch_records fb self s op hop id value).2⟩

/-- A batch of `UpdateDatabaseForSessions` for sessions with at least one solve each puts no
record of an empty session. -/
theorem putsNoEmptySession_updateBatch (fb : Flatbuffers) (pre after : History) (l : List Nat)
    (op : BatchOp) (hop : op ∈ pre.updateBatch fb l)
    (hmem : ∀ q ∈ l, after.memory q = (pre.memory q).persisted)
    (hne : ∀ q ∈ l, (pre.memory q).solves ≠ [])
    (hin : ∀ q ∈ l, q ∈ after.sessions ∨ after.activeSession = some q) :
    after.putsNoEmptySession fb op := by
  intro id value
  obtain ⟨r1, r2⟩ := updateBatch_records fb pre l op hop id value
  refine ⟨fun e => ?_, fun e => ?_⟩
  · obtain ⟨q, hq, hid, hv⟩ := r1 e
    refine ⟨q, hin q hq, ?_, ?_, ?_⟩
    · rw [hmem q hq, Session.persisted_id, hid]
    · rw [hmem q hq]; exact Session.persisted_solves_ne_nil (hne q hq)
    · rw [hmem q hq, SerializeSession_persisted, hv]
  · obtain ⟨q, hq, hid, hv⟩ := r2 e
    refine ⟨q, hin q hq, ?_, ?_, ?_⟩
    · rw [hmem q hq, Session.persisted_id, hid]
    · rw [hmem q hq]; exact Session.persisted_solves_ne_nil (hne q hq)
    · rw [hmem q hq, SerializeSolveList_persisted, hv]

theorem UpdateDatabaseForSessions_memory_open (fb : Flatbuffers) (self : History)
    (l : List Nat) (db : Database) (hdb : self.database = some db) (q : Nat) (hq : q ∈ l) :
    (self.UpdateDatabaseForSessions fb l).memory q = (self.memory q).persisted := by
  rw [UpdateDatabaseForSessions_memory, if_pos ⟨by rw [hdb]; rfl, hq⟩]

/-- `RecordSolve` keeps the session list free of empty sessions and writes no record of an
empty session. -/
theorem RecordSolve_noEmptySession (fb : Flatbuffers) (self : History) (type : SolveType)
    (solve : Solve) (h0 : self.noEmptySession) :
    (self.RecordSolve fb type solve).noEmptySession ∧
      self.writesNoEmptySession fb (self.RecordSolve fb type solve) := by
  constructor
  · obtain ⟨p, -, -, hframe, -, hnew, hold⟩ := RecordSolve_result fb self type solve
    intro q hq
    by_cases hn : self.needsNewSession type
    · obtain ⟨hp, -, hs, hsolves, -⟩ := hnew hn
      rw [hs] at hq
      rcases List.mem_append.mp hq with hq | hq
      · rw [hframe q (fun e => hp (e ▸ hq))]
        exact h0 q hq
      · rw [List.mem_singleton.mp hq, hsolves]
        exact self.committed_ne_nil (by simp)
    · obtain ⟨-, hs, hsolves, -⟩ := hold hn
      rw [hs] at hq
      by_cases hqp : q = p
      · rw [hqp, hsolves]
        exact self.committed_ne_nil (by simp)
      · rw [hframe q hqp]
        exact h0 q hq
  · rcases hdb : self.database with _ | db
    · exact writesNoEmptySession_of_closed fb _ _ hdb
    · rcases RecordSolve_cases self type with ⟨hc, -⟩ | ⟨p, ha, ht, -⟩
      · obtain ⟨pre, he, -, hact, -, hpdb, hmem, -⟩ := RecordSolve_new fb self type solve hc
        generalize freshSession (self.sessions ++ self.activeSession.toList) = p at *
        have hpre : pre.database = some (db.Put "active_session"
            (self.idGenerator.ids self.idGenerator.calls)) := by rw [hpdb, hdb]; rfl
        have hafter := UpdateDatabaseForSessions_open fb pre [p] _ hpre
        apply writesNoEmptySession_of_calls fb self _ db _
          [StoreCall.Put "active_session" (self.idGenerator.ids self.idGenerator.calls),
            StoreCall.Write (pre.updateBatch fb [p])] hdb (by rw [he, hafter])
        · simp [Database.Write, Database.Put, Database.call]
        · intro c hc op hop
          simp only [List.mem_cons, List.mem_singleton, List.not_mem_nil, or_false] at hc
          rcases hc with rfl | rfl
          · rw [List.mem_singleton.mp hop]
            exact putsNoEmptySession_active fb _ _
          · apply putsNoEmptySession_updateBatch fb pre _ [p] op hop
            · intro q hq
              rw [he]
              exact UpdateDatabaseForSessions_memory_open fb pre [p] _ hpre q hq
            · intro q hq
              rw [List.mem_singleton.mp hq, hmem]
              simp
            · intro q hq
              right
              rw [he, UpdateDatabaseForSessions_activeSession, hact, List.mem_singleton.mp hq]
      · obtain ⟨pre, he, -, hact, -, hpdb, hmem, -⟩ := RecordSolve_old fb self type solve p ha ht
        have hpre : pre.database = some db := by rw [hpdb, hdb]
        have hafter := UpdateDatabaseForSessions_open fb pre [p] _ hpre
        apply writesNoEmptySession_of_calls fb self _ db _
          [StoreCall.Write (pre.updateBatch fb [p])] hdb (by rw [he, hafter])
        · simp [Database.Write, Database.call]
        · intro c hc op hop
          rw [List.mem_singleton.mp hc] at hop
          apply putsNoEmptySession_updateBatch fb pre _ [p] op hop
          · intro q hq
            rw [he]
            exact UpdateDatabaseForSessions_memory_open fb pre [p] _ hpre q hq
          · intro q hq
            rw [List.mem_singleton.mp hq, hmem]
            simp
          · intro q hq
            right
            rw [he, UpdateDatabaseForSessions_activeSession, hact, List.mem_singleton.mp hq]

/-- The calls that `DeleteSession` makes on the store put no session record. -/
theorem DeleteSession_calls_put (fb : Flatbuffers) (self after : History) (s : Nat) :
    ∀ c ∈ (if self.activeSession = some s then [StoreCall.Delete "active_session"] else []) ++
        [StoreCall.Write (self.deleteBatch fb s)],
      ∀ op ∈ c.mutations, after.putsNoEmptySession fb op := by
  intro c hc op hop
  rcases List.mem_append.mp hc with hc | hc
  · split_ifs at hc
    · rw [List.mem_singleton.mp hc] at hop
      rw [List.mem_singleton.mp hop]
      exact putsNoEmptySession_delete fb _ _
    · simp at hc
  · rw [List.mem_singleton.mp hc] at hop
    exact putsNoEmptySession_deleteBatch fb self _ s op hop

/-- `DeleteSession` keeps the session list free of empty sessions and writes no session
record. -/
theorem DeleteSession_noEmptySession (fb : Flatbuffers) (self : History) (s : Nat)
    (h0 : self.noEmptySession) :
    (self.DeleteSession fb s).noEmptySession ∧
      self.writesNoEmptySession fb (self.DeleteSession fb s) := by
  constructor
  · intro q hq
    rw [DeleteSession_sessions] at hq
    rw [DeleteSession_memory]
    exact h0 q (List.mem_of_mem_erase hq)
  · rcases hdb : self.database with _ | db
    · exact writesNoEmptySession_of_closed fb _ _ hdb
    · obtain ⟨db', h1, h2, -⟩ := DeleteSession_store fb self s db hdb
      exact writesNoEmptySession_of_calls fb self _ db db' _ hdb h1 h2
        (DeleteSession_calls_put fb self _ s)

/-- `SplitSessionAtSolve` keeps the session list free of empty sessions and writes no record of
an empty session. -/
theorem SplitSessionAtSolve_noEmptySession (fb : Flatbuffers) (self : History) (s k : Nat)
    (h0 : self.noEmptySession) :
    (self.SplitSessionAtSolve fb s k).noEmptySession ∧
      self.writesNoEmptySession fb (self.SplitSessionAtSolve fb s k) := by
  by_cases hin : s ∈ self.sessions ∧ 0 < k ∧ k < (self.memory s).solves.length
  · obtain ⟨hs, hk0, hk⟩ := hin
    have htake : (self.memory s).solves.take k ≠ [] := by
      intro e
      have := congrArg List.length e
      simp only [List.length_take, List.length_nil] at this
      omega
    have hdrop : (self.memory s).solves.drop k ≠ [] := by
      intro e
      have := congrArg List.length e
      simp only [List.length_drop, List.length_nil] at this
      omega
    constructor
    · obtain ⟨new, before, after, hl, -, hnew, -, -, hl', h1, -, -, -, h2, -, -, hframe, -⟩ :=
        SplitSessionAtSolve_result fb self s k hs hk0 hk
      intro q hq
      by_cases hqs : q = s
      · rw [hqs, h1]
        exact self.committed_ne_nil htake
      · by_cases hqn : q = new
        · rw [hqn, h2]
          exact self.committed_ne_nil hdrop
        · rw [hframe q hqs hqn]
          apply h0 q
          rw [hl'] at hq
          rw [hl]
          simp only [List.mem_append, List.mem_cons] at hq ⊢
          tauto
    · rcases hdb : self.database with _ | db
      · exact writesNoEmptySession_of_closed fb _ _ hdb
      · have hk' : ¬(k = 0 ∨ k ≥ (self.memory s).solves.length) := by omega
        obtain ⟨before, after, hf⟩ := findSession_of_mem hs
        obtain ⟨pre, he, hpl, hpa, -, hpdb, hms, hmn, -⟩ :=
          SplitSessionAtSolve_found fb self s k before after hk' hf
        generalize freshSession (s :: (self.sessions ++ self.activeSession.toList)) = new at *
        have hpre : pre.database = some db := by rw [hpdb, hdb]
        have hop := UpdateDatabaseForSessions_open fb pre [s, new] db hpre
        have hmid : (pre.UpdateDatabaseForSessions fb [s, new]).database
            = some (db.Write (pre.updateBatch fb [s, new])) := by rw [hop]
        have hmem : ∀ q ∈ [s, new], (self.SplitSessionAtSolve fb s k).memory q
            = (pre.memory q).persisted := by
          intro q hq
          rw [he, ← UpdateDatabaseForSessions_memory_open fb pre [s, new] db hpre q hq]
          split_ifs <;> rfl
        have hsess : (self.SplitSessionAtSolve fb s k).sessions = before ++ s :: new :: after := by
          rw [he, ← hpl, ← UpdateDatabaseForSessions_sessions fb pre [s, new]]
          split_ifs <;> rfl
        have hbatch : ∀ op ∈ pre.updateBatch fb [s, new],
            (self.SplitSessionAtSolve fb s k).putsNoEmptySession fb op := by
          intro op hop'
          apply putsNoEmptySession_updateBatch fb pre _ [s, new] op hop' hmem
          · intro q hq
            simp only [List.mem_cons, List.mem_singleton, List.not_mem_nil, or_false] at hq
            rcases hq with rfl | rfl
            · rw [hms]; exact htake
            · rw [hmn]; exact hdrop
          · intro q hq
            left
            rw [hsess]
            simp only [List.mem_cons, List.mem_singleton, List.not_mem_nil, or_false] at hq
            simp only [List.mem_append, List.mem_cons]
            tauto
        by_cases ha : some s = (pre.UpdateDatabaseForSessions fb [s, new]).activeSession
        · apply writesNoEmptySession_of_calls fb self _ db _
            [StoreCall.Write (pre.updateBatch fb [s, new]),
              StoreCall.Put "active_session"
                ((pre.UpdateDatabaseForSessions fb [s, new]).memory new).id] hdb
            (by
              rw [he, if_pos ha]
              show Option.map _ (pre.UpdateDatabaseForSessions fb [s, new]).database = _
              rw [hmid]
              rfl)
          · simp [Database.Write, Database.Put, Database.call]
          · intro c hc op hop'
            simp only [List.mem_cons, List.mem_singleton, List.not_mem_nil, or_false] at hc
            rcases hc with rfl | rfl
            · exact hbatch op hop'
            · rw [List.mem_singleton.mp hop']
              exact putsNoEmptySession_active fb _ _
        · apply writesNoEmptySession_of_calls fb self _ db _
            [StoreCall.Write (pre.updateBatch fb [s, new])] hdb
            (by rw [he, if_neg ha, hmid])
          · simp [Database.Write, Database.call]
          · intro c hc op hop'
            rw [List.mem_singleton.mp hc] at hop'
            exact hbatch op hop'
  · have hself : self.SplitSessionAtSolve fb s k = self := by
      unfold History.SplitSessionAtSolve
      by_cases hk : k = 0 ∨ k ≥ (self.memory s).solves.length
      · rw [if_pos hk]
      · rw [if_neg hk, findSession_of_not_mem (fun hs => hin ⟨hs, by omega, by omega⟩)]
    rw [hself]
    exact ⟨h0, fun c hc => by rw [callsSince_self] at hc; exact absurd hc (List.not_mem_nil _)⟩

/-- `MergeSessions` of two different sessions, the second of which is in the session list,
keeps the session list free of empty sessions and writes no record of an empty session. -/
theorem MergeSessions_noEmptySession (fb : Flatbuffers) (self : History) (a b : Nat)
    (name : String) (h0 : self.noEmptySession) (hb : b ∈ self.sessions) (hab : a ≠ b) :
    (self.MergeSessions fb a b name).noEmptySession ∧
      self.writesNoEmptySession fb (self.MergeSessions fb a b name) := by
  by_cases ht : (self.memory a).type = (self.memory b).type
  · have hsolves : (self.memory a).solves ++ (self.memory b).solves ≠ [] := by
      intro e
      exact h0 b hb (List.append_eq_nil.mp e).2
    obtain ⟨hl, h1, -, hframe, -⟩ := MergeSessions_result fb self a b name ht
    constructor
    · intro q hq
      rw [hl] at hq
      by_cases hqb : q = b
      · rw [hqb, h1]
        exact self.committed_ne_nil hsolves
      · rw [hframe q hqb]
        exact h0 q (List.mem_of_mem_erase hq)
    · rcases hdb : self.database with _ | db
      · exact writesNoEmptySession_of_closed fb _ _ hdb
      · obtain ⟨pre, he, hpl, -, -, hpdb, hmb, -⟩ := MergeSessions_same_type fb self a b name ht
        have hpre : pre.database = some db := by rw [hpdb, hdb]
        have hop := UpdateDatabaseForSessions_open fb pre [b] db hpre
        have hmid : (pre.UpdateDatabaseForSessions fb [b]).database
            = some (db.Write (pre.updateBatch fb [b])) := by rw [hop]
        obtain ⟨db', d1, d2, -⟩ := DeleteSession_store fb _ a _ hmid
        apply writesNoEmptySession_of_calls fb self _ db db'
          (StoreCall.Write (pre.updateBatch fb [b]) ::
            ((if (pre.UpdateDatabaseForSessions fb [b]).activeSession = some a then
                [StoreCall.Delete "active_session"] else []) ++
              [StoreCall.Write ((pre.UpdateDatabaseForSessions fb [b]).deleteBatch fb a)]))
          hdb (by rw [he, d1])
        · rw [d2]
          simp [Database.Write, Database.call]
        · intro c hc op hop'
          rcases List.mem_cons.mp hc with rfl | hc
          · apply putsNoEmptySession_updateBatch fb pre _ [b] op hop'
            · intro q hq
              rw [he, DeleteSession_memory]
              exact UpdateDatabaseForSessions_memory_open fb pre [b] db hpre q hq
            · intro q hq
              rw [List.mem_singleton.mp hq, hmb]
              exact hsolves
            · intro q hq
              left
              rw [List.mem_singleton.mp hq, hl]
              exact (List.mem_erase_of_ne (Ne.symm hab)).mpr hb
          · exact DeleteSession_calls_put fb _ _ a c hc op hop'
  · have hself : self.MergeSessions fb a b name = self := by
      unfold History.MergeSessions
      rw [if_pos ht]
    rw [hself]
    exact ⟨h0, fun c hc => by rw [callsSince_self] at hc; exact absurd hc (List.not_mem_nil _)⟩

theorem ResetSession_noEmptySession (fb : Flatbuffers) (self : History)
    (h0 : self.noEmptySession) :
    self.ResetSession.noEmptySession ∧ self.writesNoEmptySession fb self.ResetSession := by
  refine ⟨h0, ?_⟩
  rcases hdb : self.database with _ | db
  · exact writesNoEmptySession_of_closed fb _ _ hdb
  · apply writesNoEmptySession_of_calls fb self _ db (db.Delete "active_session")
      [StoreCall.Delete "active_session"] hdb (by simp [History.ResetSession, hdb])
    · simp [Database.Delete, Database.call]
    · intro c hc op hop
      rw [List.mem_singleton.mp hc] at hop
      rw [List.mem_singleton.mp hop]
      exact putsNoEmptySession_delete fb _ _

/-- One call on sessions of the list keeps the session list free of empty sessions and writes
no record of an empty session. -/
theorem perform_noEmptySession (fb : Flatbuffers) (self : History) (c : HistoryCall)
    (h0 : self.noEmptySession) (hc : c.onList self) :
    (self.perform fb c).noEmptySession ∧ self.writesNoEmptySession fb (self.perform fb c) := by
  cases c with
  | RecordSolve type solve => exact RecordSolve_noEmptySession fb self type solve h0
  | ResetSession => exact ResetSession_noEmptySession fb self h0
  | DeleteSession s => exact DeleteSession_noEmptySession fb self s h0
  | SplitSessionAtSolve s k => exact SplitSessionAtSolve_noEmptySession fb self s k h0
  | MergeSessions a b name => exact MergeSessions_noEmptySession fb self a b name h0 hc.2.1 hc.2.2

/-- In a sequence of calls on sessions of the list, the session list is free of empty sessions
when each call is made, and each call is on sessions of the list then. -/
theorem performAll_before (fb : Flatbuffers) (done : List HistoryCall) (self : History)
    (c : HistoryCall) (rest : List HistoryCall) (h0 : self.noEmptySession)
    (hall : self.allOnList fb (done ++ c :: rest)) :
    (self.performAll fb done).noEmptySession ∧ c.onList (self.performAll fb done) := by
  induction done generalizing self with
  | nil => exact ⟨h0, hall.1⟩
  | cons d done ih =>
    exact ih (self.perform fb d) (perform_noEmptySession fb self d h0 hall.1).1 hall.2

theorem performAll_noEmptySession (fb : Flatbuffers) (calls : List HistoryCall)
    (self : History) (h0 : self.noEmptySession) (hall : self.allOnList fb calls) :
    (self.performAll fb calls).noEmptySession := by
  induction calls generalizing self with
  | nil => exact h0
  | cons c calls ih =>
    exact ih (self.perform fb c) (perform_noEmptySession fb self c h0 hall.1).1 hall.2

/-- C22: an empty session is never persisted: starting from a history whose session list
contains only sessions with at least one solve, after any sequence of `RecordSolve`,
`ResetSession`, `DeleteSession`, `SplitSessionAtSolve` and `MergeSessions` calls on sessions of
the list, every session in the list still has at least one solve, also after every call of the
sequence, and every `"session:<id>"` and `"session_solves:<id>"` record that a call of the
sequence writes to the store is the record of a session of the history after that call (one of
the list, or the active session) with that ID and at least one solve. -/
theorem noEmptySession_preserved (fb : Flatbuffers) (self : History)
    (calls : List HistoryCall) (h0 : self.noEmptySession) (hall : self.allOnList fb calls) :
    (self.performAll fb calls).noEmptySession ∧
    ∀ done c rest, calls = done ++ c :: rest →
      ((self.performAll fb done).perform fb c).noEmptySession ∧
      (self.performAll fb done).writesNoEmptySession fb
        ((self.performAll fb done).perform fb c) := by
  refine ⟨performAll_noEmptySession fb calls self h0 hall, ?_⟩
  intro done c rest hsplit
  rw [hsplit] at hall
  obtain ⟨h1, h2⟩ := performAll_before fb done self c rest h0 hall
  exact perform_noEmptySession fb _ c h1 h2

set_option maxRecDepth 100000 in
theorem noEmptySession_preserved_witness :
    sampleHistory.noEmptySession ∧
    sampleHistory.allOnList sampleFlatbuffers
      [.SplitSessionAtSolve 1 2, .MergeSessions 1 2 "merged",
        .RecordSolve SolveType.SOLVE_4X4X4 (sampleSolveWithId "f" 50000),
        .DeleteSession 2] ∧
    (sampleHistory.performAll sampleFlatbuffers
      [.SplitSessionAtSolve 1 2, .MergeSessions 1 2 "merged",
        .RecordSolve SolveType.SOLVE_4X4X4 (sampleSolveWithId "f" 50000),
        .DeleteSession 2]).sessions = [3] ∧
    (sampleHistory.performAll sampleFlatbuffers
      [.SplitSessionAtSolve 1 2, .MergeSessions 1 2 "merged",
        .RecordSolve SolveType.SOLVE_4X4X4 (sampleSolveWithId "f" 50000),
        .DeleteSession 2]).noEmptySession :=
  ⟨by unfold History.noEmptySession; decide,
    by simp only [History.allOnList, HistoryCall.onList, History.perform]; decide,
    by decide,
    (noEmptySession_preserved sampleFlatbuffers sampleHistory
      [.SplitSessionAtSolve 1 2, .MergeSessions 1 2 "merged",
        .RecordSolve SolveType.SOLVE_4X4X4 (sampleSolveWithId "f" 50000),
        .DeleteSession 2]
      (by unfold History.noEmptySession; decide)
      (by simp only [History.allOnList, HistoryCall.onList, History.perform]; decide)).1⟩

/-! ## The record codec -/

theorem SerializeSolve_eq (fb : Flatbuffers) (solve : Solve) :
    History.SerializeSolve fb solve = fb.Finish (History.solveData solve) := rfl

theorem SerializeSolveList_eq (fb : Flatbuffers) (session : Session) :
    History.SerializeSolveList fb session = fb.Finish (History.solveListData session) := rfl

theorem SerializeSession_eq (fb : Flatbuffers) (session : Session) :
    History.SerializeSession fb session = fb.Finish (History.sessionData session) := rfl

theorem SerializeSessionList_eq (fb : Flatbuffers) (self : History) :
    self.SerializeSessionList fb = fb.Finish self.sessionListData := rfl

/-- The loop of `DeserializeSolve` over the bytes of the scramble appends them. -/
theorem pushScramble (l : List CubeMove) (s : Solve) :
    l.foldl (fun (solve : Solve) i => { solve with scramble := solve.scramble ++ [i] }) s
      = { s with scramble := s.scramble ++ l } := by
  induction l generalizing s with
  | nil => simp
  | cons a l ih => rw [List.foldl_cons, ih]; simp

/-- The loop of `DeserializeSolve` over the timed moves appends them. -/
theorem pushSolveMoves (l : List database.CubeSolveMove) (s : Solve) :
    l.foldl
        (fun (solve : Solve) (i : database.CubeSolveMove) =>
          { solve with
            solveMoves :=
              solve.solveMoves ++
                [({ move := i.move, timestamp := i.milliseconds } : TimedCubeMove)] }) s
      = { s with
          solveMoves := s.solveMoves ++ l.map fun i =>
            ({ move := i.move, timestamp := i.milliseconds } : TimedCubeMove) } := by
  induction l generalizing s with
  | nil => simp
  | cons a l ih => rw [List.foldl_cons, ih]; simp

/-- The loop over a vector of strings none of which is null appends them all. -/
theorem pushStrings_some (l : List String) (list : List String) :
    History.pushStrings list (l.map some) = list ++ l := by
  unfold History.pushStrings
  induction l generalizing list with
  | nil => simp
  | cons a l ih => rw [List.map_cons, List.foldl_cons, ih]; simp

theorem History.assign_assign (self : History) (p : Nat) (a b : Session) :
    (self.assign p a).assign p b = self.assign p b := by
  unfold History.assign
  congr 1
  funext q
  by_cases h : q = p <;> simp [h]

/-- `DeserializeSolve` on the buffer of a solve that the reader reads back. -/
theorem DeserializeSolve_SerializeSolve (fb : Flatbuffers) (rd : FlatbuffersReader)
    (self : History) (solve target : Solve) (hrd : rd.readsBack fb (History.solveData solve))
    (htarget : target.solveMoves = []) :
    self.DeserializeSolve rd (History.SerializeSolve fb solve) target
      = (.OK, { solve with id := target.id, dirty := false }, self) := by
  obtain ⟨hv, hg⟩ := hrd
  rw [SerializeSolve_eq]
  unfold History.DeserializeSolve
  rw [hv, hg]
  simp only [History.solveData, database.Data.view, database.Update.view, Bool.not_true,
    Bool.false_eq_true, if_false, ne_eq, not_true_eq_false, Option.some_bind, pushScramble,
    pushSolveMoves, htarget, List.nil_append, List.map_map]
  have hmoves : List.map
      ((fun i : database.CubeSolveMove =>
          ({ move := i.move, timestamp := i.milliseconds } : TimedCubeMove)) ∘
        fun i : TimedCubeMove =>
          ({ move := i.move, milliseconds := i.timestamp } : database.CubeSolveMove))
      solve.solveMoves = solve.solveMoves := by
    induction solve.solveMoves with
    | nil => rfl
    | cons a l ih => rw [List.map_cons, ih]; rfl
  rw [hmoves]

/-- `DeserializeSession` on the buffer of a session that the reader reads back. -/
theorem DeserializeSession_SerializeSession (fb : Flatbuffers) (rd : FlatbuffersReader)
    (self : History) (session : Session) (target : Nat)
    (hrd : rd.readsBack fb (History.sessionData session)) :
    self.DeserializeSession rd (History.SerializeSession fb session) target
      = (.OK, self.assign target
          { self.memory target with
            type := session.type, name := session.name, update := session.update,
            dirty := false }) := by
  obtain ⟨hv, hg⟩ := hrd
  rw [SerializeSession_eq]
  unfold History.DeserializeSession
  rw [hv, hg]
  simp only [History.sessionData, database.Data.view, database.Update.view, Bool.not_true,
    Bool.false_eq_true, if_false, ne_eq, not_true_eq_false, Option.some_bind,
    History.assign_assign, History.assign_memory_same]

/-- Each decoder returns a corruption error and leaves its output and the history as they are
when the verification of the buffer fails or the discriminant of the envelope is not the one
it expects.  The message names the kind of record of the decoder, except in
`DeserializeSession`, whose two messages name a solve. -/
theorem Deserialize_corruption (rd : FlatbuffersReader) (self : History) (data : String) :
    (∀ solve : Solve,
      rd.VerifyDataBuffer data = false ∨
        (rd.GetData data).contents_type ≠ database.Contents.cube_solve →
      ∃ msg, self.DeserializeSolve rd data solve = (.Corruption msg, solve, self) ∧
        recordKindNamed msg = some .cube_solve) ∧
    (∀ list : List String,
      rd.VerifyDataBuffer data = false ∨
        (rd.GetData data).contents_type ≠ database.Contents.solve_list →
      ∃ msg, History.DeserializeSolveList rd data list = (.Corruption msg, list) ∧
        recordKindNamed msg = some .solve_list) ∧
    (∀ session : Nat,
      rd.VerifyDataBuffer data = false ∨
        (rd.GetData data).contents_type ≠ database.Contents.session →
      ∃ msg, self.DeserializeSession rd data session = (.Corruption msg, self) ∧
        recordKindNamed msg = some .cube_solve) ∧
    (∀ list : List String,
      rd.VerifyDataBuffer data = false ∨
        (rd.GetData data).contents_type ≠ database.Contents.session_list →
      ∃ msg, History.DeserializeSessionList rd data list = (.Corruption msg, list) ∧
        recordKindNamed msg = some .session_list) := by
  refine ⟨fun solve h => ?_, fun list h => ?_, fun session h => ?_, fun list h => ?_⟩
  · unfold History.DeserializeSolve
    by_cases hv : rd.VerifyDataBuffer data = true
    · have ht := h.resolve_left (by rw [hv]; decide)
      exact ⟨"Solve data does not contain a solve", by simp [hv, ht], by decide⟩
    · exact ⟨"Solve has invalid format", by simp [hv], by decide⟩
  · unfold History.DeserializeSolveList
    by_cases hv : rd.VerifyDataBuffer data = true
    · have ht := h.resolve_left (by rw [hv]; decide)
      exact ⟨"Solve list data does not contain a solve list", by simp [hv, ht], by decide⟩
    · exact ⟨"Solve list has invalid format", by simp [hv], by decide⟩
  · unfold History.DeserializeSession
    by_cases hv : rd.VerifyDataBuffer data = true
    · have ht := h.resolve_left (by rw [hv]; decide)
      exact ⟨"Solve data does not contain a solve", by simp [hv, ht], by decide⟩
    · exact ⟨"Solve has invalid format", by simp [hv], by decide⟩
  · unfold History.DeserializeSessionList
    by_cases hv : rd.VerifyDataBuffer data = true
    · have ht := h.resolve_left (by rw [hv]; decide)
      exact ⟨"Session list data does not contain a solve list", by simp [hv, ht], by decide⟩
    · exact ⟨"Session list has invalid format", by simp [hv], by decide⟩

/-- C23: round trip.  For every solve, `History::DeserializeSolve` applied to the buffer of
`History::SerializeSolve(solve)` with a target whose vector of timed moves is empty (as it is in
a freshly constructed solve) succeeds and yields the solve with the ID of the target and
`dirty = false`: it is equal to the original under `Solve::operator==`, and its sync record is
that of the original.  Likewise `DeserializeSolveList` and `DeserializeSessionList` return the
ID lists of `SerializeSolveList` and `SerializeSessionList` in the same order, and
`DeserializeSession` gives the target session the type, the name and the sync record that
`SerializeSession` was given, and marks it clean.  The buffers are those that the reader
accepts and reads back as the builder was given them. -/
theorem Deserialize_Serialize (fb : Flatbuffers) (rd : FlatbuffersReader) (self : History) :
    (∀ solve target : Solve, rd.readsBack fb (History.solveData solve) →
      target.solveMoves = [] →
      self.DeserializeSolve rd (History.SerializeSolve fb solve) target
          = (.OK, { solve with id := target.id, dirty := false }, self) ∧
        Solve.eq { solve with id := target.id, dirty := false } solve = true) ∧
    (∀ (session : Session) (list : List String),
      rd.readsBack fb (History.solveListData session) →
      History.DeserializeSolveList rd (History.SerializeSolveList fb session) list
        = (.OK, session.solves.map fun i => i.id)) ∧
    (∀ (session : Session) (target : Nat), rd.readsBack fb (History.sessionData session) →
      self.DeserializeSession rd (History.SerializeSession fb session) target
        = (.OK, self.assign target
            { self.memory target with
              type := session.type, name := session.name, update := session.update,
              dirty := false })) ∧
    (∀ list : List String, rd.readsBack fb self.sessionListData →
      History.DeserializeSessionList rd (self.SerializeSessionList fb) list
        = (.OK, self.sessions.map fun i => (self.memory i).id)) := by
  refine ⟨fun solve target hrd ht => ?_, fun session list hrd => ?_,
    fun session target hrd => ?_, fun list hrd => ?_⟩
  · exact ⟨DeserializeSolve_SerializeSolve fb rd self solve target hrd ht,
      by simp [Solve.eq]⟩
  · obtain ⟨hv, hg⟩ := hrd
    rw [SerializeSolveList_eq]
    unfold History.DeserializeSolveList
    rw [hv, hg]
    simp only [History.solveListData, database.Data.view, Bool.not_true, Bool.false_eq_true,
      if_false, ne_eq, not_true_eq_false, pushStrings_some, List.nil_append]
  · exact DeserializeSession_SerializeSession fb rd self session target hrd
  · obtain ⟨hv, hg⟩ := hrd
    rw [SerializeSessionList_eq]
    unfold History.DeserializeSessionList
    rw [hv, hg]
    simp only [History.sessionListData, database.Data.view, Bool.not_true, Bool.false_eq_true,
      if_false, ne_eq, not_true_eq_false, pushStrings_some, List.nil_append]

theorem Deserialize_Serialize_witness :
    sampleReader.readsBack sampleFlatbuffers (History.solveData sampleStoredSolve) ∧
    (sampleSolve false 0).solveMoves = [] ∧
    (emptyHistory none).DeserializeSolve sampleReader
        (History.SerializeSolve sampleFlatbuffers sampleStoredSolve) (sampleSolve false 0)
      = (.OK, { sampleStoredSolve with id := (sampleSolve false 0).id, dirty := false },
          emptyHistory none) ∧
    sampleReader.readsBack sampleFlatbuffers (History.sessionData sampleStoredSession) ∧
    ((emptyHistory none).DeserializeSession sampleReader
        (History.SerializeSession sampleFlatbuffers sampleStoredSession) 1).1 = .OK :=
  ⟨⟨rfl, rfl⟩, rfl,
    ((Deserialize_Serialize sampleFlatbuffers sampleReader (emptyHistory none)).1
      sampleStoredSolve (sampleSolve false 0) ⟨rfl, rfl⟩ rfl).1,
    ⟨rfl, rfl⟩,
    congrArg Prod.fst ((Deserialize_Serialize sampleFlatbuffers sampleReader
      (emptyHistory none)).2.2.1 sampleStoredSession 1 ⟨rfl, rfl⟩)⟩

/-- C24 fails on the code for `History::DeserializeSession`: the messages of its corruption
errors were taken over from `DeserializeSolve` and name a solve.  On the empty buffer, which
fails the verification, and on the buffer of a solve list, whose discriminant is not `session`,
`DeserializeSession` returns the very status that `DeserializeSolve` returns on the same
buffer, so the message does not tell that the record that failed is a session.  (The rest of
the claim holds for all four decoders: `Deserialize_corruption`.) -/
theorem DeserializeSession_message :
    sampleReader.VerifyDataBuffer "" = false ∧
    ((emptyHistory none).DeserializeSession sampleReader "" 1).1
      = .Corruption "Solve has invalid format" ∧
    ((emptyHistory none).DeserializeSolve sampleReader "" sampleStoredSolve).1
      = .Corruption "Solve has invalid format" ∧
    sampleReader.VerifyDataBuffer "solve_list a b" = true ∧
    (sampleReader.GetData "solve_list a b").contents_type = .solve_list ∧
    ((emptyHistory none).DeserializeSession sampleReader "solve_list a b" 1).1
      = .Corruption "Solve data does not contain a solve" ∧
    ((emptyHistory none).DeserializeSolve sampleReader "solve_list a b" sampleStoredSolve).1
      = .Corruption "Solve data does not contain a solve" ∧
    recordKindNamed "Solve has invalid format" = some .cube_solve ∧
    recordKindNamed "Solve data does not contain a solve" = some .cube_solve := by
  decide

/-! ### The trim count and the order of the input -/

/-- The `float` made from a positive size is at least 1, so it is not zero. -/
theorem roundF32_natCast_pos (n : ℕ) (hn : 0 < n) : 1 ≤ roundF32 (n : ℚ) := by
  have h1 : roundF32 ((1 : ℕ) : ℚ) = ((1 : ℕ) : ℚ) := roundF32_natCast 1 (by norm_num)
  have hle : ((1 : ℕ) : ℚ) ≤ (n : ℚ) := by exact_mod_cast hn
  have := roundF32_mono (by norm_num) hle
  rw [h1] at this
  simpa using this

/-- The sorted vector of `avgOf` depends only on the entries of the input. -/
theorem sortTimes_eq_of_perm {times times' : List Int} (h : times.Perm times') :
    Session.sortTimes times = Session.sortTimes times' :=
  sortTimes_unique times' (Session.sortTimes times) ((sortTimes_perm times).trans h)
    (sortTimes_sorted times)

/-- C25: for every list of `n ≥ 3` times, the trim count `(n + 39) / 40` that `Session::avgOf`
computes from the size of the sorted vector equals `⌈n / 40⌉` and twice the count is less than
`n`; so the range of the first `erase` lies inside the sorted vector, the range of the second
lies inside what the first leaves, at least one entry remains after trimming, and the `float`
divisor of the mean is not zero. -/
theorem avgOf_trim_count (times : List Int) (h3 : 3 ≤ times.length) :
    ((Session.sortTimes times).length + 39) / 40 = ⌈(times.length : ℚ) / 40⌉₊ ∧
    2 * ⌈(times.length : ℚ) / 40⌉₊ < times.length ∧
    ((Session.sortTimes times).length + 39) / 40 ≤ (Session.sortTimes times).length ∧
    ((Session.sortTimes times).length + 39) / 40
      ≤ ((Session.sortTimes times).drop (((Session.sortTimes times).length + 39) / 40)).length ∧
    (Session.avgOfSorted times).length
      = times.length - 2 * ⌈(times.length : ℚ) / 40⌉₊ ∧
    0 < (Session.avgOfSorted times).length ∧
    roundF32 ((Session.avgOfSorted times).length : ℚ) ≠ 0 := by
  obtain ⟨hlen, hpos⟩ := avgOfSorted_length times h3
  have hne : roundF32 ((Session.avgOfSorted times).length : ℚ) ≠ 0 := by
    have := roundF32_natCast_pos _ hpos
    intro h0
    rw [h0] at this
    norm_num at this
  rw [ceil_div_forty, sortTimes_length, List.length_drop, sortTimes_length]
  refine ⟨rfl, by omega, by omega, by omega, hlen, hpos, hne⟩

theorem avgOf_trim_count_witness :
    3 ≤ [10000, 12000, 11000].length ∧
    (Session.avgOfSorted [10000, 12000, 11000]).length
      = [10000, 12000, 11000].length - 2 * ⌈(([10000, 12000, 11000] : List Int).length : ℚ) / 40⌉₊ :=
  ⟨by decide, (avgOf_trim_count [10000, 12000, 11000] (by decide)).2.2.2.2.1⟩

/-- C26: `Session::avgOf` depends only on the multiset of its input: on a list of times and on
any permutation of that list it returns the same value. -/
theorem avgOf_perm (times times' : List Int) (h : times.Perm times') :
    Session.avgOf times = Session.avgOf times' := by
  unfold Session.avgOf
  rw [sortTimes_eq_of_perm h]

theorem avgOf_perm_witness :
    ([10000, 12000, 11000] : List Int).Perm [11000, 10000, 12000] ∧
    Session.avgOf [10000, 12000, 11000] = Session.avgOf [11000, 10000, 12000] :=
  ⟨by decide, avgOf_perm [10000, 12000, 11000] [11000, 10000, 12000] (by decide)⟩

theorem avgOfLast_eq_window (self : Session) (n : Nat) (hn : n ≤ self.solves.length) :
    self.avgOfLast n false = Session.avgOf (self.windowTimes n (self.solves.length - n)) := by
  rw [avgOfLast_eq, if_neg (by omega)]
  unfold Session.windowTimes
  congr 1
  simp only [Bool.false_and, Bool.not_false, List.filter_true]
  congr 1
  rw [List.take_of_length_le]
  rw [List.length_drop]
  omega

/-- C27: for every session and every `n ≤ |solves|`, if `avgOfLast(n, false)` is not DNF (so
that `n ≥ 3`), then `bestAvgOf(n, &start)` is not DNF and is at most `avgOfLast(n, false)`, and
the start index it returns is that of a window of `n` solves inside the session whose `avgOf`
equals the value returned. -/
theorem bestAvgOf_le_avgOfLast (self : Session) (n : Nat) (start : Int)
    (hn : n ≤ self.solves.length) (hlast : self.avgOfLast n false ≠ -1) :
    (self.bestAvgOf n (some start)).1 ≠ -1 ∧
    (self.bestAvgOf n (some start)).1 ≤ self.avgOfLast n false ∧
    3 ≤ n ∧
    ∃ i : Nat, (self.bestAvgOf n (some start)).2 = some (i : Int) ∧ i + n ≤ self.solves.length ∧
      Session.avgOf (((self.solves.drop i).take n).map
          fun s => if s.ok then wrapInt32 s.time else -1)
        = (self.bestAvgOf n (some start)).1 := by
  have hbest : self.bestAvgOf n (some start)
      = (List.range (self.solves.length - n + 1)).foldl (self.bestAvgOfBody n)
        (-1, some (-1 : Int)) := by
    simp [Session.bestAvgOf, not_lt.mpr hn]
  have hw := avgOfLast_eq_window self n hn
  have h3 : 3 ≤ n := by
    by_contra hlt
    apply hlast
    rw [hw, avgOf_eq, if_pos]
    simp only [Session.windowTimes, List.length_map, List.length_take, List.length_drop]
    omega
  rw [hw] at hlast ⊢
  rcases bestAvgOf_loop self n (some (-1 : Int)) (self.solves.length - n + 1) with
    ⟨hno, -⟩ | ⟨i₀, hi₀, hne, -, h2, hf⟩
  · exact absurd (hno _ (Nat.lt_succ_self _)) hlast
  · rw [hbest, hf]
    refine ⟨hne, h2 _ (Nat.lt_succ_self _) hlast, h3, i₀, rfl, by omega, rfl⟩

theorem bestAvgOf_le_avgOfLast_witness :
    3 ≤ (sampleSession [sampleSolve true 10000, sampleSolve true 12000,
      sampleSolve true 11000]).solves.length ∧
    (sampleSession [sampleSolve true 10000, sampleSolve true 12000,
      sampleSolve true 11000]).avgOfLast 3 false = 11000 ∧
    ((sampleSession [sampleSolve true 10000, sampleSolve true 12000,
      sampleSolve true 11000]).bestAvgOf 3 (some 0)).1 ≤ 11000 := by
  have hlast : (sampleSession [sampleSolve true 10000, sampleSolve true 12000,
      sampleSolve true 11000]).avgOfLast 3 false = 11000 := by
    have ht : (((sampleSession [sampleSolve true 10000, sampleSolve true 12000,
        sampleSolve true 11000]).solves.drop (3 - 3)).filter
          (fun s => !(false && !s.ok))).map Session.timeOf = [10000, 12000, 11000] := by
      decide
    rw [avgOfLast_eq, if_neg (by decide)]
    exact ht ▸ avgOf_example
  refine ⟨by decide, hlast, ?_⟩
  have h := (bestAvgOf_le_avgOfLast (sampleSession [sampleSolve true 10000,
    sampleSolve true 12000, sampleSolve true 11000]) 3 0 (by decide)
    (by rw [hlast]; decide)).2.1
  rw [hlast] at h
  exact h

/-! ### The order of the split times -/

/-- With non-decreasing timestamps the current timestamp does not go down along the stream. -/
theorem timeAt_mono (self : Solve)
    (hsorted : (self.solveMoves.map TimedCubeMove.timestamp).Sorted (· ≤ ·)) {a b : Nat}
    (hab : a ≤ b) (hb : b ≤ self.solveMoves.length) : self.timeAt a ≤ self.timeAt b := by
  cases a with
  | zero => exact Nat.zero_le _
  | succ a =>
    cases b with
    | zero => omega
    | succ b =>
      have ha' : a < self.solveMoves.length := by omega
      have hb' : b < self.solveMoves.length := by omega
      rw [timeAt_succ self a ha', timeAt_succ self b hb']
      rcases Nat.lt_or_ge a b with hlt | hge
      · have h := List.pairwise_iff_getElem.mp hsorted a b (by simpa using ha')
          (by simpa using hb') hlt
        simpa using h
      · have : a = b := by omega
        subst this
        exact Nat.le_refl _

theorem timeAt_length (self : Solve) :
    self.timeAt self.solveMoves.length
      = ((self.solveMoves.getLast?).map TimedCubeMove.timestamp).getD 0 := by
  rcases List.eq_nil_or_concat self.solveMoves with h | ⟨l, x, h⟩
  · rw [h]; rfl
  · have hlen : self.solveMoves.length = l.length + 1 := by rw [h]; simp
    rw [hlen]
    simp [Solve.timeAt, h, List.getLast?_concat]

/-- The split of a state after `GenerateSplitTimesFromMoves`: the timestamp current at the check
that traverses the state, or the last timestamp when no check does. -/
theorem GenerateSplitTimesFromMoves_split (E : Cube3x3Engine) (self : Solve) (j : SolveState)
    (h1 : SOLVESTATE_INITIAL < j) (h2 : j < SOLVESTATE_SOLVED) :
    ∃ k ≤ self.solveMoves.length,
      (self.GenerateSplitTimesFromMoves E).splitOf j = some (self.timeAt k) ∧
      self.stateAt E k < j ∧ (k < self.solveMoves.length → j ≤ self.stateAt E (k + 1)) := by
  obtain ⟨-, hs, ht, hsp⟩ := splitTimesAfter_spec E self self.solveMoves.length (Nat.le_refl _)
  by_cases hj : j ≤ self.stateAt E self.solveMoves.length
  · obtain ⟨k, hk, hlo, hhi⟩ := stateAt_traversed E self j h1 _ hj
    refine ⟨k, Nat.le_of_lt hk, ?_, hlo, fun _ => hhi⟩
    rw [GenerateSplitTimesFromMoves_eq, splitOf_recordAll _ _ _ _ h1 h2, hs, ht]
    rw [if_neg (by
      rw [mem_statesUpTo]
      intro h
      exact absurd hj (Nat.not_le_of_lt h.1))]
    exact hsp j h1 h2 k hk hlo hhi
  · refine ⟨self.solveMoves.length, Nat.le_refl _, ?_, Nat.lt_of_not_le hj,
      fun h => absurd h (Nat.lt_irrefl _)⟩
    rw [GenerateSplitTimesFromMoves_eq, splitOf_recordAll _ _ _ _ h1 h2, hs, ht]
    rw [if_pos (by rw [mem_statesUpTo]; exact ⟨Nat.lt_of_not_le hj, Nat.le_of_lt h2⟩)]

/-- With non-decreasing timestamps the split of a state is at most the split of every later
state, and at most the last timestamp. -/
theorem GenerateSplitTimesFromMoves_le (E : Cube3x3Engine) (self : Solve)
    (hsorted : (self.solveMoves.map TimedCubeMove.timestamp).Sorted (· ≤ ·))
    (j j' : SolveState) (h1 : SOLVESTATE_INITIAL < j) (hjj : j ≤ j')
    (h2 : j' < SOLVESTATE_SOLVED) :
    ∃ a b, (self.GenerateSplitTimesFromMoves E).splitOf j = some a ∧
      (self.GenerateSplitTimesFromMoves E).splitOf j' = some b ∧ a ≤ b ∧
      b ≤ self.timeAt self.solveMoves.length := by
  obtain ⟨k, hk, hsplit, hlo, hhi⟩ := GenerateSplitTimesFromMoves_split E self j h1
    (Nat.lt_of_le_of_lt hjj h2)
  obtain ⟨k', hk', hsplit', hlo', hhi'⟩ := GenerateSplitTimesFromMoves_split E self j'
    (Nat.lt_of_lt_of_le h1 hjj) h2
  refine ⟨_, _, hsplit, hsplit', ?_, timeAt_mono self hsorted hk' (Nat.le_refl _)⟩
  apply timeAt_mono self hsorted _ hk'
  by_contra hlt
  have hkk : k' + 1 ≤ k := by omega
  have hreach : j' ≤ self.stateAt E (k' + 1) := hhi' (by omega)
  have hmono : self.stateAt E (k' + 1) ≤ self.stateAt E k := stateAt_mono E self hkk
  exact absurd (Nat.le_trans hjj (Nat.le_trans hreach hmono)) (Nat.not_le_of_lt hlo)

/-- C28: for every scramble and every timed move stream whose timestamps are non-decreasing,
after `Solve::GenerateSplitTimesFromMoves` the eight splits are ordered:
`crossTime ≤ f2lPairTimes[0] ≤ f2lPairTimes[1] ≤ f2lPairTimes[2] ≤ f2lPairTimes[3] ≤
ollCrossTime ≤ ollFinishTime ≤ pllCornerTime ≤` the timestamp of the last move (0 for a stream
without moves). -/
theorem GenerateSplitTimesFromMoves_ordered (E : Cube3x3Engine) (self : Solve)
    (hsorted : (self.solveMoves.map TimedCubeMove.timestamp).Sorted (· ≤ ·)) :
    (self.GenerateSplitTimesFromMoves E).crossTime
      ≤ (self.GenerateSplitTimesFromMoves E).f2lPairTimes0 ∧
    (self.GenerateSplitTimesFromMoves E).f2lPairTimes0
      ≤ (self.GenerateSplitTimesFromMoves E).f2lPairTimes1 ∧
    (self.GenerateSplitTimesFromMoves E).f2lPairTimes1
      ≤ (self.GenerateSplitTimesFromMoves E).f2lPairTimes2 ∧
    (self.GenerateSplitTimesFromMoves E).f2lPairTimes2
      ≤ (self.GenerateSplitTimesFromMoves E).f2lPairTimes3 ∧
    (self.GenerateSplitTimesFromMoves E).f2lPairTimes3
      ≤ (self.GenerateSplitTimesFromMoves E).ollCrossTime ∧
    (self.GenerateSplitTimesFromMoves E).ollCrossTime
      ≤ (self.GenerateSplitTimesFromMoves E).ollFinishTime ∧
    (self.GenerateSplitTimesFromMoves E).ollFinishTime
      ≤ (self.GenerateSplitTimesFromMoves E).pllCornerTime ∧
    (self.GenerateSplitTimesFromMoves E).pllCornerTime
      ≤ ((self.solveMoves.getLast?).map TimedCubeMove.timestamp).getD 0 := by
  have key : ∀ j j' : SolveState, SOLVESTATE_INITIAL < j → j ≤ j' → j' < SOLVESTATE_SOLVED →
      ∀ a b, (self.GenerateSplitTimesFromMoves E).splitOf j = some a →
        (self.GenerateSplitTimesFromMoves E).splitOf j' = some b →
        a ≤ b ∧ b ≤ ((self.solveMoves.getLast?).map TimedCubeMove.timestamp).getD 0 := by
    intro j j' h1 hjj h2 a b ha hb
    obtain ⟨a', b', ha', hb', hab, hlast⟩ :=
      GenerateSplitTimesFromMoves_le E self hsorted j j' h1 hjj h2
    rw [ha] at ha'
    rw [hb] at hb'
    rw [Option.some.inj ha', Option.some.inj hb', ← timeAt_length]
    exact ⟨hab, hlast⟩
  exact ⟨(key SOLVESTATE_CROSS SOLVESTATE_F2L_FIRST_PAIR (by decide) (by decide) (by decide)
      _ _ rfl rfl).1,
    (key SOLVESTATE_F2L_FIRST_PAIR SOLVESTATE_F2L_SECOND_PAIR (by decide) (by decide) (by decide)
      _ _ rfl rfl).1,
    (key SOLVESTATE_F2L_SECOND_PAIR SOLVESTATE_F2L_THIRD_PAIR (by decide) (by decide) (by decide)
      _ _ rfl rfl).1,
    (key SOLVESTATE_F2L_THIRD_PAIR SOLVESTATE_F2L_COMPLETE (by decide) (by decide) (by decide)
      _ _ rfl rfl).1,
    (key SOLVESTATE_F2L_COMPLETE SOLVESTATE_OLL_CROSS (by decide) (by decide) (by decide)
      _ _ rfl rfl).1,
    (key SOLVESTATE_OLL_CROSS SOLVESTATE_OLL_COMPLETE (by decide) (by decide) (by decide)
      _ _ rfl rfl).1,
    (key SOLVESTATE_OLL_COMPLETE SOLVESTATE_PLL_CORNERS (by decide) (by decide) (by decide)
      _ _ rfl rfl).1,
    (key SOLVESTATE_PLL_CORNERS SOLVESTATE_PLL_CORNERS (by decide) (by decide) (by decide)
      _ _ rfl rfl).2⟩

set_option maxRecDepth 100000 in
theorem GenerateSplitTimesFromMoves_ordered_witness :
    ((sampleReplay [MOVE_R, MOVE_D, MOVE_Rp]
      [⟨MOVE_R, 100⟩, ⟨MOVE_Dp, 200⟩, ⟨MOVE_Rp, 300⟩]).solveMoves.map
        TimedCubeMove.timestamp).Sorted (· ≤ ·) ∧
    ((sampleReplay [MOVE_R, MOVE_D, MOVE_Rp]
      [⟨MOVE_R, 100⟩, ⟨MOVE_Dp, 200⟩, ⟨MOVE_Rp, 300⟩]).GenerateSplitTimesFromMoves
        stickerEngine).f2lPairTimes2
      ≤ ((sampleReplay [MOVE_R, MOVE_D, MOVE_Rp]
      [⟨MOVE_R, 100⟩, ⟨MOVE_Dp, 200⟩, ⟨MOVE_Rp, 300⟩]).GenerateSplitTimesFromMoves
        stickerEngine).f2lPairTimes3 :=
  ⟨by decide, (GenerateSplitTimesFromMoves_ordered stickerEngine
    (sampleReplay [MOVE_R, MOVE_D, MOVE_Rp] [⟨MOVE_R, 100⟩, ⟨MOVE_Dp, 200⟩, ⟨MOVE_Rp, 300⟩])
    (by decide)).2.2.2.1⟩

/-! ### The two replays -/

/-- After `k` passes the finish time that the detailed replay holds for a state reached so far
is the split that the plain replay holds for it. -/
theorem detailedAfter_finish (E : Cube3x3Engine) (self : Solve) (result : DetailedSplitTimes)
    (lastMove : CubeMove) (k : Nat) (hk : k ≤ self.solveMoves.length) (j : SolveState)
    (h1 : SOLVESTATE_INITIAL < j) (h2 : j < SOLVESTATE_SOLVED) (hj : j ≤ self.stateAt E k) :
    some ((Solve.detailedAfter E self result lastMove k).result.get
        (Solve.GetSplitForSolveState j.toNat)).finishTime
      = (Solve.splitTimesAfter E self k).self.splitOf j := by
  induction k with
  | zero => exact absurd hj (Nat.not_le_of_lt h1)
  | succ k ih =>
    have hlt : k < self.solveMoves.length := by omega
    obtain ⟨hc, hs, ht, -⟩ := detailedAfter_spec E self result lastMove k (by omega)
    obtain ⟨hc', hs', ht', -⟩ := splitTimesAfter_spec E self k (by omega)
    obtain ⟨-, -, -, b4⟩ := detailedBody_spec E (Solve.detailedAfter E self result lastMove k)
      (self.solveMoves.get ⟨k, hlt⟩)
    rw [detailedAfter_succ E self result lastMove k hlt, splitTimesAfter_succ E self k hlt,
      (b4 _).1, (finishPhases_times _ _ _ _).1, hc, hs, ht]
    simp only [Solve.splitTimesBody, hc', hs', ht']
    rw [splitOf_recordAll _ _ _ _ h1 h2]
    have hiff : (∃ j' ∈ statesUpTo (self.stateAt E k)
          (Solve.TransitionSolveState E (self.cubeAt E k) (self.stateAt E k)),
          Solve.GetSplitForSolveState j.toNat = Solve.GetSplitForSolveState j'.toNat) ↔
        j ∈ statesUpTo (self.stateAt E k)
          (Solve.TransitionSolveState E (self.cubeAt E k) (self.stateAt E k)) := by
      constructor
      · rintro ⟨j', hj', he⟩
        rw [GetSplitForSolveState_injective h1 h2 he] at hj'
        exact hj'
      · intro h
        exact ⟨j, h, rfl⟩
    by_cases hm : j ∈ statesUpTo (self.stateAt E k)
        (Solve.TransitionSolveState E (self.cubeAt E k) (self.stateAt E k))
    · rw [if_pos (hiff.mpr hm), if_pos hm]
    · rw [if_neg (fun h => hm (hiff.mp h)), if_neg hm]
      apply ih (by omega)
      by_contra hlt'
      exact hm ((mem_statesUpTo _ _ _).mpr ⟨Nat.lt_of_not_le hlt', hj⟩)

/-- The finish time that `GenerateDetailedSplitTimes` reports for the phase of a state is the
split that `GenerateSplitTimesFromMoves` stores for the state. -/
theorem GenerateDetailedSplitTimes_finish (E : Cube3x3Engine) (self : Solve)
    (result : DetailedSplitTimes) (lastMove : CubeMove) (j : SolveState)
    (h1 : SOLVESTATE_INITIAL < j) (h2 : j < SOLVESTATE_SOLVED) :
    some ((self.GenerateDetailedSplitTimes E result lastMove).get
        (Solve.GetSplitForSolveState j.toNat)).finishTime
      = (self.GenerateSplitTimesFromMoves E).splitOf j := by
  have hfinish : Solve.GetSplitForSolveState j.toNat ≠ SplitRef.pllFinish := by
    cases j <;> first | exact absurd h1 (by decide) | exact absurd h2 (by decide) | decide
  obtain ⟨-, hs, ht, -⟩ :=
    detailedAfter_spec E self result lastMove self.solveMoves.length (Nat.le_refl _)
  obtain ⟨-, hs', ht', -⟩ := splitTimesAfter_spec E self self.solveMoves.length (Nat.le_refl _)
  rw [(GenerateDetailedSplitTimes_eq E self result lastMove _).2, if_neg hfinish,
    (finishPhases_times _ _ _ _).1, GenerateSplitTimesFromMoves_eq,
    splitOf_recordAll _ _ _ _ h1 h2, hs, ht, hs', ht']
  by_cases hj : j ≤ self.stateAt E self.solveMoves.length
  · rw [if_neg, if_neg]
    · exact detailedAfter_finish E self result lastMove _ (Nat.le_refl _) j h1 h2 hj
    · rw [mem_statesUpTo]
      exact fun h => absurd hj (Nat.not_le_of_lt h.1)
    · rintro ⟨j', hj', he⟩
      rw [GetSplitForSolveState_injective h1 h2 he, mem_statesBelow] at hj'
      exact absurd hj (Nat.not_le_of_lt hj'.1)
  · rw [if_pos, if_pos]
    · rw [mem_statesUpTo]
      exact ⟨Nat.lt_of_not_le hj, Nat.le_of_lt h2⟩
    · exact ⟨j, (mem_statesBelow _ _ _).mpr ⟨Nat.lt_of_not_le hj, h2⟩, rfl⟩

/-- C29: the two replay passes agree: for every scramble and every timed move stream, the
`finishTime` that `Solve::GenerateDetailedSplitTimes` reports for `cross`, `f2lPair[0..3]`,
`ollCross`, `ollFinish` and `pllCorner` equals the `crossTime`, `f2lPairTimes[0..3]`,
`ollCrossTime`, `ollFinishTime` and `pllCornerTime` that `Solve::GenerateSplitTimesFromMoves`
stores for the same solve, whatever the uninitialised locals of the detailed pass hold. -/
theorem GenerateDetailedSplitTimes_agrees (E : Cube3x3Engine) (self : Solve)
    (result : DetailedSplitTimes) (lastMove : CubeMove) :
    (self.GenerateDetailedSplitTimes E result lastMove).cross.finishTime
      = (self.GenerateSplitTimesFromMoves E).crossTime ∧
    (self.GenerateDetailedSplitTimes E result lastMove).f2lPair0.finishTime
      = (self.GenerateSplitTimesFromMoves E).f2lPairTimes0 ∧
    (self.GenerateDetailedSplitTimes E result lastMove).f2lPair1.finishTime
      = (self.GenerateSplitTimesFromMoves E).f2lPairTimes1 ∧
    (self.GenerateDetailedSplitTimes E result lastMove).f2lPair2.finishTime
      = (self.GenerateSplitTimesFromMoves E).f2lPairTimes2 ∧
    (self.GenerateDetailedSplitTimes E result lastMove).f2lPair3.finishTime
      = (self.GenerateSplitTimesFromMoves E).f2lPairTimes3 ∧
    (self.GenerateDetailedSplitTimes E result lastMove).ollCross.finishTime
      = (self.GenerateSplitTimesFromMoves E).ollCrossTime ∧
    (self.GenerateDetailedSplitTimes E result lastMove).ollFinish.finishTime
      = (self.GenerateSplitTimesFromMoves E).ollFinishTime ∧
    (self.GenerateDetailedSplitTimes E result lastMove).pllCorner.finishTime
      = (self.GenerateSplitTimesFromMoves E).pllCornerTime :=
  ⟨Option.some.inj (GenerateDetailedSplitTimes_finish E self result lastMove SOLVESTATE_CROSS
      (by decide) (by decide)),
    Option.some.inj (GenerateDetailedSplitTimes_finish E self result lastMove
      SOLVESTATE_F2L_FIRST_PAIR (by decide) (by decide)),
    Option.some.inj (GenerateDetailedSplitTimes_finish E self result lastMove
      SOLVESTATE_F2L_SECOND_PAIR (by decide) (by decide)),
    Option.some.inj (GenerateDetailedSplitTimes_finish E self result lastMove
      SOLVESTATE_F2L_THIRD_PAIR (by decide) (by decide)),
    Option.some.inj (GenerateDetailedSplitTimes_finish E self result lastMove
      SOLVESTATE_F2L_COMPLETE (by decide) (by decide)),
    Option.some.inj (GenerateDetailedSplitTimes_finish E self result lastMove
      SOLVESTATE_OLL_CROSS (by decide) (by decide)),
    Option.some.inj (GenerateDetailedSplitTimes_finish E self result lastMove
      SOLVESTATE_OLL_COMPLETE (by decide) (by decide)),
    Option.some.inj (GenerateDetailedSplitTimes_finish E self result lastMove
      SOLVESTATE_PLL_CORNERS (by decide) (by decide))⟩

/-! ### The order of the phase times and the idle time -/

theorem next_toNat {j : SolveState} (h : j < SOLVESTATE_SOLVED) :
    j.next.toNat = j.toNat + 1 := by
  cases j <;> first | rfl | exact absurd h (by decide)

/-- A run of the phase-finishing loop over the states after `s` up to `s'` keeps the phase
times in order. -/
theorem finishPhases_order (t : Nat) (s s' : SolveState) (l : List SolveState)
    (hl : ∀ j, j ∈ l ↔ s < j ∧ j ≤ s') (R : DetailedSplitTimes) (u : SolveState)
    (h : R.orderedUpTo s t) :
    (l.foldl (Solve.finishPhase t) (R, u)).1.orderedUpTo s' t := by
  intro j h1 h2 hj
  have hnext : j.next.toNat = j.toNat + 1 := next_toNat h2
  have e2 : (∃ i ∈ l, Solve.GetSplitForSolveState j.toNat
      = Solve.GetSplitForSolveState i.toNat) → j ∈ l := by
    rintro ⟨i, hi, he⟩
    rw [GetSplitForSolveState_injective h1 h2 he] at hi
    exact hi
  have e1 : (∃ i ∈ l, Solve.GetSplitForSolveState (j.toNat + 1)
      = Solve.GetSplitForSolveState (i.toNat + 1)) → j ∈ l ∨ j = SOLVESTATE_PLL_CORNERS := by
    rintro ⟨i, hi, he⟩
    rcases GetSplitForSolveState_succ_injective h1 h2 he with hij | ⟨h8, -⟩
    · left
      rw [hij] at hi
      exact hi
    · exact Or.inr h8
  have hold : j ∉ l → j ≤ s := by
    intro hm
    by_contra hlt
    exact hm ((hl j).mpr ⟨Nat.lt_of_not_le hlt, hj⟩)
  have f1 := (finishPhases_times t l (R, u) (Solve.GetSplitForSolveState j.toNat)).1
  have f2 := finishPhases_times t l (R, u) (Solve.GetSplitForSolveState (j.toNat + 1))
  have f3 := (finishPhases_counts t l (R, u) (Solve.GetSplitForSolveState (j.toNat + 1))).2
  rw [f1, f2.1, f2.2.1, f3]
  by_cases hx1 : ∃ i ∈ l, Solve.GetSplitForSolveState (j.toNat + 1)
      = Solve.GetSplitForSolveState (i.toNat + 1)
  · rw [if_pos hx1, if_pos hx1]
    refine ⟨?_, Nat.le_refl _, Nat.le_refl _, ?_⟩
    · by_cases hx2 : ∃ i ∈ l, Solve.GetSplitForSolveState j.toNat
          = Solve.GetSplitForSolveState i.toNat
      · rw [if_pos hx2]
      · rw [if_neg hx2]
        obtain ⟨a, b, c, -⟩ := h j h1 h2 (hold (fun hm => hx2 ⟨j, hm, rfl⟩))
        exact Nat.le_trans a (Nat.le_trans b c)
    · intro hn hn2
      by_cases hx3 : ∃ i ∈ l, Solve.GetSplitForSolveState (j.toNat + 1)
          = Solve.GetSplitForSolveState i.toNat
      · rw [if_pos hx3]
      · exfalso
        rcases e1 hx1 with hm | h8
        · have hs : s < j := ((hl j).mp hm).1
          apply hx3
          refine ⟨j.next, (hl _).mpr ⟨?_, hn⟩, by rw [hnext]⟩
          show s.toNat < j.next.toNat
          rw [hnext]
          exact Nat.lt_succ_of_lt hs
        · rw [h8] at hn2
          exact absurd hn2 (by decide)
  · rw [if_neg hx1, if_neg hx1]
    have hm : j ∉ l := fun hm => hx1 ⟨j, hm, rfl⟩
    obtain ⟨a, b, c, d⟩ := h j h1 h2 (hold hm)
    rw [if_neg (fun hx2 => hm (e2 hx2))]
    refine ⟨a, b, c, ?_⟩
    intro hn hn2
    by_cases hx3 : ∃ i ∈ l, Solve.GetSplitForSolveState (j.toNat + 1)
        = Solve.GetSplitForSolveState i.toNat
    · rw [if_pos hx3]
      exact c
    · rw [if_neg hx3]
      apply d _ hn2
      by_contra hlt
      exact hx3 ⟨j.next, (hl _).mpr ⟨Nat.lt_of_not_le hlt, hn⟩, by rw [hnext]⟩

/-- The move-count update of a pass keeps the phase times in order when the timestamp of the
move is not below the timestamp before it. -/
theorem countMove_order (R R' : DetailedSplitTimes) (s' : SolveState) (t t' : Nat)
    (htt : t ≤ t')
    (hfin : ∀ p, (R'.get p).finishTime = (R.get p).finishTime)
    (hst : ∀ p, (R'.get p).phaseStartTime = (R.get p).phaseStartTime)
    (hfi : ∀ p, (R'.get p).firstMoveTime = (R.get p).firstMoveTime ∨
      (p = Solve.GetSplitForSolveState (s'.toNat + 1) ∧ (R'.get p).firstMoveTime = t'))
    (h : R.orderedUpTo s' t) : R'.orderedUpTo s' t' := by
  intro j h1 h2 hj
  obtain ⟨a, b, c, d⟩ := h j h1 h2 hj
  rw [hfin, hst, hfin]
  rcases hfi (Solve.GetSplitForSolveState (j.toNat + 1)) with e | ⟨ep, e⟩
  · rw [e]
    exact ⟨a, b, Nat.le_trans c htt, d⟩
  · rw [e]
    refine ⟨a, Nat.le_trans b (Nat.le_trans c htt), Nat.le_refl _, ?_⟩
    intro hn hn2
    have hlt : j < s' := by
      show j.toNat < s'.toNat
      have : j.next.toNat ≤ s'.toNat := hn
      rw [next_toNat h2] at this
      exact this
    have h8 := (split_succ_eq_of_lt hlt ep).1
    rw [h8] at hn2
    exact absurd hn2 (by decide)

/-- With non-decreasing timestamps the phase times are in order after every pass of the loop of
`GenerateDetailedSplitTimes` over the moves. -/
theorem detailedAfter_order (E : Cube3x3Engine) (self : Solve) (result : DetailedSplitTimes)
    (lastMove : CubeMove)
    (hsorted : (self.solveMoves.map TimedCubeMove.timestamp).Sorted (· ≤ ·)) (k : Nat)
    (hk : k ≤ self.solveMoves.length) :
    (Solve.detailedAfter E self result lastMove k).result.orderedUpTo (self.stateAt E k)
      (self.timeAt k) := by
  induction k with
  | zero =>
    intro j h1 _ hj
    exact absurd hj (Nat.not_le_of_lt h1)
  | succ k ih =>
    have hlt : k < self.solveMoves.length := by omega
    obtain ⟨hc, hs, ht, -⟩ := detailedAfter_spec E self result lastMove k (by omega)
    obtain ⟨-, -, -, b4⟩ := detailedBody_spec E (Solve.detailedAfter E self result lastMove k)
      (self.solveMoves.get ⟨k, hlt⟩)
    obtain ⟨-, r, hr, b5⟩ := detailedBody_counts E (Solve.detailedAfter E self result lastMove k)
      (self.solveMoves.get ⟨k, hlt⟩)
    rw [detailedAfter_succ E self result lastMove k hlt]
    rw [← hr] at b4
    rw [hc, hs] at b5
    rw [hc, hs, ht] at hr
    have hmid : r.orderedUpTo (self.stateAt E (k + 1)) (self.timeAt k) := by
      rw [hr]
      exact finishPhases_order _ _ _ _ (fun j => mem_statesUpTo _ _ j) _ _ (ih (by omega))
    refine countMove_order r _ _ _ _ (timeAt_mono self hsorted (Nat.le_succ k) hk)
      (fun p => (b4 p).1) (fun p => (b4 p).2) (fun p => ?_) hmid
    rw [(b5 p).2.1, timeAt_succ self k hlt]
    by_cases hp : p = Solve.GetSplitForSolveState
        ((Solve.TransitionSolveState E (self.cubeAt E k) (self.stateAt E k)).toNat + 1) ∧
          (r.get p).moveCount = 0
    · rw [if_pos hp]
      exact Or.inr ⟨hp.1, rfl⟩
    · rw [if_neg hp]
      exact Or.inl rfl

/-- The idle time that `GenerateDetailedSplitTimes` computes from the phase times. -/
theorem GenerateDetailedSplitTimes_idle_sum (E : Cube3x3Engine) (self : Solve)
    (result : DetailedSplitTimes) (lastMove : CubeMove) :
    (self.GenerateDetailedSplitTimes E result lastMove).idleTime
      = (SplitRef.all.map fun p =>
          (((self.GenerateDetailedSplitTimes E result lastMove).get p).firstMoveTime : Int)
            - ((self.GenerateDetailedSplitTimes E result lastMove).get p).phaseStartTime).sum := by
  unfold Solve.GenerateDetailedSplitTimes
  simp only [SplitRef.all, List.map, List.sum_cons, List.sum_nil, DetailedSplitTimes.get]
  ring

theorem split_succ_ne_pllFinish {j : SolveState} (h2 : j < SOLVESTATE_SOLVED)
    (h8 : j ≠ SOLVESTATE_PLL_CORNERS) :
    Solve.GetSplitForSolveState (j.toNat + 1) ≠ SplitRef.pllFinish := by
  cases j <;> first | exact absurd h2 (by decide) | exact absurd rfl h8 | decide

/-- The state that the phase-finishing loop after the moves ends in. -/
theorem mem_statesBelow_solved (s j : SolveState) :
    j ∈ statesBelow s SOLVESTATE_SOLVED ↔
      s < j ∧ j ≤ (if s = SOLVESTATE_SOLVED then SOLVESTATE_SOLVED else SOLVESTATE_PLL_CORNERS) := by
  rw [mem_statesBelow]
  cases s <;> cases j <;> decide

/-- With non-decreasing timestamps the phase times of the result of
`GenerateDetailedSplitTimes` are in order for all phases. -/
theorem GenerateDetailedSplitTimes_order (E : Cube3x3Engine) (self : Solve)
    (result : DetailedSplitTimes) (lastMove : CubeMove)
    (hsorted : (self.solveMoves.map TimedCubeMove.timestamp).Sorted (· ≤ ·)) (j : SolveState)
    (h1 : SOLVESTATE_INITIAL < j) (h2 : j < SOLVESTATE_SOLVED) :
    ((self.GenerateDetailedSplitTimes E result lastMove).get
        (Solve.GetSplitForSolveState j.toNat)).finishTime
      ≤ ((self.GenerateDetailedSplitTimes E result lastMove).get
        (Solve.GetSplitForSolveState (j.toNat + 1))).phaseStartTime ∧
    ((self.GenerateDetailedSplitTimes E result lastMove).get
        (Solve.GetSplitForSolveState (j.toNat + 1))).phaseStartTime
      ≤ ((self.GenerateDetailedSplitTimes E result lastMove).get
        (Solve.GetSplitForSolveState (j.toNat + 1))).firstMoveTime ∧
    ((self.GenerateDetailedSplitTimes E result lastMove).get
        (Solve.GetSplitForSolveState (j.toNat + 1))).firstMoveTime
      ≤ ((self.GenerateDetailedSplitTimes E result lastMove).get
        (Solve.GetSplitForSolveState (j.toNat + 1))).finishTime ∧
    ((self.GenerateDetailedSplitTimes E result lastMove).get
        (Solve.GetSplitForSolveState (j.toNat + 1))).finishTime
      ≤ self.timeAt self.solveMoves.length := by
  have hstart : Solve.GetSplitForSolveState (j.toNat + 1) ≠ SplitRef.cross := by
    cases j <;> first | exact absurd h1 (by decide) | decide
  have hfinish : Solve.GetSplitForSolveState j.toNat ≠ SplitRef.pllFinish := by
    cases j <;> first | exact absurd h1 (by decide) | exact absurd h2 (by decide) | decide
  obtain ⟨-, hs, ht, -⟩ :=
    detailedAfter_spec E self result lastMove self.solveMoves.length (Nat.le_refl _)
  have hinv := detailedAfter_order E self result lastMove hsorted self.solveMoves.length
    (Nat.le_refl _)
  have hfin := finishPhases_order _ _ _ _
    (fun j => mem_statesBelow_solved (self.stateAt E self.solveMoves.length) j)
    _ (self.stateAt E self.solveMoves.length) hinv
  have hj : j ≤ (if self.stateAt E self.solveMoves.length = SOLVESTATE_SOLVED then
      SOLVESTATE_SOLVED else SOLVESTATE_PLL_CORNERS) := by
    split_ifs
    · exact Nat.le_of_lt h2
    · exact Nat.lt_succ_iff.mp h2
  obtain ⟨a, b, c, d⟩ := hfin j h1 h2 hj
  have e1 := GenerateDetailedSplitTimes_eq E self result lastMove
    (Solve.GetSplitForSolveState j.toNat)
  have e2 := GenerateDetailedSplitTimes_eq E self result lastMove
    (Solve.GetSplitForSolveState (j.toNat + 1))
  have e3 := (GenerateDetailedSplitTimes_counts_eq E self result lastMove
    (Solve.GetSplitForSolveState (j.toNat + 1))).2
  rw [hs, ht] at e1 e2 e3
  rw [e1.2, e2.1, e2.2, e3, if_neg hfinish, if_neg hstart, if_neg hstart]
  refine ⟨a, b, ?_, ?_⟩
  · by_cases h8 : j = SOLVESTATE_PLL_CORNERS
    · rw [if_pos (by rw [h8]; rfl)]
      exact c
    · have hn2 : j.next < SOLVESTATE_SOLVED := by
        cases j <;> first | exact absurd h2 (by decide) | exact absurd rfl h8 | decide
      rw [if_neg (split_succ_ne_pllFinish h2 h8)]
      apply d _ hn2
      split_ifs
      · exact Nat.le_of_lt hn2
      · exact Nat.lt_succ_iff.mp hn2
  · by_cases h8 : j = SOLVESTATE_PLL_CORNERS
    · rw [if_pos (by rw [h8]; rfl)]
    · have hn2 : j.next < SOLVESTATE_SOLVED := by
        cases j <;> first | exact absurd h2 (by decide) | exact absurd rfl h8 | decide
      rw [if_neg (split_succ_ne_pllFinish h2 h8)]
      have hjn : j.next ≤ (if self.stateAt E self.solveMoves.length = SOLVESTATE_SOLVED then
          SOLVESTATE_SOLVED else SOLVESTATE_PLL_CORNERS) := by
        split_ifs
        · exact Nat.le_of_lt hn2
        · exact Nat.lt_succ_iff.mp hn2
      have hn1 : SOLVESTATE_INITIAL < j.next := by
        cases j <;> decide
      obtain ⟨a', b', c', -⟩ := hfin j.next hn1 hn2 hjn
      rw [next_toNat h2] at a' b' c'
      exact Nat.le_trans a' (Nat.le_trans b' c')

/-- C30: for every scramble and every timed move stream whose timestamps are non-decreasing,
the `idleTime` computed by `Solve::GenerateDetailedSplitTimes` is the sum over the nine phases of
`firstMoveTime - phaseStartTime`, every phase satisfies
`phaseStartTime ≤ firstMoveTime ≤ finishTime`, and therefore `0 ≤ idleTime ≤` the timestamp of
the last move (0 for a stream without moves), whatever the uninitialised locals hold. -/
theorem GenerateDetailedSplitTimes_idleTime (E : Cube3x3Engine) (self : Solve)
    (result : DetailedSplitTimes) (lastMove : CubeMove)
    (hsorted : (self.solveMoves.map TimedCubeMove.timestamp).Sorted (· ≤ ·)) :
    (self.GenerateDetailedSplitTimes E result lastMove).idleTime
      = (SplitRef.all.map fun p =>
          (((self.GenerateDetailedSplitTimes E result lastMove).get p).firstMoveTime : Int)
            - ((self.GenerateDetailedSplitTimes E result lastMove).get p).phaseStartTime).sum ∧
    (∀ p : SplitRef,
      ((self.GenerateDetailedSplitTimes E result lastMove).get p).phaseStartTime
        ≤ ((self.GenerateDetailedSplitTimes E result lastMove).get p).firstMoveTime ∧
      ((self.GenerateDetailedSplitTimes E result lastMove).get p).firstMoveTime
        ≤ ((self.GenerateDetailedSplitTimes E result lastMove).get p).finishTime) ∧
    0 ≤ (self.GenerateDetailedSplitTimes E result lastMove).idleTime ∧
    (self.GenerateDetailedSplitTimes E result lastMove).idleTime
      ≤ ((((self.solveMoves.getLast?).map TimedCubeMove.timestamp).getD 0 : Nat) : Int) := by
  have hidle := GenerateDetailedSplitTimes_idle_sum E self result lastMove
  obtain ⟨c1, c2⟩ := GenerateDetailedSplitTimes_cross E self result lastMove
  have o1 := GenerateDetailedSplitTimes_order E self result lastMove hsorted
    SOLVESTATE_CROSS (by decide) (by decide)
  have o2 := GenerateDetailedSplitTimes_order E self result lastMove hsorted
    SOLVESTATE_F2L_FIRST_PAIR (by decide) (by decide)
  have o3 := GenerateDetailedSplitTimes_order E self result lastMove hsorted
    SOLVESTATE_F2L_SECOND_PAIR (by decide) (by decide)
  have o4 := GenerateDetailedSplitTimes_order E self result lastMove hsorted
    SOLVESTATE_F2L_THIRD_PAIR (by decide) (by decide)
  have o5 := GenerateDetailedSplitTimes_order E self result lastMove hsorted
    SOLVESTATE_F2L_COMPLETE (by decide) (by decide)
  have o6 := GenerateDetailedSplitTimes_order E self result lastMove hsorted
    SOLVESTATE_OLL_CROSS (by decide) (by decide)
  have o7 := GenerateDetailedSplitTimes_order E self result lastMove hsorted
    SOLVESTATE_OLL_COMPLETE (by decide) (by decide)
  have o8 := GenerateDetailedSplitTimes_order E self result lastMove hsorted
    SOLVESTATE_PLL_CORNERS (by decide) (by decide)
  rw [timeAt_length] at o8
  simp only [SolveState.toNat, Nat.reduceAdd, Solve.GetSplitForSolveState,
    DetailedSplitTimes.get] at o1 o2 o3 o4 o5 o6 o7 o8
  refine ⟨hidle, ?_, ?_, ?_⟩
  · intro p
    cases p
    · simp only [DetailedSplitTimes.get]
      rw [c1, c2]
      exact ⟨Nat.le_refl _, Nat.zero_le _⟩
    · exact ⟨o1.2.1, o1.2.2.1⟩
    · exact ⟨o2.2.1, o2.2.2.1⟩
    · exact ⟨o3.2.1, o3.2.2.1⟩
    · exact ⟨o4.2.1, o4.2.2.1⟩
    · exact ⟨o5.2.1, o5.2.2.1⟩
    · exact ⟨o6.2.1, o6.2.2.1⟩
    · exact ⟨o7.2.1, o7.2.2.1⟩
    · exact ⟨o8.2.1, o8.2.2.1⟩
  · rw [hidle]
    simp only [SplitRef.all, List.map, List.sum_cons, List.sum_nil, DetailedSplitTimes.get]
    omega
  · rw [hidle]
    simp only [SplitRef.all, List.map, List.sum_cons, List.sum_nil, DetailedSplitTimes.get]
    omega

set_option maxRecDepth 100000 in
theorem GenerateDetailedSplitTimes_idleTime_witness :
    ((sampleReplay [MOVE_R, MOVE_D, MOVE_Rp]
      [⟨MOVE_R, 100⟩, ⟨MOVE_Dp, 200⟩, ⟨MOVE_Rp, 300⟩]).solveMoves.map
        TimedCubeMove.timestamp).Sorted (· ≤ ·) ∧
    ((sampleReplay [MOVE_R, MOVE_D, MOVE_Rp]
      [⟨MOVE_R, 100⟩, ⟨MOVE_Dp, 200⟩, ⟨MOVE_Rp, 300⟩]).GenerateDetailedSplitTimes
        stickerEngine sampleSplitTimes MOVE_U).idleTime = 100 ∧
    ((sampleReplay [MOVE_R, MOVE_D, MOVE_Rp]
      [⟨MOVE_R, 100⟩, ⟨MOVE_Dp, 200⟩, ⟨MOVE_Rp, 300⟩]).GenerateDetailedSplitTimes
        stickerEngine sampleSplitTimes MOVE_U).idleTime
      ≤ (((((sampleReplay [MOVE_R, MOVE_D, MOVE_Rp]
        [⟨MOVE_R, 100⟩, ⟨MOVE_Dp, 200⟩, ⟨MOVE_Rp, 300⟩]).solveMoves.getLast?).map
          TimedCubeMove.timestamp).getD 0 : Nat) : Int) :=
  ⟨by decide, by decide, (GenerateDetailedSplitTimes_idleTime stickerEngine
    (sampleReplay [MOVE_R, MOVE_D, MOVE_Rp] [⟨MOVE_R, 100⟩, ⟨MOVE_Dp, 200⟩, ⟨MOVE_Rp, 300⟩])
    sampleSplitTimes MOVE_U (by decide)).2.2.2⟩

/-! ## History: the session records that `DeleteSession` leaves -/

/-- The store that `DeleteSession` writes its batch to: the store of the history, after the
call that deletes the key of the active session when the session was active. -/
theorem DeleteSession_before_write (self : History) (s : Nat) (db : Database) :
    (if self.activeSession = some s then db.Delete "active_session" else db).outcome
        = db.outcome ∧
      (if self.activeSession = some s then db.Delete "active_session" else db).calls.length
        = db.calls.length + (if self.activeSession = some s then 1 else 0) ∧
      ∀ k, k ≠ "active_session" →
        (if self.activeSession = some s then db.Delete "active_session" else db).contents k
          = db.contents k := by
  split_ifs
  · exact ⟨rfl, by simp [Database.Delete, Database.call],
      fun k hk => Database.Delete_contents_of_ne db hk⟩
  · exact ⟨rfl, rfl, fun k _ => rfl⟩

/-- A key that no mutation of the batch of `DeleteSession` names, and that is not the key of the
active session, has the same record after `DeleteSession` as before. -/
theorem DeleteSession_contents_of_no_key (fb : Flatbuffers) (self : History) (s : Nat)
    (db : Database) (k : String) (hk : k ≠ "active_session")
    (hno : ∀ op ∈ self.deleteBatch fb s, op.key ≠ k) :
    ((if self.activeSession = some s then db.Delete "active_session" else db).Write
      (self.deleteBatch fb s)).contents k = db.contents k := by
  obtain ⟨-, -, hfirst⟩ := DeleteSession_before_write self s db
  rw [Database.Write, Database.call_contents]
  have : (self.deleteBatch fb s).foldl BatchOp.apply
      (if self.activeSession = some s then db.Delete "active_session" else db).contents k
      = (if self.activeSession = some s then db.Delete "active_session" else db).contents k := by
    apply foldl_apply_of_no_key
    intro op hop
    exact ⟨fun v e => hno op hop (by rw [e]; rfl), fun e => hno op hop (by rw [e]; rfl)⟩
  simp only [StoreCall.mutations]
  rw [this, ite_self, hfirst k hk]

/-- The keys that the batch of `DeleteSession` names: the session record of the session, solve
records, and the session index. -/
theorem deleteBatch_key (fb : Flatbuffers) (self : History) (s : Nat) (op : BatchOp)
    (hop : op ∈ self.deleteBatch fb s) :
    op.key = "session:" ++ (self.memory s).id ∨ (∃ x, op.key = "solve:" ++ x) ∨
      op.key = "sessions" := by
  rcases (deleteBatch_spec fb self s).1 op hop with rfl | ⟨x, -, rfl⟩ | ⟨v, rfl⟩
  · exact Or.inl rfl
  · exact Or.inr (Or.inl ⟨x, rfl⟩)
  · exact Or.inr (Or.inr rfl)

/-- C31: `History::DeleteSession(s)` with an open store writes one batch, which deletes the key
`"session:<s.id>"`, so that the key is gone when the write succeeds; no call it makes names a
key `"session_solves:<id>"`, so the record `"session_solves:<s.id>"` of the session's solve-ID
list stays in the store unchanged, and so do the `"session:"` records of every other ID and the
`"session_solves:"` records of every ID, whether the calls on the store succeed or not. -/
theorem DeleteSession_session_records (fb : Flatbuffers) (self : History) (db : Database)
    (hdb : self.database = some db) (s : Nat) :
    ∃ db', (self.DeleteSession fb s).database = some db' ∧
      self.callsSince (self.DeleteSession fb s)
        = (if self.activeSession = some s then [StoreCall.Delete "active_session"] else []) ++
            [StoreCall.Write (self.deleteBatch fb s)] ∧
      BatchOp.Delete ("session:" ++ (self.memory s).id) ∈ self.deleteBatch fb s ∧
      (db.outcome (db.calls.length + if self.activeSession = some s then 1 else 0) = true →
        db'.contents ("session:" ++ (self.memory s).id) = none) ∧
      (∀ c ∈ self.callsSince (self.DeleteSession fb s), ∀ op ∈ c.mutations, ∀ id,
        op.key ≠ "session_solves:" ++ id) ∧
      db'.contents ("session_solves:" ++ (self.memory s).id)
        = db.contents ("session_solves:" ++ (self.memory s).id) ∧
      ∀ id,
        (id ≠ (self.memory s).id →
          db'.contents ("session:" ++ id) = db.contents ("session:" ++ id)) ∧
        db'.contents ("session_solves:" ++ id) = db.contents ("session_solves:" ++ id) := by
  obtain ⟨db', h1, h2, -⟩ := DeleteSession_store fb self s db hdb
  have hcalls := callsSince_eq _ _ _ _ _ hdb h1 h2
  have hdb' : db' = (if self.activeSession = some s then db.Delete "active_session"
      else db).Write (self.deleteBatch fb s) :=
    Option.some.inj (h1.symm.trans (DeleteSession_open fb self s db hdb).1)
  have hmem : BatchOp.Delete ("session:" ++ (self.memory s).id) ∈ self.deleteBatch fb s := by
    simp [History.deleteBatch]
  have hsolves : ∀ id, ∀ op ∈ self.deleteBatch fb s, op.key ≠ "session_solves:" ++ id := by
    intro id op hop
    rcases deleteBatch_key fb self s op hop with h | ⟨x, h⟩ | h
    · rw [h]; exact sessionKey_ne_solvesKey _ _
    · rw [h]; exact solveKey_ne_solvesKey _ _
    · rw [h]; exact sessions_ne_solvesKey _
  have hkeep : ∀ id, db'.contents ("session_solves:" ++ id)
      = db.contents ("session_solves:" ++ id) := by
    intro id
    rw [hdb']
    exact DeleteSession_contents_of_no_key fb self s db _ (Ne.symm (active_ne_solvesKey id))
      (hsolves id)
  refine ⟨db', h1, hcalls, hmem, fun hok => ?_, ?_, hkeep _, fun id => ⟨fun hid => ?_, hkeep id⟩⟩
  · obtain ⟨hout, hlen, -⟩ := DeleteSession_before_write self s db
    rw [hdb', Database.Write, Database.call_contents, hout, hlen, hok, if_pos rfl]
    apply foldl_apply_of_delete _ _ _ hmem
    intro v hv
    rcases deleteBatch_key fb self s _ hv with h | ⟨x, h⟩ | h
    · rcases (deleteBatch_spec fb self s).1 _ hv with e | ⟨x, -, e⟩ | ⟨w, e⟩
      · exact BatchOp.noConfusion e
      · exact BatchOp.noConfusion e
      · exact sessions_ne_sessionKey _ (BatchOp.Put.inj e).1.symm
    · exact solveKey_ne_sessionKey _ _ h.symm
    · exact sessions_ne_sessionKey _ h.symm
  · intro c hc op hop id
    rw [hcalls] at hc
    rcases List.mem_append.mp hc with hc | hc
    · split_ifs at hc
      · rw [List.mem_singleton.mp hc] at hop
        rw [List.mem_singleton.mp hop]
        exact active_ne_solvesKey id
      · simp at hc
    · rw [List.mem_singleton.mp hc] at hop
      exact hsolves id op hop
  · rw [hdb']
    apply DeleteSession_contents_of_no_key fb self s db _ (Ne.symm (active_ne_sessionKey id))
    intro op hop
    rcases deleteBatch_key fb self s op hop with h | ⟨x, h⟩ | h
    · rw [h]
      exact fun e => hid (sessionKey_injective e).symm
    · rw [h]; exact solveKey_ne_sessionKey _ _
    · rw [h]; exact sessions_ne_sessionKey _

set_option maxRecDepth 100000 in
theorem DeleteSession_session_records_witness :
    sampleSplitHistory.database = some (sampleSplitHistory.database.getD sampleDatabase) ∧
    ((sampleSplitHistory.memory 1).id, (sampleSplitHistory.memory 2).id) = ("id0", "id6") ∧
    (sampleSplitHistory.database.getD sampleDatabase).outcome
      ((sampleSplitHistory.database.getD sampleDatabase).calls.length +
        if sampleSplitHistory.activeSession = some 1 then 1 else 0) = true ∧
    ((sampleSplitHistory.DeleteSession sampleFlatbuffers 1).database.map fun db =>
        (db.contents "session:id0", db.contents "session_solves:id0",
          db.contents "session:id6", db.contents "session_solves:id6"))
      = some (none, some "solve_list a b", some "session", some "solve_list c d e") ∧
    ∃ db', (sampleSplitHistory.DeleteSession sampleFlatbuffers 1).database = some db' ∧
      db'.contents ("session:" ++ (sampleSplitHistory.memory 1).id) = none := by
  obtain ⟨db', h1, -, -, h4, -⟩ := DeleteSession_session_records sampleFlatbuffers
    sampleSplitHistory (sampleSplitHistory.database.getD sampleDatabase) rfl 1
  exact ⟨rfl, by decide, by decide, by decide, db', h1, h4 (by decide)⟩

end TpsCube
